import Mathlib

/-!
# viewpoints: data ingestion, ranking and normalization

A shallow embedding of the column store of `data_file_manager.cpp` and of the
ranking / normalization code of `plot_window.cpp`.

Conventions of the embedding

* C++ `int` is `Int`; the values handled here are far from the 32-bit limits.
* C++ `float` / `double` is `Flt`: a rational, or one of the three non-finite
  IEEE values.  The operations `Flt.add`, `Flt.sub`, `Flt.mul`, `Flt.div` and
  `Flt.ofInt` give the exact result; `Flt.round32` and `Flt.round64` round it to
  `float` and to `double` (to nearest, ties to even) and stand wherever the
  source computes in, converts to or stores into that type.
* A blitz `Array<T,1>` and a `std::vector<T>` are a `List T`.  Element access
  outside the bounds is undefined behaviour in C++; the functions below return
  `none` when the source performs such an access on a path that writes state.
* Console output (`cout`, `cerr`) and dialog windows are not modelled; where a
  dialog returns the user's answer, the answer is a parameter.
-/

namespace Viewpoints

/-! ## Floating point values -/

/-- IEEE value with exact finite part. -/
inductive Flt where
  | fin (q : ℚ)
  | pinf
  | ninf
  | nan
  deriving DecidableEq

namespace Flt

/-- The constant `0.0`. -/
def zero : Flt := fin 0

/-- Conversion `(float) i` of an integer. -/
def ofInt (i : Int) : Flt := fin (i : ℚ)

/-- IEEE `<`: false as soon as one side is NaN. -/
def lt : Flt → Flt → Bool
  | fin a, fin b => decide (a < b)
  | fin _, pinf => true
  | ninf, fin _ => true
  | ninf, pinf => true
  | _, _ => false

/-- IEEE `==`: NaN differs from everything, itself included. -/
def feq : Flt → Flt → Bool
  | fin a, fin b => decide (a = b)
  | pinf, pinf => true
  | ninf, ninf => true
  | _, _ => false

/-- IEEE `>`. -/
def gt (x y : Flt) : Bool := lt y x

/-- IEEE `<=`. -/
def le (x y : Flt) : Bool := lt x y || feq x y

/-- IEEE `!=`. -/
def fne (x y : Flt) : Bool := !(feq x y)

/-- Unary minus. -/
def neg : Flt → Flt
  | fin a => fin (-a)
  | pinf => ninf
  | ninf => pinf
  | nan => nan

/-- Absolute value, `fabsf` / blitz `abs`. -/
def abs : Flt → Flt
  | fin a => fin (|a|)
  | pinf => pinf
  | ninf => pinf
  | nan => nan

/-- IEEE addition. -/
def add : Flt → Flt → Flt
  | fin a, fin b => fin (a + b)
  | nan, _ => nan
  | _, nan => nan
  | pinf, ninf => nan
  | ninf, pinf => nan
  | pinf, _ => pinf
  | _, pinf => pinf
  | ninf, _ => ninf
  | _, ninf => ninf

/-- IEEE subtraction. -/
def sub (x y : Flt) : Flt := add x (neg y)

/-- Sign of a value that is not NaN: `-1`, `0` or `1`. -/
def sign : Flt → Int
  | fin a => if a < 0 then -1 else if a = 0 then 0 else 1
  | pinf => 1
  | ninf => -1
  | nan => 0

/-- Infinity of the given sign, NaN for sign `0`. -/
def infOfSign (s : Int) : Flt :=
  if s = 0 then nan else if 0 < s then pinf else ninf

/-- IEEE multiplication. -/
def mul : Flt → Flt → Flt
  | fin a, fin b => fin (a * b)
  | nan, _ => nan
  | _, nan => nan
  | x, y => infOfSign (sign x * sign y)

/-- IEEE division: `0/0` and `inf/inf` are NaN, `x/0` is an infinity. -/
def div : Flt → Flt → Flt
  | fin a, fin b => if b = 0 then infOfSign (sign (fin a)) else fin (a / b)
  | nan, _ => nan
  | _, nan => nan
  | fin _, _ => fin 0
  | x, fin b => infOfSign (sign x * (if b < 0 then -1 else 1))
  | _, _ => nan

/-- The C function `fmaxf`: a NaN argument is ignored when the other is a number. -/
def fmaxf : Flt → Flt → Flt
  | nan, y => y
  | x, nan => x
  | x, y => if lt x y then y else x

/-- The C function `finite`. -/
def finite : Flt → Bool
  | fin _ => true
  | _ => false

/-- Conversion `(int) x`, truncating toward zero; undefined for non-finite values. -/
def toInt? : Flt → Option Int
  | fin a => some (a.num.tdiv a.den)
  | _ => none

end Flt

/-! ## Rounding to `float` and `double` -/

namespace Flt

/-- The number of halvings that bring `n` below 2, with `fuel` passes at most. -/
def halvings : Nat → Nat → Nat
  | 0, _ => 0
  | fuel + 1, n => if 2 ≤ n then halvings fuel (n / 2) + 1 else 0

/-- The position of the leading binary digit of `n`. -/
def nat_log2 (n : Nat) : Nat := halvings n n

/-- The exponent of the binade of a positive rational `q`: the integer `e` with
`2^e <= q < 2^(e+1)`. -/
def ilog2 (q : ℚ) : Int :=
  if (2 : ℚ) ^ ((nat_log2 q.num.natAbs : Int) - (nat_log2 q.den : Int)) ≤ q
  then (nat_log2 q.num.natAbs : Int) - (nat_log2 q.den : Int)
  else (nat_log2 q.num.natAbs : Int) - (nat_log2 q.den : Int) - 1

/-- The integer nearest to `x`, the even one of the two when `x` lies halfway. -/
def round_half_even (x : ℚ) : Int :=
  if 2 * (x - ⌊x⌋) < 1 then ⌊x⌋
  else if 1 < 2 * (x - ⌊x⌋) then ⌊x⌋ + 1
  else if ⌊x⌋ % 2 = 0 then ⌊x⌋ else ⌊x⌋ + 1

/-- The unit in the last place of a positive rational `q` in the binary format with `p`
digits and smallest exponent `emin`. -/
def ulp (p : Nat) (emin : Int) (q : ℚ) : ℚ := 2 ^ (max (ilog2 q) emin - ((p : Int) - 1))

/-- Rounding of a positive rational to the binary format with `p` digits and the exponents
`emin..emax`, to nearest with ties to even; `none` when the result overflows. -/
def round_pos (p : Nat) (emin emax : Int) (q : ℚ) : Option ℚ :=
  if (round_half_even (q / ulp p emin q) : ℚ) * ulp p emin q < 2 ^ (emax + 1)
  then some ((round_half_even (q / ulp p emin q) : ℚ) * ulp p emin q) else none

/-- Rounding of a value to a binary format (IEEE 754, round to nearest, ties to even). -/
def round_to (p : Nat) (emin emax : Int) : Flt → Flt
  | fin q =>
    if q = 0 then fin 0
    else if 0 < q then
      match round_pos p emin emax q with
      | some r => fin r
      | none => pinf
    else
      match round_pos p emin emax (-q) with
      | some r => fin (-r)
      | none => ninf
  | x => x

/-- Rounding to `float`: the result of an operation on `float`, the conversion `(float) x`
and the assignment to a `float`. -/
def round32 (x : Flt) : Flt := round_to 24 (-126) 127 x

/-- Rounding to `double`. -/
def round64 (x : Flt) : Flt := round_to 53 (-1022) 1023 x

end Flt

/-! ## blitz arrays -/

/-- The blitz call `A.resize(n)`: an array of the requested length.  When the
length changes the new contents are uninitialised in C++; they are `fill` here. -/
def resize {α : Type} (fill : α) (a : List α) (n : Int) : List α :=
  if a.length = n.toNat then a else List.replicate n.toNat fill

/-- The blitz call `A.resizeAndPreserve(n)`: the first `min(old, n)` elements are
kept, the others are uninitialised in C++ and `fill` here. -/
def resizeAndPreserve {α : Type} (fill : α) (a : List α) (n : Int) : List α :=
  a.take n.toNat ++ List.replicate (n.toNat - a.length) fill

/-- The blitz assignment `A = B` between arrays, which copies element by element
and is only defined for arrays of one shape. -/
def assignArray {α : Type} (dst src : List α) : Option (List α) :=
  if dst.length = src.length then some src else none

/-- The blitz assignment `A = c` of a scalar to every element. -/
def fillArray {α : Type} (c : α) (a : List α) : List α :=
  List.replicate a.length c

/-- Checked element write `A(i) = v`. -/
def writeAt {α : Type} (a : List α) (i : Nat) (v : α) : Option (List α) :=
  if i < a.length then some (a.set i v) else none

/-! ## Ranking (plot_window.cpp) -/

/-- Modelled from the spec: the comparison functor `myCompare` of `plot_window.h`,
which is not among the sources; it compares the values that two point indices
refer to in `tmp_points` with `<`. -/
def myCompare (tmp_points : List Flt) (i j : Nat) : Bool :=
  Flt.lt (tmp_points.getD i Flt.nan) (tmp_points.getD j Flt.nan)

/-- Insertion step of the stable sort: `x` (which came before every element of
the list in the input) goes in front of the first element that is not less than `x`. -/
def stable_insert {α : Type} (less : α → α → Bool) (x : α) : List α → List α
  | [] => [x]
  | y :: ys => if less y x then y :: stable_insert less x ys else x :: y :: ys

/-- The library call `std::stable_sort(lo, hi, comp)`: sorts by the strict
comparison `less`, keeping equivalent elements in their input order.  The library
specifies the result for a comparison that is a strict weak ordering, and every stable
sorting procedure then gives the same result; this one inserts.  With a NaN among the
values `<` is no such ordering and the library leaves the result open. -/
def stable_sort {α : Type} (less : α → α → Bool) : List α → List α
  | [] => []
  | x :: xs => stable_insert less x (stable_sort less xs)

/-- The globals that `plot_window.cpp` reads and writes when ranking and
normalizing: `npoints`, the per-variable flag `ranked`, the cache
`ranked_points`, and the axis bounds `wmin`, `wmax` of one plot window. -/
structure PlotState where
  npoints : Int
  ranked : List Int
  ranked_points : List (List Nat)
  wmin : List Flt
  wmax : List Flt
  deriving DecidableEq

/-- The function `plot_window::compute_rank(a, a_rank, var_index)`.  Returns the new
contents of `a_rank` and the new globals. -/
def compute_rank (s : PlotState) (a : List Flt) (a_rank : List Nat) (var_index : Nat) :
    Option (List Nat × PlotState) :=
  let n := s.npoints.toNat
  match s.ranked[var_index]?, s.ranked_points[var_index]? with
  | some r, some row =>
    if a.length < n ∨ a_rank.length < n ∨ row.length < n then none
    else if r = 0 then
      -- a_rank(NPTS) = identity(NPTS); std::stable_sort(lo, hi, myCompare())
      let sorted := stable_sort (myCompare a) (List.range n)
      let a_rank1 := sorted ++ a_rank.drop n
      some (a_rank1,
        { s with ranked := s.ranked.set var_index 1
                 ranked_points := s.ranked_points.set var_index (a_rank1.take n ++ row.drop n) })
    else
      -- a_rank = ranked_points(var_index, NPTS): blitz assigns over the extent of the
      -- destination, so `a_rank` gets as many elements of the cache row as it holds
      if a_rank.length ≤ row.length then some (row.take a_rank.length, s) else none
  | _, _ => none

/-! ## Normalization (plot_window.cpp) -/

/-- Value `NORMALIZATION_NONE` of the enumeration `normalization_style`. -/
def NORMALIZATION_NONE : Int := 0
/-- Value `NORMALIZATION_MINMAX` of the enumeration. -/
def NORMALIZATION_MINMAX : Int := 1
/-- Value `NORMALIZATION_ZEROMAX` of the enumeration. -/
def NORMALIZATION_ZEROMAX : Int := 2
/-- Value `NORMALIZATION_MAXABS` of the enumeration. -/
def NORMALIZATION_MAXABS : Int := 3
/-- Value `NORMALIZATION_TRIM_1E2` of the enumeration. -/
def NORMALIZATION_TRIM_1E2 : Int := 4
/-- Value `NORMALIZATION_TRIM_1E3` of the enumeration. -/
def NORMALIZATION_TRIM_1E3 : Int := 5
/-- Value `NORMALIZATION_THREESIGMA` of the enumeration. -/
def NORMALIZATION_THREESIGMA : Int := 6
/-- Value `NORMALIZATION_LOG10` of the enumeration. -/
def NORMALIZATION_LOG10 : Int := 7
/-- Value `NORMALIZATION_SQUASH` of the enumeration. -/
def NORMALIZATION_SQUASH : Int := 8
/-- Value `NORMALIZATION_REVERSE` of the enumeration. -/
def NORMALIZATION_REVERSE : Int := 9
/-- Value `NORMALIZATION_INVERT` of the enumeration. -/
def NORMALIZATION_INVERT : Int := 10
/-- Value `NORMALIZATION_RANK` of the enumeration. -/
def NORMALIZATION_RANK : Int := 11
/-- Value `NORMALIZATION_PARTIAL_RANK` of the enumeration. -/
def NORMALIZATION_PARTIAL_RANK : Int := 12
/-- Value `NORMALIZATION_GAUSSIANIZE` of the enumeration. -/
def NORMALIZATION_GAUSSIANIZE : Int := 13
/-- Value `NORMALIZATION_RANDOMIZE` of the enumeration. -/
def NORMALIZATION_RANDOMIZE : Int := 14

/-- The library functions that `normalize` calls and that have no exact rational
counterpart: `log10`, `sqrt` and `gsl_cdf_ugaussian_Pinv`. -/
structure MathFns where
  log10 : Flt → Flt
  sqrt : Flt → Flt
  Pinv : Flt → Flt

/-- The constant `MAXFLOAT`, the largest finite `float`. -/
def MAXFLOAT : Flt := Flt.fin ((2 ^ 24 - 1) * 2 ^ 104)

/-- The initialisation `float trim = 1e-2`: the `double` literal, stored in a `float`. -/
def trim_1e2 : Flt := Flt.round32 (Flt.round64 (Flt.fin (1 / 100)))

/-- The initialisation `float trim = 1e-3`. -/
def trim_1e3 : Flt := Flt.round32 (Flt.round64 (Flt.fin (1 / 1000)))

/-- Checked read `a(a_rank(i))`. -/
def readRanked (a : List Flt) (a_rank : List Nat) (i : Int) : Option Flt :=
  if i < 0 then none
  else match a_rank[i.toNat]? with
    | some p => a[p]?
    | none => none

/-- The loop `for (i = 0; i < npoints; i++) a(a_rank(i)) = val(i)`. -/
def scatter_by_rank (val : Nat → Flt) (a_rank : List Nat) (a : List Flt) (n : Nat) :
    Option (List Flt) :=
  (List.range n).foldlM
    (fun acc i => match a_rank[i]? with
      | some p => writeAt acc p (val i)
      | none => none) a

/-- The blitz reduction `sum`; the library accumulates in a wider type, here without
rounding. -/
def blitz_sum (a : List Flt) : Flt := a.foldl Flt.add Flt.zero

/-- The blitz reduction `min`, started at the largest finite value of the type as
blitz does. -/
def blitz_min (a : List Flt) : Flt :=
  a.foldl (fun m x => if Flt.lt x m then x else m) MAXFLOAT

/-- The blitz reduction `mean`. -/
def blitz_mean (a : List Flt) : Flt := Flt.div (blitz_sum a) (Flt.ofInt a.length)

/-- The position `(0.0 + (0.5*trim))` of the lower trimmed bound, computed in `double`. -/
def trim_low (trim : Flt) : Flt :=
  Flt.round64 (Flt.add Flt.zero (Flt.round64 (Flt.mul (Flt.fin (1 / 2)) trim)))

/-- The position `(1.0 - (0.5*trim))` of the upper trimmed bound, computed in `double`. -/
def trim_high (trim : Flt) : Flt :=
  Flt.round64 (Flt.sub (Flt.fin 1) (Flt.round64 (Flt.mul (Flt.fin (1 / 2)) trim)))

/-- The rank position `(int)(pos * npoints)`: the product is a `double`, the cast
truncates it. -/
def trim_index (pos : Flt) (npoints : Int) : Option Int :=
  Flt.toInt? (Flt.round64 (Flt.mul pos (Flt.ofInt npoints)))

/-- The trimmed bound `a(a_rank((int)(pos * npoints)))`. -/
def trimmed (a : List Flt) (a_rank : List Nat) (pos : Flt) (npoints : Int) : Option Flt :=
  match trim_index pos npoints with
  | some k => readRanked a a_rank k
  | none => none

/-- The value `float(i) / ((float)npoints-1)` that NORMALIZATION_RANK stores for the rank
`i`: two conversions, a subtraction and a division in `float`. -/
def rank_value (npoints : Int) (i : Nat) : Flt :=
  Flt.round32 (Flt.div (Flt.round32 (Flt.ofInt i))
    (Flt.round32 (Flt.sub (Flt.round32 (Flt.ofInt npoints)) (Flt.fin 1))))

/-- The value `x/(1+abs(x))` that NORMALIZATION_SQUASH stores for `x`, computed in
`float`. -/
def squash_value (x : Flt) : Flt :=
  Flt.round32 (Flt.div x (Flt.round32 (Flt.add (Flt.fin 1) (Flt.abs x))))

/-- The argument `float(i+1) / (float)(npoints+2)` that NORMALIZATION_GAUSSIANIZE passes to
`gsl_cdf_ugaussian_Pinv` for the rank `i`. -/
def gaussianize_argument (npoints : Int) (i : Nat) : Flt :=
  Flt.round32 (Flt.div (Flt.round32 (Flt.ofInt (i + 1)))
    (Flt.round32 (Flt.ofInt (npoints + 2))))

/-- The value `(1.0/5.0) * (float)gsl_cdf_ugaussian_Pinv((double)(...))` that
NORMALIZATION_GAUSSIANIZE stores for the rank `i`: the quotient and the product are
`double`s, the result of the library function is cast to `float`, and the product is
stored in a `float`. -/
def gaussianize_value (m : MathFns) (npoints : Int) (i : Nat) : Flt :=
  Flt.round32 (Flt.round64 (Flt.mul (Flt.round64 (Flt.div (Flt.fin 1) (Flt.fin 5)))
    (Flt.round32 (m.Pinv (gaussianize_argument npoints i)))))

/-- Writes one axis entry of `wmin` and of `wmax`. -/
def setBounds (s : PlotState) (axis_index : Nat) (lo hi : Flt) : Option PlotState :=
  match writeAt s.wmin axis_index lo, writeAt s.wmax axis_index hi with
  | some w0, some w1 => some { s with wmin := w0, wmax := w1 }
  | _, _ => none

/-- The function `plot_window::normalize(a, a_rank, style, axis_index)` (the branch
compiled without `CHECK_FOR_NANS_IN_NORMALIZATION`).  Returns the returned
`int`, the new contents of `a` and the new globals. -/
def normalize (m : MathFns) (s : PlotState) (a : List Flt) (a_rank : List Nat)
    (style : Int) (axis_index : Nat) : Option (Int × List Flt × PlotState) :=
  let n := s.npoints.toNat
  match readRanked a a_rank 0, readRanked a a_rank (s.npoints - 1) with
  | some tmin, some tmax =>
    if style = NORMALIZATION_NONE then
      (setBounds s axis_index (Flt.fin (-1)) (Flt.fin 1)).map (fun s1 => (1, a, s1))
    else if style = NORMALIZATION_MINMAX then
      (setBounds s axis_index tmin tmax).map (fun s1 => (1, a, s1))
    else if style = NORMALIZATION_ZEROMAX then
      (setBounds s axis_index Flt.zero tmax).map (fun s1 => (1, a, s1))
    else if style = NORMALIZATION_MAXABS then
      let tmax1 := Flt.fmaxf (Flt.abs tmin) (Flt.abs tmax)
      if Flt.fne tmax1 Flt.zero then
        (setBounds s axis_index (Flt.neg tmax1) tmax1).map (fun s1 => (1, a, s1))
      else some (1, a, s)
    else if style = NORMALIZATION_TRIM_1E2 then
      match trimmed a a_rank (trim_low trim_1e2) s.npoints,
            trimmed a a_rank (trim_high trim_1e2) s.npoints with
      | some lo, some hi => (setBounds s axis_index lo hi).map (fun s1 => (1, a, s1))
      | _, _ => none
    else if style = NORMALIZATION_TRIM_1E3 then
      match trimmed a a_rank (trim_low trim_1e3) s.npoints,
            trimmed a a_rank (trim_high trim_1e3) s.npoints with
      | some lo, some hi => (setBounds s axis_index lo hi).map (fun s1 => (1, a, s1))
      | _, _ => none
    else if style = NORMALIZATION_THREESIGMA then
      if a.length < n then none else
      let pts := a.take n
      let mu := Flt.round32 (blitz_mean pts)
      let sigma := Flt.round32 (m.sqrt (Flt.round64 (Flt.mul
        (Flt.round64 (Flt.div (Flt.fin 1) (Flt.round32 (Flt.ofInt s.npoints))))
        (blitz_sum (pts.map (fun x =>
          Flt.round32 (Flt.mul (Flt.round32 (Flt.sub x mu)) (Flt.round32 (Flt.sub x mu)))))))))
      if Flt.finite mu && Flt.fne sigma Flt.zero then
        (setBounds s axis_index (Flt.round32 (Flt.sub mu (Flt.round32 (Flt.mul (Flt.fin 3) sigma))))
          (Flt.round32 (Flt.add mu (Flt.round32 (Flt.mul (Flt.fin 3) sigma))))).map
          (fun s1 => (1, a, s1))
      else some (1, a, s)
    else if style = NORMALIZATION_LOG10 then
      if a.length < n then none else
      let pts := a.take n
      let pmin := blitz_min (pts.map (fun x => if Flt.gt x Flt.zero then x else MAXFLOAT))
      let a1 := pts.map (fun x => if Flt.gt x Flt.zero then m.log10 x else Flt.zero) ++ a.drop n
      match readRanked a1 a_rank (s.npoints - 1) with
      | some hi => (setBounds s axis_index (m.log10 pmin) hi).map (fun s1 => (1, a1, s1))
      | none => none
    else if style = NORMALIZATION_SQUASH then
      if a.length < n then none else
      let a1 := (a.take n).map squash_value ++ a.drop n
      match readRanked a1 a_rank 0, readRanked a1 a_rank (s.npoints - 1) with
      | some lo, some hi => (setBounds s axis_index lo hi).map (fun s1 => (1, a1, s1))
      | _, _ => none
    else if style = NORMALIZATION_RANK then
      match scatter_by_rank (rank_value s.npoints) a_rank a n with
      | some a1 => (setBounds s axis_index (Flt.fin 0) (Flt.fin 1)).map (fun s1 => (1, a1, s1))
      | none => none
    else if style = NORMALIZATION_GAUSSIANIZE then
      match scatter_by_rank (gaussianize_value m s.npoints) a_rank a n with
      | some a1 => (setBounds s axis_index (Flt.fin (-1)) (Flt.fin 1)).map (fun s1 => (1, a1, s1))
      | none => none
    else some (0, a, s)
  | _, _ => none

/-! ## The column store (data_file_manager.cpp) -/

/-- Modelled from the spec: the class `Column_Info` of `column_info.h`, which is not
among the sources.  The fields are the members that `data_file_manager.cpp` reads
and writes: the label, the values, the categorical flag with its dictionary, and
the rank cache.  Copying a `Column_Info` copies its values. -/
structure Column_Info where
  label : String
  points : List Flt
  hasASCII : Int
  ascii_values_ : List (String × Int)
  isRanked : Int
  ranked_points : List Int
  deriving DecidableEq

/-- A default-constructed `Column_Info`. -/
def Column_Info.empty : Column_Info :=
  { label := "", points := [], hasASCII := 0, ascii_values_ := [], isRanked := 0,
    ranked_points := [] }

/-- The member functions of `Column_Info` that `data_file_manager.cpp` calls: the two
that `load_data_file` applies to the columns of an append, and the two that encode and
decode a categorical value.  `column_info.cpp` is not among the sources, so they are
parameters.  Those that change the column return it with their `int` result; the first
argument of the first two is the global `npoints` at the time of the call. -/
structure ColumnOps where
  add_info_and_update_data : Int → Column_Info → Column_Info → Column_Info
  update_ascii_values_and_data : Int → Column_Info → Column_Info × Int
  add_value : Column_Info → String → Column_Info × Int
  ascii_value : Column_Info → Int → String

/-- The members of `Data_File_Manager` and the globals of `global_definitions_vp.h`
that the data and selection code reads and writes.  The constants `NBRUSHES`,
`MAX_NTESTCYCLES` and `MAX_NUNREADABLELINES` are declared in headers that are not among
the sources; they are carried as fields. -/
structure Data_File_Manager where
  column_info : List Column_Info
  nvars : Int
  npoints : Int
  selected : List Int
  previously_selected : List Int
  newly_selected : List Int
  saved_selection : List Int
  inside_footprint : List Int
  indices_selected : List (List Int)
  read_selected : List Int
  NBRUSHES : Int
  maxpoints_ : Int
  maxvars_ : Int
  npoints_cmd_line : Int
  nvars_cmd_line : Int
  doAppend : Int
  doMerge : Int
  preserve_old_data_mode : Bool
  trivial_columns_mode : Bool
  inputFileType_ : Int
  readSelectionInfo_ : Int
  doCommentedLabels_ : Int
  delimiter_char_ : Char
  nSkipHeaderLines : Int
  writeAllData_ : Int
  writeSelectionInfo_ : Int
  needs_restore_panels_ : Int
  isSavedFile_ : Int
  isAsciiData : Int
  inFileSpec : String
  outFileSpec : String
  dataFileSpec : String
  bad_value_proxy_ : Flt
  nDataRows_ : Int
  nDataColumns_ : Int
  read_from_stdin : Bool
  sErrorMessage : String
  MAX_NTESTCYCLES : Int
  MAX_NUNREADABLELINES : Int
  deriving DecidableEq

/-- The constant `include_line_number` of `data_file_manager.cpp`. -/
def include_line_number : Bool := false

/-- The static member `SELECTION_LABEL`. -/
def SELECTION_LABEL : String := "SELECTION_BY_VP"

/-- The loop `for (i = 0; i < n; i++) v[i] = f(v[i])`; undefined when `n` exceeds the
size of `v`. -/
def forFirst {α : Type} (f : α → α) (v : List α) (n : Nat) : Option (List α) :=
  if n ≤ v.length then some ((v.take n).map f ++ v.drop n) else none

/-- The function `Data_File_Manager::n_vars()`. -/
def n_vars (s : Data_File_Manager) : Int := (s.column_info.length : Int) - 1

/-- The function `Data_File_Manager::n_points()`. -/
def n_points (s : Data_File_Manager) : Int :=
  if s.column_info.length ≤ 1 then 0
  else match s.column_info with
    | c :: _ => (c.points.length : Int)
    | [] => 0

/-- Modelled from the spec: the global function `reset_selection_arrays()`, which is not
among the sources; it clears every selection array without changing its size. -/
def reset_selection_arrays (s : Data_File_Manager) : Data_File_Manager :=
  { s with inside_footprint := fillArray 0 s.inside_footprint
           newly_selected := fillArray 0 s.newly_selected
           selected := fillArray 0 s.selected
           previously_selected := fillArray 0 s.previously_selected
           saved_selection := fillArray 0 s.saved_selection
           indices_selected := s.indices_selected.map (fillArray 0) }

/-- The function `Data_File_Manager::resize_global_arrays()`. -/
def resize_global_arrays (s : Data_File_Manager) : Option Data_File_Manager :=
  match forFirst (fun c => { c with ranked_points := resize 0 c.ranked_points s.npoints
                                    isRanked := 0 }) s.column_info s.nvars.toNat with
  | none => none
  | some ci =>
    some (reset_selection_arrays
      { s with column_info := ci
               inside_footprint := resize 0 s.inside_footprint s.npoints
               newly_selected := resize 0 s.newly_selected s.npoints
               selected := resize 0 s.selected s.npoints
               previously_selected := resize 0 s.previously_selected s.npoints
               saved_selection := resize 0 s.saved_selection s.npoints
               indices_selected := List.replicate s.NBRUSHES.toNat
                 (List.replicate s.npoints.toNat 0) })

/-- The label `default_NNN ` that `create_default_data` gives to column `i`: the index
is padded with zeros to three digits and followed by a blank. -/
def default_label (i : Nat) : String :=
  let ds := Nat.toDigits 10 i
  "default_" ++ String.mk (List.replicate (3 - ds.length) '0' ++ ds) ++ " "

/-- The sentinel column that closes `column_info`. -/
def nothing_column : Column_Info := { Column_Info.empty with label := "-nothing-" }

/-- The function `Data_File_Manager::create_default_data(nvars_in)`; the value `0.5` is
the rational `mkRat 1 2`. -/
def create_default_data (s : Data_File_Manager) (nvars_in : Int) : Option Data_File_Manager :=
  if nvars_in < 2 then some s
  else
    let nvars := if nvars_in > s.maxvars_ then s.maxvars_ else nvars_in
    let cols := (List.range nvars.toNat).map (fun i =>
      { Column_Info.empty with label := default_label i
                               points := [Flt.fin 0, Flt.fin (mkRat 1 2), Flt.fin 1] })
    resize_global_arrays { s with nvars := nvars, npoints := 3,
                                  column_info := cols ++ [nothing_column] }

/-- The test `blitz::all(points(NPTS) == points(0))` of `remove_trivial_columns`. -/
def is_trivial (c : Column_Info) (npoints : Int) : Option Bool :=
  if npoints < 1 ∨ c.points.length < npoints.toNat then none
  else match c.points with
    | p0 :: _ => some ((c.points.take npoints.toNat).all (fun x => Flt.feq x p0))
    | [] => none

/-- The inner loop `for (j = current; j < nvars-1; j++) column_info[j] = column_info[j+1]`. -/
def shift_columns (ci : List Column_Info) (current nvars : Int) : Option (List Column_Info) :=
  (List.range' current.toNat (nvars - 1 - current).toNat).foldlM
    (fun acc j => match acc[j + 1]? with
      | some c => writeAt acc j c
      | none => none) ci

/-- The `while (current < nvars-1)` loop of `remove_trivial_columns`, with its local
variables as arguments.  Every pass consumes one unit of `fuel`; the result is `none`
if the fuel runs out before the loop condition fails. -/
def remove_trivial_loop (npoints : Int) :
    Nat → List Column_Info → Int → Int → Int → List Int →
    Option (List Column_Info × Int × List Int)
  | 0, ci, nvars, current, _, removed =>
    if current < nvars - 1 then none else some (ci, nvars, removed)
  | fuel + 1, ci, nvars, current, iRemoved, removed =>
    if current < nvars - 1 then
      match ci[current.toNat]? with
      | none => none
      | some c =>
        match is_trivial c npoints with
        | none => none
        | some true =>
          match shift_columns ci current nvars with
          | none => none
          | some ci1 =>
            -- nvars--; assert( nvars>0);
            if nvars - 1 > 0 then
              remove_trivial_loop npoints fuel ci1 (nvars - 1) current (iRemoved + 1)
                (removed ++ [iRemoved])
            else none
        | some false =>
          remove_trivial_loop npoints fuel ci nvars (current + 1) (iRemoved + 1) removed
    else some (ci, nvars, removed)

/-- Checked update `v[i] = f(v[i])`. -/
def modifyAt {α : Type} (f : α → α) (v : List α) (i : Nat) : Option (List α) :=
  match v[i]? with
  | some x => some (v.set i (f x))
  | none => none

/-- The function `Data_File_Manager::remove_trivial_columns()`. -/
def remove_trivial_columns (s : Data_File_Manager) : Option Data_File_Manager :=
  match remove_trivial_loop s.npoints s.nvars.toNat s.column_info s.nvars 0 0 [] with
  | none => none
  | some (ci, nvars, _) =>
    if nvars ≠ s.nvars then
      match forFirst (fun c => { c with points := resizeAndPreserve Flt.zero c.points s.npoints })
          ci nvars.toNat with
      | none => none
      | some ci1 =>
        match modifyAt (fun c => { c with label := "-nothing-" }) ci1 nvars.toNat with
        | none => none
        | some ci2 => some { s with column_info := ci2, nvars := nvars }
    else some { s with column_info := ci, nvars := nvars }

/-- The call `edit_labels_widget->checked(i)` on the check browser, whose boxes are
given as a list; items are numbered from 1. -/
def checked (checks : List Bool) (i : Int) : Bool :=
  if i < 1 then false else checks.getD (i.toNat - 1) false

/-- The call `edit_labels_widget->nchecked()`. -/
def nchecked (checks : List Bool) : Int := (checks.count true : Int)

/-- The compaction loop of `delete_labels`: the unchecked columns are moved down to the
positions `0 .. ivar-1`.  Returns the vector and `ivar`. -/
def compact_unchecked (checks : List Bool) (ci : List Column_Info) (nvars : Int) :
    Option (List Column_Info × Int) :=
  (List.range nvars.toNat).foldlM
    (fun (acc : List Column_Info × Int) (i : Nat) =>
      if checked checks ((i : Int) + 1) then some acc
      else
        match modifyAt (fun c => { c with isRanked := 0 }) acc.1 acc.2.toNat with
        | none => none
        | some ci1 =>
          match ci1[i]? with
          | none => none
          | some buf =>
            match writeAt ci1 acc.2.toNat buf with
            | none => none
            | some ci2 => some (ci2, acc.2 + 1))
    (ci, 0)

/-- The call `v.resize(n)` on a `std::vector`. -/
def vector_resize {α : Type} (dflt : α) (v : List α) (n : Int) : List α :=
  v.take n.toNat ++ List.replicate (n.toNat - v.length) dflt

/-- The callback `Data_File_Manager::delete_labels`, with the boxes of the check
browser as input. -/
def delete_labels (s : Data_File_Manager) (checks : List Bool) : Option Data_File_Manager :=
  let nChecked := nchecked checks
  let nRemain := s.nvars - nChecked
  if nChecked ≤ 0 then some s
  else if nRemain ≤ 1 then some s
  else
    match compact_unchecked checks s.column_info s.nvars with
    | none => none
    | some (ci, ivar) =>
      match forFirst (fun c =>
          { c with points := resizeAndPreserve Flt.zero c.points s.npoints
                   ranked_points := resizeAndPreserve 0 c.ranked_points s.npoints })
          ci ivar.toNat with
      | none => none
      | some ci1 =>
        some { s with column_info := vector_resize Column_Info.empty ci1 ivar ++ [nothing_column]
                      nvars := ivar
                      needs_restore_panels_ := 1 }

/-- The setter `Data_File_Manager::maxpoints(i)`; `answer` is what the confirmation
window returns when it is shown. -/
def maxpoints (s : Data_File_Manager) (i : Int) (answer : Int) : Option Data_File_Manager :=
  if i < s.npoints ∧ answer ≤ 0 then some s
  else
    let maxpoints_ := if i < 2 then 2 else i
    if s.npoints > maxpoints_ then
      match forFirst (fun c => { c with points := resizeAndPreserve Flt.zero c.points maxpoints_ })
          s.column_info s.nvars.toNat with
      | none => none
      | some ci => some { s with maxpoints_ := maxpoints_, npoints := maxpoints_, column_info := ci }
    else some { s with maxpoints_ := maxpoints_ }

/-- The setter `Data_File_Manager::maxvars(i)`; `answer` is what the confirmation window
returns when it is shown. -/
def maxvars (s : Data_File_Manager) (i : Int) (answer : Int) : Option Data_File_Manager :=
  if i < s.nvars ∧ answer ≤ 0 then some s
  else
    let maxvars_ := if i < 2 then 2 else i
    if s.nvars > maxvars_ then
      -- pTarget = begin + (nvars + 1); erase( pTarget, end)
      if (maxvars_ + 1).toNat ≤ s.column_info.length then
        some { s with maxvars_ := maxvars_, nvars := maxvars_,
                      column_info := s.column_info.take (maxvars_ + 1).toNat }
      else none
    else some { s with maxvars_ := maxvars_ }

/-! ## Loading, appending and merging (data_file_manager.cpp) -/

/-- What a file reader leaves behind: its status and the members it writes, namely the
newly read columns, `nvars`, `npoints`, `read_selected`, `readSelectionInfo_`, the row
and column counters and the error message. -/
structure ReadResult where
  status : Int
  column_info : List Column_Info
  nvars : Int
  npoints : Int
  read_selected : List Int
  readSelectionInfo_ : Int
  nDataRows_ : Int
  nDataColumns_ : Int
  sErrorMessage : String
  deriving DecidableEq

/-- The three file readers that `load_data_file` chooses from.  What a reader reads
depends on the file, which is outside the state. -/
structure Readers where
  read_ascii_file_with_headers : Data_File_Manager → ReadResult
  read_table_from_fits_file : Data_File_Manager → ReadResult
  read_binary_file_with_headers : Data_File_Manager → ReadResult

/-- The state once a reader has run. -/
def after_read (s : Data_File_Manager) (r : ReadResult) : Data_File_Manager :=
  { s with column_info := r.column_info, nvars := r.nvars, npoints := r.npoints,
           read_selected := r.read_selected, readSelectionInfo_ := r.readSelectionInfo_,
           nDataRows_ := r.nDataRows_, nDataColumns_ := r.nDataColumns_,
           sErrorMessage := r.sErrorMessage }

/-- The statements with which `load_data_file` restores the saved data (they occur three
times in the source): `nvars = old_nvars; npoints = old_npoints;
resize_global_arrays(); column_info = old_column_info; selected = old_selected;`. -/
def restore_old_data (s : Data_File_Manager) (old_nvars old_npoints : Int)
    (old_column_info : List Column_Info) (old_selected : List Int) :
    Option Data_File_Manager :=
  match resize_global_arrays { s with nvars := old_nvars, npoints := old_npoints } with
  | none => none
  | some s1 =>
    match assignArray s1.selected old_selected with
    | none => none
    | some sel => some { s1 with column_info := old_column_info, selected := sel }

/-- The append branch of `load_data_file`: the four loops over `j < nvars` that put the
newly read values behind the old values of every column. -/
def append_columns (ops : ColumnOps) (column_info old_column_info : List Column_Info)
    (nvars npoints old_npoints : Int) : Option (List Column_Info) :=
  if nvars.toNat ≤ column_info.length ∧ nvars.toNat ≤ old_column_info.length then
    let all_npoints := npoints + old_npoints
    some (List.zipWith
        (fun (o c : Column_Info) =>
          let c1 := ops.add_info_and_update_data npoints c o
          let old_points := resizeAndPreserve Flt.zero o.points all_npoints
          let new_points := resizeAndPreserve Flt.zero c1.points npoints
          -- old.points( Range( old_npoints, all_npoints-1)) = new.points
          (ops.update_ascii_values_and_data all_npoints
            { o with points := old_points.take old_npoints.toNat ++ new_points }).1)
        (old_column_info.take nvars.toNat) (column_info.take nvars.toNat)
      ++ old_column_info.drop nvars.toNat)
  else none

/-- The selection statements at the end of `load_data_file`. -/
def straighten_selection (s : Data_File_Manager) (old_selected : List Int) :
    Option (List Int) :=
  if s.doMerge ≠ 0 then assignArray s.selected old_selected
  else if s.doAppend ≠ 0 then
    let new_npoints := s.read_selected.length
    let old_npoints := old_selected.length
    -- selected( Range( 0, new_npoints-1)) = read_selected;
    -- selected( Range( new_npoints, npoints-1)) = old_selected;
    if s.npoints = (new_npoints : Int) + (old_npoints : Int) ∧
        (s.selected.length : Int) = s.npoints then
      some (s.read_selected ++ old_selected)
    else none
  else assignArray s.selected s.read_selected

/-- The choice of the reader by `inputFileType_`. -/
def run_reader (rd : Readers) (s : Data_File_Manager) : ReadResult :=
  if s.inputFileType_ = 0 then rd.read_ascii_file_with_headers s
  else if s.inputFileType_ = 2 then rd.read_table_from_fits_file s
  else rd.read_binary_file_with_headers s

/-- The two failure exits of `load_data_file` after the read: default data when no old
data was saved, the saved data otherwise; the status is -1. -/
def fail_load (uHaveOldData : Bool) (s : Data_File_Manager) (old_nvars old_npoints : Int)
    (old_column_info : List Column_Info) (old_selected : List Int) :
    Option (Int × Data_File_Manager) :=
  (if uHaveOldData then restore_old_data s old_nvars old_npoints old_column_info old_selected
   else create_default_data s 4).map (fun t => (-1, t))

/-- The append and the merge branch of `load_data_file`, taken when the sizes match. -/
def combine_old_and_new (ops : ColumnOps) (s : Data_File_Manager) (old_nvars old_npoints : Int)
    (old_column_info : List Column_Info) : Option Data_File_Manager :=
  if s.doAppend > 0 ∨ s.doMerge > 0 then
    if s.doAppend > 0 then
      (append_columns ops s.column_info old_column_info s.nvars s.npoints old_npoints).map
        (fun ci => { s with column_info := ci, npoints := s.npoints + old_npoints })
    else
      -- old_column_info.pop_back(), then push_back of every new column
      if old_column_info = [] then none
      else some { s with nvars := s.nvars + old_nvars
                         column_info := old_column_info.dropLast ++ s.column_info }
  else some s

/-- The end of a successful `load_data_file`: the column buffers and the global arrays
are resized and the selection is set. -/
def finish_load (s : Data_File_Manager) (old_selected : List Int) :
    Option (Int × Data_File_Manager) :=
  match (if s.npoints ≠ s.npoints_cmd_line then
      (forFirst (fun c => { c with points := resizeAndPreserve Flt.zero c.points s.npoints })
        s.column_info s.nvars.toNat).map (fun ci => { s with column_info := ci })
    else some s) with
  | none => none
  | some s5 =>
    match resize_global_arrays s5 with
    | none => none
    | some s6 =>
      match straighten_selection s6 old_selected with
      | none => none
      | some sel =>
        some (0, { s6 with selected := sel
                           read_selected := []
                           dataFileSpec := s6.inFileSpec
                           isAsciiData := 1 - s6.inputFileType_
                           isSavedFile_ := if s6.doAppend > 0 ∨ s6.doMerge > 0 then 0 else 1 })

/-- The function `Data_File_Manager::load_data_file()`.  Returns the returned status and
the new state. -/
def load_data_file (ops : ColumnOps) (rd : Readers) (s : Data_File_Manager) :
    Option (Int × Data_File_Manager) :=
  if s.inFileSpec.length ≤ 0 then some (-1, s)
  else
    let uHaveOldData : Bool := s.preserve_old_data_mode || decide (s.doAppend > 0)
      || decide (s.doMerge > 0)
    let old_column_info := if uHaveOldData then s.column_info else []
    let old_nvars := if uHaveOldData then n_vars s else 0
    let old_npoints := if uHaveOldData then n_points s else 0
    match (if uHaveOldData then assignArray (List.replicate old_npoints.toNat 0) s.selected
           else some []) with
    | none => none
    | some old_selected =>
      let s0 := { s with read_selected := List.replicate s.maxpoints_.toNat 0 }
      let r := run_reader rd s0
      let s1 := after_read s0 r
      if r.status ≠ 0 then
        fail_load uHaveOldData s1 old_nvars old_npoints old_column_info old_selected
      else
        let s2 := if s1.npoints > 0 then
            { s1 with read_selected := resizeAndPreserve 0 s1.read_selected s1.npoints }
          else s1
        match (if s2.npoints > 0 ∧ s2.trivial_columns_mode = true then remove_trivial_columns s2
               else some s2) with
        | none => none
        | some s3 =>
          if s3.npoints ≤ 0 ∨
              ((s3.doAppend = 0 ∧ s3.doMerge = 0) ∧ (s3.nvars ≤ 1 ∨ s3.npoints ≤ 1)) then
            fail_load uHaveOldData s3 old_nvars old_npoints old_column_info old_selected
          else
            let s3n := if include_line_number then { s3 with nvars := s3.nvars + 1 } else s3
            if (s3n.doAppend > 0 ∨ s3n.doMerge > 0) ∧
                ((s3n.doAppend > 0 ∧ s3n.nvars ≠ old_nvars) ∨
                 (s3n.doMerge > 0 ∧ s3n.npoints ≠ old_npoints)) then
              (restore_old_data s3n old_nvars old_npoints old_column_info old_selected).map
                (fun t => (-1, t))
            else
              match combine_old_and_new ops s3n old_nvars old_npoints old_column_info with
              | none => none
              | some s4 => finish_load s4 old_selected

/-! ## The ASCII reader and writer (data_file_manager.cpp) -/
/-! ## Text streams -/

/-- A `std::istream` over a text: the characters not yet read, `eofbit` and `failbit`. -/
structure IStream where
  rest : List Char
  eofbit : Bool
  failbit : Bool
  deriving DecidableEq

namespace IStream

/-- A stream freshly opened on a text. -/
def ofText (text : List Char) : IStream := { rest := text, eofbit := false, failbit := false }

/-- The call `good()`. -/
def good (s : IStream) : Bool := !s.eofbit && !s.failbit

/-- The call `clear()`. -/
def clear (s : IStream) : IStream := { s with eofbit := false, failbit := false }

/-- The call `getline(s, buf, delim)`: the characters up to the next `delim`, which is
consumed; the end of the text sets `eofbit`, and `failbit` too when nothing was read.
A stream that is not good only gets `failbit` and leaves `buf` alone. -/
def getline (s : IStream) (delim : Char) (buf : List Char) : IStream × List Char :=
  if s.good then
    match s.rest.span (fun c => c != delim) with
    | (pre, []) => ({ rest := [], eofbit := true, failbit := pre.isEmpty }, pre)
    | (pre, _ :: post) => ({ rest := post, eofbit := false, failbit := false }, pre)
  else ({ s with failbit := true }, buf)

end IStream

/-- The C function `isspace` in the default locale. -/
def isspace (c : Char) : Bool :=
  c == ' ' || c == '\t' || c == '\n' || c == '\x0b' || c == '\x0c' || c == '\r'

namespace IStream

/-- The extraction `s >> tok` of a string: leading whitespace is skipped and the
characters up to the next whitespace are read.  Reaching the end of the text sets
`eofbit`; when no character is left after the whitespace, `failbit` is set as well and
`tok` keeps its value. -/
def extract (s : IStream) (tok : List Char) : IStream × List Char :=
  if s.good then
    match (s.rest.dropWhile isspace).span (fun c => !isspace c) with
    | ([], _) => ({ rest := [], eofbit := true, failbit := true }, tok)
    | (t, r) => ({ rest := r, eofbit := r.isEmpty, failbit := false }, t)
  else ({ s with failbit := true }, tok)

end IStream

/-- The library calls that convert between numbers and text: `os << x` for a `float`
under `precision(14)` with the default float field, and `is >> x` for a `double` on a
stream holding one token (`none` when the extraction fails). -/
structure NumIO where
  show_float : Flt → List Char
  parse_double : List Char → Option Flt

/-- The call `replace( line.begin(), line.end(), '\t', ' ')`. -/
def replace_tabs (line : List Char) : List Char :=
  line.map (fun c => if c == '\t' then ' ' else c)

/-- The test `line.find_first_of( "!#%") == 0`. -/
def starts_with_comment (line : List Char) : Bool :=
  match line with
  | c :: _ => c == '!' || c == '#' || c == '%'
  | [] => false

/-- The statements `notwhite = buf.find_first_not_of( " "); buf.erase( 0, notwhite);`. -/
def erase_leading_blanks (buf : List Char) : List Char :=
  buf.dropWhile (fun c => c == ' ')

/-- The statements `notwhite = buf.find_last_not_of( set); buf.erase( notwhite+1);`. -/
def erase_trailing (set : List Char) (buf : List Char) : List Char :=
  (buf.reverse.dropWhile (fun c => set.contains c)).reverse

/-- The loop `while( ss >> buf)`, collecting the extracted words.  The fuel bounds the
number of passes. -/
def extract_loop : Nat → IStream → List (List Char) → Option (List (List Char))
  | 0, _, _ => none
  | fuel + 1, ss, acc =>
    let r := ss.extract []
    if r.1.failbit then some acc else extract_loop fuel r.1 (acc ++ [r.2])

/-- The loop `while( getline( ss, buf, delimiter_char_))`, collecting the fields. -/
def getline_loop (delim : Char) : Nat → IStream → List (List Char) → Option (List (List Char))
  | 0, _, _ => none
  | fuel + 1, ss, acc =>
    let r := ss.getline delim []
    if r.1.failbit then some acc else getline_loop delim fuel r.1 (acc ++ [r.2])

/-- The label `Column_n` of a generated default header. -/
def column_label (n : Nat) : String := "Column_" ++ String.mk (Nat.toDigits 10 n)

/-- A default-constructed column with the given label. -/
def labelled_column (label : String) : Column_Info := { Column_Info.empty with label := label }

/-- The words or fields of a header line as `extract_column_labels` reads them. -/
def header_fields (delim : Char) (sLine : List Char) : Option (List (List Char)) :=
  if delim = ' ' then extract_loop (sLine.length + 1) (IStream.ofText sLine) []
  else getline_loop delim (sLine.length + 1) (IStream.ofText sLine) []

/-- The function `Data_File_Manager::extract_column_labels( sLine, doDefault)`. -/
def extract_column_labels (s : Data_File_Manager) (sLine : List Char) (doDefault : Int) :
    Option (Int × Data_File_Manager) :=
  let labels? : Option (List String) :=
    if doDefault ≠ 0 then
      let line := if s.delimiter_char_ ≠ '\t' then replace_tabs sLine else sLine
      (header_fields s.delimiter_char_ line).map
        (fun fs => (List.range fs.length).map (fun i => column_label (i + 1)))
    else
      let line := if starts_with_comment sLine then sLine.drop 1 else sLine
      if s.delimiter_char_ = ' ' then
        (header_fields s.delimiter_char_ line).map (fun fs => fs.map String.mk)
      else
        (header_fields s.delimiter_char_ line).map (fun fs => fs.map (fun buf =>
          let b := erase_trailing [' ', '\n'] (erase_leading_blanks buf)
          if b.length ≤ 0 then "Dummy" else String.mk b))
  match labels? with
  | none => none
  | some labels =>
    let cols := labels.map labelled_column
    let cols1 := if s.nvars_cmd_line > 0 ∧ (cols.length : Int) > s.nvars_cmd_line
      then cols.take s.nvars_cmd_line.toNat else cols
    let nvars : Int := cols1.length
    if s.doMerge = 0 ∧ nvars ≤ 1 then
      some (-1, { s with nvars := nvars, column_info := cols1 })
    else if nvars > s.maxvars_ then
      some (-1, { s with nvars := nvars, column_info := cols1 })
    else
      let cols2 := if include_line_number then cols1 ++ [labelled_column "-line number-"]
        else cols1
      let cols3 := cols2 ++ [labelled_column "-nothing-"]
      -- the test on column_info[nvars-1].label
      if nvars - 1 < 0 then none
      else
        match cols3[(nvars - 1).toNat]? with
        | none => none
        | some c =>
          some ((cols3.length : Int),
            { s with nvars := nvars, column_info := cols3,
                     readSelectionInfo_ :=
                       if SELECTION_LABEL.data.isPrefixOf c.label.data then 1 else 0 })


/-- The function `Data_File_Manager::n_ascii_columns()`. -/
def n_ascii_columns (s : Data_File_Manager) : Int :=
  ((s.column_info.filter (fun c => decide (c.hasASCII > 0))).length : Int)

/-- The flag `hasASCII` that `extract_column_types` computes for a word: 0 when the word
can be read as a `double` or is one of `NAN`, `NaN`, `nan`, and 1 otherwise. -/
def word_type (io : NumIO) (tok : List Char) : Int :=
  if tok = "NAN".data ∨ tok = "NaN".data ∨ tok = "nan".data then 0
  else if (io.parse_double tok).isSome then 0 else 1

/-- The column `c` with the flag `hasASCII` set to `h`. -/
def set_type (c : Column_Info) (h : Int) : Column_Info := { c with hasASCII := h }

/-- The body of the loop over `j` in `extract_column_types`; `count` is the number of
passes left, `nvars - j`. -/
def column_types_loop (io : NumIO) (delim : Char) (nvars : Int) :
    Nat → Int → IStream → List Char → List Column_Info → Option (List Column_Info)
  | 0, _, _, _, ci => some ci
  | count + 1, j, ss, sToken, ci =>
    let r : IStream × List Char :=
      if delim = ' ' then ss.extract sToken
      else
        let g := ss.getline delim []
        let buf := erase_trailing [' '] (erase_leading_blanks g.2)
        if buf.length ≤ 0 then (g.1, "BAD_VALUE_PROXY".data)
        else (g.1, ((IStream.ofText buf).extract sToken).2)
    if r.1.eofbit = true ∧ j < nvars - 1 then some ci
    else if r.1.good = false ∧ j < nvars - 1 then some ci
    else
      if j < 0 then none
      else
        match modifyAt (fun c => set_type c (word_type io r.2)) ci j.toNat with
        | none => none
        | some ci1 => column_types_loop io delim nvars count (j + 1) r.1 r.2 ci1

/-- The function `Data_File_Manager::extract_column_types( sLine)`. -/
def extract_column_types (io : NumIO) (s : Data_File_Manager) (sLine : List Char) :
    Option Data_File_Manager :=
  let line := if s.delimiter_char_ ≠ '\t' then replace_tabs sLine else sLine
  (column_types_loop io s.delimiter_char_ s.nvars s.nvars.toNat 0 (IStream.ofText line) []
    s.column_info).map (fun ci => { s with column_info := ci })

/-- The function `Data_File_Manager::remove_column_of_selection_info()`; returns the
number of columns and the state. -/
def remove_column_of_selection_info (s : Data_File_Manager) : Option (Int × Data_File_Manager) :=
  if s.readSelectionInfo_ ≠ 0 then
    -- pTarget = column_info.end() - 2; column_info.erase( pTarget)
    if s.column_info.length < 2 then none
    else
      let ci := s.column_info.eraseIdx (s.column_info.length - 2)
      some ((ci.length : Int), { s with column_info := ci })
  else some ((s.column_info.length : Int), s)

/-- The column `c` with the value `v` stored in row `k`. -/
def store_value (c : Column_Info) (k : Nat) (v : Flt) : Column_Info :=
  { c with points := c.points.set k v }

/-- Checked write `c.points( row) = v`. -/
def set_point (c : Column_Info) (row : Int) (v : Flt) : Option Column_Info :=
  if 0 ≤ row ∧ row.toNat < c.points.length then some (store_value c row.toNat v) else none

/-- The `double` that the data loop reads from a numeric field: the text `buf` is put in
a stream and read with `>>`, which sees its first word `word` (0 when that fails), and a
text that begins with `NaN` gives the bad-value proxy. -/
def numeric_value (io : NumIO) (proxy : Flt) (buf word : List Char) : Flt :=
  if "NaN".data.isPrefixOf buf then proxy else (io.parse_double word).getD Flt.zero

/-- The local variables of the loop over `j` that reads the fields of one data line. -/
structure LineState where
  ss : IStream
  xValue : Flt
  sToken : List Char
  column_info : List Column_Info
  read_selected : List Int
  isBadData : Bool
  nUnreadableData : Int

/-- The loop over `j` that reads the fields of one data line in
`read_ascii_file_with_headers` and stores them in row `nDataRows_`; `count` is the
number of passes left, `nvars - j`. -/
def read_fields (io : NumIO) (ops : ColumnOps) (s : Data_File_Manager) (nDataRows_ : Int) :
    Nat → Int → LineState → Option LineState
  | 0, _, st => some st
  | count + 1, j, st =>
    if j < 0 then none
    else
    match st.column_info[j.toNat]? with
    | none => none
    | some col =>
      -- read the next word as a double or a string
      let r : IStream × Flt × List Char :=
        if s.delimiter_char_ = ' ' then
          let e := st.ss.extract st.sToken
          if col.hasASCII = 0 then (e.1, numeric_value io s.bad_value_proxy_ e.2 e.2, e.2)
          else (e.1, st.xValue, e.2)
        else
          let g := st.ss.getline s.delimiter_char_ []
          let buf := erase_trailing [' '] (erase_leading_blanks g.2)
          if buf.length ≤ 0 then (g.1, s.bad_value_proxy_, st.sToken)
          else if col.hasASCII = 0 then
            (g.1, numeric_value io s.bad_value_proxy_ buf ((IStream.ofText buf).extract []).2,
              st.sToken)
          else (g.1, st.xValue, ((IStream.ofText buf).extract st.sToken).2)
      let ss1 := r.1
      let xValue := r.2.1
      let sToken := r.2.2
      -- skip lines that do not appear to contain enough data
      if ss1.eofbit = true ∧ j < s.nvars - 1 then
        some { st with ss := ss1, xValue := xValue, sToken := sToken, isBadData := true }
      else
        let stored : Option (IStream × List Column_Info × List Int) :=
          if s.readSelectionInfo_ = 0 ∨ j < s.nvars - 1 then
            if ss1.failbit then
              (set_point col nDataRows_ s.bad_value_proxy_).map
                (fun c => (ss1.clear, st.column_info.set j.toNat c, st.read_selected))
            else if col.hasASCII = 0 then
              -- column_info[j].points(nDataRows_) = (float) xValue
              (set_point col nDataRows_ (Flt.round32 xValue)).map
                (fun c => (ss1, st.column_info.set j.toNat c, st.read_selected))
            else
              let v := ops.add_value col (String.mk sToken)
              (set_point v.1 nDataRows_ (Flt.round32 (Flt.ofInt v.2))).map
                (fun c => (ss1, st.column_info.set j.toNat c, st.read_selected))
          else
            if ss1.failbit then some (ss1.clear, st.column_info, st.read_selected)
            else
              match Flt.toInt? xValue with
              | none => none
              | some k =>
                if 0 ≤ nDataRows_ then
                  (writeAt st.read_selected nDataRows_.toNat k).map
                    (fun rs => (ss1, st.column_info, rs))
                else none
        match stored with
        | none => none
        | some (ss2, ci, rs) =>
          if ss2.good = false ∧ j < s.nvars - 1 then
            some { ss := ss2, xValue := xValue, sToken := sToken, column_info := ci,
                   read_selected := rs, isBadData := true,
                   nUnreadableData := st.nUnreadableData + 1 }
          else
            read_fields io ops s nDataRows_ count (j + 1)
              { st with ss := ss2, xValue := xValue, sToken := sToken, column_info := ci,
                        read_selected := rs }


/-- The constant `MAX_HEADER_LINES`. -/
def MAX_HEADER_LINES : Nat := 2000

/-- The local variables of the header loop of `read_ascii_file_with_headers`. -/
structure HeaderState where
  inStream : IStream
  line : List Char
  lastHeaderLine : List Char
  nRead : Int
  nHeaderLines : Int
  deriving DecidableEq

/-- Step 2 of `read_ascii_file_with_headers`: the loop
`for( iLine = 0; iLine < MAX_HEADER_LINES; iLine++)` that skips the header block;
`count` is the number of passes left. -/
def header_loop (nSkipHeaderLines : Int) : Nat → Int → HeaderState → HeaderState
  | 0, _, h => h
  | count + 1, iLine, h =>
    if h.inStream.eofbit then h
    else
      let g := h.inStream.getline '\n' h.line
      let h1 := { h with inStream := g.1, line := g.2, nRead := h.nRead + 1 }
      if g.2.length = 0 then
        header_loop nSkipHeaderLines count (iLine + 1) { h1 with nHeaderLines := h.nHeaderLines + 1 }
      else if iLine < nSkipHeaderLines ∨ starts_with_comment g.2 = true then
        header_loop nSkipHeaderLines count (iLine + 1)
          { h1 with lastHeaderLine := g.2, nHeaderLines := h.nHeaderLines + 1 }
      else h1

/-- The local and member variables that change in the data loop of
`read_ascii_file_with_headers`. -/
structure DataState where
  inStream : IStream
  line : List Char
  uReadNextLine : Bool
  nRead : Int
  nSkip : Int
  nDataRows_ : Int
  nTestCycle : Int
  nUnreadableData : Int
  dfm : Data_File_Manager

/-- The literal `-90e99`. -/
def bad_data_flag : Flt :=
  Flt.ofInt (-90000000000000000000000000000000000000000000000000000000000000000000000000000000000000000000000000000)

/-- The test of the bad-data flags of one row: some stored value is below `-90e99`. -/
def has_bad_data_flag (ci : List Column_Info) (nDataColumns_ nDataRows_ : Int) : Option Bool :=
  if 0 ≤ nDataRows_ ∧ nDataColumns_.toNat ≤ ci.length ∧
      (ci.take nDataColumns_.toNat).all (fun c => decide (nDataRows_.toNat < c.points.length)) then
    some ((ci.take nDataColumns_.toNat).any
      (fun c => Flt.lt (c.points.getD nDataRows_.toNat Flt.nan) bad_data_flag))
  else none

/-- Step 4 of `read_ascii_file_with_headers`: the loop
`while( !inStream->eof() && nDataRows_<npoints)`.  Every pass consumes one unit of fuel.
The result is the status (1 when the loop returns for too much unreadable data, 0 when
it ends) with the final variables, or `none` if the fuel runs out first. -/
def data_loop (io : NumIO) (ops : ColumnOps) (npoints : Int) :
    Nat → DataState → Option (Int × DataState)
  | 0, d => if d.inStream.eofbit = false ∧ d.nDataRows_ < npoints then none else some (0, d)
  | fuel + 1, d =>
    if d.inStream.eofbit = false ∧ d.nDataRows_ < npoints then
      -- get the next line
      let g := if d.uReadNextLine then d.inStream.getline '\n' d.line else (d.inStream, d.line)
      if d.uReadNextLine = true ∧ g.1.eofbit = true then
        some (0, { d with inStream := g.1, line := g.2 })
      else
        let d1 : DataState :=
          { d with inStream := g.1, line := g.2,
                   nRead := if d.uReadNextLine then d.nRead + 1 else d.nRead }
        -- skip blank lines and comment lines
        if d1.line.length = 0 ∨ starts_with_comment d1.line = true then
          data_loop io ops npoints fuel { d1 with nSkip := d1.nSkip + 1, uReadNextLine := true }
        else
          let nTestCycle : Int := d1.nTestCycle + 1
          match (if d1.nDataRows_ = 0 then extract_column_types io d1.dfm d1.line
                 else some d1.dfm) with
          | none => none
          | some dfm1 =>
            let line1 := if dfm1.delimiter_char_ ≠ '\t' then replace_tabs d1.line else d1.line
            match read_fields io ops dfm1 d1.nDataRows_ dfm1.nvars.toNat 0
                { ss := IStream.ofText line1, xValue := Flt.zero, sToken := [],
                  column_info := dfm1.column_info, read_selected := dfm1.read_selected,
                  isBadData := false, nUnreadableData := d1.nUnreadableData } with
            | none => none
            | some st =>
              match has_bad_data_flag st.column_info dfm1.nDataColumns_ d1.nDataRows_ with
              | none => none
              | some flag =>
                let isBadData := st.isBadData || flag
                let dfm2 : Data_File_Manager :=
                  { dfm1 with column_info := st.column_info, read_selected := st.read_selected }
                -- check for too much unreadable data
                if nTestCycle ≥ dfm2.MAX_NTESTCYCLES ∧
                    st.nUnreadableData ≥ dfm2.MAX_NUNREADABLELINES then
                  some (1, { d1 with line := line1, uReadNextLine := true,
                                     nTestCycle := nTestCycle,
                                     nUnreadableData := st.nUnreadableData,
                                     dfm := { dfm2 with sErrorMessage :=
                                       "Too much unreadable data in an ASCII file" } })
                else
                  data_loop io ops npoints fuel
                    { d1 with line := line1, uReadNextLine := true,
                              nTestCycle := if nTestCycle ≥ dfm2.MAX_NTESTCYCLES then 0
                                else nTestCycle,
                              nUnreadableData := st.nUnreadableData,
                              nDataRows_ := if isBadData then d1.nDataRows_
                                else d1.nDataRows_ + 1,
                              dfm := dfm2 }
    else some (0, d)

/-- The end of `read_ascii_file_with_headers`, after the data loop has left the status
`status` and the variables `d`: the checks of the result, the renumbering of the ASCII
values, and step 5, which resizes the buffers to the number of rows read. -/
def finish_read (ops : ColumnOps) (answer : Int) (status : Int) (d : DataState) :
    Option (Int × Data_File_Manager) :=
  let s5 := { d.dfm with nDataRows_ := d.nDataRows_ }
  if status ≠ 0 then some (1, s5)
  else if s5.doCommentedLabels_ ≠ 0 ∧ n_ascii_columns s5 ≥ s5.nvars ∧ answer ≤ 0 then
    some (-1, s5)
  else
    -- alphabetize ASCII values and renumber the data
    match forFirst (fun c => (ops.update_ascii_values_and_data s5.nDataRows_ c).1)
        s5.column_info s5.nDataColumns_.toNat with
    | none => none
    | some ci1 =>
      match remove_column_of_selection_info
          { s5 with npoints := s5.nDataRows_, column_info := ci1,
                    nDataColumns_ := s5.nvars } with
      | none => none
      | some (nColumns, s6) =>
        -- step 5: update nvars and npoints, resize the data buffers
        match forFirst (fun c =>
            { c with points := resizeAndPreserve Flt.zero c.points s6.nDataRows_ })
            s6.column_info (nColumns - 1).toNat with
        | none => none
        | some ci2 =>
          some (0, { s6 with nDataColumns_ := nColumns - 1, nvars := nColumns - 1,
                             npoints := s6.nDataRows_, column_info := ci2,
                             read_from_stdin := false })

/-- Step 4 of `read_ascii_file_with_headers` and what follows it: the data block is read
into the columns that step 3 has set up in `s3`.  `h` holds the stream and the line that
the header loop left, and `uReadNextLine` tells whether that line has been used for the
labels. -/
def read_data_block (io : NumIO) (ops : ColumnOps) (answer : Int) (h : HeaderState)
    (uReadNextLine : Bool) (s3 : Data_File_Manager) : Option (Int × Data_File_Manager) :=
  let npoints := if s3.npoints_cmd_line > 0 then s3.npoints_cmd_line else s3.maxpoints_
  let nDataColumns_ :=
    (if include_line_number then s3.nvars + 1 else s3.nvars)
      - (if s3.readSelectionInfo_ ≠ 0 then 1 else 0)
  match forFirst (fun c => { c with points := resize Flt.zero c.points npoints })
      s3.column_info nDataColumns_.toNat with
  | none => none
  | some ci =>
    let s4 := { s3 with npoints := npoints, nDataColumns_ := nDataColumns_,
                        column_info := ci, nDataRows_ := 0 }
    match data_loop io ops npoints (h.inStream.rest.length + 2)
        { inStream := h.inStream, line := h.line, uReadNextLine := uReadNextLine,
          nRead := h.nRead, nSkip := 0, nDataRows_ := 0, nTestCycle := 0,
          nUnreadableData := 0, dfm := s4 } with
    | none => none
    | some (status, d) => finish_read ops answer status d

/-- Step 3 of `read_ascii_file_with_headers`: the column labels are taken from the last
line of the header block or from the first line of the data block, or default labels are
generated.  `h` holds the variables that the header loop left.  Returns `nLabels`,
`uReadNextLine` and the state. -/
def column_labels_step (io : NumIO) (s : Data_File_Manager) (h : HeaderState) :
    Option (Int × Bool × Data_File_Manager) :=
  if s.doCommentedLabels_ ≠ 0 then
    (if h.nHeaderLines = 0 ∨ h.lastHeaderLine.length = 0 then extract_column_labels s h.line 1
     else extract_column_labels s h.lastHeaderLine 0).map (fun r => (r.1, false, r.2))
  else
    match extract_column_labels s h.line 0 with
    | none => none
    | some (nLabels, s1) =>
      match extract_column_types io s1 h.line with
      | none => none
      | some s2 =>
        if n_ascii_columns s2 ≤ 0 ∧ nLabels > 0 then
          (extract_column_labels s2 h.line 1).map (fun r => (nLabels, false, r.2))
        else some (nLabels, true, s2)

/-- The function `Data_File_Manager::read_ascii_file_with_headers()`.  `file` is the
text of the input file, `none` when it cannot be opened; `answer` is what the
confirmation window returns if it is shown.  Returns the status and the state. -/
def read_ascii_file_with_headers (io : NumIO) (ops : ColumnOps) (file : Option (List Char))
    (answer : Int) (s : Data_File_Manager) : Option (Int × Data_File_Manager) :=
  match file with
  | none => some (1, s)
  | some text =>
    -- step 2: read and discard the header block
    let h := header_loop s.nSkipHeaderLines MAX_HEADER_LINES 0
      { inStream := IStream.ofText text, line := [], lastHeaderLine := [], nRead := 0,
        nHeaderLines := 0 }
    -- step 3: column labels
    match column_labels_step io s h with
    | none => none
    | some (nLabels, uReadNextLine, s3) =>
      if nLabels < 0 ∧ s3.read_from_stdin = false then some (1, s3)
      else read_data_block io ops answer h uReadNextLine s3

/-- The manipulator `setw( n)` applied to a string: blanks in front up to width `n`. -/
def setw (n : Nat) (t : List Char) : List Char := List.replicate (n - t.length) ' ' ++ t

/-- The output `os << i` of an `int`. -/
def show_int (i : Int) : List Char :=
  if i < 0 then '-' :: Nat.toDigits 10 i.natAbs else Nat.toDigits 10 i.natAbs

/-- The line of column labels that `write_ascii_file_with_headers` writes. -/
def write_label_line (s : Data_File_Manager) (cols : List Column_Info) : List Char :=
  let first_char := if s.doCommentedLabels_ ≠ 0 then '!' else ' '
  first_char ::
    ((cols.enum.map (fun p =>
        if p.1 = 0 then setw 12 p.2.label.data
        else s.delimiter_char_ :: ' ' :: setw 13 p.2.label.data)).flatten
      ++ (if s.writeSelectionInfo_ ≠ 0 then s.delimiter_char_ :: ' ' :: SELECTION_LABEL.data else []))
    ++ ['\n']

/-- One record of the data block that `write_ascii_file_with_headers` writes. -/
def write_row (io : NumIO) (ops : ColumnOps) (s : Data_File_Manager) (cols : List Column_Info)
    (irow : Nat) : Option (List Char) :=
  if cols.all (fun c => decide (irow < c.points.length)) then
    let cells := cols.enum.map (fun p =>
      let v := p.2.points.getD irow Flt.nan
      let cell := if p.2.hasASCII = 0 then some (io.show_float v)
        else (Flt.toInt? v).map (fun k => (ops.ascii_value p.2 k).data)
      cell.map (fun t => if p.1 > 0 then s.delimiter_char_ :: ' ' :: t else t))
    if cells.all Option.isSome then
      let body := (cells.map (fun c => c.getD [])).flatten
      if s.writeSelectionInfo_ ≠ 0 then
        match s.selected[irow]? with
        | some f => some (body ++ s.delimiter_char_ :: ' ' :: show_int f ++ ['\n'])
        | none => none
      else some (body ++ ['\n'])
    else none
  else none

/-- The function `Data_File_Manager::write_ascii_file_with_headers()`.  Returns the
status and the text written to the file (`none` when the function ends before it opens
the file). -/
def write_ascii_file_with_headers (io : NumIO) (ops : ColumnOps) (s : Data_File_Manager) :
    Option (Int × Option (List Char)) :=
  if s.outFileSpec.length ≤ 0 then some (-1, none)
  else
    let nvars_out := if include_line_number then s.nvars - 1 else s.nvars
    if nvars_out.toNat ≤ s.column_info.length then
      let cols := s.column_info.take nvars_out.toNat
      let rows : List (Option (List Char)) := (List.range s.npoints.toNat).map (fun irow =>
        if s.writeAllData_ ≠ 0 then write_row io ops s cols irow
        else
          match s.selected[irow]? with
          | none => none
          | some f => if f > 0 then write_row io ops s cols irow else some [])
      if rows.all Option.isSome then
        some (0, some ("! File Name: ".data ++ s.outFileSpec.data ++ ['\n']
          ++ write_label_line s cols ++ (rows.map (fun r => r.getD [])).flatten))
      else none
    else none


/-! ## Concrete datasets and readers used in the evaluations -/

/-- A numeric column. -/
def numeric_column (label : String) (points : List Flt) : Column_Info :=
  { Column_Info.empty with label := label, points := points }

/-- A state holding the given data columns (the sentinel is added) and selection, with
the format settings of `Data_File_Manager::initialize()`, file names as a file chooser
leaves them, `readSelectionInfo_` as after a file without selection information, and
room for 100 points and 10 variables. -/
def dataset (cols : List Column_Info) (npoints : Int) (selected : List Int) :
    Data_File_Manager :=
  { column_info := cols ++ [nothing_column]
    nvars := cols.length
    npoints := npoints
    selected := selected
    previously_selected := fillArray 0 selected
    newly_selected := fillArray 0 selected
    saved_selection := fillArray 0 selected
    inside_footprint := fillArray 0 selected
    indices_selected := []
    read_selected := []
    NBRUSHES := 0
    maxpoints_ := 100
    maxvars_ := 10
    npoints_cmd_line := 0
    nvars_cmd_line := 0
    doAppend := 0
    doMerge := 0
    preserve_old_data_mode := false
    trivial_columns_mode := false
    inputFileType_ := 0
    readSelectionInfo_ := 0
    doCommentedLabels_ := 0
    delimiter_char_ := ' '
    nSkipHeaderLines := 0
    writeAllData_ := 1
    writeSelectionInfo_ := 0
    needs_restore_panels_ := 0
    isSavedFile_ := 0
    isAsciiData := 1
    inFileSpec := "data.txt"
    outFileSpec := "out.txt"
    dataFileSpec := ""
    bad_value_proxy_ := Flt.zero
    nDataRows_ := 0
    nDataColumns_ := 0
    read_from_stdin := false
    sErrorMessage := ""
    MAX_NTESTCYCLES := 1000
    MAX_NUNREADABLELINES := 200 }

/-- Column operations as they act on numeric columns, which have no dictionary. -/
def numeric_ops : ColumnOps :=
  { add_info_and_update_data := fun _ c _ => c
    update_ascii_values_and_data := fun _ c => (c, -1)
    add_value := fun c _ => (c, -1)
    ascii_value := fun _ _ => "" }

/-- Readers that all behave as `r`. -/
def readers_returning (r : Data_File_Manager → ReadResult) : Readers :=
  { read_ascii_file_with_headers := r
    read_table_from_fits_file := r
    read_binary_file_with_headers := r }

/-- A successful read of the given numeric columns from a file without selection
information. -/
def read_ok (cols : List Column_Info) (npoints : Int) (s : Data_File_Manager) : ReadResult :=
  { status := 0, column_info := cols ++ [nothing_column], nvars := cols.length,
    npoints := npoints, read_selected := s.read_selected, readSelectionInfo_ := 0,
    nDataRows_ := npoints, nDataColumns_ := cols.length, sErrorMessage := s.sErrorMessage }

/-- A read that fails before it touches the data, as when the file cannot be opened. -/
def read_failed (s : Data_File_Manager) : ReadResult :=
  { status := 1, column_info := s.column_info, nvars := s.nvars, npoints := s.npoints,
    read_selected := s.read_selected, readSelectionInfo_ := s.readSelectionInfo_,
    nDataRows_ := s.nDataRows_, nDataColumns_ := s.nDataColumns_,
    sErrorMessage := s.sErrorMessage }

/-- Two columns and two points, the first point selected. -/
def old_xy : Data_File_Manager :=
  dataset [numeric_column "x" [Flt.fin 1, Flt.fin 2], numeric_column "y" [Flt.fin 10, Flt.fin 20]]
    2 [1, 0]

/-- The columns of a file with the single row `3 30`. -/
def new_xy : List Column_Info :=
  [numeric_column "x" [Flt.fin 3], numeric_column "y" [Flt.fin 30]]

/-- Four columns and two points. -/
def old_abcd : Data_File_Manager :=
  dataset [numeric_column "a" [Flt.fin 1, Flt.fin 2], numeric_column "b" [Flt.fin 3, Flt.fin 4],
    numeric_column "c" [Flt.fin 5, Flt.fin 6], numeric_column "d" [Flt.fin 7, Flt.fin 8]]
    2 [1, 0]

/-- Three columns and three points. -/
def old_abc : Data_File_Manager :=
  dataset [numeric_column "a" [Flt.fin 1, Flt.fin 2, Flt.fin 3],
    numeric_column "b" [Flt.fin 4, Flt.fin 5, Flt.fin 6],
    numeric_column "c" [Flt.fin 7, Flt.fin 8, Flt.fin 9]]
    3 [0, 1, 0]

/-- Two columns and two points; the last data column is uniform. -/
def xy_last_uniform : Data_File_Manager :=
  dataset [numeric_column "x" [Flt.fin 1, Flt.fin 2], numeric_column "y" [Flt.fin 5, Flt.fin 5]]
    2 [0, 0]

/-- Two columns and two points; the first data column is uniform. -/
def xy_first_uniform : Data_File_Manager :=
  dataset [numeric_column "x" [Flt.fin 5, Flt.fin 5], numeric_column "y" [Flt.fin 1, Flt.fin 2]]
    2 [0, 0]

/-! ## Written lines and their words -/

/-- A line made of words, each preceded by its padding. -/
def spaced (pieces : List (List Char × List Char)) : List Char :=
  (pieces.map (fun p => p.1 ++ p.2)).flatten

/-- The pieces of a line are well separated: every padding is whitespace, every word is a
non-empty string without whitespace, and every word but the first has some padding. -/
def well_spaced : List (List Char × List Char) → Prop
  | [] => True
  | p :: ps =>
    (∀ c ∈ p.1, isspace c = true) ∧ (∀ c ∈ p.2, isspace c = false) ∧ p.2 ≠ [] ∧
    (∀ q ∈ ps.head?, q.1 ≠ []) ∧ well_spaced ps


/-- The vector `column_info` with the data column `f j` at each index `j < nv`, followed by
the sentinel. -/
def mkCols (nv : Nat) (f : Nat → Column_Info) : List Column_Info :=
  (List.range nv).map f ++ [nothing_column]


/-- The value of column `j` in row `i` of a list of columns. -/
def value_at (cols : List Column_Info) (j i : Nat) : Flt :=
  (cols.getD j Column_Info.empty).points.getD i Flt.nan

/-- The label of column `j` of a list of columns. -/
def label_at (cols : List Column_Info) (j : Nat) : String :=
  (cols.getD j Column_Info.empty).label

/-- The words of the record that the writer emits for row `i` of numeric columns with the
whitespace delimiter: every number but the first is preceded by the delimiter and a blank. -/
def row_pieces (io : NumIO) (cols : List Column_Info) (i : Nat) : List (List Char × List Char) :=
  (List.range cols.length).map (fun j =>
    (if j = 0 then [] else [' ', ' '], io.show_float (value_at cols j i)))

/-- The rows `k, ..., k + m - 1` as the writer emits them, each closed by a newline. -/
def rows_text (io : NumIO) (cols : List Column_Info) (k m : Nat) : List Char :=
  ((List.range' k m).map (fun i => spaced (row_pieces io cols i) ++ ['\n'])).flatten

/-- The words of the label line that the writer emits with the whitespace delimiter, after
the first character of the line; `first` is what the reader leaves of that character. -/
def label_pieces (first : List Char) (cols : List Column_Info) : List (List Char × List Char) :=
  (List.range cols.length).map (fun j =>
    (if j = 0 then first ++ List.replicate (12 - (label_at cols j).data.length) ' '
     else ' ' :: ' ' :: List.replicate (13 - (label_at cols j).data.length) ' ',
     (label_at cols j).data))

/-- Column `j` as the reader holds it once `k` rows are stored: the buffer has room for
`cap` values and the flag `hasASCII` is `hs j`. -/
def data_column (cols : List Column_Info) (cap k : Nat) (hs : Nat → Int) (j : Nat) : Column_Info :=
  { label := label_at cols j
    points := (List.range cap).map (fun i => if i < k then value_at cols j i else Flt.zero)
    hasASCII := hs j
    ascii_values_ := []
    isRanked := 0
    ranked_points := [] }

/-- A label that survives the whitespace-delimited label line: not empty and free of
whitespace. -/
def clean_label (label : String) : Prop :=
  label.data ≠ [] ∧ ∀ c ∈ label.data, isspace c = false

/-- A value whose written form is read back as the same value: the text is a non-empty
word without whitespace that does not start like a comment or like `NaN`, the library
reads it as a `double` whose conversion to `float` is `v`, and `v` is not below the
bad-data flag. -/
def clean_number (io : NumIO) (v : Flt) : Prop :=
  io.show_float v ≠ [] ∧ (∀ c ∈ io.show_float v, isspace c = false) ∧
  starts_with_comment (io.show_float v) = false ∧
  (io.parse_double (io.show_float v)).isSome = true ∧
  (io.parse_double (io.show_float v)).map Flt.round32 = some v ∧
  "NaN".data.isPrefixOf (io.show_float v) = false ∧
  Flt.lt v bad_data_flag = false

instance (label : String) : Decidable (clean_label label) := by
  unfold clean_label
  exact inferInstance

instance (io : NumIO) (v : Flt) : Decidable (clean_number io v) := by
  unfold clean_number
  exact inferInstance

/-- The value of a string of decimal digits. -/
def digits_value (t : List Char) : Nat := t.foldl (fun n c => 10 * n + (c.toNat - 48)) 0

/-- The library conversions on the numbers that the evaluations use: a whole number that
is not negative is written and read in decimal digits and one half as `0.5`; no other
finite value is used. -/
def plain_io : NumIO :=
  { show_float := fun v =>
      match v with
      | Flt.fin q => if q.den = 1 then show_int q.num else "0.5".data
      | Flt.pinf => "inf".data
      | Flt.ninf => "-inf".data
      | Flt.nan => "nan".data
    parse_double := fun t =>
      if t = "0.5".data then some (Flt.fin (mkRat 1 2))
      else if t ≠ [] ∧ t.all Char.isDigit then some (Flt.ofInt (digits_value t)) else none }

/-- The rank order: by value, and by point index among equal values. -/
def rank_before (a : List Flt) (i j : Nat) : Prop :=
  Flt.lt (a.getD i Flt.nan) (a.getD j Flt.nan) = true ∨
  (Flt.feq (a.getD i Flt.nan) (a.getD j Flt.nan) = true ∧ i < j)

/-- The library functions on the arguments that the evaluations use: the base-10 logarithm
of 1, 10 and 100.  Nothing else is evaluated. -/
def decimal_math : MathFns :=
  { log10 := fun x =>
      if x = Flt.fin 1 then Flt.fin 0
      else if x = Flt.fin 10 then Flt.fin 1
      else if x = Flt.fin 100 then Flt.fin 2
      else Flt.nan
    sqrt := fun _ => Flt.nan
    Pinv := fun _ => Flt.nan }

/-! ## A file with selection information -/

/-- The state before the file `a SELECTION_BY_VP / 1 1 / 2 0` is read: no data, room for
two selection flags. -/
def selection_start : Data_File_Manager := { dataset [] 0 [] with read_selected := [0, 0] }

/-- The state after the labels of the file have been extracted. -/
def selection_labelled : Data_File_Manager :=
  { selection_start with
    nvars := 2
    readSelectionInfo_ := 1
    column_info := [labelled_column "a", labelled_column "SELECTION_BY_VP", nothing_column] }

/-- The state after the column types have been taken from the label line. -/
def selection_typed : Data_File_Manager :=
  { selection_labelled with
    column_info := [set_type (labelled_column "a") 1,
      set_type (labelled_column "SELECTION_BY_VP") 1, nothing_column] }

/-- The variables of the header loop after the label line of the file. -/
def selection_header : HeaderState :=
  { inStream := IStream.ofText "1 1\n2 0\n".data
    line := "a SELECTION_BY_VP".data
    lastHeaderLine := []
    nRead := 1
    nHeaderLines := 0 }

/-- The state after the file has been read. -/
def selection_read : Data_File_Manager :=
  { selection_typed with
    nvars := 1
    npoints := 2
    nDataRows_ := 2
    nDataColumns_ := 1
    read_selected := [1, 0]
    column_info := [numeric_column "a" [Flt.fin 1, Flt.fin 2], nothing_column] }

/-! ## Header lines as the specification describes them -/

/-- The maximal runs of non-whitespace characters of a line, in order. -/
def nonwhite_runs (line : List Char) : List (List Char) :=
  (line.splitOnP isspace).filter (fun w => !w.isEmpty)

/-- The fields of a line that are separated by `delim`, in order, without the last one
when it is empty (an empty line, or a line that ends with `delim`). -/
def delimited_fields (delim : Char) (line : List Char) : List (List Char) :=
  if (line.splitOn delim).getLast? = some [] then (line.splitOn delim).dropLast
  else line.splitOn delim

/-! ## A header block and a table of numbers -/

/-- Lines of text, each closed by a newline. -/
def lines_text (ls : List (List Char)) : List Char := (ls.map (fun l => l ++ ['\n'])).flatten

/-- The last line of a block of lines that is not empty, and the empty line if there is
none: what the header loop leaves in `lastHeaderLine`. -/
def last_header_line (ls : List (List Char)) : List Char :=
  ls.foldl (fun last l => if l.length = 0 then last else l) []

/-- The columns with the given labels in place of their own. -/
def relabel (labels : List String) (cols : List Column_Info) : List Column_Info :=
  cols.enum.map (fun p => { p.2 with label := labels.getD p.1 "" })

/-- The generated labels `Column_1`, ..., `Column_n`. -/
def default_labels (n : Nat) : List String := (List.range n).map (fun i => column_label (i + 1))
/-- The state that `read_ascii_file_with_headers` returns from `r` when it has read the `n`
rows of the numeric columns `cols`. -/
def table_read (r : Data_File_Manager) (cols : List Column_Info) (n : Nat) : Data_File_Manager :=
  { r with nDataRows_ := n, nDataColumns_ := cols.length, nvars := cols.length, npoints := n,
           readSelectionInfo_ := 0,
           column_info := mkCols cols.length (data_column cols n n (fun _ => 0)),
           read_from_stdin := false }

/-! ## The FITS table reader (data_file_manager.cpp) -/

/-- The type code `TSTRING` of `fitsio.h`. -/
def TSTRING : Int := 16
/-- The type code `TSHORT` of `fitsio.h`. -/
def TSHORT : Int := 21
/-- The type code `TLONG` of `fitsio.h`. -/
def TLONG : Int := 41
/-- The type code `TFLOAT` of `fitsio.h`. -/
def TFLOAT : Int := 42
/-- The type code `TDOUBLE` of `fitsio.h`. -/
def TDOUBLE : Int := 82

/-- What the CFITSIO library returns for one column of a table: the type code given by
`fits_get_coltype`, the element of each row as `fits_read_col` delivers it for that type
code, and the element of each row as `fits_read_col_str` delivers it. -/
structure FitsColumn where
  typecode : Int
  values : Nat → Flt
  strings : Nat → String

/-- The loop `for( int j=0; j<npoints; j++) column.points(j) = v[j]`, with the conversion
to `float` taken as exact. -/
def store_rows (npoints : Int) (v : Nat → Flt) (c : Column_Info) : Option Column_Info :=
  (List.range npoints.toNat).foldlM (fun (col : Column_Info) (j : Nat) => set_point col (j : Int) (v j)) c

/-- The loop `for( int j=0; j<npoints; j++) column.points(j) = column.add_value( sToken)`
over the strings of a column. -/
def encode_rows (ops : ColumnOps) (npoints : Int) (str : Nat → String) (c : Column_Info) :
    Option Column_Info :=
  (List.range npoints.toNat).foldlM
    (fun (col : Column_Info) (j : Nat) => set_point (ops.add_value col (str j)).1 (j : Int)
      (Flt.ofInt (ops.add_value col (str j)).2)) c

/-- The body of the loop over the columns in `read_table_from_fits_file`, between the
call of `fits_get_coltype` and the copy of the selection information: the column `c` is
filled from what the library returns in `f`. -/
def read_fits_column (ops : ColumnOps) (npoints : Int) (f : FitsColumn) (c : Column_Info) :
    Option Column_Info :=
  match (if f.typecode = TSHORT then store_rows npoints f.values c else some c) with
  | none => none
  | some c1 =>
    if f.typecode = TLONG then store_rows npoints f.values c1
    else if f.typecode = TFLOAT then store_rows npoints f.values c1
    else if f.typecode = TDOUBLE then store_rows npoints f.values c1
    else (encode_rows ops npoints f.strings c1).map (fun c2 => { c2 with hasASCII := 1 })

/-- Modelled from the spec: the member function `Column_Info::add_value` of
`column_info.cpp`, which is not among the sources; it looks the value up in the
dictionary of the column, inserts a value that is absent with the current size of the
dictionary as its code, and returns the code. -/
def dictionary_add_value (c : Column_Info) (value : String) : Column_Info × Int :=
  match c.ascii_values_.lookup value with
  | some code => (c, code)
  | none =>
    ({ c with ascii_values_ := c.ascii_values_ ++ [(value, (c.ascii_values_.length : Int))] },
      (c.ascii_values_.length : Int))

/-- Column operations with the dictionary of the specification for `add_value`. -/
def dictionary_ops : ColumnOps := { numeric_ops with add_value := dictionary_add_value }

/-! ## The binary reader: the header with ASCII values (data_file_manager.cpp) -/

/-- The static member `BINARY_FILE_WITH_ASCII_VALUES_LABEL`. -/
def BINARY_FILE_WITH_ASCII_VALUES_LABEL : String := "BINARY_FILE_WITH_ASCII_VP"

/-- The call `fgets( cBuf, size, pInFile)` on what is left of a file without NUL
characters: `none` (a NULL result) at the end of the file; otherwise the characters up to
and including the next newline, but at most `size - 1` of them, and what is left after
them. -/
def fgets (size : Nat) (rest : List Char) : Option (List Char × List Char) :=
  if rest.isEmpty then none
  else
    some (rest.take (min ((rest.takeWhile (fun c => c != '\n')).length + 1) (size - 1)),
      rest.drop (min ((rest.takeWhile (fun c => c != '\n')).length + 1) (size - 1)))

/-- The test `strstr( line.c_str(), BINARY_FILE_WITH_ASCII_VALUES_LABEL.c_str())`. -/
def is_extended_header (line : List Char) : Bool :=
  decide (List.IsInfix BINARY_FILE_WITH_ASCII_VALUES_LABEL.data line)

/-- The statements `int nCR = buf.find_first_of( '\n'); if( nCR > 0) buf = buf.substr( 0, nCR);`. -/
def cut_at_newline (buf : List Char) : List Char :=
  if (buf.takeWhile (fun c => c != '\n')).length < buf.length ∧
      0 < (buf.takeWhile (fun c => c != '\n')).length
  then buf.take (buf.takeWhile (fun c => c != '\n')).length else buf

/-- One pass of the loop over the column lines of the header, after `fgets` has read the
line `sLine`: the label is the first tab-delimited field, the second field (the type) is
read and not used, and every further field is added to the dictionary of the column. -/
def read_column_line (ops : ColumnOps) (sLine : List Char) : Option Column_Info :=
  (getline_loop '\t' (sLine.length + 1)
      (((IStream.ofText sLine).getline '\t' []).1.getline '\t'
        ((IStream.ofText sLine).getline '\t' []).2).1 []).map
    (fun values => values.foldl
      (fun c buf => (ops.add_value { c with hasASCII := 1 } (String.mk (cut_at_newline buf))).1)
      { Column_Info.empty with label := String.mk ((IStream.ofText sLine).getline '\t' []).2 })

/-- The loop `for( int i=0; i<nColumns; i++)` over the column lines of the header; `count`
is the number of passes left.  Returns the status (1 when `fgets` finds the end of the
file), the columns and what is left of the file. -/
def column_lines_loop (ops : ColumnOps) (size : Nat) :
    Nat → List Char → List Column_Info → Option (Int × List Column_Info × List Char)
  | 0, rest, ci => some (0, ci, rest)
  | count + 1, rest, ci =>
    match fgets size rest with
    | none => some (1, ci, rest)
    | some (sLine, rest1) =>
      match read_column_line ops sLine with
      | none => none
      | some c => column_lines_loop ops size count rest1 (ci ++ [c])

/-- The branch of `read_binary_file_with_headers` for a header with ASCII values, from the
header line `line` that `fgets` has read to the sentinel column.  `rest` is what is left
of the file, `size` is `MAX_HEADER_LENGTH` and `parse_int` is the library extraction
`inpStream >> nColumns` (`none` when it fails, which leaves 0).  Returns the status, the
state and what is left of the file. -/
def read_extended_header (ops : ColumnOps) (parse_int : List Char → Option Int) (size : Nat)
    (line rest : List Char) (s : Data_File_Manager) :
    Option (Int × Data_File_Manager × List Char) :=
  match column_lines_loop ops size
      ((parse_int (((IStream.ofText line).getline '\t' []).1.getline '\t'
        ((IStream.ofText line).getline '\t' []).2).2).getD 0).toNat rest [] with
  | none => none
  | some (status, ci, rest1) =>
    if status ≠ 0 then some (1, { s with nvars := ci.length, column_info := ci }, rest1)
    else
      -- the test on column_info[nvars-1].label
      match (if ci.length = 0 then none else ci[ci.length - 1]?) with
      | none => none
      | some c =>
        some (0, { s with nvars := ci.length, column_info := ci ++ [nothing_column],
                          readSelectionInfo_ :=
                            if SELECTION_LABEL.data.isPrefixOf c.label.data then 1 else 0 },
          rest1)

/-! ## Header lines as the specification describes them: the binary header -/

/-- The fields of a line with a tab between them. -/
def tabbed : List (List Char) → List Char
  | [] => []
  | [f] => f
  | f :: g :: fs => f ++ '\t' :: tabbed (g :: fs)

/-- The line of the header for a column with the given label, type tag and values. -/
def column_line (c : List Char × List Char × List (List Char)) : List Char :=
  tabbed (c.1 :: c.2.1 :: c.2.2) ++ ['\n']

/-- The column that the header line of a label, a type tag and values describes: the
values are added to the dictionary in the order of the line. -/
def column_of (ops : ColumnOps) (c : List Char × List Char × List (List Char)) : Column_Info :=
  c.2.2.foldl (fun col v => (ops.add_value { col with hasASCII := 1 } (String.mk v)).1)
    { Column_Info.empty with label := String.mk c.1 }

/-- The lines of the header for the given columns, one after the other. -/
def column_lines : List (List Char × List Char × List (List Char)) → List Char
  | [] => []
  | c :: cs => column_line c ++ column_lines cs

/-- The columns of the header `labelA TFLOAT / labelB TSTRING foo bar`. -/
def example_columns : List (List Char × List Char × List (List Char)) :=
  [("labelA".data, "TFLOAT".data, []), ("labelB".data, "TSTRING".data, ["foo".data, "bar".data])]

/-- The library extraction of an `int` from a text that starts with decimal digits. -/
def leading_int (t : List Char) : Option Int :=
  if (t.takeWhile Char.isDigit).isEmpty then none
  else some (digits_value (t.takeWhile Char.isDigit) : Int)

/-- A stand-in for `gsl_cdf_ugaussian_Pinv` that has its sign: negative below 1/2, zero at
1/2 and positive above; the two other functions are not used with it. -/
def median_sign_math : MathFns :=
  { log10 := id
    sqrt := id
    Pinv := fun p =>
      match p with
      | Flt.fin q => if q < 1 / 2 then Flt.fin (-1) else if q = 1 / 2 then Flt.fin 0 else Flt.fin 1
      | _ => Flt.nan }

/-! ## The normalization menu (control_panel_window.cpp) -/

/-- The table `Control_Panel_Window::normalization_style_menu_items` without its
terminating entry: the text of each entry and the enumeration value that it carries as
user data. -/
def normalization_style_menu_items : List (String × Int) :=
  [("none", NORMALIZATION_NONE),
   ("minmax", NORMALIZATION_MINMAX),
   ("zeromax", NORMALIZATION_ZEROMAX),
   ("maxabs", NORMALIZATION_MAXABS),
   ("trim 1e-2", NORMALIZATION_TRIM_1E2),
   ("trim 1e-3", NORMALIZATION_TRIM_1E3),
   ("three sigma", NORMALIZATION_THREESIGMA),
   ("log_10", NORMALIZATION_LOG10),
   ("atanh", NORMALIZATION_SQUASH),
   ("rank", NORMALIZATION_RANK),
   ("partial rank", NORMALIZATION_PARTIAL_RANK),
   ("gaussianize", NORMALIZATION_GAUSSIANIZE)]

/-- The library call `Fl_Choice::value()` on a menu of which the entry at `position` is
chosen: the position of the entry. -/
def choice_value (position : Nat) : Int := (position : Int)

/-- The call `normalize( xpoints, x_rank, cp->x_normalization_style->value(), axis)` of
`plot_window::extract_data_points` when the entry at `position` of the normalization menu
is chosen. -/
def normalize_chosen (m : MathFns) (s : PlotState) (a : List Flt) (a_rank : List Nat)
    (position : Nat) (axis_index : Nat) : Option (Int × List Flt × PlotState) :=
  normalize m s a a_rank (choice_value position) axis_index

/-! ## A reader with a visible bad-value proxy -/

/-- An empty state whose bad-value proxy is -1. -/
def proxy_start : Data_File_Manager := { dataset [] 0 [] with bad_value_proxy_ := Flt.fin (-1) }

/-! ## A file with short lines -/

/-- An empty state with a test cycle of 2 lines and a threshold of 1 unreadable line. -/
def short_lines_start : Data_File_Manager :=
  { dataset [] 0 [] with MAX_NTESTCYCLES := 2, MAX_NUNREADABLELINES := 1 }

/-- The variables of the header loop after the label line of the file
`a b c / 1 2 3 / 4 5 / 6 7 / 8 9`. -/
def short_lines_header : HeaderState :=
  { inStream := IStream.ofText "1 2 3\n4 5\n6 7\n8 9\n".data
    line := "a b c".data
    lastHeaderLine := []
    nRead := 1
    nHeaderLines := 0 }

/-- The state after the labels and the types of the label line of that file have been
extracted. -/
def short_lines_labelled : Data_File_Manager :=
  { short_lines_start with
    nvars := 3
    column_info := [set_type (labelled_column "a") 1, set_type (labelled_column "b") 1,
      set_type (labelled_column "c") 1, nothing_column] }

/-! ## Traversal of the upper triangle (plot_window.cpp) -/

/-- The arguments `i` and `j` of `upper_triangle_incr` and its static variable `offset`. -/
structure TriangleState where
  i : Int
  j : Int
  offset : Int
  deriving DecidableEq

/-- The function `plot_window::upper_triangle_incr( i, j, nvars)`; `none` when one of its
four assertions fails. -/
def upper_triangle_incr (nvars : Int) (s : TriangleState) : Option TriangleState :=
  -- i++; j++; if( j > nvars-1) { i = 0; offset++; j = i+offset; }
  let s1 : TriangleState :=
    if s.j + 1 > nvars - 1 then { i := 0, j := 0 + (s.offset + 1), offset := s.offset + 1 }
    else { i := s.i + 1, j := s.j + 1, offset := s.offset }
  -- start all over if we need to
  let s2 : TriangleState := if s1.j > nvars - 1 then { i := 0, j := 1, offset := 1 } else s1
  if s2.i ≥ 0 ∧ s2.j > 0 ∧ s2.i < nvars - 1 ∧ s2.j < nvars then some s2 else none

/-- The state after `k` successive calls of `upper_triangle_incr`. -/
def upper_triangle_calls (nvars : Int) : Nat → TriangleState → Option TriangleState
  | 0, s => some s
  | k + 1, s => (upper_triangle_incr nvars s).bind (upper_triangle_calls nvars k)

/-- The state `(i, j) = (0, 1)` with `offset = 1`. -/
def triangle_start : TriangleState := { i := 0, j := 1, offset := 1 }

/-- The pairs `(i, i + off)` of one diagonal of an `nvars` by `nvars` matrix, from the top
left down and to the right. -/
def diagonal (nvars off : Nat) : List (Int × Int) :=
  (List.range (nvars - off)).map (fun (i : Nat) => ((i : Int), (i : Int) + (off : Int)))

/-- The pairs of the upper triangle by successive diagonals: first the diagonal next to
the main one, last the corner. -/
def diagonal_pairs (nvars : Nat) : List (Int × Int) :=
  (List.range' 1 (nvars - 1)).flatMap (diagonal nvars)

/-- The state in which `upper_triangle_incr` leaves the pair `p`. -/
def pair_state (p : Int × Int) : TriangleState := { i := p.1, j := p.2, offset := p.2 - p.1 }

/-! ## Deleting the selected points (plot_window.cpp) -/

/-- One plot window as `delete_selection` sees it: the variables on its axes as the menus
of its control panel hold them (`axis2 = nvars` stands for no third axis), its rank
arrays, and its flag `selection_changed`. -/
structure PlotAxes where
  axis0 : Nat
  axis1 : Nat
  axis2 : Nat
  x_rank : List Nat
  y_rank : List Nat
  z_rank : List Nat
  selection_changed : Bool
  deriving DecidableEq

/-- The static data of `plot_window` that `delete_selection` reads and writes, with the
plot windows `pws`; `points` holds one row of values for every variable. -/
structure PointsState where
  nvars : Int
  npoints : Int
  points : List (List Flt)
  selected : List Int
  previously_selected : List Int
  newly_selected : List Int
  nselected : Int
  ranked : List Int
  ranked_points : List (List Nat)
  pws : List PlotAxes
  deriving DecidableEq

/-- The assignment `points( NVARS, ipoint) = points( NVARS, n)`, where `NVARS` is the
range of the first `nvars` variables. -/
def copy_point (nvars : Nat) (points : List (List Flt)) (ipoint n : Nat) :
    Option (List (List Flt)) :=
  if nvars ≤ points.length ∧
      (points.take nvars).all (fun row => decide (ipoint < row.length ∧ n < row.length)) then
    some ((points.take nvars).map (fun row => row.set ipoint (row.getD n Flt.nan))
      ++ points.drop nvars)
  else none

/-- The loop `for( int n=0; n<npoints; n++)` of `delete_selection`; `count` is the number
of passes left.  Returns `ipoint` and the array `points`. -/
def delete_loop (nvars : Nat) (selected : List Int) :
    Nat → Nat → Nat → List (List Flt) → Option (Nat × List (List Flt))
  | 0, _, ipoint, points => some (ipoint, points)
  | count + 1, n, ipoint, points =>
    match selected[n]? with
    | none => none
    | some flag =>
      if flag = 0 then
        match copy_point nvars points ipoint n with
        | none => none
        | some points1 => delete_loop nvars selected count (n + 1) (ipoint + 1) points1
      else delete_loop nvars selected count (n + 1) ipoint points

/-- The call `pws[j]->redraw(); Fl::flush()` as far as the static data go: the plot is
drawn, and `draw` handles the selection when the flag `selection_changed` of the plot is
set.  `handle_selection` stands for that member function, which depends on the vertices
and the selection box of the plot. -/
def redraw_plot (handle_selection : Nat → PointsState → PointsState) (j : Nat)
    (s : PointsState) : Option PointsState :=
  match s.pws[j]? with
  | none => none
  | some pw => if pw.selection_changed then some (handle_selection j s) else some s

/-- The function `plot_window::redraw_all_plots( p)`. -/
def redraw_all_plots (handle_selection : Nat → PointsState → PointsState) (p : Nat)
    (s : PointsState) : Option PointsState :=
  (List.range s.pws.length).foldlM
    (fun (t : PointsState) (i : Nat) => redraw_plot handle_selection ((p + i) % s.pws.length) t) s

/-- The function `plot_window::clear_selection( o)`.  The selection boxes and the
textures, which it also resets, belong to the plots and are not part of the state. -/
def clear_selection (handle_selection : Nat → PointsState → PointsState) (s : PointsState) :
    Option PointsState :=
  -- pws[0]->color_array_from_selection() needs a first plot
  if s.pws.length = 0 then none
  else
    redraw_all_plots handle_selection 0
      { s with newly_selected := fillArray 0 s.newly_selected
               selected := fillArray 0 s.selected
               previously_selected := fillArray 0 s.previously_selected
               nselected := 0 }

/-- One call `compute_rank( points( axis, NPTS), rank, axis)` of `extract_data_points`,
with the reads of `rank( 0)` and `rank( npoints-1)` that follow it.  Returns the rank
array and the state. -/
def rank_axis (s : PointsState) (axis : Nat) (a_rank : List Nat) :
    Option (List Nat × PointsState) :=
  match s.points[axis]? with
  | none => none
  | some row =>
    match compute_rank { npoints := s.npoints, ranked := s.ranked,
                         ranked_points := s.ranked_points, wmin := [], wmax := [] }
        (row.take s.npoints.toNat) a_rank axis with
    | none => none
    | some (r, ps) =>
      if s.npoints < 1 then none
      else some (r, { s with ranked := ps.ranked, ranked_points := ps.ranked_points })

/-- The function `Control_Panel_Window::extract_and_redraw()` of the panel of plot `j`,
which calls `plot_window::extract_data_points()`, as far as the static data and the rank
arrays go: the axes of the plot are ranked.  The vertices, bounds, view and histograms
that the function then computes belong to the plot and are not part of the state. -/
def extract_data_points (j : Nat) (s : PointsState) : Option PointsState :=
  match s.pws[j]? with
  | none => none
  | some pw =>
    match rank_axis s pw.axis0 pw.x_rank with
    | none => none
    | some (xr, s1) =>
      match rank_axis s1 pw.axis1 pw.y_rank with
      | none => none
      | some (yr, s2) =>
        if (pw.axis2 : Int) ≠ s.nvars then
          match rank_axis s2 pw.axis2 pw.z_rank with
          | none => none
          | some (zr, s3) =>
            some { s3 with pws := s3.pws.set j { pw with x_rank := xr, y_rank := yr, z_rank := zr } }
        else some { s2 with pws := s2.pws.set j { pw with x_rank := xr, y_rank := yr } }

/-- The function `plot_window::delete_selection( o)`.  The slider `npoints_slider`, which
it also updates, is not part of the state. -/
def delete_selection (handle_selection : Nat → PointsState → PointsState) (s : PointsState) :
    Option PointsState :=
  match delete_loop s.nvars.toNat s.selected s.npoints.toNat 0 0 s.points with
  | none => none
  | some (ipoint, points) =>
    if (ipoint : Int) ≠ s.npoints then
      -- everyone's ranking needs to be recomputed
      match clear_selection handle_selection
          { s with points := points, ranked := fillArray 0 s.ranked, npoints := ipoint } with
      | none => none
      | some s1 =>
        (List.range s1.pws.length).foldlM
          (fun (t : PointsState) (j : Nat) => extract_data_points j t) s1
    else some { s with points := points }

/-- The variables on the axes of a plot. -/
def plot_axes (nvars : Int) (pw : PlotAxes) : List Nat :=
  if (pw.axis2 : Int) ≠ nvars then [pw.axis0, pw.axis1, pw.axis2] else [pw.axis0, pw.axis1]

/-- The points of the first `npoints` whose flag in `selected` is 0, in order. -/
def kept_points (selected : List Int) (npoints : Nat) : List Nat :=
  (List.range npoints).filter (fun n => decide (selected.getD n 1 = 0))

/-- One plot of the first two of three variables, with three points of which the second
is selected; the first two variables are ranked. -/
def three_points : PointsState :=
  { nvars := 3
    npoints := 3
    points := [[Flt.fin 5, Flt.fin 1, Flt.fin 3], [Flt.fin 10, Flt.fin 20, Flt.fin 30],
      [Flt.fin 7, Flt.fin 8, Flt.fin 9]]
    selected := [0, 1, 0]
    previously_selected := [0, 1, 0]
    newly_selected := [0, 1, 0]
    nselected := 1
    ranked := [1, 1, 0]
    ranked_points := [[1, 2, 0], [0, 1, 2], [0, 0, 0]]
    pws := [{ axis0 := 0, axis1 := 1, axis2 := 3, x_rank := [1, 2, 0], y_rank := [0, 1, 2],
              z_rank := [0, 0, 0], selection_changed := false }] }

/-- Two plots that share a variable: the first shows the variables 0 and 1, the second
the variables 1 and 2.  Of the four points the second is selected; all variables are
ranked. -/
def two_plots : PointsState :=
  { nvars := 3
    npoints := 4
    points := [[Flt.fin 5, Flt.fin 1, Flt.fin 3, Flt.fin 4],
      [Flt.fin 10, Flt.fin 20, Flt.fin 30, Flt.fin 5],
      [Flt.fin 7, Flt.fin 8, Flt.fin 9, Flt.fin 6]]
    selected := [0, 1, 0, 0]
    previously_selected := [0, 1, 0, 0]
    newly_selected := [0, 1, 0, 0]
    nselected := 1
    ranked := [1, 1, 1]
    ranked_points := [[1, 2, 3, 0], [3, 0, 1, 2], [3, 0, 1, 2]]
    pws := [{ axis0 := 0, axis1 := 1, axis2 := 3, x_rank := [1, 2, 3, 0],
              y_rank := [3, 0, 1, 2], z_rank := [0, 0, 0, 0], selection_changed := false },
            { axis0 := 1, axis1 := 2, axis2 := 3, x_rank := [3, 0, 1, 2],
              y_rank := [3, 0, 1, 2], z_rank := [0, 0, 0, 0], selection_changed := false }] }

/-- What the loop of `delete_selection` does to the row of one variable. -/
def compact_row (selected : List Int) : Nat → Nat → Nat → List Flt → List Flt
  | 0, _, _, row => row
  | count + 1, n, ipoint, row =>
    if selected.getD n 1 = 0 then
      compact_row selected count (n + 1) (ipoint + 1) (row.set ipoint (row.getD n Flt.nan))
    else compact_row selected count (n + 1) ipoint row

/-- The state `t` differs from `s0` only in the ranking and the rank arrays of the plots:
exactly the variables of `A` are marked ranked, and every row of the rank cache has the
length that it has in `s0`. -/
def ranked_on (s0 t : PointsState) (A : List Nat) : Prop :=
  t.nvars = s0.nvars ∧ t.npoints = s0.npoints ∧ t.points = s0.points ∧
  t.selected = s0.selected ∧ t.previously_selected = s0.previously_selected ∧
  t.newly_selected = s0.newly_selected ∧ t.nselected = s0.nselected ∧
  t.ranked.length = s0.ranked.length ∧ t.ranked_points.length = s0.ranked_points.length ∧
  (∀ v : Nat, (t.ranked_points[v]?).map List.length
    = (s0.ranked_points[v]?).map List.length) ∧
  (∀ v : Nat, v < s0.ranked.length → t.ranked[v]? = some (if v ∈ A then 1 else 0))

/-! ## The dictionary of a categorical column as the specification describes it -/

/-- The dictionary that gives each string of a list its position as code. -/
def coded_dictionary (keys : List String) : List (String × Int) :=
  keys.enum.map (fun p => (p.2, (p.1 : Int)))

/-- Modelled from the spec: the member function `Column_Info::ascii_value` of
`column_info.cpp`, which is not among the sources; it decodes a value of a categorical
column: the string that the dictionary of the column holds for the code, and the empty
string when it holds none. -/
def dictionary_ascii_value (c : Column_Info) (code : Int) : String :=
  match c.ascii_values_.find? (fun p => p.2 == code) with
  | some p => p.1
  | none => ""

/-- Modelled from the spec: the member function `Column_Info::update_ascii_values_and_data`
of `column_info.cpp` (`finalizeAsciiOrdering`), which is not among the sources; for a column
with ASCII values it re-sorts the dictionary alphabetically, gives every string its
position in this order as new code, and remaps each of the first `npoints` values of the
column: old code, string, new code.  It returns the number of strings; a column without
ASCII values is left as it is, with the result -1. -/
def dictionary_update (npoints : Int) (c : Column_Info) : Column_Info × Int :=
  if c.hasASCII = 0 then (c, -1)
  else
    let keys := stable_sort (fun a b : String => decide (a < b)) (c.ascii_values_.map (fun p => p.1))
    let recode : Flt → Flt := fun v =>
      match Flt.toInt? v with
      | none => v
      | some k =>
        match c.ascii_values_.find? (fun p => p.2 == k) with
        | none => v
        | some p => Flt.round32 (Flt.ofInt (keys.indexOf p.1))
    ({ c with ascii_values_ := coded_dictionary keys,
              points := c.points.enum.map (fun p =>
                if (p.1 : Int) < npoints then recode p.2 else p.2) },
     (keys.length : Int))

/-- Column operations with the dictionary of the specification: strings are encoded by
`add_value`, decoded by `ascii_value` and put in alphabetical order by
`update_ascii_values_and_data`. -/
def dictionary_coding : ColumnOps :=
  { dictionary_ops with update_ascii_values_and_data := dictionary_update
                        ascii_value := dictionary_ascii_value }

/-- The strings of a list in the order in which they first appear. -/
def first_seen (tokens : List String) : List String :=
  tokens.foldl (fun ks t => if t ∈ ks then ks else ks ++ [t]) []

/-! ## Lines of cells -/

/-- What one pass of the loop over the fields of a data line takes from the line: the
stream after the field, the number read and the word read, for the column `col` that the
field belongs to. -/
def field_read (io : NumIO) (s : Data_File_Manager) (col : Column_Info) (st : LineState) :
    IStream × Flt × List Char :=
  if s.delimiter_char_ = ' ' then
    let e := st.ss.extract st.sToken
    if col.hasASCII = 0 then (e.1, numeric_value io s.bad_value_proxy_ e.2 e.2, e.2)
    else (e.1, st.xValue, e.2)
  else
    let g := st.ss.getline s.delimiter_char_ []
    let buf := erase_trailing [' '] (erase_leading_blanks g.2)
    if buf.length ≤ 0 then (g.1, s.bad_value_proxy_, st.sToken)
    else if col.hasASCII = 0 then
      (g.1, numeric_value io s.bad_value_proxy_ buf ((IStream.ofText buf).extract []).2,
        st.sToken)
    else (g.1, st.xValue, ((IStream.ofText buf).extract st.sToken).2)

/-- Fields joined by the delimiter `d`. -/
def joined (d : Char) : List (List Char) → List Char
  | [] => []
  | [f] => f
  | f :: g :: fs => f ++ d :: joined d (g :: fs)

/-- A line of cells, each a word behind its padding.  With the whitespace delimiter the
padding separates the words; with a delimiter character the cells are joined by it. -/
def cells_line (d : Char) (ps : List (List Char × List Char)) : List Char :=
  if d = ' ' then spaced ps else joined d (ps.map (fun p => p.1 ++ p.2))

/-- Cells that the loop over the fields of a data line takes apart as they stand: with the
whitespace delimiter the pieces are well separated; with a delimiter character every
padding is made of blanks and every word is a non-empty string without whitespace and
without the delimiter. -/
def clean_cells (d : Char) (ps : List (List Char × List Char)) : Prop :=
  if d = ' ' then well_spaced ps
  else ∀ p ∈ ps, (∀ c ∈ p.1, c = ' ') ∧ p.2 ≠ [] ∧ ∀ c ∈ p.2, isspace c = false ∧ c ≠ d

/-- The column `col` after the word `w` of a data line has been stored in row `k`: the
number read from the word for a numeric column, the code of the word for a column with
ASCII values. -/
def store_cell (io : NumIO) (ops : ColumnOps) (proxy : Flt) (col : Column_Info) (k : Nat)
    (w : List Char) : Column_Info :=
  if col.hasASCII = 0 then store_value col k (Flt.round32 (numeric_value io proxy w w))
  else store_value (ops.add_value col (String.mk w)).1 k
    (Flt.round32 (Flt.ofInt (ops.add_value col (String.mk w)).2))

/-- The word that `extract_column_types` examines for a field of a line with a delimiter
character: the first word of the field without its leading and trailing blanks, and
`BAD_VALUE_PROXY` when nothing is left of the field. -/
def field_token (f tok : List Char) : List Char :=
  if (erase_trailing [' '] (erase_leading_blanks f)).length ≤ 0 then "BAD_VALUE_PROXY".data
  else ((IStream.ofText (erase_trailing [' '] (erase_leading_blanks f))).extract tok).2

/-- The words that `extract_column_types` examines for the fields of a line with a
delimiter character; `tok` is the word left by the field before. -/
def seen_tokens : List Char → List (List Char) → List (List Char)
  | _, [] => []
  | tok, f :: fs => field_token f tok :: seen_tokens (field_token f tok) fs

/-- The padding that the writer puts in front of cell `j` of a line: after the delimiter
one blank. -/
def cell_pad (d : Char) (j : Nat) : List Char :=
  if j = 0 then [] else if d = ' ' then [' ', ' '] else [' ']

/-- The cells of a written line of `L` cells with the words `w j`. -/
def record_cells (d : Char) (L : Nat) (w : Nat → List Char) : List (List Char × List Char) :=
  (List.range L).map (fun j => (cell_pad d j, w j))

/-- The lines `k, ..., k + m - 1` of `L` cells with the words `W i j`, each closed by a
newline. -/
def records_text (d : Char) (L : Nat) (W : Nat → Nat → List Char) (k m : Nat) : List Char :=
  ((List.range' k m).map (fun i => cells_line d (record_cells d L (W i)) ++ ['\n'])).flatten

/-- A word that the reader finds again in a cell of a data line: not empty, without
whitespace and without the delimiter. -/
def clean_word (d : Char) (w : List Char) : Prop :=
  w ≠ [] ∧ ∀ c ∈ w, isspace c = false ∧ c ≠ d

/-- The column `c` after the words `w 0`, ..., `w (k - 1)` have been stored in its rows
`0`, ..., `k - 1`. -/
def filled (io : NumIO) (ops : ColumnOps) (proxy : Flt) (c : Column_Info)
    (w : Nat → List Char) : Nat → Column_Info
  | 0 => c
  | k + 1 => store_cell io ops proxy (filled io ops proxy c w k) k (w k)

/-- Column `i` of the reader after `k` data lines with the words `W r i`, from the columns
`G` that the label step has set up: the first line sets the type of the column, and every
line stores its word if the column is one of the `nd` data columns. -/
def column_after (io : NumIO) (ops : ColumnOps) (proxy : Flt) (nd : Nat)
    (G : Nat → Column_Info) (W : Nat → Nat → List Char) (k i : Nat) : Column_Info :=
  if k = 0 then G i
  else if i < nd then
    filled io ops proxy (set_type (G i) (word_type io (W 0 i))) (fun r => W r i) k
  else set_type (G i) (word_type io (W 0 i))
/-- A column at the end of the reader: the ASCII values are put in order and the buffer is
cut to the `n` rows read. -/
def finished (ops : ColumnOps) (n : Nat) (c : Column_Info) : Column_Info :=
  { (ops.update_ascii_values_and_data (n : Int) c).1 with
      points := resizeAndPreserve Flt.zero
        (ops.update_ascii_values_and_data (n : Int) c).1.points (n : Int) }
/-- The columns at the start of the data loop: the buffers of the `nd` data columns have
room for `cap` values. -/
def with_room (cap nd : Nat) (G : Nat → Column_Info) (i : Nat) : Column_Info :=
  if i < nd then { G i with points := resize Flt.zero (G i).points (cap : Int) } else G i

/-- The padding that the writer puts in front of label `j`, of `len` characters, after
the characters `first` at the start of the line: the fill of `setw( 12)` for the first
label, and the delimiter, a blank and the fill of `setw( 13)` for the others. -/
def label_pad (d : Char) (first : List Char) (j len : Nat) : List Char :=
  if j = 0 then first ++ List.replicate (12 - len) ' '
  else cell_pad d j ++ List.replicate (13 - len) ' '

/-- The cells of the written line of the `L` labels `lab j`. -/
def label_cells (d : Char) (first : List Char) (L : Nat) (lab : Nat → String) :
    List (List Char × List Char) :=
  (List.range L).map (fun j => (label_pad d first j (lab j).data.length, (lab j).data))

/-- A label that the reader finds again on a written label line: it is not empty and has
neither the delimiter nor a newline; with the whitespace delimiter it has no whitespace,
and with a delimiter character it does not begin or end with a blank. -/
def clean_label_for (d : Char) (label : String) : Prop :=
  label.data ≠ [] ∧ (∀ c ∈ label.data, c ≠ d ∧ c ≠ '\n') ∧
  if d = ' ' then ∀ c ∈ label.data, isspace c = false
  else (∀ c ∈ label.data.head?, c ≠ ' ') ∧ (∀ c ∈ label.data.getLast?, c ≠ ' ')

/-- The first word of a text: the characters after the leading whitespace up to the next
whitespace. -/
def first_word (t : List Char) : List Char :=
  (t.dropWhile isspace).takeWhile (fun c => !isspace c)
/-- The column with the label `label` at the start of the data loop: the buffer has room
for `cap` values and the type is `ty`. -/
def start_column (cap : Nat) (label : String) (ty : Int) : Column_Info :=
  { labelled_column label with points := resize Flt.zero [] (cap : Int), hasASCII := ty }

/-- The text of a written file: the line with the file name, the line of the labels
`lab j`, commented or not, and `n` lines of `L` cells with the words `W i j`. -/
def file_text (name : List Char) (commented : Bool) (d : Char) (L : Nat) (lab : Nat → String)
    (W : Nat → Nat → List Char) (n : Nat) : List Char :=
  "! File Name: ".data ++ name ++ ['\n']
    ++ ((if commented then '!' else ' ') :: cells_line d (label_cells d [] L lab) ++ ['\n'])
    ++ records_text d L W 0 n

/-- The text that the writer emits for row `i` of the column `c`: the number for a numeric
column, the decoded string for a column with ASCII values. -/
def cell_word (io : NumIO) (ops : ColumnOps) (c : Column_Info) (i : Nat) : List Char :=
  if c.hasASCII = 0 then io.show_float (c.points.getD i Flt.nan)
  else ((Flt.toInt? (c.points.getD i Flt.nan)).map (fun k => (ops.ascii_value c k).data)).getD []

/-- The word in cell `j` of the line that the writer emits for row `i`: the cell of column
`j`, and after the columns the selection flag of the row. -/
def written_word (io : NumIO) (ops : ColumnOps) (s : Data_File_Manager)
    (cols : List Column_Info) (i j : Nat) : List Char :=
  if j < cols.length then cell_word io ops (cols.getD j Column_Info.empty) i
  else show_int (s.selected.getD i 0)

/-- The label in cell `j` of the label line that the writer emits: the label of column
`j`, and after the columns the label of the selection information. -/
def written_label (cols : List Column_Info) (j : Nat) : String :=
  if j < cols.length then label_at cols j else SELECTION_LABEL

/-- The number of cells in a line that the writer emits. -/
def written_count (s : Data_File_Manager) (cols : List Column_Info) : Nat :=
  if s.writeSelectionInfo_ ≠ 0 then cols.length + 1 else cols.length

/-! ## Theorems -/

/-! ### Rounding -/

theorem halvings_spec : ∀ (fuel n : Nat), 1 ≤ n → n ≤ fuel →
    2 ^ Flt.halvings fuel n ≤ n ∧ n < 2 ^ (Flt.halvings fuel n + 1) := by
  intro fuel
  induction fuel with
  | zero =>
    intro n h1 h2
    omega
  | succ f ih =>
    intro n h1 h2
    rw [Flt.halvings]
    by_cases h : 2 ≤ n
    · rw [if_pos h]
      obtain ⟨i1, i2⟩ := ih (n / 2) (by omega) (by omega)
      constructor
      · rw [pow_succ]
        omega
      · rw [pow_succ]
        omega
    · rw [if_neg h]
      have : n = 1 := by omega
      subst this
      simp

theorem nat_log2_spec (n : Nat) (h : 1 ≤ n) :
    2 ^ Flt.nat_log2 n ≤ n ∧ n < 2 ^ (Flt.nat_log2 n + 1) :=
  halvings_spec n n h (le_refl n)

/-- The exponent `ilog2 q` is the one of the binade of `q`. -/
theorem ilog2_spec (q : ℚ) (hq : 0 < q) :
    (2 : ℚ) ^ Flt.ilog2 q ≤ q ∧ q < (2 : ℚ) ^ (Flt.ilog2 q + 1) := by
  have hnum : 0 < q.num := Rat.num_pos.mpr hq
  have hden : 0 < q.den := q.den_pos
  obtain ⟨a1, a2⟩ := nat_log2_spec q.num.natAbs (by omega)
  obtain ⟨b1, b2⟩ := nat_log2_spec q.den (by omega)
  have hqa : q = (q.num.natAbs : ℚ) / (q.den : ℚ) := by
    have h1 : ((q.num.natAbs : Int) : ℚ) = (q.num : ℚ) := by
      rw [Int.natAbs_of_nonneg hnum.le]
    rw [← Int.cast_natCast, h1, Rat.num_div_den]
  have hdq : (0 : ℚ) < (q.den : ℚ) := by exact_mod_cast hden
  have ha1 : (2 : ℚ) ^ (Flt.nat_log2 q.num.natAbs : Int) ≤ (q.num.natAbs : ℚ) := by
    rw [zpow_natCast]
    exact_mod_cast a1
  have ha2 : (q.num.natAbs : ℚ) < (2 : ℚ) ^ ((Flt.nat_log2 q.num.natAbs : Int) + 1) := by
    rw [show ((Flt.nat_log2 q.num.natAbs : Int) + 1) = ((Flt.nat_log2 q.num.natAbs + 1 : Nat) : Int)
      from by push_cast; rfl, zpow_natCast]
    exact_mod_cast a2
  have hb1 : (2 : ℚ) ^ (Flt.nat_log2 q.den : Int) ≤ (q.den : ℚ) := by
    rw [zpow_natCast]
    exact_mod_cast b1
  have hb2 : (q.den : ℚ) < (2 : ℚ) ^ ((Flt.nat_log2 q.den : Int) + 1) := by
    rw [show ((Flt.nat_log2 q.den : Int) + 1) = ((Flt.nat_log2 q.den + 1 : Nat) : Int)
      from by push_cast; rfl, zpow_natCast]
    exact_mod_cast b2
  have h2 : (0 : ℚ) < 2 := by norm_num
  have hlow : (2 : ℚ) ^ ((Flt.nat_log2 q.num.natAbs : Int) - (Flt.nat_log2 q.den : Int) - 1)
      ≤ q := by
    have hx : (2 : ℚ) ^ ((Flt.nat_log2 q.num.natAbs : Int) - (Flt.nat_log2 q.den : Int) - 1)
        = (2 : ℚ) ^ (Flt.nat_log2 q.num.natAbs : Int)
          / (2 : ℚ) ^ ((Flt.nat_log2 q.den : Int) + 1) := by
      rw [← zpow_sub₀ (by norm_num : (2 : ℚ) ≠ 0)]
      congr 1
      ring
    have hpos2 : (0 : ℚ) < (2 : ℚ) ^ ((Flt.nat_log2 q.den : Int) + 1) := zpow_pos h2 _
    have hpos1 : (0 : ℚ) ≤ (2 : ℚ) ^ (Flt.nat_log2 q.num.natAbs : Int) := (zpow_pos h2 _).le
    have key : (2 : ℚ) ^ (Flt.nat_log2 q.num.natAbs : Int)
        / (2 : ℚ) ^ ((Flt.nat_log2 q.den : Int) + 1) ≤ (q.num.natAbs : ℚ) / (q.den : ℚ) := by
      rw [div_le_div_iff₀ hpos2 hdq]
      nlinarith
    calc (2 : ℚ) ^ ((Flt.nat_log2 q.num.natAbs : Int) - (Flt.nat_log2 q.den : Int) - 1)
        = _ := hx
      _ ≤ (q.num.natAbs : ℚ) / (q.den : ℚ) := key
      _ = q := hqa.symm
  have hhigh : q < (2 : ℚ) ^ ((Flt.nat_log2 q.num.natAbs : Int) - (Flt.nat_log2 q.den : Int) + 1) := by
    have hx : (2 : ℚ) ^ ((Flt.nat_log2 q.num.natAbs : Int) - (Flt.nat_log2 q.den : Int) + 1)
        = (2 : ℚ) ^ ((Flt.nat_log2 q.num.natAbs : Int) + 1)
          / (2 : ℚ) ^ (Flt.nat_log2 q.den : Int) := by
      rw [← zpow_sub₀ (by norm_num : (2 : ℚ) ≠ 0)]
      congr 1
      ring
    have hpos2 : (0 : ℚ) < (2 : ℚ) ^ (Flt.nat_log2 q.den : Int) := zpow_pos h2 _
    have hnn : (0 : ℚ) ≤ (q.num.natAbs : ℚ) := by positivity
    have key : (q.num.natAbs : ℚ) / (q.den : ℚ) < (2 : ℚ) ^ ((Flt.nat_log2 q.num.natAbs : Int) + 1)
        / (2 : ℚ) ^ (Flt.nat_log2 q.den : Int) := by
      rw [div_lt_div_iff₀ hdq hpos2]
      nlinarith
    calc q = (q.num.natAbs : ℚ) / (q.den : ℚ) := hqa
      _ < _ := key
      _ = _ := hx.symm
  unfold Flt.ilog2
  by_cases hc : (2 : ℚ) ^ ((Flt.nat_log2 q.num.natAbs : Int) - (Flt.nat_log2 q.den : Int)) ≤ q
  · rw [if_pos hc]
    exact ⟨hc, hhigh⟩
  · rw [if_neg hc]
    refine ⟨hlow, ?_⟩
    rw [sub_add_cancel]
    exact lt_of_not_le hc

/-- The exponent of the binade is determined by the binade. -/
theorem ilog2_eq (q : ℚ) (e : Int) (h1 : (2 : ℚ) ^ e ≤ q) (h2 : q < (2 : ℚ) ^ (e + 1)) :
    Flt.ilog2 q = e := by
  have h0 : (0 : ℚ) < q := lt_of_lt_of_le (zpow_pos (by norm_num) _) h1
  obtain ⟨s1, s2⟩ := ilog2_spec q h0
  have a : (2 : ℚ) ^ e < (2 : ℚ) ^ (Flt.ilog2 q + 1) := lt_of_le_of_lt h1 s2
  have b : (2 : ℚ) ^ Flt.ilog2 q < (2 : ℚ) ^ (e + 1) := lt_of_le_of_lt s1 h2
  have a1 := (zpow_lt_zpow_iff_right₀ (by norm_num : (1 : ℚ) < 2)).mp a
  have b1 := (zpow_lt_zpow_iff_right₀ (by norm_num : (1 : ℚ) < 2)).mp b
  omega

theorem ilog2_mono (q r : ℚ) (hq : 0 < q) (h : q ≤ r) : Flt.ilog2 q ≤ Flt.ilog2 r := by
  obtain ⟨s1, _⟩ := ilog2_spec q hq
  obtain ⟨_, t2⟩ := ilog2_spec r (lt_of_lt_of_le hq h)
  have a : (2 : ℚ) ^ Flt.ilog2 q < (2 : ℚ) ^ (Flt.ilog2 r + 1) :=
    lt_of_le_of_lt (le_trans s1 h) t2
  have a1 := (zpow_lt_zpow_iff_right₀ (by norm_num : (1 : ℚ) < 2)).mp a
  omega

theorem round_half_even_cases (x : ℚ) :
    Flt.round_half_even x = ⌊x⌋ ∨ Flt.round_half_even x = ⌊x⌋ + 1 := by
  unfold Flt.round_half_even
  split
  · exact Or.inl rfl
  · split
    · exact Or.inr rfl
    · split
      · exact Or.inl rfl
      · exact Or.inr rfl

theorem round_half_even_int (n : Int) : Flt.round_half_even (n : ℚ) = n := by
  unfold Flt.round_half_even
  rw [Int.floor_intCast, sub_self, mul_zero, if_pos (by norm_num)]

theorem round_half_even_mono (x y : ℚ) (h : x ≤ y) :
    Flt.round_half_even x ≤ Flt.round_half_even y := by
  have hf : ⌊x⌋ ≤ ⌊y⌋ := Int.floor_le_floor h
  rcases lt_or_eq_of_le hf with hlt | heq
  · rcases round_half_even_cases x with hx | hx <;>
      rcases round_half_even_cases y with hy | hy <;> omega
  · unfold Flt.round_half_even
    rw [heq]
    have hd : x - (⌊y⌋ : ℚ) ≤ y - (⌊y⌋ : ℚ) := by linarith
    by_cases c1 : 2 * (y - (⌊y⌋ : ℚ)) < 1
    · rw [if_pos c1, if_pos (by linarith)]
    · rw [if_neg c1]
      by_cases c2 : 1 < 2 * (y - (⌊y⌋ : ℚ))
      · rw [if_pos c2]
        split
        · omega
        · split
          · omega
          · split <;> omega
      · rw [if_neg c2]
        by_cases d1 : 2 * (x - (⌊y⌋ : ℚ)) < 1
        · rw [if_pos d1]
          split <;> omega
        · rw [if_neg d1, if_neg (by linarith)]

theorem round_half_even_near (x : ℚ) :
    x - 1 / 2 ≤ (Flt.round_half_even x : ℚ) ∧ (Flt.round_half_even x : ℚ) ≤ x + 1 / 2 := by
  have h1 := Int.floor_le x
  have h2 := Int.lt_floor_add_one x
  unfold Flt.round_half_even
  by_cases c1 : 2 * (x - (⌊x⌋ : ℚ)) < 1
  · rw [if_pos c1]
    constructor <;> linarith
  · rw [if_neg c1]
    by_cases c2 : 1 < 2 * (x - (⌊x⌋ : ℚ))
    · rw [if_pos c2]
      push_cast
      constructor <;> linarith
    · rw [if_neg c2]
      split
      · constructor <;> linarith
      · push_cast
        constructor <;> linarith


theorem round_half_even_nonneg (x : ℚ) (h : 0 ≤ x) : 0 ≤ Flt.round_half_even x := by
  have := round_half_even_mono 0 x h
  have h0 : Flt.round_half_even (0 : ℚ) = 0 := by
    have := round_half_even_int 0
    simpa using this
  omega

theorem ulp_pos (p : Nat) (emin : Int) (q : ℚ) : 0 < Flt.ulp p emin q :=
  zpow_pos (by norm_num) _

theorem two_zpow_natCast (n : Nat) : (2 : ℚ) ^ (n : Int) = (((2 : Int) ^ n : Int) : ℚ) := by
  rw [zpow_natCast]
  push_cast
  rfl

/-- The rounded value does not decrease when the positive argument increases. -/
theorem round_pos_value_mono (p : Nat) (emin : Int) (q r : ℚ) (hp : 1 ≤ p) (hq : 0 < q)
    (h : q ≤ r) :
    (Flt.round_half_even (q / Flt.ulp p emin q) : ℚ) * Flt.ulp p emin q
      ≤ (Flt.round_half_even (r / Flt.ulp p emin r) : ℚ) * Flt.ulp p emin r := by
  have hr : 0 < r := lt_of_lt_of_le hq h
  have hlog := ilog2_mono q r hq h
  have he : max (Flt.ilog2 q) emin ≤ max (Flt.ilog2 r) emin := max_le_max hlog (le_refl _)
  have h2 : (2 : ℚ) ≠ 0 := by norm_num
  rcases lt_or_eq_of_le he with hlt | heq
  · -- different binades: a power of two lies in between
    have hr2 : max (Flt.ilog2 r) emin = Flt.ilog2 r := by
      apply max_eq_left
      by_contra hc
      have : max (Flt.ilog2 r) emin = emin := max_eq_right (by omega)
      have := le_max_right (Flt.ilog2 q) emin
      omega
    have huq := ulp_pos p emin q
    have hur := ulp_pos p emin r
    -- the lower value is at most 2^(e+1)
    have hq1 : q < (2 : ℚ) ^ (max (Flt.ilog2 q) emin + 1) := by
      refine lt_of_lt_of_le (ilog2_spec q hq).2 ?_
      apply zpow_le_zpow_right₀ (by norm_num)
      have := le_max_left (Flt.ilog2 q) emin
      omega
    have hdiv1 : (2 : ℚ) ^ (max (Flt.ilog2 q) emin + 1) / Flt.ulp p emin q = (2 : ℚ) ^ (p : Int) := by
      unfold Flt.ulp
      rw [← zpow_sub₀ h2]
      congr 1
      ring
    have hle1 : Flt.round_half_even (q / Flt.ulp p emin q) ≤ (2 : Int) ^ p := by
      have hm := round_half_even_mono (q / Flt.ulp p emin q)
        ((2 : ℚ) ^ (max (Flt.ilog2 q) emin + 1) / Flt.ulp p emin q)
        (div_le_div_of_nonneg_right hq1.le huq.le)
      rw [hdiv1, two_zpow_natCast, round_half_even_int] at hm
      exact hm
    have hb1 : (Flt.round_half_even (q / Flt.ulp p emin q) : ℚ) * Flt.ulp p emin q
        ≤ (2 : ℚ) ^ (max (Flt.ilog2 q) emin + 1) := by
      have hc : (Flt.round_half_even (q / Flt.ulp p emin q) : ℚ) ≤ (2 : ℚ) ^ (p : Int) := by
        rw [two_zpow_natCast]
        exact_mod_cast hle1
      calc (Flt.round_half_even (q / Flt.ulp p emin q) : ℚ) * Flt.ulp p emin q
          ≤ (2 : ℚ) ^ (p : Int) * Flt.ulp p emin q := mul_le_mul_of_nonneg_right hc huq.le
        _ = (2 : ℚ) ^ (max (Flt.ilog2 q) emin + 1) := by
          unfold Flt.ulp
          rw [← zpow_add₀ h2]
          congr 1
          ring
    -- the upper value is at least 2^e'
    have hr1 : (2 : ℚ) ^ (max (Flt.ilog2 r) emin) ≤ r := by
      rw [hr2]
      exact (ilog2_spec r hr).1
    have hp1 : ((p : Int) - 1) = ((p - 1 : Nat) : Int) := by omega
    have hdiv2 : (2 : ℚ) ^ (max (Flt.ilog2 r) emin) / Flt.ulp p emin r
        = (2 : ℚ) ^ ((p - 1 : Nat) : Int) := by
      unfold Flt.ulp
      rw [← zpow_sub₀ h2, ← hp1]
      congr 1
      ring
    have hle2 : (2 : Int) ^ (p - 1) ≤ Flt.round_half_even (r / Flt.ulp p emin r) := by
      have hm := round_half_even_mono
        ((2 : ℚ) ^ (max (Flt.ilog2 r) emin) / Flt.ulp p emin r) (r / Flt.ulp p emin r)
        (div_le_div_of_nonneg_right hr1 hur.le)
      rw [hdiv2, two_zpow_natCast, round_half_even_int] at hm
      exact hm
    have hb2 : (2 : ℚ) ^ (max (Flt.ilog2 r) emin)
        ≤ (Flt.round_half_even (r / Flt.ulp p emin r) : ℚ) * Flt.ulp p emin r := by
      have hc : (2 : ℚ) ^ ((p - 1 : Nat) : Int)
          ≤ (Flt.round_half_even (r / Flt.ulp p emin r) : ℚ) := by
        rw [two_zpow_natCast]
        exact_mod_cast hle2
      calc (2 : ℚ) ^ (max (Flt.ilog2 r) emin)
          = (2 : ℚ) ^ ((p - 1 : Nat) : Int) * Flt.ulp p emin r := by
            unfold Flt.ulp
            rw [← zpow_add₀ h2, ← hp1]
            congr 1
            ring
        _ ≤ (Flt.round_half_even (r / Flt.ulp p emin r) : ℚ) * Flt.ulp p emin r :=
            mul_le_mul_of_nonneg_right hc hur.le
    have hmid : (2 : ℚ) ^ (max (Flt.ilog2 q) emin + 1) ≤ (2 : ℚ) ^ (max (Flt.ilog2 r) emin) :=
      zpow_le_zpow_right₀ (by norm_num) (by omega)
    exact le_trans hb1 (le_trans hmid hb2)
  · -- the same binade
    have hu : Flt.ulp p emin r = Flt.ulp p emin q := by
      unfold Flt.ulp
      rw [heq]
    rw [hu]
    have huq := ulp_pos p emin q
    apply mul_le_mul_of_nonneg_right _ huq.le
    have := round_half_even_mono (q / Flt.ulp p emin q) (r / Flt.ulp p emin q)
      (div_le_div_of_nonneg_right h huq.le)
    exact_mod_cast this

theorem round_pos_mono (p : Nat) (emin emax : Int) (q r : ℚ) (hp : 1 ≤ p) (hq : 0 < q)
    (h : q ≤ r) (R : ℚ) (hR : Flt.round_pos p emin emax r = some R) :
    ∃ Q, Flt.round_pos p emin emax q = some Q ∧ Q ≤ R := by
  have hv := round_pos_value_mono p emin q r hp hq h
  unfold Flt.round_pos at hR ⊢
  by_cases c : (Flt.round_half_even (r / Flt.ulp p emin r) : ℚ) * Flt.ulp p emin r
      < 2 ^ (emax + 1)
  · rw [if_pos c] at hR
    rw [if_pos (lt_of_le_of_lt hv c)]
    cases hR
    exact ⟨_, rfl, hv⟩
  · rw [if_neg c] at hR
    cases hR

theorem round_pos_nonneg (p : Nat) (emin emax : Int) (q R : ℚ) (hq : 0 < q)
    (hR : Flt.round_pos p emin emax q = some R) : 0 ≤ R := by
  unfold Flt.round_pos at hR
  split at hR
  · cases hR
    apply mul_nonneg _ (ulp_pos p emin q).le
    have := round_half_even_nonneg (q / Flt.ulp p emin q) (div_nonneg hq.le (ulp_pos p emin q).le)
    exact_mod_cast this
  · cases hR

/-- A number `M * 2^k` with `M < 2^p` and `k` not below the smallest exponent of the format
is not changed by the rounding. -/
theorem round_pos_exact (p : Nat) (emin emax : Int) (M : Nat) (k : Int) (hM : 0 < M)
    (hMp : M < 2 ^ p) (hk : emin - ((p : Int) - 1) ≤ k)
    (hmax : (M : ℚ) * (2 : ℚ) ^ k < (2 : ℚ) ^ (emax + 1)) :
    Flt.round_pos p emin emax ((M : ℚ) * (2 : ℚ) ^ k) = some ((M : ℚ) * (2 : ℚ) ^ k) := by
  have h2 : (2 : ℚ) ≠ 0 := by norm_num
  have hq : (0 : ℚ) < (M : ℚ) * (2 : ℚ) ^ k :=
    mul_pos (by exact_mod_cast hM) (zpow_pos (by norm_num) _)
  have hlog : Flt.ilog2 ((M : ℚ) * (2 : ℚ) ^ k) < (p : Int) + k := by
    have s1 := (ilog2_spec _ hq).1
    have hlt : (M : ℚ) * (2 : ℚ) ^ k < (2 : ℚ) ^ ((p : Int) + k) := by
      rw [zpow_add₀ h2]
      apply mul_lt_mul_of_pos_right _ (zpow_pos (by norm_num) _)
      rw [zpow_natCast]
      exact_mod_cast hMp
    exact (zpow_lt_zpow_iff_right₀ (by norm_num : (1 : ℚ) < 2)).mp (lt_of_le_of_lt s1 hlt)
  have ht : max (Flt.ilog2 ((M : ℚ) * (2 : ℚ) ^ k)) emin - ((p : Int) - 1) ≤ k := by
    rcases max_cases (Flt.ilog2 ((M : ℚ) * (2 : ℚ) ^ k)) emin with ⟨hm, _⟩ | ⟨hm, _⟩ <;>
      rw [hm] <;> omega
  obtain ⟨d, hd⟩ : ∃ d : Nat, k = max (Flt.ilog2 ((M : ℚ) * (2 : ℚ) ^ k)) emin
      - ((p : Int) - 1) + (d : Int) :=
    ⟨(k - (max (Flt.ilog2 ((M : ℚ) * (2 : ℚ) ^ k)) emin - ((p : Int) - 1))).toNat, by omega⟩
  have hu : Flt.ulp p emin ((M : ℚ) * (2 : ℚ) ^ k) * (2 : ℚ) ^ (d : Int) = (2 : ℚ) ^ k := by
    unfold Flt.ulp
    rw [← zpow_add₀ h2, ← hd]
  have hup := ulp_pos p emin ((M : ℚ) * (2 : ℚ) ^ k)
  have hdiv : (M : ℚ) * (2 : ℚ) ^ k / Flt.ulp p emin ((M : ℚ) * (2 : ℚ) ^ k)
      = (((M * 2 ^ d : Nat) : Int) : ℚ) := by
    rw [div_eq_iff hup.ne']
    calc (M : ℚ) * (2 : ℚ) ^ k
        = (M : ℚ) * (Flt.ulp p emin ((M : ℚ) * (2 : ℚ) ^ k) * (2 : ℚ) ^ (d : Int)) := by rw [hu]
      _ = (((M * 2 ^ d : Nat) : Int) : ℚ) * Flt.ulp p emin ((M : ℚ) * (2 : ℚ) ^ k) := by
          push_cast
          rw [zpow_natCast]
          ring
  unfold Flt.round_pos
  rw [hdiv, round_half_even_int, ← hdiv, div_mul_cancel₀ _ hup.ne', if_pos hmax]


theorem le_fin_iff (a b : ℚ) : Flt.le (Flt.fin a) (Flt.fin b) = true ↔ a ≤ b := by
  simp only [Flt.le, Flt.lt, Flt.feq, Bool.or_eq_true, decide_eq_true_eq]
  exact le_iff_lt_or_eq.symm

theorem round_to_fin (p : Nat) (emin emax : Int) (q : ℚ) :
    Flt.round_to p emin emax (Flt.fin q) =
      if q = 0 then Flt.fin 0
      else if 0 < q then
        match Flt.round_pos p emin emax q with
        | some r => Flt.fin r
        | none => Flt.pinf
      else
        match Flt.round_pos p emin emax (-q) with
        | some r => Flt.fin (-r)
        | none => Flt.ninf := rfl

/-- Rounding to a binary format does not reverse the order of two numbers. -/
theorem round_to_mono (p : Nat) (emin emax : Int) (q r : ℚ) (hp : 1 ≤ p) (h : q ≤ r) :
    Flt.le (Flt.round_to p emin emax (Flt.fin q)) (Flt.round_to p emin emax (Flt.fin r))
      = true := by
  rw [round_to_fin, round_to_fin]
  by_cases hq0 : q = 0
  · -- from zero
    rw [if_pos hq0]
    by_cases hr0 : r = 0
    · rw [if_pos hr0]
      exact (le_fin_iff 0 0).mpr (le_refl 0)
    · have hrpos : 0 < r := lt_of_le_of_ne (hq0 ▸ h) (Ne.symm hr0)
      rw [if_neg hr0, if_pos hrpos]
      cases hR : Flt.round_pos p emin emax r with
      | none => rfl
      | some R => exact (le_fin_iff 0 R).mpr (round_pos_nonneg p emin emax r R hrpos hR)
  · rw [if_neg hq0]
    by_cases hqpos : 0 < q
    · -- both positive
      have hrpos : 0 < r := lt_of_lt_of_le hqpos h
      rw [if_pos hqpos, if_neg hrpos.ne', if_pos hrpos]
      cases hR : Flt.round_pos p emin emax r with
      | none =>
        cases Flt.round_pos p emin emax q <;> rfl
      | some R =>
        obtain ⟨Q, hQ, hQR⟩ := round_pos_mono p emin emax q r hp hqpos h R hR
        rw [hQ]
        exact (le_fin_iff Q R).mpr hQR
    · -- a negative number on the left
      rw [if_neg hqpos]
      have hqneg : q < 0 := lt_of_le_of_ne (not_lt.mp hqpos) hq0
      have hnq : 0 < -q := by linarith
      by_cases hr0 : r = 0
      · rw [if_pos hr0]
        cases hQ : Flt.round_pos p emin emax (-q) with
        | none => rfl
        | some Q =>
          have := round_pos_nonneg p emin emax (-q) Q hnq hQ
          exact (le_fin_iff (-Q) 0).mpr (by linarith)
      · rw [if_neg hr0]
        by_cases hrpos : 0 < r
        · rw [if_pos hrpos]
          cases hQ : Flt.round_pos p emin emax (-q) with
          | none =>
            cases Flt.round_pos p emin emax r <;> rfl
          | some Q =>
            have hQ0 := round_pos_nonneg p emin emax (-q) Q hnq hQ
            cases hR : Flt.round_pos p emin emax r with
            | none => rfl
            | some R =>
              have hR0 := round_pos_nonneg p emin emax r R hrpos hR
              exact (le_fin_iff (-Q) R).mpr (by linarith)
        · rw [if_neg hrpos]
          have hrneg : r < 0 := lt_of_le_of_ne (not_lt.mp hrpos) hr0
          have hnr : 0 < -r := by linarith
          cases hQ : Flt.round_pos p emin emax (-q) with
          | none =>
            cases Flt.round_pos p emin emax (-r) <;> rfl
          | some Q =>
            obtain ⟨R, hR, hRQ⟩ := round_pos_mono p emin emax (-r) (-q) hp hnr (by linarith) Q hQ
            rw [hR]
            exact (le_fin_iff (-Q) (-R)).mpr (by linarith)

/-- Rounding commutes with the change of sign. -/
theorem round_to_neg (p : Nat) (emin emax : Int) (x : Flt) :
    Flt.round_to p emin emax (Flt.neg x) = Flt.neg (Flt.round_to p emin emax x) := by
  cases x with
  | fin q =>
    simp only [Flt.neg, round_to_fin]
    by_cases hq0 : q = 0
    · rw [if_pos hq0, if_pos (by rw [hq0]; simp)]
      simp [Flt.neg]
    · rw [if_neg hq0, if_neg (by simpa using hq0)]
      by_cases hqpos : 0 < q
      · rw [if_pos hqpos, if_neg (by linarith), neg_neg]
        cases Flt.round_pos p emin emax q <;> simp [Flt.neg]
      · have hqneg : q < 0 := lt_of_le_of_ne (not_lt.mp hqpos) hq0
        rw [if_neg hqpos, if_pos (by linarith)]
        cases Flt.round_pos p emin emax (-q) <;> simp [Flt.neg]
  | pinf => rfl
  | ninf => rfl
  | nan => rfl

/-- A positive number `M * 2^k` of the format is not changed by the rounding. -/
theorem round_to_exact (p : Nat) (emin emax : Int) (M : Nat) (k : Int) (hM : 0 < M)
    (hMp : M < 2 ^ p) (hk : emin - ((p : Int) - 1) ≤ k)
    (hmax : (M : ℚ) * (2 : ℚ) ^ k < (2 : ℚ) ^ (emax + 1)) :
    Flt.round_to p emin emax (Flt.fin ((M : ℚ) * (2 : ℚ) ^ k))
      = Flt.fin ((M : ℚ) * (2 : ℚ) ^ k) := by
  have hq : (0 : ℚ) < (M : ℚ) * (2 : ℚ) ^ k :=
    mul_pos (by exact_mod_cast hM) (zpow_pos (by norm_num) _)
  rw [round_to_fin, if_neg hq.ne', if_pos hq, round_pos_exact p emin emax M k hM hMp hk hmax]

theorem round32_mono (q r : ℚ) (h : q ≤ r) :
    Flt.le (Flt.round32 (Flt.fin q)) (Flt.round32 (Flt.fin r)) = true :=
  round_to_mono 24 (-126) 127 q r (by norm_num) h

theorem round64_mono (q r : ℚ) (h : q ≤ r) :
    Flt.le (Flt.round64 (Flt.fin q)) (Flt.round64 (Flt.fin r)) = true :=
  round_to_mono 53 (-1022) 1023 q r (by norm_num) h

theorem round32_zero : Flt.round32 (Flt.fin 0) = Flt.fin 0 := by
  simp [Flt.round32, round_to_fin]

theorem round64_zero : Flt.round64 (Flt.fin 0) = Flt.fin 0 := by
  simp [Flt.round64, round_to_fin]

/-- The whole numbers up to `2^24` are values of the type `float`. -/
theorem round32_nat (n : Nat) (h : n ≤ 16777216) : Flt.round32 (Flt.fin (n : ℚ)) = Flt.fin n := by
  rcases Nat.eq_zero_or_pos n with h0 | hpos
  · subst h0
    simpa using round32_zero
  · rcases Nat.lt_or_ge n 16777216 with hlt | hge
    · have := round_to_exact 24 (-126) 127 n 0 hpos (by norm_num; exact hlt) (by norm_num) (by
        rw [zpow_zero, mul_one]
        have : (n : ℚ) < 16777216 := by exact_mod_cast hlt
        have h2 : (16777216 : ℚ) ≤ (2 : ℚ) ^ ((127 : Int) + 1) := by norm_num
        linarith)
      rw [zpow_zero, mul_one] at this
      exact this
    · have hn : n = 16777216 := by omega
      subst hn
      have := round_to_exact 24 (-126) 127 1 24 (by norm_num) (by norm_num) (by norm_num)
        (by norm_num)
      norm_num at this
      exact this

/-- The numbers `M / 2^k` with `M < 2^53` and `k <= 1000` are values of the type `double`. -/
theorem round64_dyadic (M k : Nat) (hM : M < 9007199254740992) (hk : k ≤ 1000) :
    Flt.round64 (Flt.fin ((M : ℚ) / (2 : ℚ) ^ k)) = Flt.fin ((M : ℚ) / (2 : ℚ) ^ k) := by
  rcases Nat.eq_zero_or_pos M with h0 | hpos
  · subst h0
    simpa using round64_zero
  · have hz : (M : ℚ) / (2 : ℚ) ^ k = (M : ℚ) * (2 : ℚ) ^ (-(k : Int)) := by
      rw [zpow_neg, zpow_natCast, div_eq_mul_inv]
    rw [hz]
    apply round_to_exact 53 (-1022) 1023 M (-(k : Int)) hpos (by norm_num; exact hM) (by omega)
    have h1 : (M : ℚ) < (2 : ℚ) ^ (53 : Int) := by
      norm_num
      exact_mod_cast hM
    have h2 : (2 : ℚ) ^ (-(k : Int)) ≤ 1 := by
      apply zpow_le_one_of_nonpos₀ (by norm_num)
      omega
    have h3 : (0 : ℚ) < (2 : ℚ) ^ (-(k : Int)) := zpow_pos (by norm_num) _
    have h4 : (2 : ℚ) ^ (53 : Int) ≤ (2 : ℚ) ^ ((1023 : Int) + 1) :=
      zpow_le_zpow_right₀ (by norm_num) (by norm_num)
    nlinarith

/-- A rounded number lies between two numbers of the format that enclose it. -/
theorem round_to_between (p : Nat) (emin emax : Int) (lo hi q : ℚ) (hp : 1 ≤ p)
    (hlo : Flt.round_to p emin emax (Flt.fin lo) = Flt.fin lo)
    (hhi : Flt.round_to p emin emax (Flt.fin hi) = Flt.fin hi)
    (h1 : lo ≤ q) (h2 : q ≤ hi) :
    ∃ r, Flt.round_to p emin emax (Flt.fin q) = Flt.fin r ∧ lo ≤ r ∧ r ≤ hi := by
  have m1 := round_to_mono p emin emax lo q hp h1
  have m2 := round_to_mono p emin emax q hi hp h2
  rw [hlo] at m1
  rw [hhi] at m2
  cases hq : Flt.round_to p emin emax (Flt.fin q) with
  | fin r =>
    rw [hq] at m1 m2
    exact ⟨r, rfl, (le_fin_iff _ _).mp m1, (le_fin_iff _ _).mp m2⟩
  | pinf => rw [hq] at m2; simp [Flt.le, Flt.lt, Flt.feq] at m2
  | ninf => rw [hq] at m1; simp [Flt.le, Flt.lt, Flt.feq] at m1
  | nan => rw [hq] at m1; simp [Flt.le, Flt.lt, Flt.feq] at m1

/-- The error of a rounding that does not overflow is half a unit in the last place at
most. -/
theorem round_to_error (p : Nat) (emin emax : Int) (q r : ℚ) (hq : 0 < q)
    (h : Flt.round_to p emin emax (Flt.fin q) = Flt.fin r) :
    |r - q| ≤ Flt.ulp p emin q / 2 := by
  rw [round_to_fin, if_neg hq.ne', if_pos hq] at h
  unfold Flt.round_pos at h
  have hu := ulp_pos p emin q
  have hnear := round_half_even_near (q / Flt.ulp p emin q)
  generalize hx : q / Flt.ulp p emin q = x at h hnear
  generalize hU : Flt.ulp p emin q = u at h hu hx
  have e : q = x * u := by rw [← hx]; field_simp
  by_cases hc : (Flt.round_half_even x : ℚ) * u < 2 ^ (emax + 1)
  · rw [if_pos hc] at h
    simp only [Flt.fin.injEq] at h
    rw [← h, abs_le, e]
    constructor
    · nlinarith [hnear.1, hnear.2]
    · nlinarith [hnear.1, hnear.2]
  · rw [if_neg hc] at h
    simp at h

/-- Rounding to `float` of a number between 0 and 1: the result lies between 0 and 1 and
differs from the number by 2^-25 at most. -/
theorem round32_unit (q : ℚ) (h0 : 0 ≤ q) (h1 : q ≤ 1) :
    ∃ r, Flt.round32 (Flt.fin q) = Flt.fin r ∧ 0 ≤ r ∧ r ≤ 1 ∧ |r - q| ≤ 1 / 2 ^ 25 := by
  have e1 : Flt.round32 (Flt.fin 1) = Flt.fin 1 := by
    have := round32_nat 1 (by norm_num)
    simpa using this
  obtain ⟨r, hr, hr0, hr1⟩ := round_to_between 24 (-126) 127 0 1 q (by norm_num)
    round32_zero e1 h0 h1
  refine ⟨r, hr, hr0, hr1, ?_⟩
  rcases eq_or_lt_of_le h0 with h | h
  · subst h
    have : Flt.fin r = Flt.fin 0 := by rw [← hr]; exact round32_zero
    rw [Flt.fin.injEq] at this
    rw [this]; norm_num
  rcases eq_or_lt_of_le h1 with h' | h'
  · subst h'
    have : Flt.fin r = Flt.fin 1 := by rw [← hr]; exact e1
    rw [Flt.fin.injEq] at this
    rw [this]; norm_num
  have herr := round_to_error 24 (-126) 127 q r h hr
  have hlog : Flt.ilog2 q < 0 := by
    by_contra hc
    have hc : 0 ≤ Flt.ilog2 q := not_lt.mp hc
    have := (ilog2_spec q h).1
    have h2 : (1 : ℚ) ≤ (2 : ℚ) ^ Flt.ilog2 q := one_le_zpow₀ (by norm_num) hc
    linarith
  have hulp : Flt.ulp 24 (-126) q ≤ 1 / 2 ^ 24 := by
    unfold Flt.ulp
    have he : max (Flt.ilog2 q) (-126) - (((24 : Nat) : Int) - 1) ≤ -24 := by
      have : max (Flt.ilog2 q) (-126) ≤ -1 := max_le (by omega) (by norm_num)
      push_cast
      omega
    calc (2 : ℚ) ^ (max (Flt.ilog2 q) (-126) - (((24 : Nat) : Int) - 1))
        ≤ (2 : ℚ) ^ (-24 : Int) := zpow_le_zpow_right₀ (by norm_num) he
      _ = 1 / 2 ^ 24 := by norm_num [zpow_neg]
  calc |r - q| ≤ Flt.ulp 24 (-126) q / 2 := herr
    _ ≤ 1 / 2 ^ 24 / 2 := by linarith
    _ = 1 / 2 ^ 25 := by norm_num

/-- A rational within less than one half of an integer is rounded to that integer. -/
theorem round_half_even_of_near (x : ℚ) (N : Int) (h : |x - N| < 1 / 2) :
    Flt.round_half_even x = N := by
  have hn := round_half_even_near x
  rw [abs_lt] at h
  have h1 : ((Flt.round_half_even x - N : Int) : ℚ) < 1 := by
    push_cast
    linarith [hn.2, h.1]
  have h2 : (-1 : ℚ) < ((Flt.round_half_even x - N : Int) : ℚ) := by
    push_cast
    linarith [hn.1, h.2]
  have h3 : Flt.round_half_even x - N < 1 := by exact_mod_cast h1
  have h4 : -1 < Flt.round_half_even x - N := by exact_mod_cast h2
  omega

/-- The rounding of a positive number whose quotient by its unit in the last place is
within less than one half of an integer. -/
theorem round_pos_of_ulp (p : Nat) (emin emax : Int) (x q u : ℚ) (N : Int)
    (hu : Flt.ulp p emin x = u) (hN : (N : ℚ) * u = q) (hnear : |x / u - N| < 1 / 2)
    (hmax : q < 2 ^ (emax + 1)) :
    Flt.round_pos p emin emax x = some q := by
  unfold Flt.round_pos
  rw [hu, round_half_even_of_near _ N hnear, hN, if_pos hmax]

/-- A positive number within one part in 10^13 of a positive `float` is rounded to that
`float`. -/
theorem round_pos_near (q x : ℚ) (hq0 : 0 < q)
    (hq : Flt.round_pos 24 (-126) 127 q = some q) (hx : |x - q| ≤ q / 10 ^ 13) :
    Flt.round_pos 24 (-126) 127 x = some q := by
  have h2 : (2 : ℚ) ≠ 0 := by norm_num
  -- the integer significand of q
  have hq' := hq
  unfold Flt.round_pos at hq'
  by_cases hc : (Flt.round_half_even (q / Flt.ulp 24 (-126) q) : ℚ) * Flt.ulp 24 (-126) q
      < 2 ^ ((127 : Int) + 1)
  swap
  · rw [if_neg hc] at hq'
    simp at hq'
  rw [if_pos hc] at hq'
  simp only [Option.some.injEq] at hq'
  rw [hq'] at hc
  generalize hM : Flt.round_half_even (q / Flt.ulp 24 (-126) q) = M at hq'
  have hup := ulp_pos 24 (-126) q
  have hs := ilog2_spec q hq0
  generalize he : Flt.ilog2 q = e at hs
  have hu : Flt.ulp 24 (-126) q = (2 : ℚ) ^ (max e (-126) - 23) := by
    unfold Flt.ulp
    rw [he]
    norm_num
  generalize hU : Flt.ulp 24 (-126) q = u at hq' hup hu
  have hMpos : 0 < M := by
    have : (0 : ℚ) < (M : ℚ) := by
      by_contra hcon
      push_neg at hcon
      have := mul_nonpos_of_nonpos_of_nonneg hcon hup.le
      linarith
    exact_mod_cast this
  -- the exponent is not below that of the smallest number
  have he149 : -149 ≤ e := by
    by_contra hcon
    have hcon : e + 1 ≤ -149 := by omega
    have h1 : (2 : ℚ) ^ (e + 1) ≤ (2 : ℚ) ^ (-149 : Int) :=
      zpow_le_zpow_right₀ (by norm_num) hcon
    have h3 : u = (2 : ℚ) ^ (-149 : Int) := by
      rw [hu, max_eq_right (by omega)]
      norm_num
    have h4 : (1 : ℚ) ≤ (M : ℚ) := by exact_mod_cast hMpos
    have h5 : u ≤ q := by
      rw [← hq']
      nlinarith
    rw [h3] at h5
    linarith [hs.2]
  -- the binade of q in units
  obtain ⟨a, ha⟩ : ∃ a : Nat, e = max e (-126) - 23 + (a : Int) :=
    ⟨(e - (max e (-126) - 23)).toNat, by
      rcases max_cases e (-126) with ⟨hm, _⟩ | ⟨hm, _⟩ <;> rw [hm] <;> omega⟩
  have ha24 : a ≤ 23 := by
    rcases max_cases e (-126) with ⟨hm, _⟩ | ⟨hm, _⟩ <;> rw [hm] at ha <;> omega
  have hK : (2 : ℚ) ^ e = ((2 ^ a : Nat) : ℚ) * u := by
    rw [hu]
    conv_lhs => rw [ha]
    rw [zpow_add₀ h2, zpow_natCast]
    push_cast
    ring
  have hK2 : (2 : ℚ) ^ (e + 1) = ((2 * 2 ^ a : Nat) : ℚ) * u := by
    rw [zpow_add₀ h2, hK]
    push_cast
    ring
  have hMK : (2 ^ a : Nat) ≤ M.toNat := by
    have : ((2 ^ a : Nat) : ℚ) * u ≤ (M : ℚ) * u := by rw [← hK, hq']; exact hs.1
    have h5 := le_of_mul_le_mul_right this hup
    have : ((2 ^ a : Nat) : Int) ≤ M := by exact_mod_cast h5
    omega
  have hMK2 : M.toNat < 2 * 2 ^ a := by
    have : (M : ℚ) * u < ((2 * 2 ^ a : Nat) : ℚ) * u := by rw [← hK2, hq']; exact hs.2
    have h5 := lt_of_mul_lt_mul_right this hup.le
    have : M < ((2 * 2 ^ a : Nat) : Int) := by exact_mod_cast h5
    omega
  have hpow : 2 ^ a ≤ 2 ^ 23 := Nat.pow_le_pow_right (by norm_num) ha24
  have hM24 : M.toNat < 16777216 := by
    have : (2 : Nat) ^ 23 = 8388608 := by norm_num
    omega
  have hMm : (M : ℚ) = (M.toNat : ℚ) := by
    have : M = (M.toNat : Int) := by omega
    conv_lhs => rw [this]
    norm_cast
  -- the quotient of x by the unit
  have hy : |x / u - M| < 1 / 4 := by
    have e1 : x / u - M = (x - q) / u := by
      rw [← hq']
      field_simp
      ring
    rw [e1, abs_div, abs_of_pos hup, div_lt_iff₀ hup]
    have h6 : q / 10 ^ 13 < 1 / 4 * u := by
      rw [← hq', hMm]
      have : (M.toNat : ℚ) < 16777216 := by exact_mod_cast hM24
      have h7 : (M.toNat : ℚ) * u / 10 ^ 13 = (M.toNat : ℚ) / 10 ^ 13 * u := by ring
      rw [h7]
      apply mul_lt_mul_of_pos_right _ hup
      rw [div_lt_iff₀ (by norm_num)]
      norm_num
      linarith
    linarith
  have hy' := abs_lt.mp hy
  have hKpos : (1 : ℚ) ≤ ((2 ^ a : Nat) : ℚ) := by
    have : 1 ≤ 2 ^ a := Nat.one_le_two_pow
    exact_mod_cast this
  have hxu : x = x / u * u := by field_simp
  by_cases hcase : ((2 ^ a : Nat) : ℚ) ≤ x / u
  · -- x lies in the binade of q
    have hx1 : (2 : ℚ) ^ e ≤ x := by
      rw [hK, hxu]
      exact mul_le_mul_of_nonneg_right hcase hup.le
    have hx2 : x < (2 : ℚ) ^ (e + 1) := by
      rw [hK2, hxu]
      apply mul_lt_mul_of_pos_right _ hup
      have : (M.toNat : ℚ) + 1 ≤ ((2 * 2 ^ a : Nat) : ℚ) := by exact_mod_cast hMK2
      rw [hMm] at hy'
      linarith [hy'.2]
    have hex := ilog2_eq x e hx1 hx2
    apply round_pos_of_ulp 24 (-126) 127 x q u M _ hq' (lt_trans hy (by norm_num)) hc
    unfold Flt.ulp
    rw [hex, hu]
    norm_num
  · -- x lies just below the binade of q, whose smallest number is q
    push_neg at hcase
    have hMeq : M.toNat = 2 ^ a := by
      have h8 : (M.toNat : ℚ) < ((2 ^ a : Nat) : ℚ) + 1 := by
        rw [hMm] at hy'
        linarith [hy'.1]
      have : M.toNat < 2 ^ a + 1 := by exact_mod_cast h8
      omega
    have hx1 : (2 : ℚ) ^ (e - 1) ≤ x := by
      have h9 : (2 : ℚ) ^ (e - 1) = ((2 ^ a : Nat) : ℚ) / 2 * u := by
        rw [zpow_sub₀ h2, hK]
        norm_num
        ring
      rw [h9, hxu]
      apply mul_le_mul_of_nonneg_right _ hup.le
      rw [hMm, hMeq] at hy'
      linarith [hy'.1]
    have hx2 : x < (2 : ℚ) ^ (e - 1 + 1) := by
      rw [sub_add_cancel, hK, hxu]
      exact mul_lt_mul_of_pos_right hcase hup
    have hex := ilog2_eq x (e - 1) hx1 hx2
    by_cases hnorm : -125 ≤ e
    · -- the unit of x is half the unit of q
      have hux : Flt.ulp 24 (-126) x = u / 2 := by
        unfold Flt.ulp
        rw [hex, hu, max_eq_left (by omega), max_eq_left (by omega)]
        have : e - 1 - ((24 : Nat) - 1 : Int) = e - 23 - 1 := by
          push_cast
          ring
        rw [this, zpow_sub₀ h2]
        norm_num
      apply round_pos_of_ulp 24 (-126) 127 x q (u / 2) (2 * M) hux _ _ hc
      · rw [← hq']
        push_cast
        ring
      · have e2 : x / (u / 2) - ((2 * M : Int) : ℚ) = 2 * (x / u - M) := by
          push_cast
          field_simp
          ring
        rw [e2, abs_mul]
        norm_num
        linarith
    · -- both are below the smallest normal number
      have hux : Flt.ulp 24 (-126) x = u := by
        unfold Flt.ulp
        rw [hex, hu, max_eq_right (by omega), max_eq_right (by omega)]
        norm_num
      exact round_pos_of_ulp 24 (-126) 127 x q u M hux hq' (lt_trans hy (by norm_num)) hc

/-- A number within one part in 10^13 of a `float` is rounded to that `float`: a `float`
that is written with 14 significant digits and read as a `double` comes back as it was. -/
theorem round32_near (q x : ℚ) (hq : Flt.round32 (Flt.fin q) = Flt.fin q)
    (hx : |x - q| ≤ |q| / 10 ^ 13) :
    Flt.round32 (Flt.fin x) = Flt.fin q := by
  unfold Flt.round32 at hq ⊢
  rcases lt_trichotomy q 0 with hneg | h0 | hpos
  · -- a negative number
    have hnq : 0 < -q := by linarith
    rw [abs_of_neg hneg] at hx
    have hxneg : x < 0 := by
      have := (abs_le.mp hx).2
      have : (-q) / 10 ^ 13 < -q := by
        rw [div_lt_iff₀ (by norm_num)]
        nlinarith
      linarith
    rw [round_to_fin, if_neg hneg.ne, if_neg (by linarith)] at hq
    rw [round_to_fin, if_neg hxneg.ne, if_neg (by linarith)]
    cases hr : Flt.round_pos 24 (-126) 127 (-q) with
    | none => rw [hr] at hq; simp at hq
    | some r =>
      rw [hr] at hq
      simp only [Flt.fin.injEq] at hq
      have hrq : r = -q := by linarith
      rw [hrq] at hr
      rw [round_pos_near (-q) (-x) hnq hr (by
        have : -x - -q = -(x - q) := by ring
        rw [this, abs_neg]
        exact hx)]
      simp
  · subst h0
    simp at hx
    subst hx
    exact hq
  · rw [abs_of_pos hpos] at hx
    have hxpos : 0 < x := by
      have := (abs_le.mp hx).1
      have : q / 10 ^ 13 < q := by
        rw [div_lt_iff₀ (by norm_num)]
        nlinarith
      linarith
    rw [round_to_fin, if_neg hpos.ne', if_pos hpos] at hq
    rw [round_to_fin, if_neg hxpos.ne', if_pos hxpos]
    cases hr : Flt.round_pos 24 (-126) 127 q with
    | none => rw [hr] at hq; simp at hq
    | some r =>
      rw [hr] at hq
      simp only [Flt.fin.injEq] at hq
      rw [hq] at hr
      rw [round_pos_near q x hpos hr hx]

theorem stable_insert_perm {α : Type} (less : α → α → Bool) (x : α) (l : List α) :
    (stable_insert less x l).Perm (x :: l) := by
  induction l with
  | nil => simp [stable_insert]
  | cons y ys ih =>
    simp only [stable_insert]
    split
    · exact (List.Perm.cons y ih).trans (List.Perm.swap x y ys)
    · exact List.Perm.refl _

theorem stable_sort_perm {α : Type} (less : α → α → Bool) (l : List α) :
    (stable_sort less l).Perm l := by
  induction l with
  | nil => simp [stable_sort]
  | cons x xs ih =>
    simp only [stable_sort]
    exact (stable_insert_perm less x _).trans (List.Perm.cons x ih)

theorem stable_insert_pairwise {α : Type} (less : α → α → Bool) (r : α → α → Prop)
    (x : α) (l : List α)
    (hnot : ∀ y ∈ l, less y x = false → r x y)
    (hlt : ∀ y ∈ l, less y x = true → r y x)
    (htrans : ∀ y ∈ l, ∀ z ∈ l, r x y → r y z → r x z)
    (hl : l.Pairwise r) : (stable_insert less x l).Pairwise r := by
  induction l with
  | nil => simp [stable_insert]
  | cons y ys ih =>
    simp only [stable_insert]
    have hy := List.pairwise_cons.mp hl
    by_cases h : less y x = true
    · rw [if_pos h]
      refine List.pairwise_cons.mpr ⟨?_, ?_⟩
      · intro z hz
        rcases List.mem_cons.mp ((stable_insert_perm less x ys).subset hz) with hzx | hzy
        · subst hzx; exact hlt y (List.mem_cons_self _ _) h
        · exact hy.1 z hzy
      · exact ih (fun z hz => hnot z (List.mem_cons_of_mem _ hz))
          (fun z hz => hlt z (List.mem_cons_of_mem _ hz))
          (fun z hz w hw => htrans z (List.mem_cons_of_mem _ hz) w (List.mem_cons_of_mem _ hw))
          hy.2
    · rw [if_neg h]
      have hxy : r x y := hnot y (List.mem_cons_self _ _) (by simpa using h)
      refine List.pairwise_cons.mpr ⟨?_, hl⟩
      intro z hz
      rcases List.mem_cons.mp hz with hzy | hzy
      · subst hzy; exact hxy
      · exact htrans y (List.mem_cons_self _ _) z (List.mem_cons_of_mem _ hzy) hxy (hy.1 z hzy)

theorem stable_sort_pairwise {α : Type} (less : α → α → Bool) (r : α → α → Prop)
    (l : List α)
    (hnot : ∀ x ∈ l, ∀ y ∈ l, less y x = false → r x y)
    (hlt : ∀ x ∈ l, ∀ y ∈ l, less y x = true → r y x)
    (htrans : ∀ x ∈ l, ∀ y ∈ l, ∀ z ∈ l, r x y → r y z → r x z) :
    (stable_sort less l).Pairwise r := by
  induction l with
  | nil => simp [stable_sort]
  | cons x xs ih =>
    simp only [stable_sort]
    have hsub : ∀ z, z ∈ stable_sort less xs → z ∈ x :: xs := fun z hz =>
      List.mem_cons_of_mem _ ((stable_sort_perm less xs).subset hz)
    apply stable_insert_pairwise
    · intro y hy; exact hnot x (List.mem_cons_self _ _) y (hsub y hy)
    · intro y hy; exact hlt x (List.mem_cons_self _ _) y (hsub y hy)
    · intro y hy z hz
      exact htrans x (List.mem_cons_self _ _) y (hsub y hy) z (hsub z hz)
    · exact ih (fun a ha b hb => hnot a (List.mem_cons_of_mem _ ha) b (List.mem_cons_of_mem _ hb))
        (fun a ha b hb => hlt a (List.mem_cons_of_mem _ ha) b (List.mem_cons_of_mem _ hb))
        (fun a ha b hb c hc => htrans a (List.mem_cons_of_mem _ ha) b (List.mem_cons_of_mem _ hb)
          c (List.mem_cons_of_mem _ hc))

theorem Flt.le_of_not_lt_of_finite {x y : Flt} (hx : x.finite = true) (hy : y.finite = true)
    (h : Flt.lt y x = false) : Flt.le x y = true := by
  cases x <;> cases y <;> simp_all [Flt.finite, Flt.lt, Flt.le, Flt.feq]
  exact le_iff_lt_or_eq.mp h

theorem Flt.le_of_lt {x y : Flt} (h : Flt.lt x y = true) : Flt.le x y = true := by
  simp [Flt.le, h]

theorem Flt.le_trans_of_finite {x y z : Flt} (hx : x.finite = true) (hy : y.finite = true)
    (hz : z.finite = true) (h1 : Flt.le x y = true) (h2 : Flt.le y z = true) :
    Flt.le x z = true := by
  cases x <;> cases y <;> cases z <;> simp_all [Flt.finite, Flt.lt, Flt.le, Flt.feq]
  rcases h1 with h1 | h1 <;> rcases h2 with h2 | h2
  · exact Or.inl (lt_trans h1 h2)
  · exact Or.inl (h2 ▸ h1)
  · exact Or.inl (h1 ▸ h2)
  · exact Or.inr (h1.trans h2)

/-- Sorting the identity of `0..n-1` by `myCompare a` gives a permutation of `0..n-1`
along which the finite values of `a` are non-decreasing. -/
theorem rank_sorted_of_finite (a : List Flt) (n : Nat) (hlen : n ≤ a.length)
    (hfin : ∀ x ∈ a, x.finite = true) :
    (stable_sort (myCompare a) (List.range n)).Perm (List.range n) ∧
    (stable_sort (myCompare a) (List.range n)).Pairwise
      (fun i j => Flt.le (a.getD i Flt.nan) (a.getD j Flt.nan) = true) := by
  refine ⟨stable_sort_perm _ _, ?_⟩
  have hf : ∀ i ∈ List.range n, (a.getD i Flt.nan).finite = true := by
    intro i hi
    have hi2 : i < a.length := lt_of_lt_of_le (List.mem_range.mp hi) hlen
    rw [List.getD_eq_getElem _ _ hi2]
    exact hfin _ (List.getElem_mem _)
  apply stable_sort_pairwise
  · intro x hx y hy h
    exact Flt.le_of_not_lt_of_finite (hf x hx) (hf y hy) h
  · intro x hx y hy h
    exact Flt.le_of_lt h
  · intro x hx y hy z hz h1 h2
    exact Flt.le_trans_of_finite (hf x hx) (hf y hy) (hf z hz) h1 h2

/-- C1: on a cache miss, for a column of N >= 1 finite values, compute_rank returns and
caches a permutation of the point indices 0..N-1 along which the column values are
non-decreasing. -/
theorem compute_rank_miss_sorted_perm (s : PlotState) (a : List Flt) (a_rank row : List Nat)
    (var_index : Nat)
    (ha : (a.length : Int) = s.npoints)
    (hfin : ∀ x ∈ a, x.finite = true)
    (hrank : a_rank.length = a.length) (hrow : row.length = a.length)
    (hmiss : s.ranked[var_index]? = some 0)
    (hcache : s.ranked_points[var_index]? = some row) :
    ∃ r s1, compute_rank s a a_rank var_index = some (r, s1) ∧
      r.Perm (List.range a.length) ∧
      r.Pairwise (fun i j => Flt.le (a.getD i Flt.nan) (a.getD j Flt.nan) = true) ∧
      s1.ranked_points[var_index]? = some r ∧ s1.ranked[var_index]? = some 1 := by
  have hn : s.npoints.toNat = a.length := by omega
  have hs := rank_sorted_of_finite a a.length (le_refl _) hfin
  have hlen : (stable_sort (myCompare a) (List.range a.length)).length = a.length := by
    simpa using hs.1.length_eq
  have hvi : var_index < s.ranked_points.length := by
    rcases List.getElem?_eq_some_iff.mp hcache with ⟨h, _⟩; exact h
  have hvi2 : var_index < s.ranked.length := by
    rcases List.getElem?_eq_some_iff.mp hmiss with ⟨h, _⟩; exact h
  refine ⟨stable_sort (myCompare a) (List.range a.length),
    { s with ranked := s.ranked.set var_index 1
             ranked_points := s.ranked_points.set var_index
               (stable_sort (myCompare a) (List.range a.length)) }, ?_, hs.1, hs.2, ?_, ?_⟩
  · simp only [compute_rank, hmiss, hcache, hn, hrank, hrow]
    simp [List.drop_of_length_le, hrank, hrow, hlen]
    rw [List.take_of_length_le (le_of_eq hlen)]
  · simp [hvi]
  · simp [hvi2]

theorem compute_rank_miss_sorted_perm_witness :
    ∃ r s1, compute_rank ⟨3, [0], [[0, 0, 0]], [], []⟩ [Flt.fin 5, Flt.fin 2, Flt.fin 5]
        [0, 0, 0] 0 = some (r, s1) ∧
      r.Perm (List.range 3) ∧
      r.Pairwise (fun i j => Flt.le ([Flt.fin 5, Flt.fin 2, Flt.fin 5].getD i Flt.nan)
        ([Flt.fin 5, Flt.fin 2, Flt.fin 5].getD j Flt.nan) = true) ∧
      s1.ranked_points[0]? = some r ∧ s1.ranked[0]? = some 1 :=
  compute_rank_miss_sorted_perm ⟨3, [0], [[0, 0, 0]], [], []⟩
    [Flt.fin 5, Flt.fin 2, Flt.fin 5] [0, 0, 0] [0, 0, 0] 0
    (by decide) (by decide) (by decide) (by decide) (by decide) (by decide)


theorem scatter_by_rank_spec (val : Nat → Flt) (a_rank : List Nat) (a : List Flt) (n : Nat)
    (hn : n ≤ a_rank.length) (hnodup : a_rank.Nodup) (hb : ∀ p ∈ a_rank, p < a.length) :
    ∃ a1, scatter_by_rank val a_rank a n = some a1 ∧ a1.length = a.length ∧
      (∀ i, i < n → a1.getD (a_rank.getD i 0) Flt.nan = val i) ∧
      (∀ p, p ∉ a_rank.take n → a1.getD p Flt.nan = a.getD p Flt.nan) := by
  induction n with
  | zero => exact ⟨a, by simp [scatter_by_rank], rfl, by simp, by simp⟩
  | succ k ih =>
    obtain ⟨a0, h0, hlen0, hval0, hrest0⟩ := ih (Nat.le_of_succ_le hn)
    have hk : k < a_rank.length := hn
    have hpk : a_rank[k] < a0.length := by
      rw [hlen0]; exact hb _ (List.getElem_mem _)
    refine ⟨a0.set a_rank[k] (val k), ?_, by simp [hlen0], ?_, ?_⟩
    · unfold scatter_by_rank at h0 ⊢
      rw [List.range_succ, List.foldlM_append, h0]
      simp [List.getElem?_eq_getElem hk, writeAt, hpk]
    · intro i hi
      rcases Nat.lt_succ_iff_lt_or_eq.mp hi with hlt | heq
      · have hi2 : i < a_rank.length := lt_trans hlt hk
        have hne : a_rank[k] ≠ a_rank[i] := by
          intro h
          have := (List.Nodup.getElem_inj_iff hnodup).mp h
          omega
        rw [List.getD_eq_getElem _ _ hi2]
        have := hval0 i hlt
        rw [List.getD_eq_getElem _ _ hi2] at this
        simp only [List.getD_eq_getElem?_getD] at this ⊢
        rw [List.getElem?_set_ne hne]
        exact this
      · subst heq
        rw [List.getD_eq_getElem _ _ hk]
        simp [List.getD_eq_getElem?_getD, hpk]
    · intro p hp
      have hp0 : p ∉ a_rank.take k := by
        intro h
        apply hp
        rw [List.take_succ]
        exact List.mem_append_left _ h
      have hne : a_rank[k] ≠ p := by
        intro h
        apply hp
        rw [List.take_succ, List.getElem?_eq_getElem hk]
        simp [h]
      rw [← hrest0 p hp0]
      simp only [List.getD_eq_getElem?_getD]
      rw [List.getElem?_set_ne hne]


theorem readRanked_of_perm (a : List Flt) (a_rank : List Nat) (i : Int)
    (hperm : a_rank.Perm (List.range a.length)) (h0 : 0 ≤ i) (h1 : i < a.length) :
    ∃ v, readRanked a a_rank i = some v := by
  have hlen : a_rank.length = a.length := by simpa using hperm.length_eq
  have hi : i.toNat < a_rank.length := by omega
  have hp : a_rank[i.toNat] < a.length :=
    List.mem_range.mp (hperm.subset (List.getElem_mem _))
  exact ⟨a[a_rank[i.toNat]], by
    simp [readRanked, not_lt.mpr h0, List.getElem?_eq_getElem hi, List.getElem?_eq_getElem hp]⟩

/-- With at most 2^24 points the conversions and the subtraction of `rank_value` are exact:
the value is the quotient `i/(N-1)` rounded once. -/
theorem rank_value_eq (N : Int) (i : Nat) (hN : 2 ≤ N) (hN2 : N ≤ 16777216)
    (hi : (i : Int) < N) :
    rank_value N i = Flt.round32 (Flt.fin ((i : ℚ) / ((N : ℚ) - 1))) := by
  obtain ⟨n, rfl⟩ := Int.eq_ofNat_of_zero_le (by omega : 0 ≤ N)
  have hn2 : 2 ≤ n := by omega
  have hn : n ≤ 16777216 := by omega
  have hi2 : i ≤ 16777216 := by omega
  have h1 : Flt.round32 (Flt.ofInt (i : Int)) = Flt.fin (i : ℚ) := by
    have := round32_nat i hi2
    simpa [Flt.ofInt] using this
  have h2 : Flt.round32 (Flt.ofInt (n : Int)) = Flt.fin (n : ℚ) := by
    have := round32_nat n hn
    simpa [Flt.ofInt] using this
  have h3 : Flt.sub (Flt.fin (n : ℚ)) (Flt.fin 1) = Flt.fin (((n - 1 : Nat) : ℚ)) := by
    simp only [Flt.sub, Flt.add, Flt.neg]
    rw [Nat.cast_sub (by omega)]
    congr 1
    simp [sub_eq_add_neg]
  have h4 : Flt.round32 (Flt.fin (((n - 1 : Nat) : ℚ))) = Flt.fin (((n - 1 : Nat) : ℚ)) :=
    round32_nat (n - 1) (by omega)
  have hden : (((n - 1 : Nat) : ℚ)) ≠ 0 := by
    have : 0 < n - 1 := by omega
    exact_mod_cast this.ne'
  have h5 : (((n - 1 : Nat) : ℚ)) = ((n : Int) : ℚ) - 1 := by
    rw [Nat.cast_sub (by omega)]; simp
  unfold rank_value
  rw [h1, h2, h3, h4]
  simp only [Flt.div, if_neg hden]
  rw [h5]

/-- C7 (amended): for N points with 2 <= N <= 2^24 and a rank sequence that is a
permutation of 0..N-1, normalize with NORMALIZATION_RANK returns 1 and gives the point of
rank i the `float` nearest to i/(N-1): a value between 0 and 1 that differs from i/(N-1) by
2^-25 at most.  The values read in rank order do not decrease, the first is 0 and the last
is 1, and the bounds are set to (0, 1). -/
theorem normalize_rank_values (m : MathFns) (s : PlotState) (a : List Flt) (a_rank : List Nat)
    (axis_index : Nat)
    (hN : 2 ≤ s.npoints) (hN2 : s.npoints ≤ 16777216) (ha : (a.length : Int) = s.npoints)
    (hperm : a_rank.Perm (List.range a.length))
    (hmin : axis_index < s.wmin.length) (hmax : axis_index < s.wmax.length) :
    ∃ a1 s1, normalize m s a a_rank NORMALIZATION_RANK axis_index = some (1, a1, s1) ∧
      a1.length = a.length ∧
      (∀ i, i < a.length →
        a1.getD (a_rank.getD i 0) Flt.nan
          = Flt.round32 (Flt.fin ((i : ℚ) / ((a.length : ℚ) - 1))) ∧
        ∃ r : ℚ, a1.getD (a_rank.getD i 0) Flt.nan = Flt.fin r ∧ 0 ≤ r ∧ r ≤ 1 ∧
          |r - (i : ℚ) / ((a.length : ℚ) - 1)| ≤ 1 / 2 ^ 25) ∧
      (∀ i j, i ≤ j → j < a.length →
        Flt.le (a1.getD (a_rank.getD i 0) Flt.nan) (a1.getD (a_rank.getD j 0) Flt.nan)
          = true) ∧
      a1.getD (a_rank.getD 0 0) Flt.nan = Flt.fin 0 ∧
      a1.getD (a_rank.getD (a.length - 1) 0) Flt.nan = Flt.fin 1 ∧
      s1.wmin.getD axis_index Flt.nan = Flt.fin 0 ∧
      s1.wmax.getD axis_index Flt.nan = Flt.fin 1 := by
  have hn : s.npoints.toNat = a.length := by omega
  have hlen : a_rank.length = a.length := by simpa using hperm.length_eq
  have h2 : 2 ≤ a.length := by omega
  obtain ⟨tmin, htmin⟩ := readRanked_of_perm a a_rank 0 hperm (le_refl _) (by omega)
  obtain ⟨tmax, htmax⟩ := readRanked_of_perm a a_rank (s.npoints - 1) hperm (by omega) (by omega)
  obtain ⟨a1, hsc, hl1, hval, _⟩ := scatter_by_rank_spec (rank_value s.npoints)
    a_rank a a.length (le_of_eq hlen.symm) (hperm.nodup_iff.mpr (List.nodup_range _))
    (fun p hp => List.mem_range.mp (hperm.subset hp))
  have hden : (0 : ℚ) < (a.length : ℚ) - 1 := by
    have : (2 : ℚ) ≤ (a.length : ℚ) := by exact_mod_cast h2
    linarith
  have hcast : ((s.npoints : ℚ)) = (a.length : ℚ) := by rw [← ha]; simp
  have hvals : ∀ i, i < a.length →
      a1.getD (a_rank.getD i 0) Flt.nan
        = Flt.round32 (Flt.fin ((i : ℚ) / ((a.length : ℚ) - 1))) := by
    intro i hi
    rw [hval i hi, rank_value_eq s.npoints i hN hN2 (by omega), hcast]
  have hq : ∀ i, i < a.length → (0 : ℚ) ≤ (i : ℚ) / ((a.length : ℚ) - 1) ∧
      (i : ℚ) / ((a.length : ℚ) - 1) ≤ 1 := by
    intro i hi
    have hi1 : (i : ℚ) ≤ (a.length : ℚ) - 1 := by
      have : i + 1 ≤ a.length := hi
      have : ((i + 1 : Nat) : ℚ) ≤ (a.length : ℚ) := by exact_mod_cast this
      push_cast at this
      linarith
    exact ⟨div_nonneg (by positivity) hden.le, (div_le_one hden).mpr hi1⟩
  refine ⟨a1, { s with wmin := s.wmin.set axis_index (Flt.fin 0),
                        wmax := s.wmax.set axis_index (Flt.fin 1) }, ?_, hl1, ?_, ?_, ?_, ?_,
    ?_, ?_⟩
  · simp only [normalize, htmin, htmax, hn, hsc]
    simp [NORMALIZATION_RANK, NORMALIZATION_NONE, NORMALIZATION_MINMAX, NORMALIZATION_ZEROMAX,
      NORMALIZATION_MAXABS, NORMALIZATION_TRIM_1E2, NORMALIZATION_TRIM_1E3,
      NORMALIZATION_THREESIGMA, NORMALIZATION_LOG10, NORMALIZATION_SQUASH, setBounds, writeAt,
      hmin, hmax]
  · intro i hi
    refine ⟨hvals i hi, ?_⟩
    obtain ⟨r, hr, hr0, hr1, herr⟩ := round32_unit _ (hq i hi).1 (hq i hi).2
    exact ⟨r, by rw [hvals i hi, hr], hr0, hr1, herr⟩
  · intro i j hij hj
    rw [hvals i (by omega), hvals j hj]
    apply round32_mono
    apply div_le_div_of_nonneg_right _ hden.le
    exact_mod_cast hij
  · rw [hvals 0 (by omega)]
    simp only [Nat.cast_zero, zero_div]
    exact round32_zero
  · rw [hvals (a.length - 1) (by omega)]
    have : ((a.length - 1 : Nat) : ℚ) = (a.length : ℚ) - 1 := by
      rw [Nat.cast_sub (by omega)]; simp
    rw [this, div_self hden.ne']
    have := round32_nat 1 (by norm_num)
    simpa using this
  · simp [List.getD_eq_getElem?_getD, hmin]
  · simp [List.getD_eq_getElem?_getD, hmax]

theorem normalize_rank_values_witness :
    ∃ a1 s1, normalize ⟨id, id, id⟩ ⟨3, [1], [[1, 2, 0]], [Flt.nan, Flt.nan, Flt.nan],
        [Flt.nan, Flt.nan, Flt.nan]⟩ [Flt.fin 9, Flt.fin 2, Flt.fin 5] [1, 2, 0]
        NORMALIZATION_RANK 0 = some (1, a1, s1) ∧
      a1.length = [Flt.fin 9, Flt.fin 2, Flt.fin 5].length ∧
      (∀ i, i < [Flt.fin 9, Flt.fin 2, Flt.fin 5].length →
        a1.getD (([1, 2, 0] : List Nat).getD i 0) Flt.nan
          = Flt.round32 (Flt.fin ((i : ℚ)
              / ((([Flt.fin 9, Flt.fin 2, Flt.fin 5] : List Flt).length : ℚ) - 1))) ∧
        ∃ r : ℚ, a1.getD (([1, 2, 0] : List Nat).getD i 0) Flt.nan = Flt.fin r ∧ 0 ≤ r ∧ r ≤ 1 ∧
          |r - (i : ℚ) / ((([Flt.fin 9, Flt.fin 2, Flt.fin 5] : List Flt).length : ℚ) - 1)|
            ≤ 1 / 2 ^ 25) ∧
      (∀ i j, i ≤ j → j < [Flt.fin 9, Flt.fin 2, Flt.fin 5].length →
        Flt.le (a1.getD (([1, 2, 0] : List Nat).getD i 0) Flt.nan)
          (a1.getD (([1, 2, 0] : List Nat).getD j 0) Flt.nan) = true) ∧
      a1.getD (([1, 2, 0] : List Nat).getD 0 0) Flt.nan = Flt.fin 0 ∧
      a1.getD (([1, 2, 0] : List Nat).getD
        ([Flt.fin 9, Flt.fin 2, Flt.fin 5].length - 1) 0) Flt.nan = Flt.fin 1 ∧
      s1.wmin.getD 0 Flt.nan = Flt.fin 0 ∧
      s1.wmax.getD 0 Flt.nan = Flt.fin 1 :=
  normalize_rank_values ⟨id, id, id⟩ ⟨3, [1], [[1, 2, 0]], [Flt.nan, Flt.nan, Flt.nan],
    [Flt.nan, Flt.nan, Flt.nan]⟩ [Flt.fin 9, Flt.fin 2, Flt.fin 5] [1, 2, 0] 0
    (by decide) (by decide) (by decide) (by decide) (by decide) (by decide)

/-- C7 (counterexample): three columns on which the values of the rank transform are not
i/(N-1).  With a single point the transform divides 0 by 0 and the value written is NaN.
With four points the rank 2 gets 11184811/16777216, the `float` nearest to 2/3, and not
2/3.  With 2^24+1 points the number of points is rounded to 2^24 by the conversion to
`float`, and the last rank gets 2^24/(2^24-1) rounded, which is 1+2^-23 and lies above 1. -/
theorem normalize_rank_not_exact :
    normalize ⟨id, id, id⟩ ⟨1, [1], [[0]], [Flt.nan, Flt.nan, Flt.nan],
        [Flt.nan, Flt.nan, Flt.nan]⟩ [Flt.fin 5] [0] NORMALIZATION_RANK 0
      = some (1, [Flt.nan], ⟨1, [1], [[0]], [Flt.fin 0, Flt.nan, Flt.nan],
          [Flt.fin 1, Flt.nan, Flt.nan]⟩) ∧
    normalize ⟨id, id, id⟩ ⟨4, [1], [[0, 1, 2, 3]], [Flt.nan], [Flt.nan]⟩
        [Flt.fin 1, Flt.fin 2, Flt.fin 3, Flt.fin 4] [0, 1, 2, 3] NORMALIZATION_RANK 0
      = some (1, [Flt.fin 0, Flt.fin (11184811 / 33554432), Flt.fin (11184811 / 16777216),
            Flt.fin 1], ⟨4, [1], [[0, 1, 2, 3]], [Flt.fin 0], [Flt.fin 1]⟩) ∧
    (11184811 / 16777216 : ℚ) ≠ 2 / 3 ∧
    rank_value 16777217 16777216 = Flt.fin (8388609 / 8388608) ∧
    (1 : ℚ) < 8388609 / 8388608 := by
  decide!

/-- C2 (evaluation at the failing input): appending the one-row file to the two-row
dataset whose first row is selected succeeds with three points; the columns hold the old
rows first and the new row last, while `selected` holds the flag of the new row first:
the selected old row 0 is now unselected and the unselected old row 1 is selected. -/
theorem append_selection_order_differs :
    (load_data_file numeric_ops (readers_returning (read_ok new_xy 1))
        { old_xy with doAppend := 1 }).map (fun r => (r.1, r.2.npoints))
      = some (0, 3) ∧
    (load_data_file numeric_ops (readers_returning (read_ok new_xy 1))
        { old_xy with doAppend := 1 }).map (fun r => r.2.column_info.map (fun c => c.points))
      = some [[Flt.fin 1, Flt.fin 2, Flt.fin 3], [Flt.fin 10, Flt.fin 20, Flt.fin 30], []] ∧
    (load_data_file numeric_ops (readers_returning (read_ok new_xy 1))
        { old_xy with doAppend := 1 }).map (fun r => r.2.selected)
      = some [0, 1, 0] ∧
    old_xy.selected = [1, 0] := by
  decide

/-- C3 (counterexample): a plain load whose reader fails, without
`preserve_old_data_mode`, returns -1 and leaves the default data (four columns, three
points, empty selection) in place of the two-column dataset. -/
theorem failed_plain_load_replaces_data :
    (load_data_file numeric_ops (readers_returning read_failed) old_xy).map
        (fun r => (r.1, r.2.nvars, r.2.npoints))
      = some (-1, 4, 3) ∧
    (load_data_file numeric_ops (readers_returning read_failed) old_xy).map
        (fun r => r.2.column_info.map (fun c => c.label))
      = some ["default_000 ", "default_001 ", "default_002 ", "default_003 ", "-nothing-"] ∧
    (load_data_file numeric_ops (readers_returning read_failed) old_xy).map
        (fun r => r.2.selected)
      = some [0, 0, 0] ∧
    old_xy.column_info.map (fun c => c.label) = ["x", "y", "-nothing-"] ∧
    old_xy.selected = [1, 0] := by
  decide

/-- C4 (evaluation at the failing input): appending a two-column file to a four-column
dataset takes the size-mismatch branch, where `resize_global_arrays` runs with the old
`nvars = 4` over the three entries the reader left in `column_info`: the access
`column_info[3]` is out of bounds and the call has no defined result. -/
theorem append_mismatch_out_of_bounds :
    load_data_file numeric_ops (readers_returning (read_ok new_xy 1))
        { old_abcd with doAppend := 1 } = none ∧
    resize_global_arrays
        { after_read { old_abcd with doAppend := 1 } (read_ok new_xy 1 old_abcd) with
          nvars := 4, npoints := 2 } = none := by
  decide

/-- C5 (evaluation at the failing input): the last data column `y` holds the same value
in both points, yet `remove_trivial_columns` leaves the dataset as it is. -/
theorem remove_trivial_keeps_last_uniform :
    remove_trivial_columns xy_last_uniform = some xy_last_uniform ∧
    is_trivial (numeric_column "y" [Flt.fin 5, Flt.fin 5]) 2 = some true := by
  decide

/-- C9 (evaluation at the failing input): after `remove_trivial_columns` has removed the
uniform first column, `nvars` is 1 but `column_info` still holds three entries, so that
`n_vars()` is 2; and `maxvars(2)` on a three-column dataset erases the sentinel and
leaves the data column `c` last. -/
theorem column_count_invariant_broken :
    (remove_trivial_columns xy_first_uniform).map
        (fun t => (t.nvars, n_vars t, t.column_info.map (fun c => c.label)))
      = some (1, 2, ["y", "-nothing-", "-nothing-"]) ∧
    (maxvars old_abc 2 1).map (fun t => (t.nvars, t.column_info.map (fun c => c.label)))
      = some (2, ["a", "b", "c"]) := by
  decide

/-- C10 (evaluation at the failing input): `maxpoints(2)` on a dataset of three points
shortens every data column to two values and sets `npoints` to 2, but leaves `selected`
and the other selection arrays at length 3. -/
theorem maxpoints_leaves_selection_arrays :
    (maxpoints old_abc 2 1).map (fun t => (t.npoints, t.column_info.map (fun c => c.points.length)))
      = some (2, [2, 2, 2, 0]) ∧
    (maxpoints old_abc 2 1).map (fun t => (t.selected.length, t.previously_selected.length,
        t.newly_selected.length)) = some (3, 3, 3) ∧
    (maxpoints old_abc 2 1).map (fun t => (t.saved_selection.length, t.inside_footprint.length))
      = some (3, 3) := by
  decide

/-- C6: when the checked boxes would leave `nvars - nChecked <= 1` columns,
`delete_labels` returns with the state unchanged: `column_info`, `nvars` and
`needs_restore_panels_` are what they were. -/
theorem delete_labels_too_many_no_effect (s : Data_File_Manager) (checks : List Bool)
    (h : s.nvars - nchecked checks ≤ 1) :
    delete_labels s checks = some s := by
  unfold delete_labels
  by_cases h0 : nchecked checks ≤ 0
  · simp [h0]
  · simp [h0, h]

theorem delete_labels_too_many_no_effect_witness :
    old_abc.nvars - nchecked [true, false, true] ≤ 1 ∧
    delete_labels old_abc [true, false, true] = some old_abc :=
  ⟨by decide, delete_labels_too_many_no_effect old_abc [true, false, true] (by decide)⟩


theorem resize_global_arrays_fields (s t : Data_File_Manager)
    (h : resize_global_arrays s = some t) :
    t.nvars = s.nvars ∧ t.npoints = s.npoints ∧
    (t.selected.length : Int) = s.npoints.toNat := by
  unfold resize_global_arrays at h
  split at h
  · exact absurd h (by simp)
  · simp only [Option.some.injEq] at h
    subst h
    refine ⟨rfl, rfl, ?_⟩
    simp only [reset_selection_arrays, fillArray, resize, List.length_replicate]
    split <;> simp_all

theorem restore_old_data_spec (s t : Data_File_Manager) (old_nvars old_npoints : Int)
    (old_column_info : List Column_Info) (old_selected : List Int)
    (h : restore_old_data s old_nvars old_npoints old_column_info old_selected = some t) :
    t.column_info = old_column_info ∧ t.nvars = old_nvars ∧ t.npoints = old_npoints ∧
    t.selected = old_selected := by
  unfold restore_old_data at h
  split at h
  · exact absurd h (by simp)
  · rename_i s1 hs1
    have hf := resize_global_arrays_fields _ _ hs1
    split at h
    · exact absurd h (by simp)
    · rename_i sel hsel
      simp only [Option.some.injEq] at h
      subst h
      unfold assignArray at hsel
      split at hsel
      · simp only [Option.some.injEq] at hsel
        exact ⟨rfl, hf.1, hf.2.1, hsel.symm⟩
      · exact absurd hsel (by simp)


/-- C3 (amended): when old data is saved (`preserve_old_data_mode`, `doAppend > 0` or
`doMerge > 0`) and the dataset satisfies `nvars = n_vars()` and `npoints = n_points()`,
every call of `load_data_file` that returns a non-zero status leaves `column_info`
(labels and values), `nvars`, `npoints` and `selected` as they were before the call. -/
theorem load_failure_restores (ops : ColumnOps) (rd : Readers) (s t : Data_File_Manager)
    (status : Int)
    (hret : load_data_file ops rd s = some (status, t)) (hstatus : status ≠ 0)
    (hold : s.preserve_old_data_mode = true ∨ s.doAppend > 0 ∨ s.doMerge > 0)
    (hnvars : s.nvars = n_vars s) (hnpoints : s.npoints = n_points s) :
    t.column_info = s.column_info ∧ t.nvars = s.nvars ∧ t.npoints = s.npoints ∧
    t.selected = s.selected := by
  have hU : (s.preserve_old_data_mode || decide (s.doAppend > 0) || decide (s.doMerge > 0))
      = true := by
    rcases hold with h | h | h <;> simp [h]
  unfold load_data_file at hret
  split at hret
  · simp only [Option.some.injEq, Prod.mk.injEq] at hret
    rw [← hret.2]
    exact ⟨rfl, rfl, rfl, rfl⟩
  · simp only [hU, if_true] at hret
    split at hret
    · exact absurd hret (by simp)
    · rename_i old_selected hsel
      have hsel2 : old_selected = s.selected := by
        unfold assignArray at hsel
        split at hsel
        · simp only [Option.some.injEq] at hsel; exact hsel.symm
        · exact absurd hsel (by simp)
      have key : ∀ (u : Data_File_Manager),
          (restore_old_data u (n_vars s) (n_points s) s.column_info old_selected).map
            (fun t => ((-1 : Int), t)) = some (status, t) →
          t.column_info = s.column_info ∧ t.nvars = s.nvars ∧ t.npoints = s.npoints ∧
          t.selected = s.selected := by
        intro u hu
        rcases hr : restore_old_data u (n_vars s) (n_points s) s.column_info old_selected with
          _ | t1
        · rw [hr] at hu; exact absurd hu (by simp)
        · rw [hr] at hu
          simp only [Option.map_some', Option.some.injEq, Prod.mk.injEq] at hu
          have := restore_old_data_spec _ _ _ _ _ _ hr
          rw [← hu.2, hnvars, hnpoints, ← hsel2]
          exact this
      have hfin : ∀ (u : Data_File_Manager), finish_load u old_selected = some (status, t) → False := by
        intro u hu
        unfold finish_load at hu
        split at hu
        · exact absurd hu (by simp)
        · split at hu
          · exact absurd hu (by simp)
          · split at hu
            · exact absurd hu (by simp)
            · exact absurd (congrArg Prod.fst (Option.some.inj hu)).symm hstatus
      simp only [fail_load, include_line_number, Bool.false_eq_true, if_true, if_false] at hret
      split at hret
      · exact key _ hret
      · split at hret
        · exact absurd hret (by simp)
        · split at hret
          · exact key _ hret
          · split at hret
            · exact key _ hret
            · split at hret
              · exact absurd hret (by simp)
              · exact (hfin _ hret).elim

theorem load_failure_restores_witness :
    load_data_file numeric_ops (readers_returning read_failed) { old_xy with doAppend := 1 }
      = some (-1, { old_xy with doAppend := 1, read_selected := List.replicate 100 0 }) ∧
    ({ old_xy with doAppend := 1, read_selected := List.replicate 100 0 } :
        Data_File_Manager).column_info = ({ old_xy with doAppend := 1 } : Data_File_Manager).column_info ∧
    ({ old_xy with doAppend := 1, read_selected := List.replicate 100 0 } :
        Data_File_Manager).nvars = ({ old_xy with doAppend := 1 } : Data_File_Manager).nvars ∧
    ({ old_xy with doAppend := 1, read_selected := List.replicate 100 0 } :
        Data_File_Manager).npoints = ({ old_xy with doAppend := 1 } : Data_File_Manager).npoints ∧
    ({ old_xy with doAppend := 1, read_selected := List.replicate 100 0 } :
        Data_File_Manager).selected = ({ old_xy with doAppend := 1 } : Data_File_Manager).selected :=
  ⟨by decide,
   load_failure_restores numeric_ops (readers_returning read_failed) { old_xy with doAppend := 1 }
    { old_xy with doAppend := 1, read_selected := List.replicate 100 0 } (-1)
    (by decide) (by decide) (by decide) (by decide) (by decide)⟩

/-! ## The ASCII round trip -/

/-! ### Streams -/

theorem span_append_stop {α : Type} (p : α → Bool) (l : List α) (x : α) (rest : List α)
    (hl : ∀ c ∈ l, p c = true) (hx : p x = false) :
    (l ++ x :: rest).span p = (l, x :: rest) := by
  induction l with
  | nil => simp [List.span, List.span.loop, hx]
  | cons a l ih =>
    have ha : p a = true := hl a (List.mem_cons_self _ _)
    have := ih (fun c hc => hl c (List.mem_cons_of_mem _ hc))
    rw [List.span_eq_take_drop] at this ⊢
    simp only [List.cons_append, List.takeWhile_cons, List.dropWhile_cons, ha, if_true]
    simp only [Prod.mk.injEq] at this ⊢
    exact ⟨by rw [this.1], this.2⟩

theorem span_all {α : Type} (p : α → Bool) (l : List α) (hl : ∀ c ∈ l, p c = true) :
    l.span p = (l, []) := by
  rw [List.span_eq_take_drop]
  induction l with
  | nil => simp
  | cons a l ih =>
    have ha : p a = true := hl a (List.mem_cons_self _ _)
    have := ih (fun c hc => hl c (List.mem_cons_of_mem _ hc))
    simp only [List.takeWhile_cons, List.dropWhile_cons, ha, if_true]
    simp only [Prod.mk.injEq] at this ⊢
    exact ⟨by rw [this.1], this.2⟩

theorem dropWhile_append_stop {α : Type} (p : α → Bool) (l : List α) (rest : List α)
    (hl : ∀ c ∈ l, p c = true) (hrest : ∀ x ∈ rest.head?, p x = false) :
    (l ++ rest).dropWhile p = rest := by
  induction l with
  | nil =>
    cases rest with
    | nil => simp
    | cons x r => simp [List.dropWhile_cons, hrest x (by simp)]
  | cons a l ih =>
    have ha : p a = true := hl a (List.mem_cons_self _ _)
    simp only [List.cons_append, List.dropWhile_cons, ha, if_true]
    exact ih (fun c hc => hl c (List.mem_cons_of_mem _ hc))

/-- Reading a line that ends with a newline. -/
theorem getline_newline (s : IStream) (l rest buf : List Char) (hgood : s.good = true)
    (hrest : s.rest = l ++ '\n' :: rest) (hl : ∀ c ∈ l, c ≠ '\n') :
    s.getline '\n' buf = ({ rest := rest, eofbit := false, failbit := false }, l) := by
  unfold IStream.getline
  rw [if_pos hgood, hrest,
    span_append_stop (fun c => c != '\n') l '\n' rest (by simpa using hl) (by simp)]

/-- Reading at the end of the text. -/
theorem getline_at_end (s : IStream) (buf : List Char) (hgood : s.good = true)
    (hrest : s.rest = []) :
    s.getline '\n' buf = ({ rest := [], eofbit := true, failbit := true }, []) := by
  unfold IStream.getline
  rw [if_pos hgood, hrest]
  rfl

/-- Extracting a word that is followed by whitespace or by the end of the text. -/
theorem extract_word (s : IStream) (pad tok rest buf : List Char) (hgood : s.good = true)
    (hrest : s.rest = pad ++ tok ++ rest)
    (hpad : ∀ c ∈ pad, isspace c = true) (htok : ∀ c ∈ tok, isspace c = false)
    (hne : tok ≠ []) (hstop : ∀ x ∈ rest.head?, isspace x = true) :
    s.extract buf = ({ rest := rest, eofbit := rest.isEmpty, failbit := false }, tok) := by
  unfold IStream.extract
  rw [if_pos hgood, hrest, List.append_assoc]
  have h1 : (pad ++ (tok ++ rest)).dropWhile isspace = tok ++ rest := by
    apply dropWhile_append_stop _ _ _ hpad
    cases tok with
    | nil => exact absurd rfl hne
    | cons a t => intro x hx; simp at hx; subst hx; exact htok _ (List.mem_cons_self _ _)
  rw [h1]
  have h2 : (tok ++ rest).span (fun c => !isspace c) = (tok, rest) := by
    cases rest with
    | nil => simpa using span_all (fun c => !isspace c) tok (by simpa using htok)
    | cons x r =>
      exact span_append_stop (fun c => !isspace c) tok x r (by simpa using htok)
        (by simpa using hstop x (by simp))
  rw [h2]
  cases tok with
  | nil => exact absurd rfl hne
  | cons a t => rfl

/-- Extracting from a text that holds nothing but whitespace fails. -/
theorem extract_nothing (s : IStream) (pad buf : List Char) (hgood : s.good = true)
    (hrest : s.rest = pad) (hpad : ∀ c ∈ pad, isspace c = true) :
    s.extract buf = ({ rest := [], eofbit := true, failbit := true }, buf) := by
  unfold IStream.extract
  rw [if_pos hgood, hrest]
  have h1 : pad.dropWhile isspace = [] := by
    have := dropWhile_append_stop isspace pad [] hpad (by simp)
    simpa using this
  rw [h1]
  rfl

theorem spaced_cons (p : List Char × List Char) (ps : List (List Char × List Char)) :
    spaced (p :: ps) = p.1 ++ p.2 ++ spaced ps := by
  simp [spaced]

theorem spaced_head_space (ps : List (List Char × List Char)) (h : well_spaced ps)
    (hpad : ∀ q ∈ ps.head?, q.1 ≠ []) :
    ∀ x ∈ (spaced ps).head?, isspace x = true := by
  cases ps with
  | nil => simp [spaced]
  | cons q qs =>
    have hq : q.1 ≠ [] := hpad q (by simp)
    obtain ⟨h1, _, _, _, _⟩ := h
    rw [spaced_cons]
    cases hq1 : q.1 with
    | nil => exact absurd hq1 hq
    | cons a t =>
      intro x hx
      simp at hx
      subst hx
      exact h1 a (by rw [hq1]; exact List.mem_cons_self _ _)

theorem spaced_ne_nil (p : List Char × List Char) (ps : List (List Char × List Char))
    (h : p.2 ≠ []) : spaced (p :: ps) ≠ [] := by
  rw [spaced_cons]
  intro hnil
  have := List.append_eq_nil.mp hnil
  have := List.append_eq_nil.mp this.1
  exact h this.2

/-- The loop `while( ss >> buf)` on a well separated line collects its words. -/
theorem extract_loop_spaced (ps : List (List Char × List Char)) :
    ∀ (fuel : Nat) (s : IStream) (acc : List (List Char)),
      ps ≠ [] → well_spaced ps → s.good = true → s.rest = spaced ps → ps.length < fuel →
      extract_loop fuel s acc = some (acc ++ ps.map (fun p => p.2)) := by
  induction ps with
  | nil => intro _ _ _ h; exact absurd rfl h
  | cons p ps ih =>
    intro fuel s acc _ hw hgood hrest hfuel
    obtain ⟨h1, h2, h3, h4, h5⟩ := hw
    cases fuel with
    | zero => exact absurd hfuel (by simp)
    | succ fuel =>
      have hex := extract_word s p.1 p.2 (spaced ps) [] hgood (by rw [hrest, spaced_cons]) h1 h2 h3
        (spaced_head_space ps h5 h4)
      simp only [extract_loop, hex]
      cases ps with
      | nil =>
        cases fuel with
        | zero => simp at hfuel
        | succ fuel =>
          simp [spaced, extract_loop, IStream.extract, IStream.good]
      | cons q qs =>
        have hq : q.2 ≠ [] := h5.2.2.1
        have hne : spaced (q :: qs) ≠ [] := spaced_ne_nil q qs hq
        have hempty : (spaced (q :: qs)).isEmpty = false := by
          cases hsp : spaced (q :: qs) with
          | nil => exact absurd hsp hne
          | cons _ _ => rfl
        simp only [Bool.false_eq_true, if_false]
        rw [ih fuel _ _ (by simp) h5 (by simp [IStream.good, hempty]) rfl
          (by simp at hfuel ⊢; omega)]
        simp

/-! ### Vectors of columns -/

theorem mkCols_length (nv : Nat) (f : Nat → Column_Info) : (mkCols nv f).length = nv + 1 := by
  simp [mkCols]

theorem mkCols_getElem? (nv : Nat) (f : Nat → Column_Info) (j : Nat) (hj : j < nv) :
    (mkCols nv f)[j]? = some (f j) := by
  unfold mkCols
  rw [List.getElem?_append_left (by simpa using hj)]
  simp [List.getElem?_map, List.getElem?_range hj]

theorem mkCols_congr (nv : Nat) (f g : Nat → Column_Info) (h : ∀ i, i < nv → f i = g i) :
    mkCols nv f = mkCols nv g := by
  unfold mkCols
  congr 1
  apply List.map_congr_left
  intro i hi
  exact h i (List.mem_range.mp hi)

theorem mkCols_set (nv : Nat) (f : Nat → Column_Info) (j : Nat) (hj : j < nv) (c : Column_Info) :
    (mkCols nv f).set j c = mkCols nv (fun i => if i = j then c else f i) := by
  apply List.ext_getElem?
  intro i
  by_cases hi : i < nv
  · rw [mkCols_getElem? _ _ _ hi]
    by_cases hij : i = j
    · subst hij
      rw [List.getElem?_set_self (by rw [mkCols_length]; omega)]
      simp
    · rw [List.getElem?_set_ne (Ne.symm hij), mkCols_getElem? _ _ _ hi]
      simp [hij]
  · have hne : j ≠ i := by omega
    rw [List.getElem?_set_ne hne]
    unfold mkCols
    rw [List.getElem?_append_right (by simp; omega), List.getElem?_append_right (by simp; omega)]
    simp

theorem mkCols_take (nv : Nat) (f : Nat → Column_Info) :
    (mkCols nv f).take nv = (List.range nv).map f := by
  unfold mkCols
  rw [List.take_append_of_le_length (by simp)]
  simp [List.take_of_length_le]

theorem mkCols_drop (nv : Nat) (f : Nat → Column_Info) :
    (mkCols nv f).drop nv = [nothing_column] := by
  unfold mkCols
  rw [List.drop_append_of_le_length (by simp)]
  simp [List.drop_of_length_le]

theorem forFirst_mkCols (g : Column_Info → Column_Info) (nv : Nat) (f : Nat → Column_Info) :
    forFirst g (mkCols nv f) nv = some (mkCols nv (fun i => g (f i))) := by
  unfold forFirst
  rw [if_pos (by rw [mkCols_length]; omega), mkCols_take, mkCols_drop]
  simp [mkCols]

/-! ### One data line -/

theorem spaced_isEmpty_cons (q : List Char × List Char) (qs : List (List Char × List Char))
    (h : well_spaced (q :: qs)) : (spaced (q :: qs)).isEmpty = false := by
  have hne : spaced (q :: qs) ≠ [] := spaced_ne_nil q qs h.2.2.1
  cases hsp : spaced (q :: qs) with
  | nil => exact absurd hsp hne
  | cons _ _ => rfl

/-- Reading the words of a well separated line into numeric columns: the word at position
`i` is converted and stored in row `k` of column `j + i`. -/
theorem read_fields_spaced (io : NumIO) (ops : ColumnOps) (s : Data_File_Manager) (k nv : Nat)
    (hdel : s.delimiter_char_ = ' ') (hsel : s.readSelectionInfo_ = 0) (hnv : s.nvars = nv)
    (ps : List (List Char × List Char)) :
    ∀ (j : Nat) (f : Nat → Column_Info) (st : LineState),
      ps ≠ [] → well_spaced ps → st.ss.good = true → st.ss.rest = spaced ps →
      st.column_info = mkCols nv f → j + ps.length = nv →
      (∀ i, i < nv → (f i).hasASCII = 0 ∧ k < (f i).points.length) →
      ∃ st1, read_fields io ops s (k : Int) ps.length (j : Int) st = some st1 ∧
        st1.column_info = mkCols nv (fun i =>
          if j ≤ i then
            store_value (f i) k
              (Flt.round32 (numeric_value io s.bad_value_proxy_ (ps.getD (i - j) ([], [])).2
                (ps.getD (i - j) ([], [])).2))
          else f i) ∧
        st1.isBadData = st.isBadData ∧ st1.nUnreadableData = st.nUnreadableData ∧
        st1.read_selected = st.read_selected := by
  induction ps with
  | nil => intro _ _ _ h; exact absurd rfl h
  | cons p ps ih =>
    intro j f st _ hw hgood hrest hci hlen hf
    obtain ⟨h1, h2, h3, h4, h5⟩ := hw
    have hj : j < nv := by simp at hlen; omega
    have hex := extract_word st.ss p.1 p.2 (spaced ps) st.sToken hgood
      (by rw [hrest, spaced_cons]) h1 h2 h3 (spaced_head_space ps h5 h4)
    have hcol : st.column_info[(j : Int).toNat]? = some (f j) := by
      rw [hci]; simpa using mkCols_getElem? nv f j hj
    have hjneg : ¬ ((j : Int) < 0) := by omega
    have hset : set_point (f j) (k : Int)
        (Flt.round32 (numeric_value io s.bad_value_proxy_ p.2 p.2))
        = some (store_value (f j) k
            (Flt.round32 (numeric_value io s.bad_value_proxy_ p.2 p.2))) := by
      unfold set_point
      rw [if_pos ⟨by omega, by simpa using (hf j hj).2⟩]
      simp
    have hhas : (f j).hasASCII = 0 := (hf j hj).1
    cases ps with
    | nil =>
      have hjlast : ¬ ((j : Int) < s.nvars - 1) := by
        simp at hlen; rw [hnv]; omega
      let c1 : Column_Info := store_value (f j) k
        (Flt.round32 (numeric_value io s.bad_value_proxy_ p.2 p.2))
      let st0 : LineState :=
        { ss := { rest := [], eofbit := true, failbit := false },
          xValue := numeric_value io s.bad_value_proxy_ p.2 p.2, sToken := p.2,
          column_info := st.column_info.set j c1, read_selected := st.read_selected,
          isBadData := st.isBadData, nUnreadableData := st.nUnreadableData }
      refine ⟨st0, ?_, ?_, rfl, rfl, rfl⟩
      · simp only [List.length_cons, List.length_nil, read_fields, hjneg, if_false, hcol, hdel,
          if_true, hex, hhas, hsel, true_or, hjlast, and_false, numeric_value] at hset ⊢
        simp only [spaced, List.map_nil, List.flatten_nil, List.isEmpty_nil, Bool.false_eq_true,
          if_false, hset, Option.map_some', Int.toNat_ofNat]
        simp only [st0, c1, numeric_value]
      · simp only [st0, hci]
        rw [mkCols_set nv f j hj]
        apply mkCols_congr
        intro i hi
        have : i ≤ j := by simp at hlen; omega
        by_cases hij : i = j
        · subst hij; simp [c1]
        · have : ¬ j ≤ i := by omega
          simp [hij, this]
    | cons q qs =>
      have hempty := spaced_isEmpty_cons q qs h5
      let ss1 : IStream :=
        { rest := spaced (q :: qs), eofbit := (spaced (q :: qs)).isEmpty, failbit := false }
      have hgood1 : ss1.good = true := by
        simp [ss1, IStream.good, hempty]
      let c1 : Column_Info := store_value (f j) k
        (Flt.round32 (numeric_value io s.bad_value_proxy_ p.2 p.2))
      let st0 : LineState :=
        { ss := ss1, xValue := numeric_value io s.bad_value_proxy_ p.2 p.2, sToken := p.2,
          column_info := st.column_info.set j c1, read_selected := st.read_selected,
          isBadData := st.isBadData, nUnreadableData := st.nUnreadableData }
      obtain ⟨st1, hst1, hc1, hb1, hu1, hr1⟩ := ih (j + 1)
        (fun i => if i = j then c1 else f i) st0
        (by simp) h5 hgood1 rfl
        (by simp only [st0, hci]; exact mkCols_set nv f j hj _)
        (by simp at hlen ⊢; omega)
        (by
          intro i hi
          by_cases hij : i = j
          · subst hij; simpa [c1, store_value] using hf i hi
          · simpa [hij] using hf i hi)
      refine ⟨st1, ?_, ?_, hb1, hu1, hr1⟩
      · rw [← hst1]
        simp only [List.length_cons, read_fields, hjneg, if_false, hcol, hdel,
          if_true, hex, hhas, hsel, true_or, hempty, Bool.false_eq_true, false_and,
          numeric_value] at hset ⊢
        simp only [hset, Option.map_some', Int.toNat_ofNat]
        have hg : ({ rest := spaced (q :: qs), eofbit := false, failbit := false } : IStream).good
            = true := rfl
        simp only [hg, Bool.true_eq_false, false_and, if_false]
        simp only [st0, ss1, c1, hempty, numeric_value]
        rfl
      · rw [hc1]
        apply mkCols_congr
        intro i hi
        by_cases hij : i = j
        · subst hij; simp [c1]
        · by_cases hlt : j ≤ i
          · have h1 : j + 1 ≤ i := by omega
            have h2 : i - j = (i - (j + 1)) + 1 := by omega
            simp only [hij, if_false, h1, hlt, if_true]
            rw [h2]
            simp
          · have h1 : ¬ j + 1 ≤ i := by omega
            simp [hij, h1, hlt]

/-- The types that `extract_column_types` finds on a well separated line: column `j + i`
gets the type of the word at position `i`. -/
theorem column_types_spaced (io : NumIO) (nv : Nat) (ps : List (List Char × List Char)) :
    ∀ (j : Nat) (f : Nat → Column_Info) (ss : IStream) (sToken : List Char),
      ps ≠ [] → well_spaced ps → ss.good = true → ss.rest = spaced ps → j + ps.length = nv →
      column_types_loop io ' ' (nv : Int) ps.length (j : Int) ss sToken (mkCols nv f)
        = some (mkCols nv (fun i =>
            if j ≤ i then set_type (f i) (word_type io (ps.getD (i - j) ([], [])).2)
            else f i)) := by
  induction ps with
  | nil => intro _ _ _ _ h; exact absurd rfl h
  | cons p ps ih =>
    intro j f ss sToken _ hw hgood hrest hlen
    obtain ⟨h1, h2, h3, h4, h5⟩ := hw
    have hj : j < nv := by simp at hlen; omega
    have hex := extract_word ss p.1 p.2 (spaced ps) sToken hgood
      (by rw [hrest, spaced_cons]) h1 h2 h3 (spaced_head_space ps h5 h4)
    have hjneg : ¬ ((j : Int) < 0) := by omega
    have hmod : modifyAt (fun c => set_type c (word_type io p.2)) (mkCols nv f) j
        = some (mkCols nv (fun i => if i = j then set_type (f j) (word_type io p.2) else f i)) := by
      unfold modifyAt
      rw [mkCols_getElem? nv f j hj]
      simp only []
      rw [mkCols_set nv f j hj]
    cases ps with
    | nil =>
      have hjlast : ¬ ((j : Int) < (nv : Int) - 1) := by
        simp at hlen; omega
      simp only [List.length_cons, List.length_nil, column_types_loop, if_true, hex, hjlast,
        and_false, if_false, hjneg, Int.toNat_ofNat, hmod, zero_add]
      simp only [Option.some.injEq]
      apply mkCols_congr
      intro i hi
      have : i ≤ j := by simp at hlen; omega
      by_cases hij : i = j
      · subst hij; simp
      · have : ¬ j ≤ i := by omega
        simp [hij, this]
    | cons q qs =>
      have hempty := spaced_isEmpty_cons q qs h5
      have hgood1 : ({ rest := spaced (q :: qs), eofbit := false, failbit := false } : IStream).good
          = true := rfl
      have hih := ih (j + 1) (fun i => if i = j then set_type (f j) (word_type io p.2) else f i)
        { rest := spaced (q :: qs), eofbit := false, failbit := false } p.2
        (by simp) h5 hgood1 rfl (by simp at hlen ⊢; omega)
      simp only [Nat.cast_add, Nat.cast_one] at hih
      rw [List.length_cons, column_types_loop]
      simp only [if_true, hex, hempty, Bool.false_eq_true,
        false_and, if_false, hjneg, Int.toNat_ofNat, hgood1, Bool.true_eq_false, hmod]
      rw [hih]
      simp only [Option.some.injEq]
      apply mkCols_congr
      intro i hi
      by_cases hij : i = j
      · subst hij; simp
      · by_cases hlt : j ≤ i
        · have h1 : j + 1 ≤ i := by omega
          have h2 : i - j = (i - (j + 1)) + 1 := by omega
          simp only [hij, if_false, h1, hlt, if_true]
          rw [h2]
          simp
        · have h1 : ¬ j + 1 ≤ i := by omega
          simp [hij, h1, hlt]

/-! ### The rows of a written file -/

theorem replace_tabs_id (l : List Char) (h : ∀ c ∈ l, c ≠ '\t') : replace_tabs l = l := by
  unfold replace_tabs
  induction l with
  | nil => rfl
  | cons a t ih =>
    have ha : a ≠ '\t' := h a (List.mem_cons_self _ _)
    have iht := ih (fun c hc => h c (List.mem_cons_of_mem _ hc))
    simp only [List.map_cons, beq_iff_eq, ha, if_false] at iht ⊢
    rw [iht]

theorem mem_spaced (ps : List (List Char × List Char)) (c : Char) (hc : c ∈ spaced ps) :
    ∃ p ∈ ps, c ∈ p.1 ∨ c ∈ p.2 := by
  unfold spaced at hc
  rw [List.mem_flatten] at hc
  obtain ⟨l, hl, hcl⟩ := hc
  rw [List.mem_map] at hl
  obtain ⟨p, hp, rfl⟩ := hl
  exact ⟨p, hp, List.mem_append.mp hcl⟩

theorem not_space_ne (c x : Char) (h : isspace c = false) (hx : isspace x = true) : c ≠ x := by
  intro hcx; subst hcx; rw [h] at hx; exact absurd hx (by simp)

theorem well_spaced_map (n : Nat) (g : Nat → List Char × List Char) :
    ∀ (j : Nat),
      (∀ i, j ≤ i → i < j + n → (∀ c ∈ (g i).1, isspace c = true) ∧
        (∀ c ∈ (g i).2, isspace c = false) ∧ (g i).2 ≠ []) →
      (∀ i, j < i → i < j + n → (g i).1 ≠ []) →
      well_spaced ((List.range' j n).map g) := by
  induction n with
  | zero => intro j _ _; simp [List.range', well_spaced]
  | succ n ih =>
    intro j h1 h2
    simp only [List.range', List.map_cons, well_spaced]
    obtain ⟨ha, hb, hc⟩ := h1 j (le_refl _) (by omega)
    refine ⟨ha, hb, hc, ?_, ?_⟩
    · intro q hq
      cases n with
      | zero => simp [List.range'] at hq
      | succ m =>
        simp only [List.range', List.map_cons, List.head?_cons, Option.mem_def,
          Option.some.injEq] at hq
        subst hq
        exact h2 (j + 1) (by omega) (by omega)
    · exact ih (j + 1) (fun i hi1 hi2 => h1 i (by omega) (by omega))
        (fun i hi1 hi2 => h2 i (by omega) (by omega))

theorem row_pieces_well_spaced (io : NumIO) (cols : List Column_Info) (i : Nat)
    (h : ∀ j, j < cols.length → clean_number io (value_at cols j i)) :
    well_spaced (row_pieces io cols i) := by
  unfold row_pieces
  rw [List.range_eq_range']
  apply well_spaced_map
  · intro j _ hj
    have hc := h j (by omega)
    refine ⟨?_, hc.2.1, hc.1⟩
    by_cases h0 : j = 0
    · simp [h0]
    · simp only [h0, if_false]
      intro c hc
      simp at hc
      subst hc
      rfl
  · intro j hj _
    have h0 : j ≠ 0 := by omega
    simp [h0]

theorem row_line_no_tab (io : NumIO) (cols : List Column_Info) (i : Nat)
    (h : ∀ j, j < cols.length → clean_number io (value_at cols j i)) :
    ∀ c ∈ spaced (row_pieces io cols i), c ≠ '\t' ∧ c ≠ '\n' := by
  intro c hc
  obtain ⟨p, hp, hcp⟩ := mem_spaced _ c hc
  unfold row_pieces at hp
  rw [List.mem_map] at hp
  obtain ⟨j, hj, rfl⟩ := hp
  have hcl := h j (List.mem_range.mp hj)
  rcases hcp with hcp | hcp
  · by_cases h0 : j = 0
    · simp [h0] at hcp
    · simp only [h0, if_false] at hcp
      simp at hcp
      subst hcp
      exact ⟨by decide, by decide⟩
  · exact ⟨not_space_ne c '\t' (hcl.2.1 c hcp) rfl, not_space_ne c '\n' (hcl.2.1 c hcp) rfl⟩

theorem row_line_head (io : NumIO) (cols : List Column_Info) (i : Nat) (hnv : 0 < cols.length)
    (h : ∀ j, j < cols.length → clean_number io (value_at cols j i)) :
    (spaced (row_pieces io cols i)).length ≠ 0 ∧
    starts_with_comment (spaced (row_pieces io cols i)) = false := by
  have hc := h 0 hnv
  have hrp : row_pieces io cols i
      = ([], io.show_float (value_at cols 0 i)) ::
        (List.range' 1 (cols.length - 1)).map (fun j =>
          (if j = 0 then [] else [' ', ' '], io.show_float (value_at cols j i))) := by
    unfold row_pieces
    rw [List.range_eq_range']
    have : cols.length = (cols.length - 1) + 1 := by omega
    rw [this, List.range'_succ]
    simp
  rw [hrp, spaced_cons]
  cases hs : io.show_float (value_at cols 0 i) with
  | nil => exact absurd hs hc.1
  | cons a t =>
    have := hc.2.2.1
    rw [hs] at this
    simpa [starts_with_comment] using this

theorem data_column_getD (cols : List Column_Info) (cap k : Nat) (hs : Nat → Int) (j i : Nat)
    (hi : i < cap) :
    (data_column cols cap k hs j).points.getD i Flt.nan
      = if i < k then value_at cols j i else Flt.zero := by
  simp [data_column, List.getD_eq_getElem?_getD, List.getElem?_map, List.getElem?_range hi]

theorem data_column_length (cols : List Column_Info) (cap k : Nat) (hs : Nat → Int) (j : Nat) :
    (data_column cols cap k hs j).points.length = cap := by
  simp [data_column]

theorem store_value_data_column (cols : List Column_Info) (cap k : Nat) (hs : Nat → Int)
    (j : Nat) (hk : k < cap) :
    store_value (data_column cols cap k hs j) k (value_at cols j k)
      = data_column cols cap (k + 1) hs j := by
  unfold store_value data_column
  simp only [Column_Info.mk.injEq, true_and, and_true]
  apply List.ext_getElem?
  intro i
  by_cases hi : i < cap
  · by_cases hik : i = k
    · subst hik
      rw [List.getElem?_set_self (by simpa using hi)]
      simp [List.getElem?_map, List.getElem?_range hi]
    · rw [List.getElem?_set_ne (Ne.symm hik)]
      simp only [List.getElem?_map, List.getElem?_range hi, Option.map_some']
      have : (i < k + 1) = (i < k) := by
        apply propext; constructor <;> intro h <;> omega
      simp only [this]
  · have h1 : ((List.range cap).map
        (fun i => if i < k then value_at cols j i else Flt.zero)).length ≤ i := by
      simp; omega
    have h2 : ((List.range cap).map
        (fun i => if i < k + 1 then value_at cols j i else Flt.zero)).length ≤ i := by
      simp; omega
    rw [List.getElem?_eq_none (by simpa using h1), List.getElem?_eq_none h2]

theorem set_type_data_column (cols : List Column_Info) (cap k : Nat) (hs : Nat → Int)
    (j : Nat) (h : Int) :
    set_type (data_column cols cap k hs j) h = data_column cols cap k (fun _ => h) j := rfl

theorem no_bad_data_flag (cols : List Column_Info) (cap k nv : Nat) (hs : Nat → Int)
    (hk : k < cap)
    (h : ∀ j, j < nv → Flt.lt (value_at cols j k) bad_data_flag = false) :
    has_bad_data_flag (mkCols nv (data_column cols cap (k + 1) hs)) (nv : Int) (k : Int)
      = some false := by
  unfold has_bad_data_flag
  simp only [Int.toNat_ofNat, mkCols_take]
  have h1 : (List.map (data_column cols cap (k + 1) hs) (List.range nv)).all
      (fun c => decide (k < c.points.length)) = true := by
    rw [List.all_eq_true]
    intro c hc
    rw [List.mem_map] at hc
    obtain ⟨j, _, rfl⟩ := hc
    simpa [data_column_length] using hk
  have h2 : (List.map (data_column cols cap (k + 1) hs) (List.range nv)).any
      (fun c => Flt.lt (c.points.getD k Flt.nan) bad_data_flag) = false := by
    rw [List.any_eq_false]
    intro c hc
    rw [List.mem_map] at hc
    obtain ⟨j, hj, rfl⟩ := hc
    rw [data_column_getD _ _ _ _ _ _ hk, if_pos (by omega)]
    simpa using h j (List.mem_range.mp hj)
  rw [if_pos ⟨by omega, by rw [mkCols_length]; omega, h1⟩, h2]

theorem numeric_value_clean (io : NumIO) (proxy v : Flt) (h : clean_number io v) :
    Flt.round32 (numeric_value io proxy (io.show_float v) (io.show_float v)) = v := by
  unfold numeric_value
  have h5 := h.2.2.2.2.1
  rw [h.2.2.2.2.2.1]
  cases hp : io.parse_double (io.show_float v) with
  | none => rw [hp] at h5; simp at h5
  | some d =>
    rw [hp] at h5
    simpa using h5

theorem word_type_clean (io : NumIO) (v : Flt) (h : clean_number io v) :
    word_type io (io.show_float v) = 0 := by
  unfold word_type
  rw [h.2.2.2.1]
  simp

/-! ### The data loop -/

/-- One pass of the data loop over a row written from clean numbers: the row is stored and
the row counter advances. -/
theorem data_loop_row (io : NumIO) (ops : ColumnOps) (cols : List Column_Info)
    (cap k : Nat) (hs : Nat → Int) (fuel : Nat) (d : DataState) (rest : List Char)
    (hnv : 0 < cols.length) (hk : k < cap)
    (hclean : ∀ j, j < cols.length → clean_number io (value_at cols j k))
    (hdel : d.dfm.delimiter_char_ = ' ') (hsel : d.dfm.readSelectionInfo_ = 0)
    (hnvars : d.dfm.nvars = cols.length) (hndc : d.dfm.nDataColumns_ = cols.length)
    (hmax : 1 ≤ d.dfm.MAX_NUNREADABLELINES)
    (hrows : d.nDataRows_ = k) (hunread : d.nUnreadableData = 0)
    (hci : d.dfm.column_info = mkCols cols.length (data_column cols cap k hs))
    (hhs : k = 0 ∨ ∀ j, hs j = 0)
    (heof : d.inStream.eofbit = false)
    (hfetch : (if d.uReadNextLine then d.inStream.getline '\n' d.line else (d.inStream, d.line))
      = ({ rest := rest, eofbit := false, failbit := false }, spaced (row_pieces io cols k))) :
    ∃ d1, data_loop io ops cap (fuel + 1) d = data_loop io ops cap fuel d1 ∧
      d1.inStream = { rest := rest, eofbit := false, failbit := false } ∧
      d1.uReadNextLine = true ∧ d1.nDataRows_ = k + 1 ∧ d1.nUnreadableData = 0 ∧
      d1.dfm = { d.dfm with
        column_info := mkCols cols.length (data_column cols cap (k + 1) (fun _ => 0)) } := by
  have hws := row_pieces_well_spaced io cols k hclean
  have hnotab := row_line_no_tab io cols k hclean
  have hhead := row_line_head io cols k hnv hclean
  have hrt : replace_tabs (spaced (row_pieces io cols k)) = spaced (row_pieces io cols k) :=
    replace_tabs_id _ (fun c hc => (hnotab c hc).1)
  have hlen : (row_pieces io cols k).length = cols.length := by simp [row_pieces]
  have hne : row_pieces io cols k ≠ [] := by
    intro h; rw [h] at hlen; simp at hlen; omega
  have htab : d.dfm.delimiter_char_ ≠ '\t' := by rw [hdel]; decide
  -- the types found on the first row
  have htypes : (if d.nDataRows_ = 0 then
        extract_column_types io d.dfm (spaced (row_pieces io cols k)) else some d.dfm)
      = some { d.dfm with
          column_info := mkCols cols.length (data_column cols cap k (fun _ => 0)) } := by
    by_cases hk0 : k = 0
    · have hd0 : d.nDataRows_ = 0 := by rw [hrows, hk0]; rfl
      rw [if_pos hd0]
      have := column_types_spaced io cols.length (row_pieces io cols k) 0
        (data_column cols cap k hs) (IStream.ofText (spaced (row_pieces io cols k))) []
        hne hws rfl rfl (by rw [hlen]; omega)
      rw [hlen] at this
      simp only [Nat.cast_zero] at this
      unfold extract_column_types
      conv_lhs =>
        rw [if_pos htab, hrt, hdel, hnvars, hci]
        simp only [Int.toNat_ofNat]
        rw [this]
      simp only [Option.map_some', Option.some.injEq]
      congr 1
      · apply mkCols_congr
        intro i hi
        simp only [Nat.zero_le, if_true, Nat.sub_zero]
        rw [set_type_data_column]
        have hget : ((row_pieces io cols k).getD i ([], [])).2
            = io.show_float (value_at cols i k) := by
          simp [row_pieces, List.getD_eq_getElem?_getD, List.getElem?_map,
            List.getElem?_range hi]
        rw [hget, word_type_clean io _ (hclean i hi)]
      · exact hnvars.symm
      · exact hdel.symm
    · have hd0 : ¬ d.nDataRows_ = 0 := by rw [hrows]; omega
      rw [if_neg hd0]
      have hz : ∀ j, hs j = 0 := by
        rcases hhs with h | h
        · exact absurd h hk0
        · exact h
      have : hs = fun _ => 0 := funext hz
      rw [this] at hci
      rw [← hci]
  -- the fields of the row
  let dfm1 : Data_File_Manager :=
    { d.dfm with column_info := mkCols cols.length (data_column cols cap k (fun _ => 0)) }
  let st0 : LineState :=
    { ss := IStream.ofText (spaced (row_pieces io cols k)), xValue := Flt.zero, sToken := [],
      column_info := dfm1.column_info, read_selected := dfm1.read_selected,
      isBadData := false, nUnreadableData := d.nUnreadableData }
  obtain ⟨st1, hst1, hc1, hb1, hu1, hr1⟩ := read_fields_spaced io ops dfm1 k cols.length
    hdel hsel hnvars (row_pieces io cols k) 0 (data_column cols cap k (fun _ => 0)) st0
    hne hws rfl rfl rfl (by rw [hlen]; omega)
    (fun i _ => ⟨rfl, by rw [data_column_length]; exact hk⟩)
  have hc2 : st1.column_info = mkCols cols.length (data_column cols cap (k + 1) (fun _ => 0)) := by
    rw [hc1]
    apply mkCols_congr
    intro i hi
    simp only [Nat.zero_le, if_true, Nat.sub_zero]
    have hget : ((row_pieces io cols k).getD i ([], [])).2
        = io.show_float (value_at cols i k) := by
      simp [row_pieces, List.getD_eq_getElem?_getD, List.getElem?_map, List.getElem?_range hi]
    rw [hget, numeric_value_clean io _ _ (hclean i hi), store_value_data_column _ _ _ _ _ hk]
  have hflag := no_bad_data_flag cols cap k cols.length (fun _ => 0) hk
    (fun j hj => (hclean j hj).2.2.2.2.2.2)
  rw [hlen] at hst1
  simp only [Nat.cast_zero] at hst1
  have hcond : d.inStream.eofbit = false ∧ d.nDataRows_ < (cap : Int) := by
    refine ⟨heof, ?_⟩
    rw [hrows]; omega
  have hnobreak : ¬ (d.uReadNextLine = true ∧
      (if d.uReadNextLine then d.inStream.getline '\n' d.line
        else (d.inStream, d.line)).1.eofbit = true) := by
    rw [hfetch]; simp
  refine ⟨{ inStream := { rest := rest, eofbit := false, failbit := false },
            line := spaced (row_pieces io cols k), uReadNextLine := true,
            nRead := if d.uReadNextLine then d.nRead + 1 else d.nRead,
            nSkip := d.nSkip, nDataRows_ := k + 1,
            nTestCycle := if d.nTestCycle + 1 ≥ d.dfm.MAX_NTESTCYCLES then 0
              else d.nTestCycle + 1,
            nUnreadableData := 0,
            dfm := { d.dfm with
              column_info := mkCols cols.length (data_column cols cap (k + 1) (fun _ => 0)) } },
    ?_, rfl, rfl, rfl, rfl, rfl⟩
  rw [data_loop]
  simp only [hcond, and_self, if_true, hnobreak, if_false, hfetch, hhead.1, hhead.2,
    Bool.false_eq_true, or_self, htypes]
  have hst1' : read_fields io ops dfm1 k d.dfm.nvars.toNat 0
      { ss := IStream.ofText (spaced (row_pieces io cols k)),
        xValue := Flt.zero, sToken := [],
        column_info := dfm1.column_info, read_selected := dfm1.read_selected,
        isBadData := false, nUnreadableData := d.nUnreadableData } = some st1 := by
    rw [hnvars]; exact hst1
  have hflag' : has_bad_data_flag
      (mkCols cols.length (data_column cols cap (k + 1) (fun _ => 0)))
      d.dfm.nDataColumns_ k = some false := by
    rw [hndc]; exact hflag
  have hu2 : st1.nUnreadableData = 0 := by rw [hu1]; exact hunread
  have hthr : ¬ (d.nTestCycle + 1 ≥ d.dfm.MAX_NTESTCYCLES ∧
      0 ≥ d.dfm.MAX_NUNREADABLELINES) := by
    omega
  have hb2 : st1.isBadData = false := by rw [hb1]
  have hr2 : st1.read_selected = d.dfm.read_selected := by rw [hr1]
  simp only [dfm1] at hst1' 
  simp only [hrows, if_pos htab, hrt, and_false, if_false, hst1', hflag', hthr, hb2, hc2,
    hu2, hr2, Bool.or_false, Bool.false_eq_true]

theorem rows_text_succ (io : NumIO) (cols : List Column_Info) (k m : Nat) :
    rows_text io cols k (m + 1)
      = spaced (row_pieces io cols k) ++ '\n' :: rows_text io cols (k + 1) m := by
  simp [rows_text, List.range'_succ]

theorem rows_text_length (io : NumIO) (cols : List Column_Info) (m : Nat) :
    ∀ k, m ≤ (rows_text io cols k m).length := by
  induction m with
  | zero => intro k; exact Nat.zero_le _
  | succ m ih =>
    intro k
    rw [rows_text_succ, List.length_append, List.length_cons]
    have := ih (k + 1)
    omega

/-- The data loop on the rows `k, ..., n - 1` written from clean numbers, followed by the
end of the text: it ends with status 0 and all `n` rows stored. -/
theorem data_loop_rows (io : NumIO) (ops : ColumnOps) (cols : List Column_Info) (cap n : Nat)
    (hnv : 0 < cols.length) (hn : n ≤ cap)
    (hclean : ∀ i, i < n → ∀ j, j < cols.length → clean_number io (value_at cols j i)) :
    ∀ (m k fuel : Nat) (hs : Nat → Int) (d : DataState),
      k + m = n → m < fuel →
      d.dfm.delimiter_char_ = ' ' → d.dfm.readSelectionInfo_ = 0 →
      d.dfm.nvars = cols.length → d.dfm.nDataColumns_ = cols.length →
      1 ≤ d.dfm.MAX_NUNREADABLELINES →
      d.nDataRows_ = k → d.nUnreadableData = 0 →
      d.dfm.column_info = mkCols cols.length (data_column cols cap k hs) →
      ((k = 0 ∧ 0 < m) ∨ ∀ j, hs j = 0) →
      d.uReadNextLine = true →
      d.inStream = { rest := rows_text io cols k m, eofbit := false, failbit := false } →
      ∃ d1, data_loop io ops cap fuel d = some (0, d1) ∧ d1.nDataRows_ = n ∧
        d1.dfm = { d.dfm with
          column_info := mkCols cols.length (data_column cols cap n (fun _ => 0)) } := by
  intro m
  induction m with
  | zero =>
    intro k fuel hs d hkm hfuel hdel hsel hnvars hndc hmax hrows hunread hci hhs hur hin
    obtain ⟨f, rfl⟩ : ∃ f, fuel = f + 1 := ⟨fuel - 1, by omega⟩
    have hkn : k = n := by omega
    have hz : hs = fun _ => 0 := by
      rcases hhs with h | h
      · omega
      · exact funext h
    rw [hz, hkn] at hci
    have hdfm : d.dfm = { d.dfm with
        column_info := mkCols cols.length (data_column cols cap n (fun _ => 0)) } := by
      rw [← hci]
    have heof : d.inStream.eofbit = false := by rw [hin]
    rw [data_loop]
    by_cases hk : k < cap
    · have hcond : d.inStream.eofbit = false ∧ d.nDataRows_ < (cap : Int) := by
        refine ⟨heof, ?_⟩
        rw [hrows]; omega
      have hg : d.inStream.getline '\n' d.line
          = ({ rest := [], eofbit := true, failbit := true }, []) :=
        getline_at_end _ _ (by rw [hin]; rfl) (by rw [hin]; rfl)
      rw [if_pos hcond]
      simp only [hur, if_true, hg, and_self]
      exact ⟨_, rfl, by rw [← hkn]; exact hrows, hdfm⟩
    · have hcond : ¬ (d.inStream.eofbit = false ∧ d.nDataRows_ < (cap : Int)) := by
        rw [hrows]; omega
      rw [if_neg hcond]
      exact ⟨_, rfl, by rw [← hkn]; exact hrows, hdfm⟩
  | succ m ih =>
    intro k fuel hs d hkm hfuel hdel hsel hnvars hndc hmax hrows hunread hci hhs hur hin
    obtain ⟨f, rfl⟩ : ∃ f, fuel = f + 1 := ⟨fuel - 1, by omega⟩
    have hrow := hclean k (by omega)
    have hnotab := row_line_no_tab io cols k hrow
    have hfetch : (if d.uReadNextLine then d.inStream.getline '\n' d.line
          else (d.inStream, d.line))
        = ({ rest := rows_text io cols (k + 1) m, eofbit := false, failbit := false },
            spaced (row_pieces io cols k)) := by
      rw [if_pos hur]
      exact getline_newline _ _ _ _ (by rw [hin]; rfl) (by rw [hin, rows_text_succ])
        (fun c hc => (hnotab c hc).2)
    obtain ⟨d1, hstep, hin1, hur1, hrows1, hunread1, hdfm1⟩ :=
      data_loop_row io ops cols cap k hs f d (rows_text io cols (k + 1) m) hnv (by omega)
        hrow hdel hsel hnvars hndc hmax hrows hunread hci
        (by rcases hhs with h | h
            · exact Or.inl h.1
            · exact Or.inr h)
        (by rw [hin]) hfetch
    obtain ⟨d2, hrun, hrows2, hdfm2⟩ := ih (k + 1) f (fun _ => 0) d1 (by omega) (by omega)
      (by rw [hdfm1]; exact hdel) (by rw [hdfm1]; exact hsel) (by rw [hdfm1]; exact hnvars)
      (by rw [hdfm1]; exact hndc) (by rw [hdfm1]; exact hmax)
      (by rw [hrows1]; push_cast; rfl) hunread1 (by rw [hdfm1]) (Or.inr (fun _ => rfl)) hur1 hin1
    refine ⟨d2, by rw [hstep, hrun], hrows2, ?_⟩
    rw [hdfm2, hdfm1]

/-! ### The header loop -/

theorem header_loop_skip (skip : Int) (c : Nat) (iLine : Int) (h : HeaderState)
    (s1 : IStream) (l : List Char) (hc : 0 < c) (heof : h.inStream.eofbit = false)
    (hg : h.inStream.getline '\n' h.line = (s1, l)) (hl : l.length ≠ 0)
    (hskip : iLine < skip ∨ starts_with_comment l = true) :
    header_loop skip c iLine h = header_loop skip (c - 1) (iLine + 1)
      { inStream := s1, line := l, lastHeaderLine := l, nRead := h.nRead + 1,
        nHeaderLines := h.nHeaderLines + 1 } := by
  obtain ⟨c1, rfl⟩ : ∃ c1, c = c1 + 1 := ⟨c - 1, by omega⟩
  rw [header_loop]
  simp only [heof, Bool.false_eq_true, if_false, hg, hl, hskip, if_true, Nat.add_sub_cancel]

theorem header_loop_stop (skip : Int) (c : Nat) (iLine : Int) (h : HeaderState)
    (s1 : IStream) (l : List Char) (hc : 0 < c) (heof : h.inStream.eofbit = false)
    (hg : h.inStream.getline '\n' h.line = (s1, l)) (hl : l.length ≠ 0)
    (hskip : ¬ iLine < skip) (hcm : starts_with_comment l = false) :
    header_loop skip c iLine h =
      { inStream := s1, line := l, lastHeaderLine := h.lastHeaderLine, nRead := h.nRead + 1,
        nHeaderLines := h.nHeaderLines } := by
  obtain ⟨c1, rfl⟩ : ∃ c1, c = c1 + 1 := ⟨c - 1, by omega⟩
  rw [header_loop]
  simp only [heof, Bool.false_eq_true, if_false, hg, hl, hskip, hcm, or_self]

/-- The header loop on a text that starts with one comment line followed by a line that
is not a comment. -/
theorem header_one_comment (skip : Int) (l1 l2 rest : List Char) (hskip : skip ≤ 1)
    (h1 : ∀ c ∈ l1, c ≠ '\n') (h2 : ∀ c ∈ l2, c ≠ '\n')
    (hl1 : l1.length ≠ 0) (hl2 : l2.length ≠ 0)
    (hc1 : starts_with_comment l1 = true) (hc2 : starts_with_comment l2 = false) :
    header_loop skip MAX_HEADER_LINES 0
      { inStream := IStream.ofText (l1 ++ '\n' :: (l2 ++ '\n' :: rest)), line := [],
        lastHeaderLine := [], nRead := 0, nHeaderLines := 0 }
    = { inStream := { rest := rest, eofbit := false, failbit := false }, line := l2,
        lastHeaderLine := l1, nRead := 2, nHeaderLines := 1 } := by
  rw [header_loop_skip skip MAX_HEADER_LINES 0
    { inStream := IStream.ofText (l1 ++ '\n' :: (l2 ++ '\n' :: rest)), line := [],
      lastHeaderLine := [], nRead := 0, nHeaderLines := 0 }
    { rest := l2 ++ '\n' :: rest, eofbit := false, failbit := false } l1 (by decide) rfl
    (getline_newline _ l1 _ _ rfl rfl h1) hl1 (Or.inr hc1)]
  rw [header_loop_stop skip (MAX_HEADER_LINES - 1) (0 + 1)
    { inStream := { rest := l2 ++ '\n' :: rest, eofbit := false, failbit := false },
      line := l1, lastHeaderLine := l1, nRead := 0 + 1, nHeaderLines := 0 + 1 }
    { rest := rest, eofbit := false, failbit := false } l2 (by decide) rfl
    (getline_newline _ l2 _ _ rfl rfl h2) hl2 (by omega) hc2]
  rfl

/-- The header loop on a text that starts with two comment lines followed by a line that
is not a comment. -/
theorem header_two_comments (skip : Int) (l1 l2 l3 rest : List Char) (hskip : skip ≤ 2)
    (h1 : ∀ c ∈ l1, c ≠ '\n') (h2 : ∀ c ∈ l2, c ≠ '\n') (h3 : ∀ c ∈ l3, c ≠ '\n')
    (hl1 : l1.length ≠ 0) (hl2 : l2.length ≠ 0) (hl3 : l3.length ≠ 0)
    (hc1 : starts_with_comment l1 = true) (hc2 : starts_with_comment l2 = true)
    (hc3 : starts_with_comment l3 = false) :
    header_loop skip MAX_HEADER_LINES 0
      { inStream := IStream.ofText (l1 ++ '\n' :: (l2 ++ '\n' :: (l3 ++ '\n' :: rest))),
        line := [], lastHeaderLine := [], nRead := 0, nHeaderLines := 0 }
    = { inStream := { rest := rest, eofbit := false, failbit := false }, line := l3,
        lastHeaderLine := l2, nRead := 3, nHeaderLines := 2 } := by
  rw [header_loop_skip skip MAX_HEADER_LINES 0
    { inStream := IStream.ofText (l1 ++ '\n' :: (l2 ++ '\n' :: (l3 ++ '\n' :: rest))),
      line := [], lastHeaderLine := [], nRead := 0, nHeaderLines := 0 }
    { rest := l2 ++ '\n' :: (l3 ++ '\n' :: rest), eofbit := false, failbit := false } l1
    (by decide) rfl (getline_newline _ l1 _ _ rfl rfl h1) hl1 (Or.inr hc1)]
  rw [header_loop_skip skip (MAX_HEADER_LINES - 1) (0 + 1)
    { inStream := { rest := l2 ++ '\n' :: (l3 ++ '\n' :: rest), eofbit := false,
                    failbit := false },
      line := l1, lastHeaderLine := l1, nRead := 0 + 1, nHeaderLines := 0 + 1 }
    { rest := l3 ++ '\n' :: rest, eofbit := false, failbit := false } l2
    (by decide) rfl (getline_newline _ l2 _ _ rfl rfl h2) hl2 (Or.inr hc2)]
  rw [header_loop_stop skip (MAX_HEADER_LINES - 1 - 1) (0 + 1 + 1)
    { inStream := { rest := l3 ++ '\n' :: rest, eofbit := false, failbit := false },
      line := l2, lastHeaderLine := l2, nRead := 0 + 1 + 1, nHeaderLines := 0 + 1 + 1 }
    { rest := rest, eofbit := false, failbit := false } l3
    (by decide) rfl (getline_newline _ l3 _ _ rfl rfl h3) hl3 (by omega) hc3]
  rfl

/-! ### The label line -/

theorem spaced_length_ge (ps : List (List Char × List Char)) (h : well_spaced ps) :
    ps.length ≤ (spaced ps).length := by
  induction ps with
  | nil => exact Nat.zero_le _
  | cons p ps ih =>
    obtain ⟨_, _, h3, _, h5⟩ := h
    rw [spaced_cons, List.length_append, List.length_append, List.length_cons]
    have := ih h5
    have : 0 < p.2.length := List.length_pos.mpr h3
    omega

theorem label_pieces_length (first : List Char) (cols : List Column_Info) :
    (label_pieces first cols).length = cols.length := by
  simp [label_pieces]

theorem label_pieces_well_spaced (first : List Char) (cols : List Column_Info)
    (hfirst : ∀ c ∈ first, isspace c = true)
    (hlab : ∀ j, j < cols.length → clean_label (label_at cols j)) :
    well_spaced (label_pieces first cols) := by
  unfold label_pieces
  rw [List.range_eq_range']
  apply well_spaced_map
  · intro j _ hj
    have hc := hlab j (by omega)
    refine ⟨?_, hc.2, hc.1⟩
    by_cases h0 : j = 0
    · simp only [h0, if_true]
      intro c hc
      rcases List.mem_append.mp hc with h | h
      · exact hfirst c h
      · rw [List.eq_of_mem_replicate h]; rfl
    · simp only [h0, if_false]
      intro c hc
      simp only [List.mem_cons] at hc
      rcases hc with h | h | h
      · rw [h]; rfl
      · rw [h]; rfl
      · rw [List.eq_of_mem_replicate h]; rfl
  · intro j hj _
    have h0 : j ≠ 0 := by omega
    simp [h0]

theorem label_line_chars (cols : List Column_Info)
    (hlab : ∀ j, j < cols.length → clean_label (label_at cols j)) :
    ∀ c ∈ spaced (label_pieces [] cols), c ≠ '\t' ∧ c ≠ '\n' := by
  intro c hc
  obtain ⟨p, hp, hcp⟩ := mem_spaced _ c hc
  unfold label_pieces at hp
  rw [List.mem_map] at hp
  obtain ⟨j, hj, rfl⟩ := hp
  have hcl := hlab j (List.mem_range.mp hj)
  rcases hcp with hcp | hcp
  · by_cases h0 : j = 0
    · simp only [h0, if_true, List.nil_append] at hcp
      rw [List.eq_of_mem_replicate hcp]; exact ⟨by decide, by decide⟩
    · simp only [h0, if_false, List.mem_cons] at hcp
      rcases hcp with h | h | h
      · rw [h]; exact ⟨by decide, by decide⟩
      · rw [h]; exact ⟨by decide, by decide⟩
      · rw [List.eq_of_mem_replicate h]; exact ⟨by decide, by decide⟩
  · exact ⟨not_space_ne c '\t' (hcl.2 c hcp) rfl, not_space_ne c '\n' (hcl.2 c hcp) rfl⟩

theorem label_pieces_blank (cols : List Column_Info) (hnv : 0 < cols.length) :
    spaced (label_pieces [' '] cols) = ' ' :: spaced (label_pieces [] cols) := by
  unfold label_pieces
  obtain ⟨n, hn⟩ : ∃ n, cols.length = n + 1 := ⟨cols.length - 1, by omega⟩
  rw [hn, List.range_eq_range', List.range'_succ]
  simp only [spaced, List.map_cons, List.flatten_cons, if_true, List.map_map, List.cons_append,
    List.singleton_append, List.append_assoc, List.cons.injEq, true_and, List.append_cancel_left_eq]
  congr 1
  apply List.map_congr_left
  intro j hj
  have h0 : j ≠ 0 := by
    have := (List.mem_range'_1.mp hj).1
    omega
  simp [h0]

theorem label_pieces_words (first : List Char) (cols : List Column_Info) :
    ((label_pieces first cols).map (fun p => p.2)).map String.mk
      = (List.range cols.length).map (fun j => label_at cols j) := by
  simp [label_pieces]

theorem labelled_data_column (cols : List Column_Info) (j : Nat) :
    labelled_column (label_at cols j) = data_column cols 0 0 (fun _ => 0) j := rfl

/-- The labels that `extract_column_labels` finds on a written label line. -/
theorem extract_labels_written (s : Data_File_Manager) (cols : List Column_Info)
    (line first : List Char)
    (hline : (if starts_with_comment line then line.drop 1 else line)
      = spaced (label_pieces first cols))
    (hfirst : ∀ c ∈ first, isspace c = true)
    (hdel : s.delimiter_char_ = ' ') (hnv : 2 ≤ cols.length)
    (hmaxv : (cols.length : Int) ≤ s.maxvars_)
    (hcmd : s.nvars_cmd_line ≤ 0 ∨ (cols.length : Int) ≤ s.nvars_cmd_line)
    (hlab : ∀ j, j < cols.length → clean_label (label_at cols j))
    (hsel : SELECTION_LABEL.data.isPrefixOf (label_at cols (cols.length - 1)).data = false) :
    extract_column_labels s line 0
      = some ((cols.length : Int) + 1,
          { s with nvars := cols.length,
                   column_info := mkCols cols.length (data_column cols 0 0 (fun _ => 0)),
                   readSelectionInfo_ := 0 }) := by
  have hws := label_pieces_well_spaced first cols hfirst hlab
  have hlen := label_pieces_length first cols
  have hne : label_pieces first cols ≠ [] := by
    intro h; rw [h] at hlen; simp at hlen; omega
  have hfields : header_fields ' ' (spaced (label_pieces first cols))
      = some ((label_pieces first cols).map (fun p => p.2)) := by
    unfold header_fields
    rw [if_pos rfl, extract_loop_spaced _ _ (IStream.ofText (spaced (label_pieces first cols)))
      [] hne hws rfl rfl (by have := spaced_length_ge _ hws; omega)]
    rfl
  have hcols : ((List.range cols.length).map (fun j => label_at cols j)).map labelled_column
      = (List.range cols.length).map (data_column cols 0 0 (fun _ => 0)) := by
    rw [List.map_map]
    rfl
  have hcmd' : ¬ (s.nvars_cmd_line > 0 ∧ (cols.length : Int) > s.nvars_cmd_line) := by omega
  have hmerge : ¬ (s.doMerge = 0 ∧ (cols.length : Int) ≤ 1) := by omega
  have hmaxv' : ¬ ((cols.length : Int) > s.maxvars_) := by omega
  have hneg : ¬ ((cols.length : Int) - 1 < 0) := by omega
  have hidx : ((cols.length : Int) - 1).toNat = cols.length - 1 := by omega
  have hget : ((List.range cols.length).map (data_column cols 0 0 (fun _ => 0))
        ++ [labelled_column "-nothing-"])[cols.length - 1]?
      = some (data_column cols 0 0 (fun _ => 0) (cols.length - 1)) :=
    mkCols_getElem? _ _ _ (by omega)
  have hsel' : SELECTION_LABEL.data.isPrefixOf
      (data_column cols 0 0 (fun _ => 0) (cols.length - 1)).label.data = false := hsel
  unfold extract_column_labels
  simp only [ne_eq, not_true_eq_false, if_false, hline, hdel, if_true, hfields, Option.map_some',
    label_pieces_words, hcols, List.length_map, List.length_range, hcmd', hmerge, hmaxv', hneg,
    include_line_number, Bool.false_eq_true, hidx, hget, hsel', List.length_append,
    List.length_singleton]
  rfl

/-! ### The text that the writer emits -/

theorem enum_map_range {α β : Type} (l : List α) (d : α) (g : Nat × α → β) :
    l.enum.map g = (List.range l.length).map (fun j => g (j, l.getD j d)) := by
  apply List.ext_getElem?
  intro i
  by_cases hi : i < l.length
  · simp [List.getElem?_map, List.getElem?_range hi, List.getElem?_enum,
      List.getElem?_eq_getElem hi, List.getD_eq_getElem?_getD]
  · have h1 : (l.enum.map g).length ≤ i := by simp; omega
    have h2 : ((List.range l.length).map (fun j => g (j, l.getD j d))).length ≤ i := by
      simp; omega
    rw [List.getElem?_eq_none h1, List.getElem?_eq_none h2]

theorem write_label_line_spaced (s : Data_File_Manager) (cols : List Column_Info)
    (hdel : s.delimiter_char_ = ' ') (hsel : s.writeSelectionInfo_ = 0) :
    write_label_line s cols
      = (if s.doCommentedLabels_ ≠ 0 then '!' else ' ') :: spaced (label_pieces [] cols)
        ++ ['\n'] := by
  unfold write_label_line
  simp only [hsel, ne_eq, not_true_eq_false, if_false, List.append_nil, hdel]
  rw [enum_map_range cols Column_Info.empty]
  unfold spaced label_pieces
  rw [List.map_map]
  congr 3
  apply List.map_congr_left
  intro j _
  by_cases h0 : j = 0
  · simp [h0, setw, label_at]
  · simp [h0, setw, label_at]

theorem write_row_spaced (io : NumIO) (ops : ColumnOps) (s : Data_File_Manager)
    (cols : List Column_Info) (i : Nat)
    (hdel : s.delimiter_char_ = ' ') (hsel : s.writeSelectionInfo_ = 0)
    (hlen : ∀ c ∈ cols, i < c.points.length) (hnum : ∀ c ∈ cols, c.hasASCII = 0) :
    write_row io ops s cols i = some (spaced (row_pieces io cols i) ++ ['\n']) := by
  have hall : cols.all (fun c => decide (i < c.points.length)) = true := by
    simpa using hlen
  have hcells : cols.enum.map (fun p =>
        let v := p.2.points.getD i Flt.nan
        let cell := if p.2.hasASCII = 0 then some (io.show_float v)
          else (Flt.toInt? v).map (fun k => (ops.ascii_value p.2 k).data)
        cell.map (fun t => if p.1 > 0 then s.delimiter_char_ :: ' ' :: t else t))
      = (row_pieces io cols i).map (fun p => some (p.1 ++ p.2)) := by
    rw [enum_map_range cols Column_Info.empty]
    unfold row_pieces
    rw [List.map_map]
    apply List.map_congr_left
    intro j hj
    have hj' : j < cols.length := List.mem_range.mp hj
    have hmem : cols.getD j Column_Info.empty ∈ cols := by
      rw [List.getD_eq_getElem?_getD, List.getElem?_eq_getElem hj']
      exact List.getElem_mem hj'
    have hn := hnum _ hmem
    by_cases h0 : j = 0
    · subst h0
      simp only [hn, if_true, Option.map_some', gt_iff_lt, lt_self_iff_false, if_false,
        Function.comp_apply, value_at, List.nil_append]
    · have : j > 0 := by omega
      simp only [hn, if_true, h0, Option.map_some', this, if_false, Function.comp_apply,
        value_at, hdel, List.cons_append, List.nil_append]
  unfold write_row
  rw [if_pos hall]
  simp only [hcells, hsel, ne_eq, not_true_eq_false, if_false]
  rw [if_pos (by
    rw [List.all_eq_true]
    intro x hx
    obtain ⟨p, _, rfl⟩ := List.mem_map.mp hx
    rfl)]
  simp [spaced, List.map_map, Function.comp_def]

theorem write_written (io : NumIO) (ops : ColumnOps) (s : Data_File_Manager)
    (cols tail : List Column_Info) (n : Nat)
    (hspec : 0 < s.outFileSpec.length)
    (hci : s.column_info = cols ++ tail) (hnvars : s.nvars = cols.length)
    (hnp : s.npoints = n) (hall : s.writeAllData_ ≠ 0)
    (hdel : s.delimiter_char_ = ' ') (hsel : s.writeSelectionInfo_ = 0)
    (hlen : ∀ c ∈ cols, n ≤ c.points.length) (hnum : ∀ c ∈ cols, c.hasASCII = 0) :
    write_ascii_file_with_headers io ops s
      = some (0, some ("! File Name: ".data ++ s.outFileSpec.data ++ ['\n']
          ++ ((if s.doCommentedLabels_ ≠ 0 then '!' else ' ') :: spaced (label_pieces [] cols)
            ++ ['\n'])
          ++ rows_text io cols 0 n)) := by
  have hspec' : ¬ s.outFileSpec.length ≤ 0 := by omega
  have htake : s.column_info.take s.nvars.toNat = cols := by
    rw [hnvars, hci]; simp
  have hle : s.nvars.toNat ≤ s.column_info.length := by
    rw [hnvars, hci]; simp
  have hrows : (List.range s.npoints.toNat).map (fun irow =>
        if s.writeAllData_ ≠ 0 then write_row io ops s cols irow
        else
          match s.selected[irow]? with
          | none => none
          | some f => if f > 0 then write_row io ops s cols irow else some [])
      = (List.range n).map (fun i => some (spaced (row_pieces io cols i) ++ ['\n'])) := by
    rw [hnp]
    simp only [Int.toNat_ofNat]
    apply List.map_congr_left
    intro i hi
    have hi' : i < n := List.mem_range.mp hi
    rw [if_pos hall]
    exact write_row_spaced io ops s cols i hdel hsel
      (fun c hc => lt_of_lt_of_le hi' (hlen c hc)) hnum
  unfold write_ascii_file_with_headers
  rw [if_neg hspec']
  simp only [include_line_number, Bool.false_eq_true, if_false, hle, if_true, htake, hrows]
  rw [if_pos (by simp)]
  rw [write_label_line_spaced s cols hdel hsel]
  simp [rows_text, List.range_eq_range', List.map_map, Function.comp_def]

/-! ### The end of the reader -/

theorem data_column_resize (cols : List Column_Info) (cap : Nat) (hs : Nat → Int) (j : Nat) :
    { data_column cols 0 0 hs j with
        points := resize Flt.zero (data_column cols 0 0 hs j).points (cap : Int) }
      = data_column cols cap 0 hs j := by
  unfold data_column resize
  simp only [List.range_zero, List.map_nil, List.length_nil, Int.toNat_ofNat, Nat.not_lt_zero,
    if_false, Column_Info.mk.injEq, true_and, and_true]
  have hrep : List.replicate cap Flt.zero = (List.range cap).map (fun _ => Flt.zero) := by
    apply List.ext_getElem?
    intro i
    by_cases hi : i < cap
    · simp [List.getElem?_replicate, hi, List.getElem?_range hi]
    · simp [List.getElem?_replicate, hi, List.getElem?_eq_none]
  by_cases hc : 0 = cap
  · subst hc; simp
  · rw [if_neg hc, hrep]

theorem data_column_shrink (cols : List Column_Info) (cap n : Nat) (hn : n ≤ cap) (j : Nat) :
    { data_column cols cap n (fun _ => 0) j with
        points := resizeAndPreserve Flt.zero (data_column cols cap n (fun _ => 0) j).points
          (n : Int) }
      = data_column cols n n (fun _ => 0) j := by
  unfold data_column resizeAndPreserve
  simp only [Int.toNat_ofNat, List.length_map, List.length_range, Column_Info.mk.injEq, true_and,
    and_true]
  have h0 : n - cap = 0 := by omega
  rw [h0, List.replicate_zero, List.append_nil, ← List.map_take, List.take_range,
    Nat.min_eq_left hn]

theorem filter_ascii_numeric (cols : List Column_Info) (cap k : Nat) :
    (mkCols cols.length (data_column cols cap k (fun _ => 0))).filter
      (fun c => decide (c.hasASCII > 0)) = [] := by
  rw [List.filter_eq_nil_iff]
  intro c hc
  unfold mkCols at hc
  rcases List.mem_append.mp hc with h | h
  · obtain ⟨j, _, rfl⟩ := List.mem_map.mp h
    simp [data_column]
  · rw [List.mem_singleton.mp h]
    decide

/-- The end of the reader after a data loop that has stored `n` rows of numeric columns. -/
theorem finish_read_written (ops : ColumnOps) (answer : Int) (cols : List Column_Info)
    (cap n : Nat) (d : DataState) (hnv : 2 ≤ cols.length) (hn : n ≤ cap)
    (hrows : d.nDataRows_ = n) (hsel : d.dfm.readSelectionInfo_ = 0)
    (hnvars : d.dfm.nvars = cols.length) (hndc : d.dfm.nDataColumns_ = cols.length)
    (hci : d.dfm.column_info = mkCols cols.length (data_column cols cap n (fun _ => 0)))
    (hops : ∀ k c, c.hasASCII = 0 → (ops.update_ascii_values_and_data k c).1 = c) :
    finish_read ops answer 0 d
      = some (0, { d.dfm with nDataRows_ := n, nDataColumns_ := cols.length,
                              nvars := cols.length, npoints := n,
                              column_info := mkCols cols.length (data_column cols n n (fun _ => 0)),
                              read_from_stdin := false }) := by
  have hnot : ¬ (¬ d.dfm.doCommentedLabels_ = 0 ∧ (0 : Int) ≥ (cols.length : Int) ∧ answer ≤ 0) := by
    omega
  have hupd : forFirst (fun c => (ops.update_ascii_values_and_data (n : Int) c).1)
      (mkCols cols.length (data_column cols cap n (fun _ => 0))) (cols.length : Int).toNat
      = some (mkCols cols.length (data_column cols cap n (fun _ => 0))) := by
    rw [Int.toNat_ofNat, forFirst_mkCols]
    congr 1
    apply mkCols_congr
    intro i _
    exact hops _ _ rfl
  have hlen : ((mkCols cols.length (data_column cols cap n (fun _ => 0))).length : Int) - 1
      = cols.length := by
    rw [mkCols_length]; omega
  have hshrink : forFirst (fun c =>
        { c with points := resizeAndPreserve Flt.zero c.points (n : Int) })
      (mkCols cols.length (data_column cols cap n (fun _ => 0))) (cols.length : Int).toNat
      = some (mkCols cols.length (data_column cols n n (fun _ => 0))) := by
    rw [Int.toNat_ofNat, forFirst_mkCols]
    congr 1
    apply mkCols_congr
    intro i _
    exact data_column_shrink cols cap n hn i
  unfold finish_read remove_column_of_selection_info
  simp only [ne_eq, not_true_eq_false, if_false, n_ascii_columns, hci, hrows, hndc, hsel, hnvars,
    filter_ascii_numeric, List.length_nil, Nat.cast_zero, hnot, hupd, hlen, hshrink]

/-- Step 4 and what follows it, on the rows written from clean numbers. -/
theorem read_data_block_written (io : NumIO) (ops : ColumnOps) (answer : Int)
    (cols : List Column_Info) (n cap : Nat) (hs : Nat → Int) (h : HeaderState) (u : Bool)
    (s3 : Data_File_Manager)
    (hnv : 2 ≤ cols.length) (hn1 : 1 ≤ n) (hn : n ≤ cap)
    (hcap : (if s3.npoints_cmd_line > 0 then s3.npoints_cmd_line else s3.maxpoints_)
      = (cap : Int))
    (hclean : ∀ i, i < n → ∀ j, j < cols.length → clean_number io (value_at cols j i))
    (hdel : s3.delimiter_char_ = ' ') (hsel : s3.readSelectionInfo_ = 0)
    (hnvars : s3.nvars = cols.length) (hmax : 1 ≤ s3.MAX_NUNREADABLELINES)
    (hci : s3.column_info = mkCols cols.length (data_column cols 0 0 hs))
    (hops : ∀ k c, c.hasASCII = 0 → (ops.update_ascii_values_and_data k c).1 = c)
    (heof : h.inStream.eofbit = false) (hfuel : n ≤ h.inStream.rest.length + 1)
    (hfetch : (if u then h.inStream.getline '\n' h.line else (h.inStream, h.line))
      = ({ rest := rows_text io cols 1 (n - 1), eofbit := false, failbit := false },
          spaced (row_pieces io cols 0))) :
    read_data_block io ops answer h u s3
      = some (0, { s3 with nDataRows_ := n, nDataColumns_ := cols.length,
                           nvars := cols.length, npoints := n,
                           column_info := mkCols cols.length (data_column cols n n (fun _ => 0)),
                           read_from_stdin := false }) := by
  have hNDC : (if include_line_number then s3.nvars + 1 else s3.nvars)
      - (if s3.readSelectionInfo_ ≠ 0 then 1 else 0) = (cols.length : Int) := by
    simp [include_line_number, hsel, hnvars]
  have hfor : forFirst (fun c => { c with points := resize Flt.zero c.points (cap : Int) })
      s3.column_info (cols.length : Int).toNat
      = some (mkCols cols.length (data_column cols cap 0 hs)) := by
    rw [hci, Int.toNat_ofNat, forFirst_mkCols]
    congr 1
    apply mkCols_congr
    intro i _
    exact data_column_resize cols cap hs i
  -- the first row
  obtain ⟨d1, hstep, hin1, hur1, hrows1, hunread1, hdfm1⟩ :=
    data_loop_row io ops cols cap 0 hs (h.inStream.rest.length + 1)
      { inStream := h.inStream, line := h.line, uReadNextLine := u, nRead := h.nRead,
        nSkip := 0, nDataRows_ := 0, nTestCycle := 0, nUnreadableData := 0,
        dfm := { s3 with npoints := (cap : Int), nDataColumns_ := (cols.length : Int),
                         column_info := mkCols cols.length (data_column cols cap 0 hs),
                         nDataRows_ := 0 } }
      (rows_text io cols 1 (n - 1)) (by omega) (by omega) (hclean 0 (by omega))
      hdel hsel hnvars rfl hmax rfl rfl rfl (Or.inl rfl) heof hfetch
  -- the other rows
  obtain ⟨d2, hrun, hrows2, hdfm2⟩ :=
    data_loop_rows io ops cols cap n (by omega) hn hclean (n - 1) 1
      (h.inStream.rest.length + 1) (fun _ => 0) d1 (by omega) (by omega)
      (by rw [hdfm1]; exact hdel) (by rw [hdfm1]; exact hsel) (by rw [hdfm1]; exact hnvars)
      (by rw [hdfm1]) (by rw [hdfm1]; exact hmax) hrows1 hunread1 (by rw [hdfm1])
      (Or.inr (fun _ => rfl)) hur1 hin1
  have hfin := finish_read_written ops answer cols cap n d2 hnv hn hrows2
    (by rw [hdfm2, hdfm1]; exact hsel) (by rw [hdfm2, hdfm1]; exact hnvars)
    (by rw [hdfm2, hdfm1]) (by rw [hdfm2]) hops
  unfold read_data_block
  simp only []
  rw [hcap, hNDC, hfor]
  simp only []
  rw [hstep, hrun]
  simp only []
  rw [hfin, hdfm2, hdfm1]

/-! ### The label line read as a data line -/

theorem label_pieces_getD (first : List Char) (cols : List Column_Info) (i : Nat)
    (hi : i < cols.length) :
    ((label_pieces first cols).getD i ([], [])).2 = (label_at cols i).data := by
  simp [label_pieces, List.getD_eq_getElem?_getD, List.getElem?_map, List.getElem?_range hi]

/-- The types that `extract_column_types` finds on a written label line. -/
theorem extract_types_labels (io : NumIO) (s1 : Data_File_Manager) (cols : List Column_Info)
    (hnv : 0 < cols.length) (hdel : s1.delimiter_char_ = ' ')
    (hnvars : s1.nvars = cols.length)
    (hci : s1.column_info = mkCols cols.length (data_column cols 0 0 (fun _ => 0)))
    (hlab : ∀ j, j < cols.length → clean_label (label_at cols j)) :
    extract_column_types io s1 (' ' :: spaced (label_pieces [] cols))
      = some { s1 with
          column_info := mkCols cols.length
                           (data_column cols 0 0 (fun j => word_type io (label_at cols j).data)) } := by
  have hws := label_pieces_well_spaced [' '] cols (by decide) hlab
  have hlen := label_pieces_length [' '] cols
  have hne : label_pieces [' '] cols ≠ [] := by
    intro h; rw [h] at hlen; simp at hlen; omega
  have hrt : replace_tabs (' ' :: spaced (label_pieces [] cols))
      = spaced (label_pieces [' '] cols) := by
    rw [label_pieces_blank cols hnv]
    apply replace_tabs_id
    intro c hc
    rcases List.mem_cons.mp hc with h | h
    · rw [h]; decide
    · exact (label_line_chars cols hlab c h).1
  have htab : s1.delimiter_char_ ≠ '\t' := by rw [hdel]; decide
  have := column_types_spaced io cols.length (label_pieces [' '] cols) 0
    (data_column cols 0 0 (fun _ => 0)) (IStream.ofText (spaced (label_pieces [' '] cols))) []
    hne hws rfl rfl (by rw [hlen]; omega)
  rw [hlen] at this
  simp only [Nat.cast_zero] at this
  unfold extract_column_types
  conv_lhs =>
    rw [if_pos htab, hrt, hdel, hnvars, hci]
    simp only [Int.toNat_ofNat]
    rw [this]
  simp only [Option.map_some', Option.some.injEq]
  congr 1
  · apply mkCols_congr
    intro i hi
    simp only [Nat.zero_le, if_true, Nat.sub_zero]
    rw [set_type_data_column, label_pieces_getD _ _ _ hi]
    rfl
  · exact hnvars.symm
  · exact hdel.symm

theorem n_ascii_columns_pos (s : Data_File_Manager) (nv : Nat) (f : Nat → Column_Info)
    (hci : s.column_info = mkCols nv f) (j : Nat) (hj : j < nv) (h : (f j).hasASCII > 0) :
    ¬ (n_ascii_columns s ≤ 0) := by
  unfold n_ascii_columns
  rw [hci]
  have hmem : f j ∈ (mkCols nv f).filter (fun c => decide (c.hasASCII > 0)) := by
    rw [List.mem_filter]
    refine ⟨?_, by simpa using h⟩
    unfold mkCols
    exact List.mem_append_left _ (List.mem_map.mpr ⟨j, List.mem_range.mpr hj, rfl⟩)
  have := List.length_pos_of_mem hmem
  omega

/-! ### The reader on the written text -/

theorem file_name_line (spec : List Char) (hspec : ∀ c ∈ spec, c ≠ '\n') :
    (∀ c ∈ "! File Name: ".data ++ spec, c ≠ '\n') ∧
    ("! File Name: ".data ++ spec).length ≠ 0 ∧
    starts_with_comment ("! File Name: ".data ++ spec) = true := by
  refine ⟨?_, by simp, rfl⟩
  intro c hc
  rcases List.mem_append.mp hc with h | h
  · intro hcn
    rw [hcn] at h
    revert h
    decide
  · exact hspec c h

/-- The state that the reader reaches on the text written from `n` rows of the numeric
columns `cols`. -/
theorem read_written (io : NumIO) (ops : ColumnOps) (answer : Int) (r : Data_File_Manager)
    (cols : List Column_Info) (spec text : List Char) (n cap : Nat)
    (hnv : 2 ≤ cols.length) (hn1 : 1 ≤ n) (hn : n ≤ cap)
    (hwritten : text = "! File Name: ".data ++ spec ++ ['\n']
          ++ ((if r.doCommentedLabels_ ≠ 0 then '!' else ' ') :: spaced (label_pieces [] cols)
            ++ ['\n'])
          ++ rows_text io cols 0 n)
    (hlab : ∀ j, j < cols.length → clean_label (label_at cols j))
    (hlast : SELECTION_LABEL.data.isPrefixOf (label_at cols (cols.length - 1)).data = false)
    (hclean : ∀ i, i < n → ∀ j, j < cols.length → clean_number io (value_at cols j i))
    (hspec : ∀ c ∈ spec, c ≠ '\n')
    (hdel : r.delimiter_char_ = ' ')
    (hskip : r.nSkipHeaderLines ≤ if r.doCommentedLabels_ ≠ 0 then 2 else 1)
    (hmaxv : (cols.length : Int) ≤ r.maxvars_)
    (hcmd : r.nvars_cmd_line ≤ 0 ∨ (cols.length : Int) ≤ r.nvars_cmd_line)
    (hcap : (if r.npoints_cmd_line > 0 then r.npoints_cmd_line else r.maxpoints_) = (cap : Int))
    (hmax : 1 ≤ r.MAX_NUNREADABLELINES)
    (htype : r.doCommentedLabels_ = 0 →
      ∃ j, j < cols.length ∧ word_type io (label_at cols j).data = 1)
    (hops : ∀ k c, c.hasASCII = 0 → (ops.update_ascii_values_and_data k c).1 = c) :
    read_ascii_file_with_headers io ops (some text) answer r
      = some (0, { r with nDataRows_ := n, nDataColumns_ := cols.length,
                          nvars := cols.length, npoints := n, readSelectionInfo_ := 0,
                          column_info := mkCols cols.length (data_column cols n n (fun _ => 0)),
                          read_from_stdin := false }) := by
  obtain ⟨hf1, hf2, hf3⟩ := file_name_line spec hspec
  have hrow0 := hclean 0 (by omega)
  have hrnl : ∀ c ∈ spaced (row_pieces io cols 0), c ≠ '\n' :=
    fun c hc => (row_line_no_tab io cols 0 hrow0 c hc).2
  have hrhead := row_line_head io cols 0 (by omega) hrow0
  have hrows : rows_text io cols 0 n
      = spaced (row_pieces io cols 0) ++ '\n' :: rows_text io cols 1 (n - 1) := by
    obtain ⟨m, rfl⟩ : ∃ m, n = m + 1 := ⟨n - 1, by omega⟩
    rw [rows_text_succ]
    rfl
  have hnl : ¬ ((cols.length : Int) + 1 < 0 ∧ r.read_from_stdin = false) := by omega
  by_cases hcm : r.doCommentedLabels_ ≠ 0
  · -- the labels are on the second comment line
    have hl2 : ∀ c ∈ '!' :: spaced (label_pieces [] cols), c ≠ '\n' := by
      intro c hc
      rcases List.mem_cons.mp hc with h | h
      · rw [h]; decide
      · exact (label_line_chars cols hlab c h).2
    have htext : "! File Name: ".data ++ spec ++ ['\n']
          ++ ((if r.doCommentedLabels_ ≠ 0 then '!' else ' ') :: spaced (label_pieces [] cols)
            ++ ['\n'])
          ++ rows_text io cols 0 n
        = ("! File Name: ".data ++ spec) ++ '\n' :: (('!' :: spaced (label_pieces [] cols))
            ++ '\n' :: (spaced (row_pieces io cols 0) ++ '\n' :: rows_text io cols 1 (n - 1))) := by
      rw [if_pos hcm, hrows]
      simp
    have hhead := header_two_comments r.nSkipHeaderLines ("! File Name: ".data ++ spec)
      ('!' :: spaced (label_pieces [] cols)) (spaced (row_pieces io cols 0))
      (rows_text io cols 1 (n - 1)) (by rw [if_pos hcm] at hskip; exact hskip)
      hf1 hl2 hrnl hf2 (by simp) hrhead.1 hf3 rfl hrhead.2
    have hlabels := extract_labels_written r cols ('!' :: spaced (label_pieces [] cols)) []
      rfl (by simp) hdel hnv hmaxv hcmd hlab hlast
    have hblock := read_data_block_written io ops answer cols n cap (fun _ => 0)
      { inStream := { rest := rows_text io cols 1 (n - 1), eofbit := false, failbit := false },
        line := spaced (row_pieces io cols 0),
        lastHeaderLine := '!' :: spaced (label_pieces [] cols), nRead := 3, nHeaderLines := 2 }
      false
      { r with nvars := cols.length,
               column_info := mkCols cols.length (data_column cols 0 0 (fun _ => 0)),
               readSelectionInfo_ := 0 }
      hnv hn1 hn hcap hclean hdel rfl rfl hmax rfl hops rfl
      (by have := rows_text_length io cols (n - 1) 1
          simp only []
          omega)
      rfl
    rw [← htext, ← hwritten] at hhead
    unfold read_ascii_file_with_headers column_labels_step
    simp only [hhead, hcm, if_true, ne_eq, not_false_eq_true]
    rw [if_neg (by simp), hlabels]
    simp only [Option.map_some']
    rw [if_neg hnl, hblock]
  · -- the labels are on the first line that is not a comment
    have hcm0 : r.doCommentedLabels_ = 0 := not_not.mp hcm
    have hl2 : ∀ c ∈ ' ' :: spaced (label_pieces [] cols), c ≠ '\n' := by
      intro c hc
      rcases List.mem_cons.mp hc with h | h
      · rw [h]; decide
      · exact (label_line_chars cols hlab c h).2
    have htext : "! File Name: ".data ++ spec ++ ['\n']
          ++ ((if r.doCommentedLabels_ ≠ 0 then '!' else ' ') :: spaced (label_pieces [] cols)
            ++ ['\n'])
          ++ rows_text io cols 0 n
        = ("! File Name: ".data ++ spec) ++ '\n' :: ((' ' :: spaced (label_pieces [] cols))
            ++ '\n' :: rows_text io cols 0 n) := by
      rw [if_neg hcm]
      simp
    have hhead := header_one_comment r.nSkipHeaderLines ("! File Name: ".data ++ spec)
      (' ' :: spaced (label_pieces [] cols)) (rows_text io cols 0 n)
      (by rw [if_neg hcm] at hskip; exact hskip) hf1 hl2 hf2 (by simp) hf3 rfl
    have hlabels := extract_labels_written r cols (' ' :: spaced (label_pieces [] cols)) [' ']
      (by rw [label_pieces_blank cols (by omega)]; rfl) (by decide) hdel hnv hmaxv hcmd hlab hlast
    have htypes := extract_types_labels io
      { r with nvars := cols.length,
               column_info := mkCols cols.length (data_column cols 0 0 (fun _ => 0)),
               readSelectionInfo_ := 0 }
      cols (by omega) hdel rfl rfl hlab
    obtain ⟨j, hj, hjt⟩ := htype hcm0
    have hasc := n_ascii_columns_pos
      { r with nvars := cols.length,
               column_info := mkCols cols.length
                 (data_column cols 0 0 (fun j => word_type io (label_at cols j).data)),
               readSelectionInfo_ := 0 }
      cols.length (data_column cols 0 0 (fun j => word_type io (label_at cols j).data))
      rfl j hj (by show word_type io (label_at cols j).data > 0; rw [hjt]; decide)
    have hblock := read_data_block_written io ops answer cols n cap
      (fun j => word_type io (label_at cols j).data)
      { inStream := { rest := rows_text io cols 0 n, eofbit := false, failbit := false },
        line := ' ' :: spaced (label_pieces [] cols),
        lastHeaderLine := "! File Name: ".data ++ spec, nRead := 2, nHeaderLines := 1 }
      true
      { r with nvars := cols.length,
               column_info := mkCols cols.length
                 (data_column cols 0 0 (fun j => word_type io (label_at cols j).data)),
               readSelectionInfo_ := 0 }
      hnv hn1 hn hcap hclean hdel rfl rfl hmax rfl hops rfl
      (by have := rows_text_length io cols n 0
          simp only []
          omega)
      (by rw [if_pos rfl]
          exact getline_newline _ _ _ _ rfl (by simp only []; rw [hrows]) hrnl)
    rw [← htext, ← hwritten] at hhead
    unfold read_ascii_file_with_headers column_labels_step
    simp only [hhead, hcm, if_false, hlabels, htypes]
    rw [if_neg (fun h => hasc h.1)]
    simp only []
    rw [if_neg hnl]
    exact hblock

/-! ### The round trip -/

theorem map_eq_range_map {α β : Type} (l : List α) (d : α) (g : α → β) :
    l.map g = (List.range l.length).map (fun j => g (l.getD j d)) := by
  apply List.ext_getElem?
  intro i
  by_cases hi : i < l.length
  · simp [List.getElem?_map, List.getElem?_range hi, List.getElem?_eq_getElem hi,
      List.getD_eq_getElem?_getD]
  · have h1 : (l.map g).length ≤ i := by simp; omega
    have h2 : ((List.range l.length).map (fun j => g (l.getD j d))).length ≤ i := by
      simp; omega
    rw [List.getElem?_eq_none h1, List.getElem?_eq_none h2]

theorem data_column_full (cols : List Column_Info) (n j : Nat)
    (hlen : n ≤ (cols.getD j Column_Info.empty).points.length) :
    data_column cols n n (fun _ => 0) j
      = numeric_column (cols.getD j Column_Info.empty).label
          ((cols.getD j Column_Info.empty).points.take n) := by
  have hp : (List.range n).map (fun i => if i < n then value_at cols j i else Flt.zero)
      = (cols.getD j Column_Info.empty).points.take n := by
    unfold value_at
    generalize (cols.getD j Column_Info.empty).points = pts at hlen
    apply List.ext_getElem?
    intro i
    by_cases hi : i < n
    · have hi2 : i < pts.length := by omega
      rw [List.getElem?_take_of_lt hi, List.getElem?_map, List.getElem?_range hi,
        List.getElem?_eq_getElem hi2]
      simp only [Option.map_some', hi, if_true, List.getD_eq_getElem?_getD,
        List.getElem?_eq_getElem hi2, Option.getD_some]
    · have h1 : ((List.range n).map
          (fun i => if i < n then pts.getD i Flt.nan else Flt.zero)).length ≤ i := by
        simp; omega
      have h2 : (pts.take n).length ≤ i := by
        simp; omega
      rw [List.getElem?_eq_none h1, List.getElem?_eq_none h2]
  unfold data_column
  rw [hp]
  rfl

theorem read_back_columns (cols : List Column_Info) (n : Nat)
    (hlen : ∀ c ∈ cols, n ≤ c.points.length) :
    mkCols cols.length (data_column cols n n (fun _ => 0))
      = cols.map (fun c => numeric_column c.label (c.points.take n)) ++ [nothing_column] := by
  unfold mkCols
  rw [map_eq_range_map cols Column_Info.empty]
  congr 1
  apply List.map_congr_left
  intro j hj
  have hj' : j < cols.length := List.mem_range.mp hj
  have hmem : cols.getD j Column_Info.empty ∈ cols := by
    rw [List.getD_eq_getElem?_getD, List.getElem?_eq_getElem hj']
    exact List.getElem_mem hj'
  exact data_column_full cols n j (hlen _ hmem)

/-- C17: calling `compute_rank` twice for the same variable, with arrays of `npoints`
elements and nothing changed in between, gives the same rank sequence both times: after
the first call the variable is marked ranked and the cache row holds the order returned,
and the second call returns that stored order and leaves the globals as they are. -/
theorem compute_rank_twice_same (s s1 : PlotState) (a : List Flt) (a_rank r1 : List Nat)
    (var_index : Nat)
    (hrank : a_rank.length = s.npoints.toNat)
    (hfirst : compute_rank s a a_rank var_index = some (r1, s1)) :
    compute_rank s1 a r1 var_index = some (r1, s1) ∧
    (∃ flag, s1.ranked[var_index]? = some flag ∧ flag ≠ 0) ∧
    (s1.ranked_points[var_index]?).map (fun row => row.take s.npoints.toNat) = some r1 := by
  cases hr : s.ranked[var_index]? with
  | none => simp [compute_rank, hr] at hfirst
  | some r =>
    cases hrow : s.ranked_points[var_index]? with
    | none => simp [compute_rank, hr, hrow] at hfirst
    | some row =>
      have hvi : var_index < s.ranked.length := (List.getElem?_eq_some_iff.mp hr).1
      have hvi2 : var_index < s.ranked_points.length := (List.getElem?_eq_some_iff.mp hrow).1
      simp only [compute_rank, hr, hrow] at hfirst
      by_cases hlen : a.length < s.npoints.toNat ∨ a_rank.length < s.npoints.toNat ∨
          row.length < s.npoints.toNat
      · rw [if_pos hlen] at hfirst
        exact absurd hfirst (by simp)
      · rw [if_neg hlen] at hfirst
        have ha : s.npoints.toNat ≤ a.length := by omega
        have hrowlen : s.npoints.toNat ≤ row.length := by omega
        by_cases hr0 : r = 0
        · -- the first call sorts and stores
          rw [if_pos hr0] at hfirst
          simp only [Option.some.injEq, Prod.mk.injEq] at hfirst
          obtain ⟨h1, h2⟩ := hfirst
          have hsl : (stable_sort (myCompare a) (List.range s.npoints.toNat)).length
              = s.npoints.toNat := by
            simpa using (stable_sort_perm (myCompare a) (List.range s.npoints.toNat)).length_eq
          have hr1 : r1 = stable_sort (myCompare a) (List.range s.npoints.toNat) := by
            rw [← h1, List.drop_of_length_le (le_of_eq hrank), List.append_nil]
          have hr1len : r1.length = s.npoints.toNat := by rw [hr1, hsl]
          have htake : r1.take s.npoints.toNat = r1 := List.take_of_length_le (le_of_eq hr1len)
          rw [h1, htake] at h2
          subst h2
          refine ⟨?_, ⟨1, by simp [hvi], by decide⟩, ?_⟩
          · simp only [compute_rank, List.getElem?_set_self hvi, List.getElem?_set_self hvi2]
            have hno : ¬ (a.length < s.npoints.toNat ∨ r1.length < s.npoints.toNat ∨
                (r1 ++ List.drop s.npoints.toNat row).length < s.npoints.toNat) := by
              rw [List.length_append]; omega
            rw [if_neg hno, if_neg (by decide),
              if_pos (by rw [List.length_append]; omega), hr1len,
              List.take_append_of_le_length (le_of_eq hr1len.symm), htake]
          · simp only [List.getElem?_set_self hvi2, Option.map_some',
              List.take_append_of_le_length (le_of_eq hr1len.symm), htake]
        · -- the first call was already a cache hit
          rw [if_neg hr0] at hfirst
          by_cases hal : a_rank.length ≤ row.length
          · rw [if_pos hal, hrank] at hfirst
            simp only [Option.some.injEq, Prod.mk.injEq] at hfirst
            obtain ⟨h1, h2⟩ := hfirst
            subst h2
            have hr1len : r1.length = s.npoints.toNat := by
              rw [← h1, List.length_take]; omega
            refine ⟨?_, ⟨r, hr, hr0⟩, by rw [hrow]; simp [h1]⟩
            simp only [compute_rank, hr, hrow]
            have hno : ¬ (a.length < s.npoints.toNat ∨ r1.length < s.npoints.toNat ∨
                row.length < s.npoints.toNat) := by omega
            rw [if_neg hno, if_neg hr0, if_pos (by omega), hr1len, h1]
          · rw [if_neg hal] at hfirst
            exact absurd hfirst (by simp)

theorem compute_rank_twice_same_witness :
    compute_rank ⟨3, [1], [[1, 0, 2]], [], []⟩ [Flt.fin 5, Flt.fin 2, Flt.fin 5] [1, 0, 2] 0
      = some ([1, 0, 2], ⟨3, [1], [[1, 0, 2]], [], []⟩) ∧
    (∃ flag, (⟨3, [1], [[1, 0, 2]], [], []⟩ : PlotState).ranked[0]? = some flag ∧ flag ≠ 0) ∧
    ((⟨3, [1], [[1, 0, 2]], [], []⟩ : PlotState).ranked_points[0]?).map
      (fun row => row.take (⟨3, [0], [[0, 0, 0]], [], []⟩ : PlotState).npoints.toNat)
        = some [1, 0, 2] :=
  compute_rank_twice_same ⟨3, [0], [[0, 0, 0]], [], []⟩ ⟨3, [1], [[1, 0, 2]], [], []⟩
    [Flt.fin 5, Flt.fin 2, Flt.fin 5] [0, 0, 0] [1, 0, 2] 0 (by decide) (by decide)

/-! ### Stability of the rank -/

/-- The stable sort never moves an element in front of one that preceded it in the
input unless it is less: if `u` comes before `v` in the result and `v` came before `u`
in the input, then `u` is less than `v`. -/
theorem stable_sort_keeps_order {α : Type} (less : α → α → Bool) (b : α → α → Prop)
    (l : List α) (hb : l.Pairwise b) (hasym : ∀ x ∈ l, ∀ y ∈ l, b x y → ¬ b y x) :
    (stable_sort less l).Pairwise (fun u v => b v u → less u v = true) := by
  induction l with
  | nil => simp [stable_sort]
  | cons x xs ih =>
    simp only [stable_sort]
    have hx := List.pairwise_cons.mp hb
    have hsub : ∀ z, z ∈ stable_sort less xs → z ∈ xs := fun z hz =>
      (stable_sort_perm less xs).subset hz
    apply stable_insert_pairwise
    · intro y hy _ hbyx
      exact absurd hbyx (hasym x (List.mem_cons_self _ _) y (List.mem_cons_of_mem _ (hsub y hy))
        (hx.1 y (hsub y hy)))
    · intro y _ h _
      exact h
    · intro y _ z hz _ _ hbzx
      exact absurd hbzx (hasym x (List.mem_cons_self _ _) z (List.mem_cons_of_mem _ (hsub z hz))
        (hx.1 z (hsub z hz)))
    · exact ih hx.2 (fun u hu v hv => hasym u (List.mem_cons_of_mem _ hu) v
        (List.mem_cons_of_mem _ hv))

theorem Flt.lt_false_of_feq {x y : Flt} (h : Flt.feq x y = true) : Flt.lt y x = false := by
  cases x <;> cases y <;> simp_all [Flt.feq, Flt.lt]

theorem Flt.feq_symm {x y : Flt} (h : Flt.feq x y = true) : Flt.feq y x = true := by
  cases x <;> cases y <;> simp_all [Flt.feq]

/-- In a list without repetition whose pairs in list order all satisfy `R`, an element
`p` stands before `q` as soon as `R q p` fails. -/
theorem indexOf_lt_of_pairwise {R : Nat → Nat → Prop} (l : List Nat) (hR : l.Pairwise R)
    (p q : Nat) (hp : p ∈ l) (hq : q ∈ l) (hne : p ≠ q) (hnot : ¬ R q p) :
    l.indexOf p < l.indexOf q := by
  have hip : l.indexOf p < l.length := List.indexOf_lt_length.mpr hp
  have hiq : l.indexOf q < l.length := List.indexOf_lt_length.mpr hq
  rcases Nat.lt_trichotomy (l.indexOf p) (l.indexOf q) with h | h | h
  · exact h
  · exact absurd ((List.indexOf_inj hp hq).mp h) hne
  · have := (List.pairwise_iff_getElem.mp hR) (l.indexOf q) (l.indexOf p) hiq hip h
    rw [List.getElem_indexOf hiq, List.getElem_indexOf hip] at this
    exact absurd this hnot

theorem rank_before_of_stable (a : List Flt) (r : List Nat) (hnodup : r.Nodup)
    (hle : r.Pairwise (fun i j => Flt.le (a.getD i Flt.nan) (a.getD j Flt.nan) = true))
    (hst : ∀ p q, p ∈ r → q ∈ r → p < q →
      Flt.feq (a.getD p Flt.nan) (a.getD q Flt.nan) = true → r.indexOf p < r.indexOf q) :
    r.Pairwise (rank_before a) := by
  rw [List.pairwise_iff_getElem]
  intro i j hi hj hij
  have hle' := (List.pairwise_iff_getElem.mp hle) i j hi hj hij
  unfold rank_before
  by_cases hlt : Flt.lt (a.getD r[i] Flt.nan) (a.getD r[j] Flt.nan) = true
  · exact Or.inl hlt
  · have hfeq : Flt.feq (a.getD r[i] Flt.nan) (a.getD r[j] Flt.nan) = true := by
      unfold Flt.le at hle'
      rw [Bool.or_eq_true] at hle'
      rcases hle' with h | h
      · exact absurd h hlt
      · exact h
    refine Or.inr ⟨hfeq, ?_⟩
    have hne : r[i] ≠ r[j] := by
      intro h
      have := (List.Nodup.getElem_inj_iff hnodup).mp h
      omega
    rcases Nat.lt_trichotomy r[i] r[j] with h | h | h
    · exact h
    · exact absurd h hne
    · have := hst r[j] r[i] (List.getElem_mem _) (List.getElem_mem _) h (Flt.feq_symm hfeq)
      rw [List.indexOf_getElem hnodup j hj, List.indexOf_getElem hnodup i hi] at this
      omega

theorem rank_before_antisymm (a : List Flt) (i j : Nat) (h1 : rank_before a i j)
    (h2 : rank_before a j i) : i = j := by
  unfold rank_before at h1 h2
  generalize a.getD i Flt.nan = x at h1 h2
  generalize a.getD j Flt.nan = y at h1 h2
  rcases h1 with h1 | ⟨h1, h1'⟩ <;> rcases h2 with h2 | ⟨h2, h2'⟩
  · cases x <;> cases y <;> simp_all [Flt.lt]
    exact absurd (lt_trans h1 h2) (lt_irrefl _)
  · rw [Flt.lt_false_of_feq h2] at h1
    exact absurd h1 (by simp)
  · rw [Flt.lt_false_of_feq h1] at h2
    exact absurd h2 (by simp)
  · omega

theorem Flt.le_of_not_lt_of_numbers {x y : Flt} (hx : x ≠ Flt.nan) (hy : y ≠ Flt.nan)
    (h : Flt.lt y x = false) : Flt.le x y = true := by
  cases x <;> cases y <;> simp_all [Flt.lt, Flt.le, Flt.feq]
  exact le_iff_lt_or_eq.mp h

theorem Flt.le_trans_of_numbers {x y z : Flt} (hx : x ≠ Flt.nan) (hy : y ≠ Flt.nan)
    (hz : z ≠ Flt.nan) (h1 : Flt.le x y = true) (h2 : Flt.le y z = true) :
    Flt.le x z = true := by
  cases x <;> cases y <;> cases z <;> simp_all [Flt.lt, Flt.le, Flt.feq]
  rcases h1 with h1 | h1 <;> rcases h2 with h2 | h2
  · exact Or.inl (lt_trans h1 h2)
  · exact Or.inl (h2 ▸ h1)
  · exact Or.inl (h1 ▸ h2)
  · exact Or.inr (h1.trans h2)

/-- Sorting the identity of `0..n-1` by `myCompare a` gives a permutation of `0..n-1`
along which the values of `a`, none of them a NaN, are non-decreasing. -/
theorem rank_sorted_of_numbers (a : List Flt) (n : Nat) (hlen : n ≤ a.length)
    (hnan : ∀ x ∈ a, x ≠ Flt.nan) :
    (stable_sort (myCompare a) (List.range n)).Perm (List.range n) ∧
    (stable_sort (myCompare a) (List.range n)).Pairwise
      (fun i j => Flt.le (a.getD i Flt.nan) (a.getD j Flt.nan) = true) := by
  refine ⟨stable_sort_perm _ _, ?_⟩
  have hf : ∀ i ∈ List.range n, a.getD i Flt.nan ≠ Flt.nan := by
    intro i hi
    have hi2 : i < a.length := lt_of_lt_of_le (List.mem_range.mp hi) hlen
    rw [List.getD_eq_getElem _ _ hi2]
    exact hnan _ (List.getElem_mem _)
  apply stable_sort_pairwise
  · intro x hx y hy h
    exact Flt.le_of_not_lt_of_numbers (hf x hx) (hf y hy) h
  · intro x hx y hy h
    exact Flt.le_of_lt h
  · intro x hx y hy z hz h1 h2
    exact Flt.le_trans_of_numbers (hf x hx) (hf y hy) (hf z hz) h1 h2

/-- C16 (amended): for a column without NaN, on a cache miss `compute_rank` returns a
permutation of the point indices along which the values do not decrease and in which
points with equal values keep their index order: for `p < q` with equal values, `p` stands
before `q`.  It is the only permutation of `0..N-1` with these two properties, so that the
rank is determined by the column values. -/
theorem compute_rank_stable (s : PlotState) (a : List Flt) (a_rank row : List Nat)
    (var_index : Nat)
    (ha : (a.length : Int) = s.npoints)
    (hrank : a_rank.length = a.length) (hrow : row.length = a.length)
    (hmiss : s.ranked[var_index]? = some 0)
    (hcache : s.ranked_points[var_index]? = some row)
    (hnan : ∀ x ∈ a, x ≠ Flt.nan) :
    ∃ r s1, compute_rank s a a_rank var_index = some (r, s1) ∧
      r.Perm (List.range a.length) ∧
      r.Pairwise (fun i j => Flt.le (a.getD i Flt.nan) (a.getD j Flt.nan) = true) ∧
      (∀ p q, p < q → q < a.length →
        Flt.feq (a.getD p Flt.nan) (a.getD q Flt.nan) = true → r.indexOf p < r.indexOf q) ∧
      (∀ r2 : List Nat, r2.Perm (List.range a.length) →
        r2.Pairwise (fun i j => Flt.le (a.getD i Flt.nan) (a.getD j Flt.nan) = true) →
        (∀ p q, p < q → q < a.length →
          Flt.feq (a.getD p Flt.nan) (a.getD q Flt.nan) = true →
          r2.indexOf p < r2.indexOf q) →
        r2 = r) := by
  have hn : s.npoints.toNat = a.length := by omega
  have hperm := stable_sort_perm (myCompare a) (List.range a.length)
  have hlen : (stable_sort (myCompare a) (List.range a.length)).length = a.length := by
    simpa using hperm.length_eq
  have hnodup : (stable_sort (myCompare a) (List.range a.length)).Nodup :=
    hperm.nodup_iff.mpr (List.nodup_range _)
  have hkeep := stable_sort_keeps_order (myCompare a) (fun i j : Nat => i < j)
    (List.range a.length) (List.pairwise_lt_range _) (fun x _ y _ h1 h2 => by omega)
  have hstable : ∀ p q, p < q → q < a.length →
      Flt.feq (a.getD p Flt.nan) (a.getD q Flt.nan) = true →
      (stable_sort (myCompare a) (List.range a.length)).indexOf p
        < (stable_sort (myCompare a) (List.range a.length)).indexOf q := by
    intro p q hpq hq hfeq
    apply indexOf_lt_of_pairwise _ hkeep p q
      (hperm.symm.subset (List.mem_range.mpr (by omega)))
      (hperm.symm.subset (List.mem_range.mpr hq)) (by omega)
    intro h
    have := h hpq
    unfold myCompare at this
    rw [Flt.lt_false_of_feq hfeq] at this
    exact absurd this (by simp)
  have hsorted := (rank_sorted_of_numbers a a.length (le_refl _) hnan).2
  refine ⟨stable_sort (myCompare a) (List.range a.length),
    { s with ranked := s.ranked.set var_index 1
             ranked_points := s.ranked_points.set var_index
               (stable_sort (myCompare a) (List.range a.length)) }, ?_, hperm, hsorted,
    hstable, ?_⟩
  · simp only [compute_rank, hmiss, hcache, hn, hrank, hrow]
    simp [List.drop_of_length_le, hrank, hrow, hlen]
    rw [List.take_of_length_le (le_of_eq hlen)]
  · intro r2 hperm2 hle2 hst2
    have hnodup2 : r2.Nodup := hperm2.nodup_iff.mpr (List.nodup_range _)
    have h1 := rank_before_of_stable a _ hnodup hsorted (fun p q _ hq hpq hfeq =>
      hstable p q hpq (List.mem_range.mp (hperm.subset hq)) hfeq)
    have h2 := rank_before_of_stable a r2 hnodup2 hle2 (fun p q _ hq hpq hfeq =>
      hst2 p q hpq (List.mem_range.mp (hperm2.subset hq)) hfeq)
    haveI : IsAntisymm Nat (rank_before a) := ⟨rank_before_antisymm a⟩
    exact List.eq_of_perm_of_sorted (hperm2.trans hperm.symm) h2 h1


theorem compute_rank_stable_witness :
    ∃ r s1, compute_rank ⟨3, [0], [[0, 0, 0]], [], []⟩ [Flt.fin 5, Flt.fin 2, Flt.fin 5]
        [0, 0, 0] 0 = some (r, s1) ∧
      r.Perm (List.range [Flt.fin 5, Flt.fin 2, Flt.fin 5].length) ∧
      r.Pairwise (fun i j => Flt.le ([Flt.fin 5, Flt.fin 2, Flt.fin 5].getD i Flt.nan)
        ([Flt.fin 5, Flt.fin 2, Flt.fin 5].getD j Flt.nan) = true) ∧
      (∀ p q, p < q → q < [Flt.fin 5, Flt.fin 2, Flt.fin 5].length →
        Flt.feq ([Flt.fin 5, Flt.fin 2, Flt.fin 5].getD p Flt.nan)
          ([Flt.fin 5, Flt.fin 2, Flt.fin 5].getD q Flt.nan) = true →
        r.indexOf p < r.indexOf q) ∧
      (∀ r2 : List Nat,
        r2.Perm (List.range [Flt.fin 5, Flt.fin 2, Flt.fin 5].length) →
        r2.Pairwise (fun i j => Flt.le ([Flt.fin 5, Flt.fin 2, Flt.fin 5].getD i Flt.nan)
          ([Flt.fin 5, Flt.fin 2, Flt.fin 5].getD j Flt.nan) = true) →
        (∀ p q, p < q → q < [Flt.fin 5, Flt.fin 2, Flt.fin 5].length →
          Flt.feq ([Flt.fin 5, Flt.fin 2, Flt.fin 5].getD p Flt.nan)
            ([Flt.fin 5, Flt.fin 2, Flt.fin 5].getD q Flt.nan) = true →
          r2.indexOf p < r2.indexOf q) →
        r2 = r) :=
  compute_rank_stable ⟨3, [0], [[0, 0, 0]], [], []⟩
    [Flt.fin 5, Flt.fin 2, Flt.fin 5] [0, 0, 0] [0, 0, 0] 0
    (by decide) (by decide) (by decide) (by decide) (by decide) (by decide)

/-- C16 (counterexample): in the column (NaN, 0) no point compares less than the other and
no two points have equal values, so both orders of the two points are sorted by
`myCompare` and keep the index order of equal values: the properties of a stable sort do
not determine the rank of a column that holds a NaN. -/
theorem rank_not_determined_with_nan :
    ([0, 1] : List Nat).Perm (List.range [Flt.nan, Flt.fin 0].length) ∧
    ([1, 0] : List Nat).Perm (List.range [Flt.nan, Flt.fin 0].length) ∧
    ([0, 1] : List Nat).Pairwise (fun i j => myCompare [Flt.nan, Flt.fin 0] j i = false) ∧
    ([1, 0] : List Nat).Pairwise (fun i j => myCompare [Flt.nan, Flt.fin 0] j i = false) ∧
    (∀ p q, p < q → q < [Flt.nan, Flt.fin 0].length →
      Flt.feq ([Flt.nan, Flt.fin 0].getD p Flt.nan) ([Flt.nan, Flt.fin 0].getD q Flt.nan)
        = false) ∧
    ([0, 1] : List Nat) ≠ [1, 0] := by
  refine ⟨by decide, by decide, by decide, by decide, ?_, by decide⟩
  intro p q hpq hq
  have hq2 : q < 2 := hq
  have : p = 0 ∧ q = 1 := by omega
  obtain ⟨rfl, rfl⟩ := this
  decide

/-! ### Bounds from the extreme ranks -/

theorem Flt.le_refl_of_finite {x : Flt} (hx : x.finite = true) : Flt.le x x = true := by
  cases x <;> simp_all [Flt.finite, Flt.le, Flt.feq]

/-- Along a valid rank of finite values the point of rank 0 holds the smallest value and
the point of the last rank the largest. -/
theorem ranked_extremes (a : List Flt) (a_rank : List Nat) (hpos : 0 < a.length)
    (hfin : ∀ x ∈ a, x.finite = true)
    (hperm : a_rank.Perm (List.range a.length))
    (hsorted : a_rank.Pairwise
      (fun i j => Flt.le (a.getD i Flt.nan) (a.getD j Flt.nan) = true)) :
    ∃ tmin tmax, readRanked a a_rank 0 = some tmin ∧
      readRanked a a_rank ((a.length : Int) - 1) = some tmax ∧
      tmin ∈ a ∧ tmax ∈ a ∧
      ∀ x ∈ a, Flt.le tmin x = true ∧ Flt.le x tmax = true := by
  have hlen : a_rank.length = a.length := by simpa using hperm.length_eq
  have h0 : 0 < a_rank.length := by omega
  have hl : a.length - 1 < a_rank.length := by omega
  have hp0 : a_rank[0] < a.length := List.mem_range.mp (hperm.subset (List.getElem_mem _))
  have hpl : a_rank[a.length - 1] < a.length :=
    List.mem_range.mp (hperm.subset (List.getElem_mem _))
  have hidx : ((a.length : Int) - 1).toNat = a.length - 1 := by omega
  refine ⟨a[a_rank[0]], a[a_rank[a.length - 1]], ?_, ?_, List.getElem_mem _,
    List.getElem_mem _, ?_⟩
  · simp [readRanked, List.getElem?_eq_getElem h0, List.getElem?_eq_getElem hp0]
  · have hneg : ¬ ((a.length : Int) - 1 < 0) := by omega
    simp only [readRanked, hneg, if_false, hidx, List.getElem?_eq_getElem hl,
      List.getElem?_eq_getElem hpl]
  · intro x hx
    obtain ⟨p, hp, rfl⟩ := List.getElem_of_mem hx
    have hmem : p ∈ a_rank := hperm.symm.subset (List.mem_range.mpr hp)
    obtain ⟨i, hi, rfl⟩ := List.getElem_of_mem hmem
    have hpw := List.pairwise_iff_getElem.mp hsorted
    have hget : ∀ k (hk : k < a_rank.length) (hk2 : a_rank[k] < a.length),
        a.getD a_rank[k] Flt.nan = a[a_rank[k]] := fun k hk hk2 =>
      List.getD_eq_getElem _ _ hk2
    constructor
    · rcases Nat.eq_zero_or_pos i with hi0 | hi0
      · subst hi0
        exact Flt.le_refl_of_finite (hfin _ (List.getElem_mem _))
      · have := hpw 0 i h0 hi hi0
        rwa [hget 0 h0 hp0, hget i hi hp] at this
    · rcases Nat.lt_or_ge i (a.length - 1) with hil | hil
      · have := hpw i (a.length - 1) hi hl hil
        rwa [hget i hi hp, hget _ hl hpl] at this
      · have : i = a.length - 1 := by omega
        subst this
        exact Flt.le_refl_of_finite (hfin _ (List.getElem_mem _))

/-- C19 (amended): for a column of N >= 1 finite values with a valid rank, let `tmin` and
`tmax` be the values of the first and of the last rank, which are the smallest and the
largest value, and `m = fmaxf(|tmin|, |tmax|)`.  The call with NORMALIZATION_MAXABS returns
1 and leaves the values unchanged; when `m` is not zero it sets the bounds to `(-m, m)`,
and when `m` is zero it leaves the bounds as they were. -/
theorem normalize_maxabs_bounds (m : MathFns) (s : PlotState) (a : List Flt)
    (a_rank : List Nat) (axis_index : Nat)
    (hN : 1 ≤ s.npoints) (ha : (a.length : Int) = s.npoints)
    (hfin : ∀ x ∈ a, x.finite = true)
    (hperm : a_rank.Perm (List.range a.length))
    (hsorted : a_rank.Pairwise
      (fun i j => Flt.le (a.getD i Flt.nan) (a.getD j Flt.nan) = true))
    (hmin : axis_index < s.wmin.length) (hmax : axis_index < s.wmax.length) :
    ∃ tmin tmax, tmin ∈ a ∧ tmax ∈ a ∧
      (∀ x ∈ a, Flt.le tmin x = true ∧ Flt.le x tmax = true) ∧
      (Flt.fmaxf (Flt.abs tmin) (Flt.abs tmax) ≠ Flt.zero →
        normalize m s a a_rank NORMALIZATION_MAXABS axis_index
          = some (1, a, { s with
              wmin := s.wmin.set axis_index (Flt.neg (Flt.fmaxf (Flt.abs tmin) (Flt.abs tmax))),
              wmax := s.wmax.set axis_index (Flt.fmaxf (Flt.abs tmin) (Flt.abs tmax)) })) ∧
      (Flt.fmaxf (Flt.abs tmin) (Flt.abs tmax) = Flt.zero →
        normalize m s a a_rank NORMALIZATION_MAXABS axis_index = some (1, a, s)) := by
  obtain ⟨tmin, tmax, h0, h1, hm0, hm1, hext⟩ :=
    ranked_extremes a a_rank (by omega) hfin hperm hsorted
  rw [ha] at h1
  obtain ⟨x, rfl⟩ : ∃ x, tmin = Flt.fin x := by
    have := hfin _ hm0
    cases tmin <;> simp_all [Flt.finite]
  obtain ⟨y, rfl⟩ : ∃ y, tmax = Flt.fin y := by
    have := hfin _ hm1
    cases tmax <;> simp_all [Flt.finite]
  refine ⟨Flt.fin x, Flt.fin y, hm0, hm1, hext, ?_, ?_⟩
  · intro hne
    have hfne : Flt.fne (Flt.fmaxf (Flt.abs (Flt.fin x)) (Flt.abs (Flt.fin y))) Flt.zero
        = true := by
      revert hne
      simp only [Flt.abs, Flt.fmaxf, Flt.lt, Flt.zero]
      split <;> simp [Flt.fne, Flt.feq]
    simp only [normalize, h0, h1, hfne, if_true]
    simp [NORMALIZATION_NONE, NORMALIZATION_MINMAX, NORMALIZATION_ZEROMAX,
      NORMALIZATION_MAXABS, setBounds, writeAt, hmin, hmax]
  · intro heq
    have hfne : Flt.fne (Flt.fmaxf (Flt.abs (Flt.fin x)) (Flt.abs (Flt.fin y))) Flt.zero
        = false := by
      rw [heq]
      simp [Flt.fne, Flt.feq, Flt.zero]
    simp only [normalize, h0, h1, hfne]
    simp [NORMALIZATION_NONE, NORMALIZATION_MINMAX, NORMALIZATION_ZEROMAX,
      NORMALIZATION_MAXABS]

theorem normalize_maxabs_bounds_witness :
    ∃ tmin tmax, tmin ∈ [Flt.fin 3, Flt.fin (-5), Flt.fin 1] ∧
      tmax ∈ [Flt.fin 3, Flt.fin (-5), Flt.fin 1] ∧
      (∀ x ∈ [Flt.fin 3, Flt.fin (-5), Flt.fin 1],
        Flt.le tmin x = true ∧ Flt.le x tmax = true) ∧
      (Flt.fmaxf (Flt.abs tmin) (Flt.abs tmax) ≠ Flt.zero →
        normalize ⟨id, id, id⟩ ⟨3, [1], [[1, 2, 0]], [Flt.nan], [Flt.nan]⟩
            [Flt.fin 3, Flt.fin (-5), Flt.fin 1] [1, 2, 0] NORMALIZATION_MAXABS 0
          = some (1, [Flt.fin 3, Flt.fin (-5), Flt.fin 1],
              { (⟨3, [1], [[1, 2, 0]], [Flt.nan], [Flt.nan]⟩ : PlotState) with
                wmin := ([Flt.nan] : List Flt).set 0
                  (Flt.neg (Flt.fmaxf (Flt.abs tmin) (Flt.abs tmax))),
                wmax := ([Flt.nan] : List Flt).set 0
                  (Flt.fmaxf (Flt.abs tmin) (Flt.abs tmax)) })) ∧
      (Flt.fmaxf (Flt.abs tmin) (Flt.abs tmax) = Flt.zero →
        normalize ⟨id, id, id⟩ ⟨3, [1], [[1, 2, 0]], [Flt.nan], [Flt.nan]⟩
            [Flt.fin 3, Flt.fin (-5), Flt.fin 1] [1, 2, 0] NORMALIZATION_MAXABS 0
          = some (1, [Flt.fin 3, Flt.fin (-5), Flt.fin 1],
              ⟨3, [1], [[1, 2, 0]], [Flt.nan], [Flt.nan]⟩)) :=
  normalize_maxabs_bounds ⟨id, id, id⟩ ⟨3, [1], [[1, 2, 0]], [Flt.nan], [Flt.nan]⟩
    [Flt.fin 3, Flt.fin (-5), Flt.fin 1] [1, 2, 0] 0
    (by decide) (by decide) (by decide) (by decide) (by decide) (by decide) (by decide)

/-- C19 (counterexample): for a column of zeros `m` is 0 and the call returns without
touching the bounds: they stay at (-1, 1) instead of becoming (-0, 0). -/
theorem normalize_maxabs_zero_column :
    normalize ⟨id, id, id⟩ ⟨2, [1], [[0, 1]], [Flt.fin (-1)], [Flt.fin 1]⟩
        [Flt.fin 0, Flt.fin 0] [0, 1] NORMALIZATION_MAXABS 0
      = some (1, [Flt.fin 0, Flt.fin 0], ⟨2, [1], [[0, 1]], [Flt.fin (-1)], [Flt.fin 1]⟩) ∧
    Flt.fmaxf (Flt.abs (Flt.fin 0)) (Flt.abs (Flt.fin 0)) = Flt.fin 0 ∧
    Flt.fin (-1) ≠ Flt.neg (Flt.fin 0) ∧ Flt.fin 1 ≠ Flt.fin 0 := by
  refine ⟨?_, ?_, ?_, ?_⟩
  · simp [normalize, readRanked, NORMALIZATION_NONE, NORMALIZATION_MINMAX,
      NORMALIZATION_ZEROMAX, NORMALIZATION_MAXABS, Flt.abs, Flt.fmaxf, Flt.lt, Flt.fne,
      Flt.feq, Flt.zero]
  · simp [Flt.abs, Flt.fmaxf, Flt.lt]
  · simp [Flt.neg]
  · simp

/-! ### The logarithmic transform -/

/-- The running minimum of finite values is the start value or one of the values, and it
is not above the start value nor above any of the values. -/
theorem foldl_min_spec (l : List Flt) (hfin : ∀ x ∈ l, x.finite = true) :
    ∀ m0 : Flt, m0.finite = true →
      (l.foldl (fun m x => if Flt.lt x m then x else m) m0 = m0 ∨
        l.foldl (fun m x => if Flt.lt x m then x else m) m0 ∈ l) ∧
      Flt.le (l.foldl (fun m x => if Flt.lt x m then x else m) m0) m0 = true ∧
      ∀ x ∈ l, Flt.le (l.foldl (fun m x => if Flt.lt x m then x else m) m0) x = true := by
  induction l with
  | nil =>
    intro m0 hm0
    exact ⟨Or.inl rfl, Flt.le_refl_of_finite hm0, fun x hx => absurd hx (List.not_mem_nil _)⟩
  | cons y ys ih =>
    intro m0 hm0
    have hy : y.finite = true := hfin y (List.mem_cons_self _ _)
    have hys : ∀ x ∈ ys, x.finite = true := fun x hx => hfin x (List.mem_cons_of_mem _ hx)
    simp only [List.foldl_cons]
    by_cases hlt : Flt.lt y m0 = true
    · rw [if_pos hlt]
      obtain ⟨h1, h2, h3⟩ := ih hys y hy
      have hres : (ys.foldl (fun m x => if Flt.lt x m then x else m) y).finite = true := by
        rcases h1 with h | h
        · rw [h]; exact hy
        · exact hys _ h
      refine ⟨?_, ?_, ?_⟩
      · rcases h1 with h | h
        · exact Or.inr (by rw [h]; exact List.mem_cons_self _ _)
        · exact Or.inr (List.mem_cons_of_mem _ h)
      · exact Flt.le_trans_of_finite hres hy hm0 h2 (Flt.le_of_lt hlt)
      · intro x hx
        rcases List.mem_cons.mp hx with h | h
        · rw [h]; exact h2
        · exact h3 x h
    · rw [if_neg hlt]
      obtain ⟨h1, h2, h3⟩ := ih hys m0 hm0
      have hres : (ys.foldl (fun m x => if Flt.lt x m then x else m) m0).finite = true := by
        rcases h1 with h | h
        · rw [h]; exact hm0
        · exact hys _ h
      refine ⟨?_, h2, ?_⟩
      · rcases h1 with h | h
        · exact Or.inl h
        · exact Or.inr (List.mem_cons_of_mem _ h)
      · intro x hx
        rcases List.mem_cons.mp hx with h | h
        · rw [h]
          exact Flt.le_trans_of_finite hres hm0 hy h2
            (Flt.le_of_not_lt_of_finite hm0 hy (by simpa using hlt))
        · exact h3 x h

/-- The smallest positive element that `normalize` looks for: `MAXFLOAT` unless some value
is positive, and then a positive value of the column that no positive value is below. -/
theorem smallest_positive_spec (a : List Flt) (hfin : ∀ x ∈ a, x.finite = true) :
    (blitz_min (a.map (fun x => if Flt.gt x Flt.zero then x else MAXFLOAT)) = MAXFLOAT ∨
      (blitz_min (a.map (fun x => if Flt.gt x Flt.zero then x else MAXFLOAT)) ∈ a ∧
        Flt.gt (blitz_min (a.map (fun x => if Flt.gt x Flt.zero then x else MAXFLOAT)))
          Flt.zero = true)) ∧
    ∀ x ∈ a, Flt.gt x Flt.zero = true →
      Flt.le (blitz_min (a.map (fun x => if Flt.gt x Flt.zero then x else MAXFLOAT))) x
        = true := by
  have hmf : MAXFLOAT.finite = true := rfl
  have hfin2 : ∀ x ∈ a.map (fun x => if Flt.gt x Flt.zero then x else MAXFLOAT),
      x.finite = true := by
    intro x hx
    obtain ⟨y, hy, rfl⟩ := List.mem_map.mp hx
    by_cases h : Flt.gt y Flt.zero = true
    · rw [if_pos h]; exact hfin y hy
    · rw [if_neg h]; exact hmf
  obtain ⟨h1, _, h3⟩ := foldl_min_spec _ hfin2 MAXFLOAT hmf
  refine ⟨?_, ?_⟩
  · rcases h1 with h | h
    · exact Or.inl h
    · obtain ⟨y, hy, hyx⟩ := List.mem_map.mp h
      by_cases hpos : Flt.gt y Flt.zero = true
      · rw [if_pos hpos] at hyx
        refine Or.inr ⟨?_, ?_⟩
        · unfold blitz_min; rw [← hyx]; exact hy
        · unfold blitz_min; rw [← hyx]; exact hpos
      · rw [if_neg hpos] at hyx
        exact Or.inl hyx.symm
  · intro x hx hpos
    apply h3 x
    exact List.mem_map.mpr ⟨x, hx, by rw [if_pos hpos]⟩

/-- C20 (amended): for a column of N >= 1 finite values with a valid rank, the
call with NORMALIZATION_LOG10 returns 1, replaces each value `> 0` by its base-10 logarithm
and each value `<= 0` by 0, sets `wmin` to the logarithm of the smallest positive value
(of `MAXFLOAT` when no value is positive) and `wmax` to the transformed value of the point
of the last rank, which is the logarithm of the largest value when that is positive and 0
otherwise. -/
theorem normalize_log10_values (m : MathFns) (s : PlotState) (a : List Flt)
    (a_rank : List Nat) (axis_index : Nat)
    (hN : 1 ≤ s.npoints) (ha : (a.length : Int) = s.npoints)
    (hfin : ∀ x ∈ a, x.finite = true)
    (hperm : a_rank.Perm (List.range a.length))
    (hsorted : a_rank.Pairwise
      (fun i j => Flt.le (a.getD i Flt.nan) (a.getD j Flt.nan) = true))
    (hmin : axis_index < s.wmin.length) (hmax : axis_index < s.wmax.length) :
    ∃ pmin tmax,
      normalize m s a a_rank NORMALIZATION_LOG10 axis_index
        = some (1, a.map (fun x => if Flt.gt x Flt.zero then m.log10 x else Flt.zero),
            { s with
              wmin := s.wmin.set axis_index (m.log10 pmin),
              wmax := s.wmax.set axis_index
                (if Flt.gt tmax Flt.zero then m.log10 tmax else Flt.zero) }) ∧
      (pmin = MAXFLOAT ∨ (pmin ∈ a ∧ Flt.gt pmin Flt.zero = true)) ∧
      (∀ x ∈ a, Flt.gt x Flt.zero = true → Flt.le pmin x = true) ∧
      tmax ∈ a ∧ (∀ x ∈ a, Flt.le x tmax = true) := by
  obtain ⟨tmin, tmax, h0, h1, _, hm1, hext⟩ :=
    ranked_extremes a a_rank (by omega) hfin hperm hsorted
  rw [ha] at h1
  obtain ⟨hp1, hp2⟩ := smallest_positive_spec a hfin
  have hn : s.npoints.toNat = a.length := by omega
  have hlen : a_rank.length = a.length := by simpa using hperm.length_eq
  have hl : a.length - 1 < a_rank.length := by omega
  have hpl : a_rank[a.length - 1] < a.length :=
    List.mem_range.mp (hperm.subset (List.getElem_mem _))
  have hidx : (s.npoints - 1).toNat = a.length - 1 := by omega
  have hneg : ¬ (s.npoints - 1 < 0) := by omega
  have htmax : tmax = a[a_rank[a.length - 1]] := by
    simp only [readRanked, hneg, if_false, hidx, List.getElem?_eq_getElem hl,
      List.getElem?_eq_getElem hpl, Option.some.injEq] at h1
    exact h1.symm
  have hread : readRanked
      (a.map (fun x => if Flt.gt x Flt.zero then m.log10 x else Flt.zero)) a_rank
      (s.npoints - 1)
      = some (if Flt.gt tmax Flt.zero then m.log10 tmax else Flt.zero) := by
    simp only [readRanked, hneg, if_false, hidx, List.getElem?_eq_getElem hl,
      List.getElem?_map, List.getElem?_eq_getElem hpl, Option.map_some', htmax]
  refine ⟨blitz_min (a.map (fun x => if Flt.gt x Flt.zero then x else MAXFLOAT)), tmax,
    ?_, hp1, hp2, hm1, fun x hx => (hext x hx).2⟩
  have hnl : ¬ (a.length < a.length) := lt_irrefl _
  simp only [normalize, h0, h1, hn, hnl, if_false, List.take_length, List.drop_length,
    List.append_nil, hread]
  simp [NORMALIZATION_NONE, NORMALIZATION_MINMAX, NORMALIZATION_ZEROMAX,
    NORMALIZATION_MAXABS, NORMALIZATION_TRIM_1E2, NORMALIZATION_TRIM_1E3,
    NORMALIZATION_THREESIGMA, NORMALIZATION_LOG10, setBounds, writeAt, hmin, hmax]

theorem normalize_log10_values_witness :
    ∃ pmin tmax,
      normalize decimal_math ⟨2, [1], [[0, 1]], [Flt.nan], [Flt.nan]⟩
          [Flt.fin 1, Flt.fin 100] [0, 1] NORMALIZATION_LOG10 0
        = some (1, [Flt.fin 1, Flt.fin 100].map
              (fun x => if Flt.gt x Flt.zero then decimal_math.log10 x else Flt.zero),
            { (⟨2, [1], [[0, 1]], [Flt.nan], [Flt.nan]⟩ : PlotState) with
              wmin := ([Flt.nan] : List Flt).set 0 (decimal_math.log10 pmin),
              wmax := ([Flt.nan] : List Flt).set 0
                (if Flt.gt tmax Flt.zero then decimal_math.log10 tmax else Flt.zero) }) ∧
      (pmin = MAXFLOAT ∨ (pmin ∈ [Flt.fin 1, Flt.fin 100] ∧ Flt.gt pmin Flt.zero = true)) ∧
      (∀ x ∈ [Flt.fin 1, Flt.fin 100], Flt.gt x Flt.zero = true → Flt.le pmin x = true) ∧
      tmax ∈ [Flt.fin 1, Flt.fin 100] ∧ (∀ x ∈ [Flt.fin 1, Flt.fin 100], Flt.le x tmax = true) :=
  normalize_log10_values decimal_math ⟨2, [1], [[0, 1]], [Flt.nan], [Flt.nan]⟩
    [Flt.fin 1, Flt.fin 100] [0, 1] 0
    (by decide) (by decide) (by decide) (by decide) (by decide) (by decide) (by decide)

/-- C20 (counterexample): in the column (-1, 10) the value -1 is not left as it was: it
becomes 0, while 10 becomes 1. -/
theorem normalize_log10_nonpositive_to_zero :
    (normalize decimal_math ⟨2, [1], [[0, 1]], [Flt.nan], [Flt.nan]⟩
        [Flt.fin (-1), Flt.fin 10] [0, 1] NORMALIZATION_LOG10 0).map (fun r => (r.1, r.2.1))
      = some (1, [Flt.fin 0, Flt.fin 1]) ∧
    Flt.fin 0 ≠ Flt.fin (-1) := by
  refine ⟨?_, by decide⟩
  simp [normalize, readRanked, NORMALIZATION_NONE, NORMALIZATION_MINMAX,
    NORMALIZATION_ZEROMAX, NORMALIZATION_MAXABS, NORMALIZATION_TRIM_1E2, NORMALIZATION_TRIM_1E3,
    NORMALIZATION_THREESIGMA, NORMALIZATION_LOG10, Flt.gt, Flt.lt, Flt.zero, decimal_math,
    setBounds, writeAt]

/-! ### The trimmed bounds -/

theorem Flt.toInt?_of_nonneg (q : ℚ) (h : 0 ≤ q) : Flt.toInt? (Flt.fin q) = some ⌊q⌋ := by
  show some (q.num.tdiv (q.den : Int)) = some ⌊q⌋
  rw [Rat.floor_def, Int.tdiv_eq_ediv (Rat.num_nonneg.mpr h) (by positivity)]

theorem readRanked_at (a : List Flt) (a_rank : List Nat) (k : Nat)
    (hperm : a_rank.Perm (List.range a.length)) (hk : k < a.length) :
    readRanked a a_rank (k : Int) = some (a.getD (a_rank.getD k 0) Flt.nan) := by
  have hlen : a_rank.length = a.length := by simpa using hperm.length_eq
  have hk2 : k < a_rank.length := by omega
  have hp : a_rank[k] < a.length := List.mem_range.mp (hperm.subset (List.getElem_mem _))
  have hneg : ¬ ((k : Int) < 0) := by omega
  simp only [readRanked, hneg, if_false, Int.toNat_ofNat, List.getElem?_eq_getElem hk2,
    List.getElem?_eq_getElem hp, List.getD_eq_getElem _ _ hk2, List.getD_eq_getElem _ _ hp]

/-- The trim fraction 1e-2 as the `float` that holds it, and the two positions
`0.0 + 0.5*trim` and `1.0 - 0.5*trim` as the `double`s that hold them. -/
theorem trim_1e2_positions :
    trim_1e2 = Flt.fin (10737418 / 2 ^ 30) ∧
    trim_low trim_1e2 = Flt.fin (5368709 / 2 ^ 30) ∧
    trim_high trim_1e2 = Flt.fin (1068373115 / 2 ^ 30) := by
  decide!

/-- The trim fraction 1e-3 as the `float` that holds it, and its two positions. -/
theorem trim_1e3_positions :
    trim_1e3 = Flt.fin (8589935 / 2 ^ 33) ∧
    trim_low trim_1e3 = Flt.fin (8589935 / 2 ^ 34) ∧
    trim_high trim_1e3 = Flt.fin (17171279249 / 2 ^ 34) := by
  decide!

/-- The rank positions of two fractions `c1 <= c2` between 0 and 4095/4096, for a number
of points that fits an `int`: the products are rounded to `double` and truncated, and the
positions satisfy `0 <= k1 <= k2 <= N-1`. -/
theorem trim_index_bounds (c1 c2 : ℚ) (h0 : 0 ≤ c1) (h12 : c1 ≤ c2) (h2 : c2 ≤ 4095 / 4096)
    (N : Int) (hN : 1 ≤ N) (hN2 : N ≤ 2147483647) :
    ∃ k1 k2 : Nat, trim_index (Flt.fin c1) N = some (k1 : Int) ∧
      trim_index (Flt.fin c2) N = some (k2 : Int) ∧ k1 ≤ k2 ∧ (k2 : Int) < N := by
  obtain ⟨n, rfl⟩ := Int.eq_ofNat_of_zero_le (by omega : 0 ≤ N)
  have hn1 : 1 ≤ n := by omega
  have hn2 : n ≤ 2147483647 := by omega
  have hnq : (1 : ℚ) ≤ (n : ℚ) := by exact_mod_cast hn1
  have etop : Flt.round64 (Flt.fin (((n * 4095 : Nat) : ℚ) / (2 : ℚ) ^ 12))
      = Flt.fin (((n * 4095 : Nat) : ℚ) / (2 : ℚ) ^ 12) :=
    round64_dyadic (n * 4095) 12 (by omega) (by norm_num)
  have htop : ((n * 4095 : Nat) : ℚ) / (2 : ℚ) ^ 12 = (n : ℚ) * (4095 / 4096) := by
    push_cast; ring
  rw [htop] at etop
  have hb2 : c2 * (n : ℚ) ≤ (n : ℚ) * (4095 / 4096) := by nlinarith
  have hb1 : c1 * (n : ℚ) ≤ c2 * (n : ℚ) := by nlinarith
  have hb0 : 0 ≤ c1 * (n : ℚ) := by positivity
  obtain ⟨r2, hr2, hr2lo, hr2hi⟩ := round_to_between 53 (-1022) 1023 0 _ (c2 * (n : ℚ))
    (by norm_num) round64_zero etop (le_trans hb0 hb1) hb2
  obtain ⟨r1, hr1, hr1lo, hr1hi⟩ := round_to_between 53 (-1022) 1023 0 _ (c1 * (n : ℚ))
    (by norm_num) round64_zero etop hb0 (le_trans hb1 hb2)
  have hle : r1 ≤ r2 := by
    have := round64_mono _ _ hb1
    unfold Flt.round64 at this
    rw [hr1, hr2] at this
    exact (le_fin_iff _ _).mp this
  have hk1 : 0 ≤ ⌊r1⌋ := Int.floor_nonneg.mpr hr1lo
  have hk12 : ⌊r1⌋ ≤ ⌊r2⌋ := Int.floor_mono hle
  have hk2 : ⌊r2⌋ < (n : Int) := by
    rw [Int.floor_lt]
    have : (n : ℚ) * (4095 / 4096) < (n : ℚ) := by nlinarith
    push_cast
    linarith
  obtain ⟨k1, e1⟩ := Int.eq_ofNat_of_zero_le hk1
  obtain ⟨k2, e2⟩ := Int.eq_ofNat_of_zero_le (le_trans hk1 hk12)
  refine ⟨k1, k2, ?_, ?_, by omega, by omega⟩
  · unfold trim_index
    have : Flt.mul (Flt.fin c1) (Flt.ofInt (n : Int)) = Flt.fin (c1 * (n : ℚ)) := by
      simp [Flt.mul, Flt.ofInt]
    rw [this]
    unfold Flt.round64
    rw [hr1, Flt.toInt?_of_nonneg _ hr1lo, e1]
  · unfold trim_index
    have : Flt.mul (Flt.fin c2) (Flt.ofInt (n : Int)) = Flt.fin (c2 * (n : ℚ)) := by
      simp [Flt.mul, Flt.ofInt]
    rw [this]
    unfold Flt.round64
    rw [hr2, Flt.toInt?_of_nonneg _ hr2lo, e2]

/-- A product with a numerator below 2^53 is a `double`: the rank position is the floor of
the exact product. -/
theorem trim_index_exact (M k n : Nat) (hM : M * n < 9007199254740992) (hk : k ≤ 1000) :
    trim_index (Flt.fin ((M : ℚ) / (2 : ℚ) ^ k)) (n : Int)
      = some ⌊(M : ℚ) / (2 : ℚ) ^ k * (n : ℚ)⌋ := by
  unfold trim_index
  have : Flt.mul (Flt.fin ((M : ℚ) / (2 : ℚ) ^ k)) (Flt.ofInt (n : Int))
      = Flt.fin (((M * n : Nat) : ℚ) / (2 : ℚ) ^ k) := by
    simp only [Flt.mul, Flt.ofInt]
    congr 1
    push_cast
    ring
  rw [this, round64_dyadic (M * n) k hM hk, Flt.toInt?_of_nonneg _ (by positivity)]
  congr 2
  push_cast
  ring

/-- The value read at a rank is not above the value read at a later rank, in a column
without NaN that the rank sorts. -/
theorem ranked_le (a : List Flt) (a_rank : List Nat) (k1 k2 : Nat)
    (hperm : a_rank.Perm (List.range a.length))
    (hsorted : a_rank.Pairwise
      (fun i j => Flt.le (a.getD i Flt.nan) (a.getD j Flt.nan) = true))
    (hnan : ∀ x ∈ a, x ≠ Flt.nan) (h12 : k1 ≤ k2) (h2 : k2 < a.length) :
    Flt.le (a.getD (a_rank.getD k1 0) Flt.nan) (a.getD (a_rank.getD k2 0) Flt.nan) = true := by
  have hlen : a_rank.length = a.length := by simpa using hperm.length_eq
  have h1 : k1 < a_rank.length := by omega
  have h2 : k2 < a_rank.length := by omega
  rw [List.getD_eq_getElem _ _ h1, List.getD_eq_getElem _ _ h2]
  rcases Nat.lt_or_ge k1 k2 with h | h
  · exact (List.pairwise_iff_getElem.mp hsorted) k1 k2 h1 h2 h
  · have hk : k1 = k2 := by omega
    subst hk
    have hp : a_rank[k1] < a.length :=
      List.mem_range.mp (hperm.subset (List.getElem_mem _))
    rw [List.getD_eq_getElem _ _ hp]
    have := hnan _ (List.getElem_mem hp)
    cases hx : a[a_rank[k1]] with
    | fin q => simp [Flt.le, Flt.feq]
    | pinf => simp [Flt.le, Flt.feq]
    | ninf => simp [Flt.le, Flt.feq]
    | nan => exact absurd hx this

/-- C18 (amended): let `trim` be the `float` that holds the trim fraction of the style
(1e-2 for TRIM_1E2, 1e-3 for TRIM_1E3), and let the column have N points, 1 <= N <= 2^31-1,
with a rank sequence that is a permutation of 0..N-1.  The two rank positions
`k1 = (int)((0.0 + 0.5*trim)*N)` and `k2 = (int)((1.0 - 0.5*trim)*N)`, computed in `double`,
satisfy `0 <= k1 <= k2 <= N-1`; the call returns 1, leaves the values unchanged and sets
`wmin` and `wmax` to the values of the points of rank `k1` and `k2`.  When the rank sorts
the column and no value is NaN, `wmin <= wmax`.  With N <= 2^19 the products are exact and
the positions are `floor((t/2) N)` and `floor((1 - t/2) N)` for the number `t` that the
`float` holds. -/
theorem normalize_trim_bounds (m : MathFns) (s : PlotState) (a : List Flt)
    (a_rank : List Nat) (axis_index : Nat) (style : Int) (trim : Flt)
    (hstyle : (style = NORMALIZATION_TRIM_1E2 ∧ trim = trim_1e2) ∨
      (style = NORMALIZATION_TRIM_1E3 ∧ trim = trim_1e3))
    (hN : 1 ≤ s.npoints) (hN2 : s.npoints ≤ 2147483647)
    (ha : (a.length : Int) = s.npoints)
    (hperm : a_rank.Perm (List.range a.length))
    (hmin : axis_index < s.wmin.length) (hmax : axis_index < s.wmax.length) :
    ∃ k1 k2 : Nat, trim_index (trim_low trim) s.npoints = some (k1 : Int) ∧
      trim_index (trim_high trim) s.npoints = some (k2 : Int) ∧
      k1 ≤ k2 ∧ k2 < a.length ∧
      normalize m s a a_rank style axis_index
        = some (1, a, { s with
            wmin := s.wmin.set axis_index (a.getD (a_rank.getD k1 0) Flt.nan),
            wmax := s.wmax.set axis_index (a.getD (a_rank.getD k2 0) Flt.nan) }) ∧
      (a_rank.Pairwise (fun i j => Flt.le (a.getD i Flt.nan) (a.getD j Flt.nan) = true) →
        (∀ x ∈ a, x ≠ Flt.nan) →
        Flt.le (a.getD (a_rank.getD k1 0) Flt.nan) (a.getD (a_rank.getD k2 0) Flt.nan)
          = true) ∧
      (s.npoints ≤ 524288 → ∀ t : ℚ, trim = Flt.fin t →
        (k1 : Int) = ⌊t / 2 * (s.npoints : ℚ)⌋ ∧
        (k2 : Int) = ⌊(1 - t / 2) * (s.npoints : ℚ)⌋) := by
  obtain ⟨c1, c2, M1, M2, K, t0, hc1, hc2, ht0, h0, h12, h2, e1, e2, hM1, hM2, hK, et1, et2⟩ :
      ∃ (c1 c2 : ℚ) (M1 M2 K : Nat) (t0 : ℚ), trim_low trim = Flt.fin c1 ∧
        trim_high trim = Flt.fin c2 ∧ trim = Flt.fin t0 ∧ 0 ≤ c1 ∧ c1 ≤ c2 ∧
        c2 ≤ 4095 / 4096 ∧
        c1 = (M1 : ℚ) / (2 : ℚ) ^ K ∧ c2 = (M2 : ℚ) / (2 : ℚ) ^ K ∧ M1 < 17179869184 ∧
        M2 < 17179869184 ∧ K ≤ 1000 ∧ t0 / 2 = c1 ∧ 1 - t0 / 2 = c2 := by
    rcases hstyle with ⟨_, h⟩ | ⟨_, h⟩
    · rw [h]
      exact ⟨5368709 / 2 ^ 30, 1068373115 / 2 ^ 30, 5368709, 1068373115, 30,
        10737418 / 2 ^ 30, trim_1e2_positions.2.1,
        trim_1e2_positions.2.2, trim_1e2_positions.1, by norm_num, by norm_num, by norm_num,
        by norm_num, by norm_num, by norm_num, by norm_num, by norm_num, by norm_num,
        by norm_num⟩
    · rw [h]
      exact ⟨8589935 / 2 ^ 34, 17171279249 / 2 ^ 34, 8589935, 17171279249, 34,
        8589935 / 2 ^ 33, trim_1e3_positions.2.1,
        trim_1e3_positions.2.2, trim_1e3_positions.1, by norm_num, by norm_num, by norm_num,
        by norm_num, by norm_num, by norm_num, by norm_num, by norm_num, by norm_num,
        by norm_num⟩
  obtain ⟨k1, k2, hk1, hk2, hk12, hk2N⟩ :=
    trim_index_bounds c1 c2 h0 h12 h2 s.npoints hN hN2
  have hk2a : k2 < a.length := by omega
  have hlen : a_rank.length = a.length := by simpa using hperm.length_eq
  obtain ⟨tmin, htmin⟩ := readRanked_of_perm a a_rank 0 hperm (le_refl _) (by omega)
  obtain ⟨tmax, htmax⟩ := readRanked_of_perm a a_rank (s.npoints - 1) hperm (by omega) (by omega)
  have hlo : trimmed a a_rank (trim_low trim) s.npoints
      = some (a.getD (a_rank.getD k1 0) Flt.nan) := by
    unfold trimmed
    rw [hc1, hk1]
    exact readRanked_at a a_rank k1 hperm (by omega)
  have hhi : trimmed a a_rank (trim_high trim) s.npoints
      = some (a.getD (a_rank.getD k2 0) Flt.nan) := by
    unfold trimmed
    rw [hc2, hk2]
    exact readRanked_at a a_rank k2 hperm hk2a
  refine ⟨k1, k2, by rw [hc1]; exact hk1, by rw [hc2]; exact hk2, hk12, hk2a, ?_, ?_, ?_⟩
  · rcases hstyle with ⟨hs, h⟩ | ⟨hs, h⟩
    · subst hs
      rw [h] at hlo hhi
      simp only [normalize, htmin, htmax, hlo, hhi]
      simp [NORMALIZATION_NONE, NORMALIZATION_MINMAX, NORMALIZATION_ZEROMAX,
        NORMALIZATION_MAXABS, NORMALIZATION_TRIM_1E2, setBounds, writeAt, hmin, hmax]
    · subst hs
      rw [h] at hlo hhi
      simp only [normalize, htmin, htmax, hlo, hhi]
      simp [NORMALIZATION_NONE, NORMALIZATION_MINMAX, NORMALIZATION_ZEROMAX,
        NORMALIZATION_MAXABS, NORMALIZATION_TRIM_1E2, NORMALIZATION_TRIM_1E3, setBounds,
        writeAt, hmin, hmax]
  · intro hsorted hnan
    exact ranked_le a a_rank k1 k2 hperm hsorted hnan hk12 hk2a
  · intro hsmall t ht
    have htt : t = t0 := by
      rw [ht0] at ht
      exact (Flt.fin.inj ht).symm
    subst htt
    obtain ⟨n, hn⟩ := Int.eq_ofNat_of_zero_le (by omega : 0 ≤ s.npoints)
    have hn2 : n ≤ 524288 := by omega
    have x1 := trim_index_exact M1 K n (by nlinarith) hK
    have x2 := trim_index_exact M2 K n (by nlinarith) hK
    rw [← e1, ← hn, hk1] at x1
    rw [← e2, ← hn, hk2] at x2
    rw [et2, et1, hn]
    exact ⟨Option.some.inj x1, Option.some.inj x2⟩

theorem normalize_trim_bounds_witness :
    ∃ k1 k2 : Nat,
      trim_index (trim_low trim_1e2)
        (⟨3, [1], [[1, 2, 0]], [Flt.nan], [Flt.nan]⟩ : PlotState).npoints = some (k1 : Int) ∧
      trim_index (trim_high trim_1e2)
        (⟨3, [1], [[1, 2, 0]], [Flt.nan], [Flt.nan]⟩ : PlotState).npoints = some (k2 : Int) ∧
      k1 ≤ k2 ∧ k2 < [Flt.fin 3, Flt.fin (-5), Flt.fin 1].length ∧
      normalize ⟨id, id, id⟩ ⟨3, [1], [[1, 2, 0]], [Flt.nan], [Flt.nan]⟩
          [Flt.fin 3, Flt.fin (-5), Flt.fin 1] [1, 2, 0] NORMALIZATION_TRIM_1E2 0
        = some (1, [Flt.fin 3, Flt.fin (-5), Flt.fin 1],
            { (⟨3, [1], [[1, 2, 0]], [Flt.nan], [Flt.nan]⟩ : PlotState) with
              wmin := ([Flt.nan] : List Flt).set 0
                ([Flt.fin 3, Flt.fin (-5), Flt.fin 1].getD (([1, 2, 0] : List Nat).getD k1 0)
                  Flt.nan),
              wmax := ([Flt.nan] : List Flt).set 0
                ([Flt.fin 3, Flt.fin (-5), Flt.fin 1].getD (([1, 2, 0] : List Nat).getD k2 0)
                  Flt.nan) }) ∧
      (([1, 2, 0] : List Nat).Pairwise (fun i j =>
          Flt.le ([Flt.fin 3, Flt.fin (-5), Flt.fin 1].getD i Flt.nan)
            ([Flt.fin 3, Flt.fin (-5), Flt.fin 1].getD j Flt.nan) = true) →
        (∀ x ∈ [Flt.fin 3, Flt.fin (-5), Flt.fin 1], x ≠ Flt.nan) →
        Flt.le
          ([Flt.fin 3, Flt.fin (-5), Flt.fin 1].getD (([1, 2, 0] : List Nat).getD k1 0) Flt.nan)
          ([Flt.fin 3, Flt.fin (-5), Flt.fin 1].getD (([1, 2, 0] : List Nat).getD k2 0) Flt.nan)
          = true) ∧
      ((⟨3, [1], [[1, 2, 0]], [Flt.nan], [Flt.nan]⟩ : PlotState).npoints ≤ 524288 →
        ∀ t : ℚ, trim_1e2 = Flt.fin t →
        (k1 : Int) = ⌊t / 2
          * (((⟨3, [1], [[1, 2, 0]], [Flt.nan], [Flt.nan]⟩ : PlotState).npoints : Int) : ℚ)⌋ ∧
        (k2 : Int) = ⌊(1 - t / 2)
          * (((⟨3, [1], [[1, 2, 0]], [Flt.nan], [Flt.nan]⟩ : PlotState).npoints : Int) : ℚ)⌋) :=
  normalize_trim_bounds ⟨id, id, id⟩ ⟨3, [1], [[1, 2, 0]], [Flt.nan], [Flt.nan]⟩
    [Flt.fin 3, Flt.fin (-5), Flt.fin 1] [1, 2, 0] 0 NORMALIZATION_TRIM_1E2 trim_1e2
    (Or.inl ⟨rfl, rfl⟩)
    (by decide) (by decide) (by decide) (by decide) (by decide) (by decide)

/-- C18 (counterexample): with 200 points and the trim fraction 1e-2 the position of the
claim, floor((1e-2/2) 200), is 1, but the `float` that holds 1e-2 is below 1e-2, the product
(0.5*trim)*200 is below 1, and the position that the code uses is 0: on the column
0, 1, ..., 199 the call sets `wmin` to 0, the value of rank 0, and not to 1.  On the column
of the single value NaN the call sets both bounds to NaN, and `wmin <= wmax` is false. -/
theorem normalize_trim_two_hundred_points :
    ⌊(1 / 100 : ℚ) / 2 * 200⌋ = 1 ∧
    trim_index (trim_low trim_1e2) 200 = some 0 ∧
    trim_index (trim_high trim_1e2) 200 = some 199 ∧
    normalize ⟨id, id, id⟩ ⟨200, [1], [List.range 200], [Flt.nan], [Flt.nan]⟩
        ((List.range 200).map (fun (i : Nat) => Flt.fin (i : ℚ))) (List.range 200)
        NORMALIZATION_TRIM_1E2 0
      = some (1, (List.range 200).map (fun (i : Nat) => Flt.fin (i : ℚ)),
          ⟨200, [1], [List.range 200], [Flt.fin 0], [Flt.fin 199]⟩) ∧
    normalize ⟨id, id, id⟩ ⟨1, [1], [[0]], [Flt.fin 0], [Flt.fin 0]⟩ [Flt.nan] [0]
        NORMALIZATION_TRIM_1E2 0
      = some (1, [Flt.nan], ⟨1, [1], [[0]], [Flt.nan], [Flt.nan]⟩) ∧
    Flt.le Flt.nan Flt.nan = false := by
  refine ⟨by norm_num, by decide!, by decide!, by decide!, by decide!, by decide⟩

/-! ### The column of selection information -/

/-- The result of a successful label extraction: the labels kept, each in a fresh column,
followed by the sentinel; `nvars` counts the labels, the returned number counts the
sentinel too, and the flag tells whether the last label starts with `SELECTION_LABEL`. -/
theorem extract_column_labels_shape (s s1 : Data_File_Manager) (sLine : List Char)
    (doDefault n : Int) (h : extract_column_labels s sLine doDefault = some (n, s1))
    (hn : 0 ≤ n) :
    ∃ (labels : List String) (last : String),
      s1 = { s with nvars := (labels.length : Int) + 1,
                    column_info := (labels ++ [last]).map labelled_column ++ [nothing_column],
                    readSelectionInfo_ :=
                      if SELECTION_LABEL.data.isPrefixOf last.data then 1 else 0 } ∧
      n = (labels.length : Int) + 2 := by
  unfold extract_column_labels at h
  generalize hl : (if doDefault ≠ 0 then _ else _ : Option (List String)) = labels? at h
  cases labels? with
  | none => simp at h
  | some labels =>
    simp only [] at h
    generalize hc : (if s.nvars_cmd_line > 0 ∧
      ((labels.map labelled_column).length : Int) > s.nvars_cmd_line
      then (labels.map labelled_column).take s.nvars_cmd_line.toNat
      else labels.map labelled_column) = cols1 at h
    have hcols : ∃ ls : List String, cols1 = ls.map labelled_column := by
      by_cases hcond : s.nvars_cmd_line > 0 ∧
          ((labels.map labelled_column).length : Int) > s.nvars_cmd_line
      · rw [if_pos hcond] at hc
        exact ⟨labels.take s.nvars_cmd_line.toNat, by rw [← hc, List.map_take]⟩
      · rw [if_neg hcond] at hc
        exact ⟨labels, hc.symm⟩
    obtain ⟨ls, hls⟩ := hcols
    by_cases h1 : s.doMerge = 0 ∧ (cols1.length : Int) ≤ 1
    · rw [if_pos h1] at h
      simp only [Option.some.injEq, Prod.mk.injEq] at h
      omega
    · rw [if_neg h1] at h
      by_cases h2 : (cols1.length : Int) > s.maxvars_
      · rw [if_pos h2] at h
        simp only [Option.some.injEq, Prod.mk.injEq] at h
        omega
      · rw [if_neg h2] at h
        by_cases h3 : (cols1.length : Int) - 1 < 0
        · rw [if_pos h3] at h
          simp at h
        · rw [if_neg h3] at h
          have hne : ls ≠ [] := by
            intro he
            rw [he] at hls
            rw [hls] at h3
            simp at h3
          obtain ⟨front, last, hfl⟩ : ∃ front last, ls = front ++ [last] :=
            ⟨ls.dropLast, ls.getLast hne, (List.dropLast_append_getLast hne).symm⟩
          have hidx : ((cols1.length : Int) - 1).toNat = front.length := by
            rw [hls, hfl]
            simp
          have hget : ((if include_line_number = true
              then cols1 ++ [labelled_column "-line number-"] else cols1)
                ++ [labelled_column "-nothing-"])[((cols1.length : Int) - 1).toNat]?
              = some (labelled_column last) := by
            rw [hidx, hls, hfl]
            simp only [include_line_number, Bool.false_eq_true, if_false, List.map_append,
              List.map_cons, List.map_nil, List.append_assoc, List.cons_append, List.nil_append]
            rw [List.getElem?_append_right (by simp)]
            simp
          rw [hget] at h
          simp only [Option.some.injEq, Prod.mk.injEq] at h
          refine ⟨front, last, ?_, ?_⟩
          · rw [← h.2, hls, hfl]
            simp [include_line_number, nothing_column, labelled_column]
          · rw [← h.1, hls, hfl]
            simp [include_line_number]

theorem modifyAt_frame {α : Type} (f : α → α) (v v1 : List α) (i : Nat)
    (h : modifyAt f v i = some v1) :
    v1.length = v.length ∧ ∀ k, k ≠ i → v1[k]? = v[k]? := by
  unfold modifyAt at h
  cases hv : v[i]? with
  | none => rw [hv] at h; simp at h
  | some x =>
    rw [hv] at h
    simp only [Option.some.injEq] at h
    subst h
    refine ⟨by simp, fun k hk => ?_⟩
    rw [List.getElem?_set_ne (Ne.symm hk)]

theorem set_frame {α : Type} (v : List α) (i : Nat) (x : α) :
    (v.set i x).length = v.length ∧ ∀ k, k ≠ i → (v.set i x)[k]? = v[k]? :=
  ⟨by simp, fun _ hk => List.getElem?_set_ne (Ne.symm hk)⟩

theorem forFirst_frame {α : Type} (f : α → α) (v v1 : List α) (n : Nat)
    (h : forFirst f v n = some v1) :
    v1.length = v.length ∧ ∀ k, n ≤ k → v1[k]? = v[k]? := by
  unfold forFirst at h
  by_cases hn : n ≤ v.length
  · rw [if_pos hn] at h
    simp only [Option.some.injEq] at h
    subst h
    refine ⟨by simp; omega, fun k hk => ?_⟩
    rw [List.getElem?_append_right (by simp; omega)]
    simp only [List.length_map, List.length_take, List.getElem?_drop]
    congr 1
    omega
  · rw [if_neg hn] at h
    simp at h

/-- The loop of `extract_column_types` keeps the number of columns and every column
from the position `j + count` on. -/
theorem column_types_loop_frame (io : NumIO) (delim : Char) (nvars : Int) :
    ∀ (count : Nat) (j : Int) (ss : IStream) (tok : List Char) (ci ci1 : List Column_Info),
      column_types_loop io delim nvars count j ss tok ci = some ci1 → 0 ≤ j →
      ci1.length = ci.length ∧ ∀ i, j.toNat + count ≤ i → ci1[i]? = ci[i]? := by
  intro count
  induction count with
  | zero =>
    intro j ss tok ci ci1 h _
    simp only [column_types_loop, Option.some.injEq] at h
    subst h
    exact ⟨rfl, fun _ _ => rfl⟩
  | succ c ih =>
    intro j ss tok ci ci1 h hj
    rw [column_types_loop] at h
    simp only [] at h
    generalize (if delim = ' ' then _ else _ : IStream × List Char) = r at h
    by_cases c1 : r.1.eofbit = true ∧ j < nvars - 1
    · rw [if_pos c1] at h
      cases h
      exact ⟨rfl, fun _ _ => rfl⟩
    · rw [if_neg c1] at h
      by_cases c2 : r.1.good = false ∧ j < nvars - 1
      · rw [if_pos c2] at h
        cases h
        exact ⟨rfl, fun _ _ => rfl⟩
      · rw [if_neg c2, if_neg (by omega)] at h
        cases hm : modifyAt (fun c => set_type c (word_type io r.2)) ci j.toNat with
        | none => rw [hm] at h; simp at h
        | some ci2 =>
          rw [hm] at h
          simp only [] at h
          obtain ⟨hl1, hf1⟩ := ih _ _ _ _ _ h (by omega)
          obtain ⟨hl2, hf2⟩ := modifyAt_frame _ _ _ _ hm
          refine ⟨hl1.trans hl2, fun i hi => ?_⟩
          rw [hf1 i (by omega), hf2 i (by omega)]

theorem extract_column_types_frame (io : NumIO) (s s1 : Data_File_Manager) (sLine : List Char)
    (h : extract_column_types io s sLine = some s1) :
    s1.column_info.length = s.column_info.length ∧
    (∀ i, s.nvars.toNat ≤ i → s1.column_info[i]? = s.column_info[i]?) ∧
    s1 = { s with column_info := s1.column_info } := by
  unfold extract_column_types at h
  cases hc : column_types_loop io s.delimiter_char_ s.nvars s.nvars.toNat 0
      (IStream.ofText (if s.delimiter_char_ ≠ '\t' then replace_tabs sLine else sLine)) []
      s.column_info with
  | none => simp only [hc, Option.map_none'] at h; simp at h
  | some ci =>
    simp only [hc, Option.map_some', Option.some.injEq] at h
    subst h
    obtain ⟨h1, h2⟩ := column_types_loop_frame _ _ _ _ _ _ _ _ _ hc (le_refl _)
    refine ⟨h1, fun i hi => h2 i (by simpa using hi), rfl⟩


/-- The loop over the fields of a data line keeps the number of columns and every column
from the position `j + count` on. -/
theorem read_fields_frame (io : NumIO) (ops : ColumnOps) (s : Data_File_Manager) (row : Int) :
    ∀ (count : Nat) (j : Int) (st st1 : LineState),
      read_fields io ops s row count j st = some st1 → 0 ≤ j →
      st1.column_info.length = st.column_info.length ∧
      ∀ i, j.toNat + count ≤ i → st1.column_info[i]? = st.column_info[i]? := by
  intro count
  induction count with
  | zero =>
    intro j st st1 h _
    simp only [read_fields, Option.some.injEq] at h
    subst h
    exact ⟨rfl, fun _ _ => rfl⟩
  | succ c ih =>
    intro j st st1 h hj
    rw [read_fields] at h
    rw [if_neg (by omega)] at h
    cases hcol : st.column_info[j.toNat]? with
    | none => rw [hcol] at h; simp at h
    | some col =>
      rw [hcol] at h
      simp only [] at h
      generalize (if s.delimiter_char_ = ' ' then _ else _ : IStream × Flt × List Char) = r at h
      by_cases c1 : r.1.eofbit = true ∧ j < s.nvars - 1
      · rw [if_pos c1] at h
        cases h
        exact ⟨rfl, fun _ _ => rfl⟩
      · rw [if_neg c1] at h
        generalize hst : (if s.readSelectionInfo_ = 0 ∨ j < s.nvars - 1 then _ else _ :
          Option (IStream × List Column_Info × List Int)) = stored at h
        have hstored : ∀ ss2 ci rs, stored = some (ss2, ci, rs) →
            ci.length = st.column_info.length ∧
            ∀ k, k ≠ j.toNat → ci[k]? = st.column_info[k]? := by
          intro ss2 ci rs he
          rw [he] at hst
          by_cases d1 : s.readSelectionInfo_ = 0 ∨ j < s.nvars - 1
          · rw [if_pos d1] at hst
            by_cases d2 : r.1.failbit = true
            · rw [if_pos d2] at hst
              cases hp : set_point col row s.bad_value_proxy_ with
              | none => rw [hp] at hst; simp at hst
              | some c0 =>
                rw [hp] at hst
                simp only [Option.map_some', Option.some.injEq, Prod.mk.injEq] at hst
                rw [← hst.2.1]
                exact set_frame _ _ _
            · rw [if_neg d2] at hst
              by_cases d3 : col.hasASCII = 0
              · rw [if_pos d3] at hst
                cases hp : set_point col row (Flt.round32 r.2.1) with
                | none => rw [hp] at hst; simp at hst
                | some c0 =>
                  rw [hp] at hst
                  simp only [Option.map_some', Option.some.injEq, Prod.mk.injEq] at hst
                  rw [← hst.2.1]
                  exact set_frame _ _ _
              · rw [if_neg d3] at hst
                cases hp : set_point (ops.add_value col (String.mk r.2.2)).1 row
                    (Flt.round32 (Flt.ofInt (ops.add_value col (String.mk r.2.2)).2)) with
                | none => rw [hp] at hst; simp at hst
                | some c0 =>
                  rw [hp] at hst
                  simp only [Option.map_some', Option.some.injEq, Prod.mk.injEq] at hst
                  rw [← hst.2.1]
                  exact set_frame _ _ _
          · rw [if_neg d1] at hst
            by_cases d2 : r.1.failbit = true
            · rw [if_pos d2] at hst
              simp only [Option.some.injEq, Prod.mk.injEq] at hst
              rw [← hst.2.1]
              exact ⟨rfl, fun _ _ => rfl⟩
            · rw [if_neg d2] at hst
              cases hk : Flt.toInt? r.2.1 with
              | none => rw [hk] at hst; simp at hst
              | some k =>
                rw [hk] at hst
                simp only [] at hst
                by_cases d4 : 0 ≤ row
                · rw [if_pos d4] at hst
                  cases hw : writeAt st.read_selected row.toNat k with
                  | none => rw [hw] at hst; simp at hst
                  | some rs0 =>
                    rw [hw] at hst
                    simp only [Option.map_some', Option.some.injEq, Prod.mk.injEq] at hst
                    rw [← hst.2.1]
                    exact ⟨rfl, fun _ _ => rfl⟩
                · rw [if_neg d4] at hst
                  simp at hst
        cases stored with
        | none => simp at h
        | some t =>
          obtain ⟨ss2, ci, rs⟩ := t
          obtain ⟨hl2, hf2⟩ := hstored ss2 ci rs rfl
          simp only [] at h
          by_cases c3 : ss2.good = false ∧ j < s.nvars - 1
          · rw [if_pos c3] at h
            cases h
            exact ⟨hl2, fun i hi => hf2 i (by omega)⟩
          · rw [if_neg c3] at h
            obtain ⟨hl1, hf1⟩ := ih _ _ _ h (by omega)
            refine ⟨hl1.trans hl2, fun i hi => ?_⟩
            rw [hf1 i (by omega)]
            exact hf2 i (by omega)


/-- The data loop keeps the number of columns, every column from the position `nvars`
on, and the members `nvars`, `readSelectionInfo_` and `nDataColumns_`. -/
theorem data_loop_frame (io : NumIO) (ops : ColumnOps) (npoints : Int) :
    ∀ (fuel : Nat) (d d1 : DataState) (status : Int),
      data_loop io ops npoints fuel d = some (status, d1) →
      d1.dfm.column_info.length = d.dfm.column_info.length ∧
      (∀ i, d.dfm.nvars.toNat ≤ i → d1.dfm.column_info[i]? = d.dfm.column_info[i]?) ∧
      d1.dfm.nvars = d.dfm.nvars ∧ d1.dfm.readSelectionInfo_ = d.dfm.readSelectionInfo_ ∧
      d1.dfm.nDataColumns_ = d.dfm.nDataColumns_ := by
  intro fuel
  induction fuel with
  | zero =>
    intro d d1 status h
    rw [data_loop] at h
    by_cases c : d.inStream.eofbit = false ∧ d.nDataRows_ < npoints
    · rw [if_pos c] at h; simp at h
    · rw [if_neg c] at h
      cases h
      exact ⟨rfl, fun _ _ => rfl, rfl, rfl, rfl⟩
  | succ f ih =>
    intro d d1 status h
    rw [data_loop] at h
    by_cases c : d.inStream.eofbit = false ∧ d.nDataRows_ < npoints
    · rw [if_pos c] at h
      simp only [] at h
      generalize (if d.uReadNextLine = true then d.inStream.getline '\n' d.line
        else (d.inStream, d.line)) = g at h
      by_cases c1 : d.uReadNextLine = true ∧ g.1.eofbit = true
      · rw [if_pos c1] at h
        cases h
        exact ⟨rfl, fun _ _ => rfl, rfl, rfl, rfl⟩
      · rw [if_neg c1] at h
        by_cases c2 : g.2.length = 0 ∨ starts_with_comment g.2 = true
        · rw [if_pos c2] at h
          have hi := ih _ _ _ h
          exact hi
        · rw [if_neg c2] at h
          generalize ht : (if d.nDataRows_ = 0 then extract_column_types io d.dfm g.2
            else some d.dfm) = t at h
          cases t with
          | none => simp at h
          | some dfm1 =>
            simp only [] at h
            have hdfm1 : dfm1.column_info.length = d.dfm.column_info.length ∧
                (∀ i, d.dfm.nvars.toNat ≤ i → dfm1.column_info[i]? = d.dfm.column_info[i]?) ∧
                dfm1 = { d.dfm with column_info := dfm1.column_info } := by
              by_cases c3 : d.nDataRows_ = 0
              · rw [if_pos c3] at ht
                exact extract_column_types_frame io _ _ _ ht
              · rw [if_neg c3] at ht
                cases ht
                exact ⟨rfl, fun _ _ => rfl, rfl⟩
            obtain ⟨hl1, hf1, he1⟩ := hdfm1
            have hnv : dfm1.nvars = d.dfm.nvars := by rw [he1]
            have hfl : dfm1.readSelectionInfo_ = d.dfm.readSelectionInfo_ := by rw [he1]
            have hdc : dfm1.nDataColumns_ = d.dfm.nDataColumns_ := by rw [he1]
            generalize hrf : read_fields io ops dfm1 d.nDataRows_ dfm1.nvars.toNat 0 _ = rf at h
            cases rf with
            | none => simp at h
            | some st =>
              simp only [] at h
              obtain ⟨hl2, hf2⟩ := read_fields_frame io ops dfm1 d.nDataRows_ _ _ _ _ hrf
                (le_refl _)
              simp only [Int.toNat_zero, Nat.zero_add] at hf2
              cases hb : has_bad_data_flag st.column_info dfm1.nDataColumns_ d.nDataRows_ with
              | none => rw [hb] at h; simp at h
              | some flag =>
                rw [hb] at h
                simp only [] at h
                by_cases c4 : d.nTestCycle + 1 ≥ dfm1.MAX_NTESTCYCLES ∧
                    st.nUnreadableData ≥ dfm1.MAX_NUNREADABLELINES
                · rw [if_pos c4] at h
                  cases h
                  refine ⟨hl2.trans hl1, fun i hi => ?_, hnv, hfl, hdc⟩
                  show st.column_info[i]? = _
                  rw [hf2 i (by rw [hnv]; exact hi)]
                  exact hf1 i hi
                · rw [if_neg c4] at h
                  obtain ⟨k1, k2, k3, k4, k5⟩ := ih _ _ _ h
                  refine ⟨k1.trans (hl2.trans hl1), fun i hi => ?_, k3.trans hnv, k4.trans hfl,
                    k5.trans hdc⟩
                  rw [k2 i (by show dfm1.nvars.toNat ≤ i; rw [hnv]; exact hi)]
                  show st.column_info[i]? = _
                  rw [hf2 i (by rw [hnv]; exact hi)]
                  exact hf1 i hi
    · rw [if_neg c] at h
      cases h
      exact ⟨rfl, fun _ _ => rfl, rfl, rfl, rfl⟩


/-- The end of the read: with `nvars + 1` columns, the last one being `z`, a read that
reports success leaves `nvars` lowered by one exactly when the flag is set, and `z` is
still the last column. -/
theorem finish_read_selection (ops : ColumnOps) (answer status : Int) (d : DataState)
    (s1 : Data_File_Manager) (z : Column_Info)
    (hL : (d.dfm.column_info.length : Int) = d.dfm.nvars + 1)
    (hz : d.dfm.column_info[d.dfm.nvars.toNat]? = some z)
    (hdc : d.dfm.nDataColumns_ ≤ d.dfm.nvars) (hnv : 1 ≤ d.dfm.nvars)
    (h : finish_read ops answer status d = some (0, s1)) :
    s1.readSelectionInfo_ = d.dfm.readSelectionInfo_ ∧
    s1.nvars = d.dfm.nvars - (if d.dfm.readSelectionInfo_ ≠ 0 then 1 else 0) ∧
    (s1.column_info.length : Int) = s1.nvars + 1 ∧
    s1.column_info.getLast? = some z := by
  unfold finish_read at h
  simp only [] at h
  by_cases c1 : status ≠ 0
  · rw [if_pos c1] at h
    simp at h
  · rw [if_neg c1] at h
    split at h
    · simp at h
    · cases hf : forFirst (fun c => (ops.update_ascii_values_and_data d.nDataRows_ c).1)
          d.dfm.column_info d.dfm.nDataColumns_.toNat with
      | none => rw [hf] at h; simp at h
      | some ci1 =>
        rw [hf] at h
        simp only [] at h
        obtain ⟨hl1, hf1⟩ := forFirst_frame _ _ _ _ hf
        have hz1 : ci1[d.dfm.nvars.toNat]? = some z := by
          rw [hf1 _ (by omega)]
          exact hz
        unfold remove_column_of_selection_info at h
        simp only [] at h
        by_cases c3 : d.dfm.readSelectionInfo_ ≠ 0
        · rw [if_pos c3, if_neg (by omega)] at h
          simp only [] at h
          have hlen : (ci1.eraseIdx (ci1.length - 2)).length = ci1.length - 1 := by
            rw [List.length_eraseIdx, if_pos (by omega)]
          cases hg : forFirst (fun c =>
              { c with points := resizeAndPreserve Flt.zero c.points d.nDataRows_ })
              (ci1.eraseIdx (ci1.length - 2))
              (((ci1.eraseIdx (ci1.length - 2)).length : Int) - 1).toNat with
          | none => rw [hg] at h; simp at h
          | some ci2 =>
            rw [hg] at h
            simp only [Option.some.injEq, Prod.mk.injEq, true_and] at h
            subst h
            obtain ⟨hl2, hf2⟩ := forFirst_frame _ _ _ _ hg
            refine ⟨rfl, ?_, ?_, ?_⟩
            · simp only [if_pos c3]
              rw [hlen]
              omega
            · simp only []
              rw [hl2]
              omega
            · simp only []
              rw [List.getLast?_eq_getElem?, hf2 _ (by rw [hl2, hlen]; omega), hl2, hlen,
                List.getElem?_eraseIdx, if_neg (by omega), ← hz1]
              congr 1
              omega
        · rw [if_neg c3] at h
          simp only [] at h
          cases hg : forFirst (fun c =>
              { c with points := resizeAndPreserve Flt.zero c.points d.nDataRows_ })
              ci1 ((ci1.length : Int) - 1).toNat with
          | none => rw [hg] at h; simp at h
          | some ci2 =>
            rw [hg] at h
            simp only [Option.some.injEq, Prod.mk.injEq, true_and] at h
            subst h
            obtain ⟨hl2, hf2⟩ := forFirst_frame _ _ _ _ hg
            refine ⟨rfl, ?_, ?_, ?_⟩
            · simp only [if_neg c3]
              omega
            · simp only []
              rw [hl2]
              omega
            · simp only []
              rw [List.getLast?_eq_getElem?, hf2 _ (by rw [hl2]; omega), hl2, ← hz1]
              congr 1
              omega

/-- C11: let a label extraction return a count `n >= 0` and the state `s1`, and let the
read of the data block, on `s1` or on `s1` with the column types set, report success with
the state `s2`.  Then the columns of `s1` are the labels `front ++ [last]`, each in a
fresh column, and the sentinel; `readSelectionInfo_` is set exactly when `last` starts
with `SELECTION_LABEL`; `remove_column_of_selection_info` erases the column of `last` and
nothing else when the flag is set and changes nothing otherwise; the read keeps the flag,
reports `nvars` as the number of labels less one when the flag is set and as the number
of labels otherwise, and leaves the sentinel as the last of its `nvars + 1` columns. -/
theorem selection_column_removed (io : NumIO) (ops : ColumnOps)
    (s s1 s3 s2 : Data_File_Manager) (sLine typeLine : List Char) (doDefault n answer : Int)
    (h : HeaderState) (uReadNextLine : Bool)
    (hlab : extract_column_labels s sLine doDefault = some (n, s1)) (hn : 0 ≤ n)
    (htypes : s3 = s1 ∨ extract_column_types io s1 typeLine = some s3)
    (hread : read_data_block io ops answer h uReadNextLine s3 = some (0, s2)) :
    ∃ (front : List String) (last : String),
      s1.column_info = (front ++ [last]).map labelled_column ++ [nothing_column] ∧
      (s1.readSelectionInfo_ ≠ 0 ↔ SELECTION_LABEL.data.isPrefixOf last.data = true) ∧
      remove_column_of_selection_info s1 =
        some (if SELECTION_LABEL.data.isPrefixOf last.data = true
          then ((front.length : Int) + 1,
            { s1 with column_info := front.map labelled_column ++ [nothing_column] })
          else ((front.length : Int) + 2, s1)) ∧
      s2.readSelectionInfo_ = s1.readSelectionInfo_ ∧
      s2.nvars = (if SELECTION_LABEL.data.isPrefixOf last.data = true
        then ((front ++ [last]).length : Int) - 1 else ((front ++ [last]).length : Int)) ∧
      (s2.column_info.length : Int) = s2.nvars + 1 ∧
      s2.column_info.getLast? = some nothing_column := by
  obtain ⟨front, last, hs1, _⟩ := extract_column_labels_shape s s1 sLine doDefault n hlab hn
  have hci : s1.column_info = (front ++ [last]).map labelled_column ++ [nothing_column] := by
    rw [hs1]
  have hnv : s1.nvars = (front.length : Int) + 1 := by rw [hs1]
  have hflag : s1.readSelectionInfo_ =
      if SELECTION_LABEL.data.isPrefixOf last.data = true then 1 else 0 := by rw [hs1]
  have hlen1 : s1.column_info.length = front.length + 2 := by rw [hci]; simp
  have hz1 : s1.column_info[front.length + 1]? = some nothing_column := by
    rw [hci, List.getElem?_append_right (by simp)]
    simp
  -- the state that enters the data block
  have h3 : s3.column_info.length = front.length + 2 ∧
      s3.column_info[front.length + 1]? = some nothing_column ∧
      s3.nvars = (front.length : Int) + 1 ∧ s3.readSelectionInfo_ = s1.readSelectionInfo_ := by
    rcases htypes with ht | ht
    · rw [ht]
      exact ⟨hlen1, hz1, hnv, rfl⟩
    · obtain ⟨k1, k2, k3⟩ := extract_column_types_frame io s1 s3 typeLine ht
      refine ⟨k1.trans hlen1, ?_, ?_, ?_⟩
      · rw [k2 _ (by rw [hnv]; omega)]
        exact hz1
      · rw [k3]
        exact hnv
      · rw [k3]
  obtain ⟨hlen3, hz3, hnv3, hflag3⟩ := h3
  refine ⟨front, last, hci, ?_, ?_, ?_⟩
  · rw [hflag]
    by_cases hp : SELECTION_LABEL.data.isPrefixOf last.data = true
    · simp [hp]
    · simp [hp]
  · unfold remove_column_of_selection_info
    by_cases hp : SELECTION_LABEL.data.isPrefixOf last.data = true
    · rw [if_pos (by rw [hflag, if_pos hp]; decide), if_neg (by omega), if_pos hp]
      have he : s1.column_info.eraseIdx (s1.column_info.length - 2)
          = front.map labelled_column ++ [nothing_column] := by
        rw [hlen1, hci]
        simp only [List.map_append, List.map_cons, List.map_nil, List.append_assoc,
          List.cons_append, List.nil_append, Nat.add_sub_cancel]
        rw [List.eraseIdx_append_of_length_le (by simp)]
        simp
      simp only [he]
      simp
    · rw [if_neg (by rw [hflag, if_neg hp]; decide), if_neg hp, hlen1]
      simp
  · -- the read of the data block
    unfold read_data_block at hread
    simp only [] at hread
    generalize hnp : (if s3.npoints_cmd_line > 0 then s3.npoints_cmd_line else s3.maxpoints_)
      = npoints at hread
    generalize hndc : ((if include_line_number = true then s3.nvars + 1 else s3.nvars)
      - (if s3.readSelectionInfo_ ≠ 0 then 1 else 0)) = ndc at hread
    have hndc_le : ndc ≤ s3.nvars := by
      rw [← hndc]
      simp only [include_line_number, Bool.false_eq_true, if_false]
      split <;> omega
    cases hf : forFirst (fun c => { c with points := resize Flt.zero c.points npoints })
        s3.column_info ndc.toNat with
    | none => rw [hf] at hread; simp at hread
    | some ci =>
      rw [hf] at hread
      simp only [] at hread
      obtain ⟨hl4, hf4⟩ := forFirst_frame _ _ _ _ hf
      cases hd : data_loop io ops npoints (h.inStream.rest.length + 2)
          { inStream := h.inStream, line := h.line, uReadNextLine := uReadNextLine,
            nRead := h.nRead, nSkip := 0, nDataRows_ := 0, nTestCycle := 0,
            nUnreadableData := 0,
            dfm := { s3 with npoints := npoints, nDataColumns_ := ndc,
                             column_info := ci, nDataRows_ := 0 } } with
      | none => rw [hd] at hread; simp at hread
      | some r =>
        obtain ⟨status, d⟩ := r
        rw [hd] at hread
        simp only [] at hread
        obtain ⟨k1, k2, k3, k4, k5⟩ := data_loop_frame io ops npoints _ _ _ _ hd
        simp only [] at k1 k2 k3 k4 k5
        have hL : (d.dfm.column_info.length : Int) = d.dfm.nvars + 1 := by
          rw [k1, k3, hl4, hlen3, hnv3]
          push_cast
          ring
        have hz : d.dfm.column_info[d.dfm.nvars.toNat]? = some nothing_column := by
          rw [k3, k2 _ (le_refl _), hf4 _ (by omega), hnv3]
          have : ((front.length : Int) + 1).toNat = front.length + 1 := by omega
          rw [this]
          exact hz3
        obtain ⟨m1, m2, m3, m4⟩ := finish_read_selection ops answer status d s2 nothing_column
          hL hz (by rw [k5, k3]; exact hndc_le) (by rw [k3, hnv3]; omega) hread
        refine ⟨?_, ?_, m3, m4⟩
        · rw [m1, k4, hflag3]
        · rw [m2, k4, k3, hnv3, hflag3, hflag]
          by_cases hp : SELECTION_LABEL.data.isPrefixOf last.data = true
          · simp [hp]
          · simp [hp]

set_option maxRecDepth 100000 in
theorem selection_column_removed_witness :
    header_loop 0 MAX_HEADER_LINES 0
        ⟨IStream.ofText "a SELECTION_BY_VP\n1 1\n2 0\n".data, [], [], 0, 0⟩ = selection_header ∧
    ∃ (front : List String) (last : String),
      selection_labelled.column_info
        = (front ++ [last]).map labelled_column ++ [nothing_column] ∧
      (selection_labelled.readSelectionInfo_ ≠ 0 ↔
        SELECTION_LABEL.data.isPrefixOf last.data = true) ∧
      remove_column_of_selection_info selection_labelled =
        some (if SELECTION_LABEL.data.isPrefixOf last.data = true
          then ((front.length : Int) + 1,
            { selection_labelled with
              column_info := front.map labelled_column ++ [nothing_column] })
          else ((front.length : Int) + 2, selection_labelled)) ∧
      selection_read.readSelectionInfo_ = selection_labelled.readSelectionInfo_ ∧
      selection_read.nvars = (if SELECTION_LABEL.data.isPrefixOf last.data = true
        then ((front ++ [last]).length : Int) - 1 else ((front ++ [last]).length : Int)) ∧
      (selection_read.column_info.length : Int) = selection_read.nvars + 1 ∧
      selection_read.column_info.getLast? = some nothing_column :=
  ⟨by decide,
   selection_column_removed plain_io numeric_ops selection_start selection_labelled
    selection_typed selection_read "a SELECTION_BY_VP".data "a SELECTION_BY_VP".data 0 3 0
    selection_header true (by decide) (by decide) (Or.inr (by decide)) (by decide!)⟩

/-! ### The labels of a header line -/

theorem splitOnP_takeWhile {α : Type} (p : α → Bool) (xs : List α) :
    xs.splitOnP p = xs.takeWhile (fun c => !p c) ::
      (match xs.dropWhile (fun c => !p c) with
       | [] => []
       | _ :: r => r.splitOnP p) := by
  induction xs with
  | nil => simp
  | cons x xs ih =>
    rw [List.splitOnP_cons]
    by_cases hp : p x = true
    · simp [hp]
    · rw [if_neg hp, ih]
      simp [hp, List.modifyHead]

theorem nonwhite_runs_nil : nonwhite_runs [] = [] := by
  simp [nonwhite_runs]

theorem nonwhite_runs_space (x : Char) (xs : List Char) (hx : isspace x = true) :
    nonwhite_runs (x :: xs) = nonwhite_runs xs := by
  simp [nonwhite_runs, List.splitOnP_cons, hx]

theorem nonwhite_runs_dropWhile (l : List Char) :
    nonwhite_runs (l.dropWhile isspace) = nonwhite_runs l := by
  induction l with
  | nil => rfl
  | cons x xs ih =>
    by_cases hx : isspace x = true
    · rw [List.dropWhile_cons_of_pos hx, ih, nonwhite_runs_space x xs hx]
    · rw [List.dropWhile_cons_of_neg hx]

theorem nonwhite_runs_word (x : Char) (xs : List Char) (hx : isspace x = false) :
    nonwhite_runs (x :: xs) = (x :: xs).takeWhile (fun c => !isspace c) ::
      nonwhite_runs ((x :: xs).dropWhile (fun c => !isspace c)) := by
  have h1 : nonwhite_runs (x :: xs) = (x :: xs).takeWhile (fun c => !isspace c) ::
      (match (x :: xs).dropWhile (fun c => !isspace c) with
       | [] => []
       | _ :: r => List.splitOnP isspace r).filter (fun w => !w.isEmpty) := by
    unfold nonwhite_runs
    rw [splitOnP_takeWhile]
    simp [hx]
    congr 1
    generalize List.dropWhile (fun c => !isspace c) xs = dw
    cases dw <;> rfl
  rw [h1]
  congr 1
  cases hd : (x :: xs).dropWhile (fun c => !isspace c) with
  | nil => simp [nonwhite_runs]
  | cons y r =>
    have hy : isspace y = true := by
      have := List.head_dropWhile_not (fun c => !isspace c) (x :: xs) (by rw [hd]; simp)
      simpa [hd] using this
    rw [nonwhite_runs_space y r hy]
    rfl

/-- The loop `while( ss >> buf)` on a text returns its maximal runs of non-whitespace
characters. -/
theorem extract_loop_runs : ∀ (fuel : Nat) (l : List Char) (acc : List (List Char)),
    l.length < fuel →
    extract_loop fuel ⟨l, false, false⟩ acc = some (acc ++ nonwhite_runs l) := by
  intro fuel
  induction fuel with
  | zero => intro l acc h; omega
  | succ f ih =>
    intro l acc hf
    rw [extract_loop]
    simp only [IStream.extract, IStream.good, Bool.not_false, Bool.and_self, if_true]
    rw [List.span_eq_take_drop]
    cases hd : l.dropWhile isspace with
    | nil =>
      have : nonwhite_runs l = [] := by
        rw [← nonwhite_runs_dropWhile, hd, nonwhite_runs_nil]
      simp [this]
    | cons x xs =>
      have hx : isspace x = false := by
        have := List.head_dropWhile_not isspace l (by rw [hd]; simp)
        simpa [hd] using this
      have hruns : nonwhite_runs l = (x :: xs).takeWhile (fun c => !isspace c) ::
          nonwhite_runs ((x :: xs).dropWhile (fun c => !isspace c)) := by
        rw [← nonwhite_runs_dropWhile, hd, nonwhite_runs_word x xs hx]
      have hlen : (x :: xs).length ≤ l.length := by
        rw [← hd]
        exact (List.dropWhile_sublist _).length_le
      have htw : (x :: xs).takeWhile (fun c => !isspace c)
          = x :: xs.takeWhile (fun c => !isspace c) := by
        simp [List.takeWhile, hx]
      have hdw : (x :: xs).dropWhile (fun c => !isspace c)
          = xs.dropWhile (fun c => !isspace c) := by
        simp [List.dropWhile, hx]
      rw [hruns, htw, hdw]
      simp only []
      cases hr : xs.dropWhile (fun c => !isspace c) with
      | nil =>
        simp only [List.isEmpty_nil, Bool.false_eq_true, if_false]
        cases f with
        | zero =>
          simp only [List.length_cons] at hlen
          omega
        | succ f2 =>
          rw [extract_loop]
          simp [IStream.extract, IStream.good, nonwhite_runs_nil]
      | cons y r =>
        simp only [List.isEmpty_cons, Bool.false_eq_true, if_false]
        have hrl : (y :: r).length ≤ xs.length := by
          rw [← hr]
          exact (List.dropWhile_sublist _).length_le
        rw [ih (y :: r) _ (by simp at hlen hrl ⊢; omega)]
        simp

theorem splitOn_no_delimiter (d : Char) (l : List Char)
    (h : l.dropWhile (fun c => c != d) = []) : l.splitOn d = [l] := by
  unfold List.splitOn
  rw [splitOnP_takeWhile]
  have h2 : l.dropWhile (fun c => !(c == d)) = [] := h
  have h3 : l.takeWhile (fun c => !(c == d)) = l := by
    have := List.takeWhile_append_dropWhile (fun c => !(c == d)) l
    rw [h2, List.append_nil] at this
    exact this
  rw [h2, h3]

theorem splitOn_delimiter (d y : Char) (l post : List Char)
    (h : l.dropWhile (fun c => c != d) = y :: post) :
    l.splitOn d = l.takeWhile (fun c => c != d) :: post.splitOn d := by
  unfold List.splitOn
  rw [splitOnP_takeWhile]
  have h2 : l.dropWhile (fun c => !(c == d)) = y :: post := h
  rw [h2]
  rfl

theorem delimited_fields_no_delimiter (d : Char) (l : List Char)
    (h : l.dropWhile (fun c => c != d) = []) :
    delimited_fields d l = if l.isEmpty then [] else [l] := by
  unfold delimited_fields
  rw [splitOn_no_delimiter d l h]
  cases l <;> simp

theorem delimited_fields_delimiter (d y : Char) (l post : List Char)
    (h : l.dropWhile (fun c => c != d) = y :: post) :
    delimited_fields d l = l.takeWhile (fun c => c != d) :: delimited_fields d post := by
  unfold delimited_fields
  rw [splitOn_delimiter d y l post h]
  have hne : post.splitOn d ≠ [] := List.splitOnP_ne_nil _ _
  cases hs : post.splitOn d with
  | nil => exact absurd hs hne
  | cons f fs =>
    have hg : (l.takeWhile (fun c => c != d) :: f :: fs).getLast? = (f :: fs).getLast? := by
      simp [List.getLast?_cons_cons]
    rw [hg]
    by_cases hl : (f :: fs).getLast? = some []
    · rw [if_pos hl, if_pos hl]
      simp
    · rw [if_neg hl, if_neg hl]

/-- The loop `while( getline( ss, buf, delim))` on a text returns its fields, without an
empty field at the end. -/
theorem getline_loop_fields (d : Char) : ∀ (fuel : Nat) (l : List Char)
    (acc : List (List Char)), l.length < fuel →
    getline_loop d fuel ⟨l, false, false⟩ acc = some (acc ++ delimited_fields d l) := by
  intro fuel
  induction fuel with
  | zero => intro l acc h; omega
  | succ f ih =>
    intro l acc hf
    rw [getline_loop]
    simp only [IStream.getline, IStream.good, Bool.not_false, Bool.and_self, if_true]
    rw [List.span_eq_take_drop]
    cases hd : l.dropWhile (fun c => c != d) with
    | nil =>
      have htw : l.takeWhile (fun c => c != d) = l := by
        have := List.takeWhile_append_dropWhile (fun c => c != d) l
        rw [hd, List.append_nil] at this
        exact this
      rw [delimited_fields_no_delimiter d l hd, htw]
      simp only []
      cases l with
      | nil => simp
      | cons x xs =>
        simp only [List.isEmpty_cons, Bool.false_eq_true, if_false]
        cases f with
        | zero =>
          simp only [List.length_cons] at hf
          omega
        | succ f2 =>
          rw [getline_loop]
          simp [IStream.getline, IStream.good]
    | cons y post =>
      rw [delimited_fields_delimiter d y l post hd]
      simp only [Bool.false_eq_true, if_false]
      have hlen : (y :: post).length ≤ l.length := by
        rw [← hd]
        exact (List.dropWhile_sublist _).length_le
      rw [ih post _ (by simp only [List.length_cons] at hlen; omega)]
      simp

theorem header_fields_runs (line : List Char) :
    header_fields ' ' line = some (nonwhite_runs line) := by
  unfold header_fields
  rw [if_pos rfl]
  exact extract_loop_runs _ line [] (by omega)

theorem header_fields_delimited (d : Char) (hd : d ≠ ' ') (line : List Char) :
    header_fields d line = some (delimited_fields d line) := by
  unfold header_fields
  rw [if_neg hd]
  exact getline_loop_fields d _ line [] (by omega)

/-- The tail of `extract_column_labels` on a list of labels. -/
theorem labels_tail (s : Data_File_Manager) (kept : List String) :
    (if s.doMerge = 0 ∧ ((kept.map labelled_column).length : Int) ≤ 1 then
      some (-1, { s with nvars := ((kept.map labelled_column).length : Int),
                         column_info := kept.map labelled_column })
    else if ((kept.map labelled_column).length : Int) > s.maxvars_ then
      some (-1, { s with nvars := ((kept.map labelled_column).length : Int),
                         column_info := kept.map labelled_column })
    else
      if ((kept.map labelled_column).length : Int) - 1 < 0 then none
      else
        match ((if include_line_number then
            kept.map labelled_column ++ [labelled_column "-line number-"]
            else kept.map labelled_column) ++ [labelled_column "-nothing-"])[
              (((kept.map labelled_column).length : Int) - 1).toNat]? with
        | none => none
        | some c =>
          some ((((if include_line_number then
              kept.map labelled_column ++ [labelled_column "-line number-"]
              else kept.map labelled_column) ++ [labelled_column "-nothing-"]).length : Int),
            { s with nvars := ((kept.map labelled_column).length : Int),
                     column_info := (if include_line_number then
                        kept.map labelled_column ++ [labelled_column "-line number-"]
                        else kept.map labelled_column) ++ [labelled_column "-nothing-"],
                     readSelectionInfo_ :=
                       if SELECTION_LABEL.data.isPrefixOf c.label.data then 1 else 0 }))
    = (if (s.doMerge = 0 ∧ (kept.length : Int) ≤ 1) ∨ (kept.length : Int) > s.maxvars_ then
         some (-1, { s with nvars := kept.length, column_info := kept.map labelled_column })
       else
         match kept.getLast? with
         | none => none
         | some last =>
           some ((kept.length : Int) + 1,
             { s with nvars := kept.length,
                      column_info := kept.map labelled_column ++ [nothing_column],
                      readSelectionInfo_ :=
                        if SELECTION_LABEL.data.isPrefixOf last.data then 1 else 0 })) := by
  simp only [List.length_map, include_line_number, Bool.false_eq_true, if_false]
  by_cases h1 : s.doMerge = 0 ∧ (kept.length : Int) ≤ 1
  · rw [if_pos h1, if_pos (Or.inl h1)]
  · rw [if_neg h1]
    by_cases h2 : (kept.length : Int) > s.maxvars_
    · rw [if_pos h2, if_pos (Or.inr h2)]
    · rw [if_neg h2, if_neg (show ¬((s.doMerge = 0 ∧ (kept.length : Int) ≤ 1) ∨
        (kept.length : Int) > s.maxvars_) by tauto)]
      by_cases hk : kept = []
      · subst hk
        simp
      · obtain ⟨front, last, hfl⟩ : ∃ front last, kept = front ++ [last] :=
          ⟨kept.dropLast, kept.getLast hk, (List.dropLast_append_getLast hk).symm⟩
        subst hfl
        have hidx : (((front ++ [last]).length : Int) - 1).toNat = front.length := by simp
        rw [if_neg (by simp), hidx]
        have hget : (List.map labelled_column (front ++ [last])
            ++ [labelled_column "-nothing-"])[front.length]? = some (labelled_column last) := by
          rw [List.map_append, List.append_assoc, List.getElem?_append_right (by simp)]
          simp
        rw [hget]
        simp [nothing_column, labelled_column]
        ring

/-- The labels that `extract_column_labels( sLine, 0)` reads on a line, for either kind of
delimiter. -/
theorem extract_labels_on_line (s : Data_File_Manager) (sLine : List Char) :
    extract_column_labels s sLine 0 =
      (let line := if starts_with_comment sLine = true then sLine.drop 1 else sLine
       let labels : List String :=
         if s.delimiter_char_ = ' ' then (nonwhite_runs line).map String.mk
         else (delimited_fields s.delimiter_char_ line).map (fun f =>
           if (erase_trailing [' ', '\n'] (erase_leading_blanks f)).isEmpty then "Dummy"
           else String.mk (erase_trailing [' ', '\n'] (erase_leading_blanks f)))
       let kept := if s.nvars_cmd_line > 0 ∧ (labels.length : Int) > s.nvars_cmd_line
         then labels.take s.nvars_cmd_line.toNat else labels
       if (s.doMerge = 0 ∧ (kept.length : Int) ≤ 1) ∨ (kept.length : Int) > s.maxvars_ then
         some (-1, { s with nvars := kept.length, column_info := kept.map labelled_column })
       else
         match kept.getLast? with
         | none => none
         | some last =>
           some ((kept.length : Int) + 1,
             { s with nvars := kept.length,
                      column_info := kept.map labelled_column ++ [nothing_column],
                      readSelectionInfo_ :=
                        if SELECTION_LABEL.data.isPrefixOf last.data then 1 else 0 })) := by
  have key : ∀ labels : List String,
      (if s.nvars_cmd_line > 0 ∧ ((labels.map labelled_column).length : Int) > s.nvars_cmd_line
        then (labels.map labelled_column).take s.nvars_cmd_line.toNat
        else labels.map labelled_column)
      = (if s.nvars_cmd_line > 0 ∧ (labels.length : Int) > s.nvars_cmd_line
        then labels.take s.nvars_cmd_line.toNat else labels).map labelled_column := by
    intro labels
    rw [List.length_map]
    split
    · rw [List.map_take]
    · rfl
  unfold extract_column_labels
  simp only [ne_eq, not_true_eq_false, if_false]
  by_cases hd : s.delimiter_char_ = ' '
  · have hf : ∀ line, header_fields s.delimiter_char_ line = some (nonwhite_runs line) := by
      intro line
      rw [hd]
      exact header_fields_runs line
    simp only [if_pos hd, hf, Option.map_some']
    rw [key]
    exact labels_tail s _
  · simp only [if_neg hd, header_fields_delimited _ hd, Option.map_some']
    have hmap : (delimited_fields s.delimiter_char_
          (if starts_with_comment sLine = true then sLine.drop 1 else sLine)).map (fun buf =>
          if (erase_trailing [' ', '\n'] (erase_leading_blanks buf)).length ≤ 0 then "Dummy"
          else String.mk (erase_trailing [' ', '\n'] (erase_leading_blanks buf)))
        = (delimited_fields s.delimiter_char_
          (if starts_with_comment sLine = true then sLine.drop 1 else sLine)).map (fun f =>
          if (erase_trailing [' ', '\n'] (erase_leading_blanks f)).isEmpty then "Dummy"
          else String.mk (erase_trailing [' ', '\n'] (erase_leading_blanks f))) := by
      apply List.map_congr_left
      intro f _
      cases erase_trailing [' ', '\n'] (erase_leading_blanks f) <;> simp
    rw [hmap, key]
    exact labels_tail s _

/-- C12 (amended): `extract_column_labels( sLine, 0)` on every line.  One leading `!`, `#` or `%` is
removed.  With the whitespace delimiter the labels are the maximal runs of non-whitespace
characters, in order.  With a character delimiter there is one label per field, in order,
except that an empty last field (an empty line, or a line that ends with the delimiter)
gives no label; a field loses its leading blanks and its trailing blanks and newlines,
and a field of which nothing is left gives the label `Dummy`.  The labels are cut to
`nvars_cmd_line` if that is set; with too few or too many labels the call returns -1,
otherwise it appends the sentinel and tests the last label for `SELECTION_LABEL`; with no
label at all (possible in a merge) the test reads before the first column. -/
theorem header_labels_read (s : Data_File_Manager) (sLine : List Char) :
    extract_column_labels s sLine 0 =
      (let line := if starts_with_comment sLine = true then sLine.drop 1 else sLine
       let labels : List String :=
         if s.delimiter_char_ = ' ' then (nonwhite_runs line).map String.mk
         else (delimited_fields s.delimiter_char_ line).map (fun f =>
           if (erase_trailing [' ', '\n'] (erase_leading_blanks f)).isEmpty then "Dummy"
           else String.mk (erase_trailing [' ', '\n'] (erase_leading_blanks f)))
       let kept := if s.nvars_cmd_line > 0 ∧ (labels.length : Int) > s.nvars_cmd_line
         then labels.take s.nvars_cmd_line.toNat else labels
       if (s.doMerge = 0 ∧ (kept.length : Int) ≤ 1) ∨ (kept.length : Int) > s.maxvars_ then
         some (-1, { s with nvars := kept.length, column_info := kept.map labelled_column })
       else
         match kept.getLast? with
         | none => none
         | some last =>
           some ((kept.length : Int) + 1,
             { s with nvars := kept.length,
                      column_info := kept.map labelled_column ++ [nothing_column],
                      readSelectionInfo_ :=
                        if SELECTION_LABEL.data.isPrefixOf last.data then 1 else 0 })) :=
  extract_labels_on_line s sLine

/-- C12 (counterexample): with the delimiter `,` the line made of `a,`, a tab and `b,`
gives two labels, `a` and
`b` with the tab in front: the tab is not removed and the empty field at the end gives no
`Dummy`; the empty field in `a,,b` does. -/
theorem header_labels_tab_and_last_field :
    (extract_column_labels { dataset [] 0 [] with delimiter_char_ := ',' }
        "a,\tb,".data 0).map (fun r => (r.1, r.2.column_info.map (fun c => c.label)))
      = some (3, ["a", "\tb", "-nothing-"]) ∧
    (extract_column_labels { dataset [] 0 [] with delimiter_char_ := ',' }
        "a,,b".data 0).map (fun r => (r.1, r.2.column_info.map (fun c => c.label)))
      = some (4, ["a", "Dummy", "b", "-nothing-"]) := by
  decide

/-! ### Labels or data on the first line -/

theorem splitOnP_replace_tabs (l : List Char) :
    List.splitOnP isspace (replace_tabs l) = List.splitOnP isspace l := by
  induction l with
  | nil => rfl
  | cons x xs ih =>
    have hmap : replace_tabs (x :: xs) = (if x == '\t' then ' ' else x) :: replace_tabs xs := rfl
    rw [hmap, List.splitOnP_cons, List.splitOnP_cons, ih]
    by_cases hx : x = '\t'
    · subst hx
      rfl
    · have : (x == '\t') = false := by simpa using hx
      rw [this]
      rfl

theorem nonwhite_runs_replace_tabs (l : List Char) :
    nonwhite_runs (replace_tabs l) = nonwhite_runs l := by
  unfold nonwhite_runs
  rw [splitOnP_replace_tabs]

theorem nonwhite_runs_length_cons (c : Char) (xs : List Char) :
    (nonwhite_runs xs).length ≤ (nonwhite_runs (c :: xs)).length := by
  by_cases hc : isspace c = true
  · rw [nonwhite_runs_space c xs hc]
  · have hc2 : isspace c = false := by simpa using hc
    rw [nonwhite_runs_word c xs hc2]
    cases xs with
    | nil => simp [nonwhite_runs_nil]
    | cons x xs2 =>
      by_cases hx : isspace x = true
      · have : (c :: x :: xs2).dropWhile (fun c => !isspace c) = x :: xs2 := by
          simp [List.dropWhile, hc2, hx]
        rw [this]
        simp
      · have hx2 : isspace x = false := by simpa using hx
        have : (c :: x :: xs2).dropWhile (fun c => !isspace c)
            = (x :: xs2).dropWhile (fun c => !isspace c) := by
          simp [List.dropWhile, hc2]
        rw [this, nonwhite_runs_word x xs2 hx2]
        simp

/-- The extraction of a word from a fresh stream: it fails when the text has no word, and
otherwise reads the first word and leaves the rest of the text. -/
theorem extract_first_run (l tok : List Char) :
    (nonwhite_runs l = [] ∧
      IStream.extract ⟨l, false, false⟩ tok = (⟨[], true, true⟩, tok)) ∨
    (∃ t r, nonwhite_runs l = t :: nonwhite_runs r ∧
      IStream.extract ⟨l, false, false⟩ tok = (⟨r, r.isEmpty, false⟩, t)) := by
  simp only [IStream.extract, IStream.good, Bool.not_false, Bool.and_self, if_true]
  rw [List.span_eq_take_drop]
  cases hd : l.dropWhile isspace with
  | nil =>
    left
    refine ⟨by rw [← nonwhite_runs_dropWhile, hd, nonwhite_runs_nil], ?_⟩
    simp
  | cons x xs =>
    right
    have hx : isspace x = false := by
      have := List.head_dropWhile_not isspace l (by rw [hd]; simp)
      simpa [hd] using this
    have htw : (x :: xs).takeWhile (fun c => !isspace c)
        = x :: xs.takeWhile (fun c => !isspace c) := by
      simp [List.takeWhile, hx]
    refine ⟨(x :: xs).takeWhile (fun c => !isspace c),
      (x :: xs).dropWhile (fun c => !isspace c), ?_, ?_⟩
    · rw [← nonwhite_runs_dropWhile, hd, nonwhite_runs_word x xs hx]
    · rw [htw]

/-- The loop of `extract_column_types` with the whitespace delimiter, on a line with at
least `count` words: column `j + k` gets the type of the word `k`, for `k < count`. -/
theorem column_types_loop_runs (io : NumIO) (nvars : Int) :
    ∀ (count : Nat) (j : Int) (l tok : List Char) (ci : List Column_Info),
      0 ≤ j → j + count = nvars → count ≤ (nonwhite_runs l).length →
      j.toNat + count ≤ ci.length →
      ∃ ci1, column_types_loop io ' ' nvars count j ⟨l, false, false⟩ tok ci = some ci1 ∧
        ci1.length = ci.length ∧
        ∀ i, ci1[i]? = if j.toNat ≤ i ∧ i < j.toNat + count
          then (ci[i]?).map (fun c =>
            set_type c (word_type io ((nonwhite_runs l).getD (i - j.toNat) [])))
          else ci[i]? := by
  intro count
  induction count with
  | zero =>
    intro j l tok ci _ _ _ _
    refine ⟨ci, rfl, rfl, fun i => ?_⟩
    rw [if_neg (by omega)]
  | succ c ih =>
    intro j l tok ci hj hjn hcount hlen
    rw [column_types_loop]
    simp only [if_true]
    rcases extract_first_run l tok with ⟨hnil, _⟩ | ⟨t, r, hruns, hext⟩
    · rw [hnil] at hcount
      simp at hcount
    · rw [hext]
      simp only []
      have hrlen : c ≤ (nonwhite_runs r).length := by
        rw [hruns] at hcount
        simpa using hcount
      have hre : r.isEmpty = true → c = 0 := by
        intro he
        have : r = [] := List.isEmpty_iff.mp he
        rw [this, nonwhite_runs_nil] at hrlen
        simpa using hrlen
      have c1 : ¬ (r.isEmpty = true ∧ j < nvars - 1) := by
        rintro ⟨he, hlt⟩
        have := hre he
        omega
      have c2 : ¬ (IStream.good ⟨r, r.isEmpty, false⟩ = false ∧ j < nvars - 1) := by
        rintro ⟨hg, hlt⟩
        have he : r.isEmpty = true := by
          simpa [IStream.good] using hg
        have := hre he
        omega
      rw [if_neg c1, if_neg c2, if_neg (by omega)]
      have hjl : j.toNat < ci.length := by omega
      have hm : modifyAt (fun c => set_type c (word_type io t)) ci j.toNat
          = some (ci.set j.toNat (set_type ci[j.toNat] (word_type io t))) := by
        unfold modifyAt
        rw [List.getElem?_eq_getElem hjl]
      rw [hm]
      simp only []
      have hj1 : (j + 1).toNat = j.toNat + 1 := by omega
      cases c with
      | zero =>
        rw [column_types_loop]
        refine ⟨_, rfl, by simp, fun i => ?_⟩
        by_cases hi : i = j.toNat
        · subst hi
          rw [if_pos (by omega), List.getElem?_set_self hjl, List.getElem?_eq_getElem hjl, hruns]
          simp
        · rw [if_neg (by omega), List.getElem?_set_ne (Ne.symm hi)]
      | succ c2 =>
        have hrne : r.isEmpty = false := by
          cases hr : r.isEmpty with
          | false => rfl
          | true => have := hre hr; omega
        rw [hrne]
        obtain ⟨ci1, h1, h2, h3⟩ := ih (j + 1) r t
          (ci.set j.toNat (set_type ci[j.toNat] (word_type io t))) (by omega)
          (by push_cast at hjn ⊢; omega) hrlen (by simp; omega)
        refine ⟨ci1, h1, by rw [h2]; simp, fun i => ?_⟩
        rw [h3 i, hj1]
        by_cases hi : i = j.toNat
        · subst hi
          rw [if_neg (by omega), if_pos (by omega), List.getElem?_set_self hjl,
            List.getElem?_eq_getElem hjl, hruns]
          simp
        · rw [List.getElem?_set_ne (Ne.symm hi)]
          by_cases hi2 : j.toNat + 1 ≤ i ∧ i < j.toNat + 1 + (c2 + 1)
          · rw [if_pos hi2, if_pos (by omega), hruns]
            have : i - j.toNat = (i - (j.toNat + 1)) + 1 := by omega
            rw [this, List.getD_cons_succ]
          · rw [if_neg hi2, if_neg (by omega)]

/-- The labels that a generated header gives to the data columns are `Column_1`, ...,
`Column_nvars`. -/
theorem default_labels_columns (s0 : Data_File_Manager) (line : List Char) :
    (extract_column_labels s0 line 1).map
        (fun r => (r.2.column_info.take r.2.nvars.toNat).map (fun c => c.label))
      = (extract_column_labels s0 line 1).map
        (fun r => (List.range r.2.nvars.toNat).map (fun i => column_label (i + 1))) := by
  unfold extract_column_labels
  simp only [ne_eq, one_ne_zero, not_false_eq_true, if_true]
  cases header_fields s0.delimiter_char_
      (if ¬ s0.delimiter_char_ = '\t' then replace_tabs line else line) with
  | none => rfl
  | some fs =>
    simp only [Option.map_some']
    generalize hk : fs.length = k
    have hcols : ∃ m : Nat, (if s0.nvars_cmd_line > 0 ∧
        (((List.range k).map (fun i => column_label (i + 1))).map labelled_column).length
          > s0.nvars_cmd_line
        then (((List.range k).map (fun i => column_label (i + 1))).map labelled_column).take
          s0.nvars_cmd_line.toNat
        else ((List.range k).map (fun i => column_label (i + 1))).map labelled_column)
        = ((List.range m).map (fun i => column_label (i + 1))).map labelled_column := by
      split
      · refine ⟨min s0.nvars_cmd_line.toNat k, ?_⟩
        rw [← List.map_take, ← List.map_take, List.take_range]
      · exact ⟨k, rfl⟩
    obtain ⟨m, hm⟩ := hcols
    rw [hm]
    have hlab : ∀ rest : List Column_Info,
        ((((List.range m).map (fun i => column_label (i + 1))).map labelled_column
          ++ rest).take m).map (fun c => c.label)
        = (List.range m).map (fun i => column_label (i + 1)) := by
      intro rest
      rw [List.take_left' (by simp)]
      simp [labelled_column, Function.comp_def]
    simp only [List.length_map, List.length_range]
    split
    · simp only [Option.map_some', Int.toNat_ofNat]
      have := hlab []
      rw [List.append_nil] at this
      rw [this]
    · split
      · simp only [Option.map_some', Int.toNat_ofNat]
        have := hlab []
        rw [List.append_nil] at this
        rw [this]
      · split
        · rfl
        · split
          · rfl
          · simp only [Option.map_some', Int.toNat_ofNat, include_line_number,
              Bool.false_eq_true, if_false]
            rw [hlab]

theorem nonwhite_runs_strip_length (line : List Char) :
    (nonwhite_runs (if starts_with_comment line = true then line.drop 1 else line)).length
      ≤ (nonwhite_runs line).length := by
  split
  · cases line with
    | nil => simp
    | cons c xs => exact nonwhite_runs_length_cons c xs
  · exact le_refl _

/-- With the whitespace delimiter a line has at least as many words as the labels that
`extract_column_labels` keeps from it. -/
theorem labels_count_le (s s1 : Data_File_Manager) (line : List Char) (n : Int)
    (hdel : s.delimiter_char_ = ' ')
    (hlab : extract_column_labels s line 0 = some (n, s1)) :
    0 ≤ s1.nvars ∧ s1.nvars.toNat ≤ (nonwhite_runs line).length := by
  rw [extract_labels_on_line] at hlab
  simp only [if_pos hdel] at hlab
  generalize hk : (if s.nvars_cmd_line > 0 ∧
      (((nonwhite_runs (if starts_with_comment line = true then line.drop 1 else line)).map
        String.mk).length : Int) > s.nvars_cmd_line
    then ((nonwhite_runs (if starts_with_comment line = true then line.drop 1 else line)).map
        String.mk).take s.nvars_cmd_line.toNat
    else (nonwhite_runs (if starts_with_comment line = true then line.drop 1 else line)).map
        String.mk) = kept at hlab
  have hkept : kept.length ≤ (nonwhite_runs line).length := by
    have h1 := nonwhite_runs_strip_length line
    generalize nonwhite_runs (if starts_with_comment line = true then line.drop 1 else line)
      = toks at hk h1
    by_cases hc : s.nvars_cmd_line > 0 ∧ (((toks.map String.mk).length : Int) > s.nvars_cmd_line)
    · rw [if_pos hc] at hk
      rw [← hk, List.length_take, List.length_map]
      omega
    · rw [if_neg hc] at hk
      rw [← hk, List.length_map]
      exact h1
  have hnv : s1.nvars = (kept.length : Int) := by
    split at hlab
    · simp only [Option.some.injEq, Prod.mk.injEq] at hlab
      rw [← hlab.2]
    · cases hg : kept.getLast? with
      | none => rw [hg] at hlab; simp at hlab
      | some last =>
        rw [hg] at hlab
        simp only [Option.some.injEq, Prod.mk.injEq] at hlab
        rw [← hlab.2]
  rw [hnv]
  exact ⟨by omega, by simpa using hkept⟩

/-- With the whitespace delimiter `extract_column_types` gives each of the `nvars` data
columns the type of the word at its position in the line. -/
theorem extract_types_runs (io : NumIO) (s1 : Data_File_Manager) (line : List Char)
    (hdel : s1.delimiter_char_ = ' ') (h0 : 0 ≤ s1.nvars)
    (hk : s1.nvars.toNat ≤ (nonwhite_runs line).length)
    (hlen : s1.nvars.toNat ≤ s1.column_info.length) :
    extract_column_types io s1 line
      = some { s1 with column_info := s1.column_info.enum.map (fun p =>
          if p.1 < s1.nvars.toNat
          then set_type p.2 (word_type io ((nonwhite_runs line).getD p.1 [])) else p.2) } := by
  unfold extract_column_types
  have hne : s1.delimiter_char_ ≠ '\t' := by rw [hdel]; decide
  simp only [if_pos hne]
  obtain ⟨ci1, h1, h2, h3⟩ := column_types_loop_runs io s1.nvars s1.nvars.toNat 0
    (replace_tabs line) [] s1.column_info (le_refl _) (by omega)
    (by rw [nonwhite_runs_replace_tabs]; exact hk) (by simpa using hlen)
  have hci : ci1 = s1.column_info.enum.map (fun p =>
      if p.1 < s1.nvars.toNat
      then set_type p.2 (word_type io ((nonwhite_runs line).getD p.1 [])) else p.2) := by
    apply List.ext_getElem?
    intro i
    rw [h3 i, List.getElem?_map, List.getElem?_enum, nonwhite_runs_replace_tabs]
    simp only [Int.toNat_zero, Nat.zero_le, true_and, Nat.zero_add, Nat.sub_zero]
    cases s1.column_info[i]? with
    | none => simp
    | some c =>
      by_cases hi : i < s1.nvars.toNat
      · simp only [hi, if_true, Option.map_some', List.getD_eq_getElem?_getD]
      · simp only [hi, if_false, Option.map_some']
  rw [hdel] at *
  have hs : IStream.ofText (replace_tabs line) = ⟨replace_tabs line, false, false⟩ := rfl
  rw [hs, h1, ← hci]
  rfl

theorem word_type_cases (io : NumIO) (t : List Char) : word_type io t = 0 ∨ word_type io t = 1 := by
  unfold word_type
  split
  · exact Or.inl rfl
  · split
    · exact Or.inl rfl
    · exact Or.inr rfl

/-- No column is marked as text after the types are set exactly when each of the first
`k` words reads as a number. -/
theorem n_ascii_columns_typed (io : NumIO) (s : Data_File_Manager) (toks : List (List Char))
    (k : Nat) (ci : List Column_Info) (hci : ∀ c ∈ ci, c.hasASCII = 0)
    (hk : k ≤ toks.length) (hlen : k ≤ ci.length) :
    n_ascii_columns { s with column_info := ci.enum.map (fun p =>
        if p.1 < k then set_type p.2 (word_type io (toks.getD p.1 [])) else p.2) } ≤ 0
      ↔ (toks.take k).all (fun t => decide (word_type io t = 0)) = true := by
  unfold n_ascii_columns
  simp only []
  rw [List.all_eq_true]
  constructor
  · intro h t ht
    have hnil : (ci.enum.map (fun p =>
        if p.1 < k then set_type p.2 (word_type io (toks.getD p.1 [])) else p.2)).filter
        (fun c => decide (c.hasASCII > 0)) = [] := by
      apply List.eq_nil_of_length_eq_zero
      omega
    obtain ⟨i, hi, hti⟩ := List.getElem_of_mem ht
    have hik : i < k := by
      rw [List.length_take] at hi
      omega
    have hmem : set_type (ci.get ⟨i, by omega⟩) (word_type io t) ∈ ci.enum.map (fun p =>
        if p.1 < k then set_type p.2 (word_type io (toks.getD p.1 [])) else p.2) := by
      rw [List.mem_map]
      refine ⟨(i, ci.get ⟨i, by omega⟩), ?_, ?_⟩
      · rw [List.mk_mem_enum_iff_getElem?]
        simp [List.getElem?_eq_getElem (show i < ci.length by omega)]
      · simp only [hik, if_true]
        rw [List.getElem_take] at hti
        rw [List.getD_eq_getElem _ _ (show i < toks.length by omega), hti]
    have := (List.filter_eq_nil_iff.mp hnil) _ hmem
    simp only [set_type, decide_eq_true_eq] at this
    rcases word_type_cases io t with h0 | h1
    · simpa using h0
    · omega
  · intro h
    have hnil : (ci.enum.map (fun p =>
        if p.1 < k then set_type p.2 (word_type io (toks.getD p.1 [])) else p.2)).filter
        (fun c => decide (c.hasASCII > 0)) = [] := by
      rw [List.filter_eq_nil_iff]
      intro c hc
      rw [List.mem_map] at hc
      obtain ⟨⟨i, c0⟩, hp, hpc⟩ := hc
      rw [List.mk_mem_enum_iff_getElem?] at hp
      have hc0 : c0 ∈ ci := List.mem_iff_getElem?.mpr ⟨i, hp⟩
      simp only [decide_eq_true_eq, not_lt]
      by_cases hik : i < k
      · simp only [hik, if_true] at hpc
        have hmem : toks.getD i [] ∈ toks.take k := by
          rw [List.getD_eq_getElem _ _ (show i < toks.length by omega)]
          rw [List.mem_take_iff_getElem]
          exact ⟨i, by omega, rfl⟩
        have := h _ hmem
        simp only [decide_eq_true_eq] at this
        rw [← hpc]
        show word_type io (toks.getD i []) ≤ 0
        rw [this]
      · simp only [hik, if_false] at hpc
        rw [← hpc, hci c0 hc0]
    rw [hnil]
    simp

/-- Step 3 of `read_ascii_file_with_headers` with the whitespace delimiter, for any line
and any header block.  In commented-labels mode the labels are taken from the last
non-empty line of the header block, and default labels are generated from the first line
after the block when the block has no line or no non-empty line.  Otherwise the labels
are taken from the first line after the header block and, if that gave a positive count,
the types of its first `nvars` words are recorded; the labels are replaced by default
labels, and the line is kept as the first data row (`uReadNextLine` false), exactly when
every one of these words reads as a number (or is `NAN`, `NaN`, `nan`); if one does not,
the labels stay and the next line is read.  The default labels of the data columns are
`Column_1`, ..., `Column_nvars`. -/
theorem column_labels_step_runs (io : NumIO) (s : Data_File_Manager) (h : HeaderState)
    (hdel : s.delimiter_char_ = ' ') :
    column_labels_step io s h =
      (if s.doCommentedLabels_ ≠ 0 then
        (if h.nHeaderLines = 0 ∨ h.lastHeaderLine.length = 0
          then extract_column_labels s h.line 1
          else extract_column_labels s h.lastHeaderLine 0).map (fun r => (r.1, false, r.2))
      else
        match extract_column_labels s h.line 0 with
        | none => none
        | some (n, s1) =>
          if 0 < n then
            if ((nonwhite_runs h.line).take s1.nvars.toNat).all
                (fun t => decide (word_type io t = 0)) = true then
              (extract_column_labels
                { s1 with column_info := s1.column_info.enum.map (fun p =>
                    if p.1 < s1.nvars.toNat
                    then set_type p.2 (word_type io ((nonwhite_runs h.line).getD p.1 []))
                    else p.2) } h.line 1).map (fun r => (n, false, r.2))
            else
              some (n, true,
                { s1 with column_info := s1.column_info.enum.map (fun p =>
                    if p.1 < s1.nvars.toNat
                    then set_type p.2 (word_type io ((nonwhite_runs h.line).getD p.1 []))
                    else p.2) })
          else (extract_column_types io s1 h.line).map (fun s2 => (n, true, s2))) ∧
    ∀ (s0 : Data_File_Manager) (line : List Char),
      (extract_column_labels s0 line 1).map
          (fun r => (r.2.column_info.take r.2.nvars.toNat).map (fun c => c.label))
        = (extract_column_labels s0 line 1).map
          (fun r => (List.range r.2.nvars.toNat).map (fun i => column_label (i + 1))) := by
  refine ⟨?_, default_labels_columns⟩
  unfold column_labels_step
  by_cases hc : s.doCommentedLabels_ ≠ 0
  · rw [if_pos hc, if_pos hc]
  · rw [if_neg hc, if_neg hc]
    cases hlab : extract_column_labels s h.line 0 with
    | none => rfl
    | some r =>
      obtain ⟨n, s1⟩ := r
      simp only []
      by_cases hn : 0 < n
      · rw [if_pos hn]
        obtain ⟨front, last, hs1, _⟩ :=
          extract_column_labels_shape s s1 h.line 0 n hlab (by omega)
        obtain ⟨h0, hk⟩ := labels_count_le s s1 h.line n hdel hlab
        have hdel1 : s1.delimiter_char_ = ' ' := by rw [hs1]; exact hdel
        have hnv : s1.nvars.toNat = front.length + 1 := by
          rw [hs1]
          simp only []
          omega
        have hci : s1.column_info
            = (front ++ [last]).map labelled_column ++ [nothing_column] := by rw [hs1]
        have hlen : s1.nvars.toNat ≤ s1.column_info.length := by
          rw [hnv, hci]
          simp
        have hzero : ∀ c ∈ s1.column_info, c.hasASCII = 0 := by
          intro c hc
          rw [hci] at hc
          rcases List.mem_append.mp hc with hc | hc
          · obtain ⟨l, _, hl⟩ := List.mem_map.mp hc
            rw [← hl]
            rfl
          · rw [List.mem_singleton.mp hc]
            rfl
        rw [extract_types_runs io s1 h.line hdel1 h0 hk hlen]
        simp only []
        have hiff := n_ascii_columns_typed io s1 (nonwhite_runs h.line) s1.nvars.toNat
          s1.column_info hzero hk hlen
        by_cases hall : ((nonwhite_runs h.line).take s1.nvars.toNat).all
            (fun t => decide (word_type io t = 0)) = true
        · rw [if_pos hall, if_pos ⟨hiff.mpr hall, hn⟩]
        · rw [if_neg hall, if_neg (fun hh => hall (hiff.mp hh.1))]
      · rw [if_neg hn]
        cases extract_column_types io s1 h.line with
        | none => rfl
        | some s2 =>
          simp only [Option.map_some']
          rw [if_neg (fun hh => hn hh.2)]

theorem lines_text_cons (l : List Char) (ls : List (List Char)) :
    lines_text (l :: ls) = l ++ '\n' :: lines_text ls := by
  simp [lines_text]

/-- The header loop on a block of header lines that is followed by a line which is not
empty and not a comment: the loop stops on that line, and it has kept the last header
line that is not empty. -/
theorem header_loop_block (skip : Int) (first rest : List Char)
    (hfirst : first.length ≠ 0) (hcm : starts_with_comment first = false)
    (hnl : ∀ c ∈ first, c ≠ '\n') :
    ∀ (hdr : List (List Char)) (c : Nat) (iLine : Int) (h : HeaderState),
      h.inStream = IStream.ofText (lines_text hdr ++ (first ++ '\n' :: rest)) →
      hdr.length < c → skip ≤ iLine + hdr.length →
      (∀ (i : Nat) (l : List Char), hdr[i]? = some l → (∀ x ∈ l, x ≠ '\n') ∧
        (l = [] ∨ iLine + i < skip ∨ starts_with_comment l = true)) →
      header_loop skip c iLine h =
        { inStream := { rest := rest, eofbit := false, failbit := false }, line := first,
          lastHeaderLine := hdr.foldl (fun last l => if l.length = 0 then last else l)
            h.lastHeaderLine,
          nRead := h.nRead + hdr.length + 1, nHeaderLines := h.nHeaderLines + hdr.length } := by
  intro hdr
  induction hdr with
  | nil =>
    intro c iLine h hin hc hskip _
    have hg : h.inStream.getline '\n' h.line
        = ({ rest := rest, eofbit := false, failbit := false }, first) :=
      getline_newline _ first rest _ (by rw [hin]; rfl) (by rw [hin]; rfl) hnl
    rw [header_loop_stop skip c iLine h _ first hc (by rw [hin]; rfl) hg hfirst
      (by simp at hskip; omega) hcm]
    simp
  | cons l ls ih =>
    intro c iLine h hin hc hskip hlines
    obtain ⟨c1, rfl⟩ : ∃ c1, c = c1 + 1 := ⟨c - 1, by simp at hc; omega⟩
    obtain ⟨hl1, hl2⟩ := hlines 0 l (by simp)
    have hg : h.inStream.getline '\n' h.line
        = ({ rest := lines_text ls ++ (first ++ '\n' :: rest), eofbit := false,
             failbit := false }, l) :=
      getline_newline _ l _ _ (by rw [hin]; rfl)
        (by rw [hin, lines_text_cons]; simp [IStream.ofText]) hl1
    have heof : h.inStream.eofbit = false := by rw [hin]; rfl
    have hrec := fun (h1 : HeaderState) (e : h1.inStream
        = IStream.ofText (lines_text ls ++ (first ++ '\n' :: rest))) =>
      ih c1 (iLine + 1) h1 e (by simp at hc; omega)
        (by simp at hskip; omega)
        (fun i l2 hi => by
          have := hlines (i + 1) l2 (by simpa using hi)
          refine ⟨this.1, ?_⟩
          rcases this.2 with h0 | h0 | h0
          · exact Or.inl h0
          · exact Or.inr (Or.inl (by push_cast at h0; omega))
          · exact Or.inr (Or.inr h0))
    rw [header_loop]
    simp only [heof, Bool.false_eq_true, if_false, hg]
    by_cases hlen : l.length = 0
    · rw [if_pos hlen, hrec _ rfl]
      simp only [List.foldl_cons, hlen, if_true, List.length_cons, Nat.cast_add, Nat.cast_one,
        HeaderState.mk.injEq, true_and]
      constructor <;> ring
    · have hl3 : iLine < skip ∨ starts_with_comment l = true := by
        rcases hl2 with h0 | h0 | h0
        · rw [h0] at hlen; simp at hlen
        · exact Or.inl (by simpa using h0)
        · exact Or.inr h0
      rw [if_neg hlen, if_pos hl3, hrec _ rfl]
      simp only [List.foldl_cons, hlen, if_false, List.length_cons, Nat.cast_add, Nat.cast_one,
        HeaderState.mk.injEq, true_and]
      constructor <;> ring

/-- The labels that `extract_column_labels( sLine, 1)` generates on a line, for either
kind of delimiter: one label `Column_i` for each word or field of the line. -/
theorem default_labels_on_line (s : Data_File_Manager) (sLine : List Char) :
    extract_column_labels s sLine 1 =
      (let line := if s.delimiter_char_ ≠ '\t' then replace_tabs sLine else sLine
       let labels : List String :=
         default_labels (if s.delimiter_char_ = ' ' then (nonwhite_runs line).length
           else (delimited_fields s.delimiter_char_ line).length)
       let kept := if s.nvars_cmd_line > 0 ∧ (labels.length : Int) > s.nvars_cmd_line
         then labels.take s.nvars_cmd_line.toNat else labels
       if (s.doMerge = 0 ∧ (kept.length : Int) ≤ 1) ∨ (kept.length : Int) > s.maxvars_ then
         some (-1, { s with nvars := kept.length, column_info := kept.map labelled_column })
       else
         match kept.getLast? with
         | none => none
         | some last =>
           some ((kept.length : Int) + 1,
             { s with nvars := kept.length,
                      column_info := kept.map labelled_column ++ [nothing_column],
                      readSelectionInfo_ :=
                        if SELECTION_LABEL.data.isPrefixOf last.data then 1 else 0 })) := by
  have key : ∀ labels : List String,
      (if s.nvars_cmd_line > 0 ∧ ((labels.map labelled_column).length : Int) > s.nvars_cmd_line
        then (labels.map labelled_column).take s.nvars_cmd_line.toNat
        else labels.map labelled_column)
      = (if s.nvars_cmd_line > 0 ∧ (labels.length : Int) > s.nvars_cmd_line
        then labels.take s.nvars_cmd_line.toNat else labels).map labelled_column := by
    intro labels
    rw [List.length_map]
    split
    · rw [List.map_take]
    · rfl
  unfold extract_column_labels
  simp only [ne_eq, one_ne_zero, not_false_eq_true, if_true]
  by_cases hd : s.delimiter_char_ = ' '
  · have hf : ∀ line, header_fields s.delimiter_char_ line = some (nonwhite_runs line) := by
      intro line
      rw [hd]
      exact header_fields_runs line
    simp only [if_pos hd, hf, Option.map_some']
    rw [show (List.range (nonwhite_runs (if ¬ s.delimiter_char_ = '\t' then replace_tabs sLine
        else sLine)).length).map (fun i => column_label (i + 1))
      = default_labels (nonwhite_runs (if ¬ s.delimiter_char_ = '\t' then replace_tabs sLine
        else sLine)).length from rfl, key]
    exact labels_tail s _
  · simp only [if_neg hd, header_fields_delimited _ hd, Option.map_some']
    rw [show (List.range (delimited_fields s.delimiter_char_
        (if ¬ s.delimiter_char_ = '\t' then replace_tabs sLine else sLine)).length).map
          (fun i => column_label (i + 1))
      = default_labels (delimited_fields s.delimiter_char_
        (if ¬ s.delimiter_char_ = '\t' then replace_tabs sLine else sLine)).length from rfl, key]
    exact labels_tail s _

theorem default_labels_length (n : Nat) : (default_labels n).length = n := by
  simp [default_labels]

theorem default_labels_getLast (n : Nat) (hn : 0 < n) :
    (default_labels n).getLast? = some (column_label n) := by
  obtain ⟨m, rfl⟩ : ∃ m, n = m + 1 := ⟨n - 1, by omega⟩
  unfold default_labels
  rw [List.range_succ, List.map_append]
  simp

theorem column_label_no_selection (n : Nat) :
    SELECTION_LABEL.data.isPrefixOf (column_label n).data = false := by
  unfold column_label
  rw [String.data_append]
  rfl

theorem relabel_length (labels : List String) (cols : List Column_Info) :
    (relabel labels cols).length = cols.length := by
  simp [relabel]

theorem value_at_relabel (labels : List String) (cols : List Column_Info) (j i : Nat) :
    value_at (relabel labels cols) j i = value_at cols j i := by
  unfold value_at relabel
  simp only [List.getD_eq_getElem?_getD, List.getElem?_map, List.getElem?_enum]
  cases cols[j]? <;> rfl

theorem label_at_relabel (labels : List String) (cols : List Column_Info) (j : Nat)
    (hj : j < cols.length) : label_at (relabel labels cols) j = labels.getD j "" := by
  unfold label_at relabel
  rw [List.getD_eq_getElem?_getD, List.getElem?_map, List.getElem?_enum,
    List.getElem?_eq_getElem hj]
  rfl

theorem row_pieces_relabel (io : NumIO) (labels : List String) (cols : List Column_Info)
    (i : Nat) : row_pieces io (relabel labels cols) i = row_pieces io cols i := by
  unfold row_pieces
  rw [relabel_length]
  apply List.map_congr_left
  intro j _
  rw [value_at_relabel]

theorem rows_text_relabel (io : NumIO) (labels : List String) (cols : List Column_Info)
    (k m : Nat) : rows_text io (relabel labels cols) k m = rows_text io cols k m := by
  unfold rows_text
  congr 1
  apply List.map_congr_left
  intro i _
  rw [row_pieces_relabel]

/-- The columns that `extract_column_labels` sets up for a list of labels are the empty
columns of a table with these labels. -/
theorem labelled_columns_relabel (labels : List String) (cols : List Column_Info)
    (hlen : labels.length = cols.length) :
    labels.map labelled_column ++ [nothing_column]
      = mkCols cols.length (data_column (relabel labels cols) 0 0 (fun _ => 0)) := by
  unfold mkCols
  congr 1
  apply List.ext_getElem?
  intro j
  rw [List.getElem?_map, List.getElem?_map]
  by_cases hj : j < cols.length
  · rw [List.getElem?_range hj, List.getElem?_eq_getElem (by omega)]
    simp only [Option.map_some', Option.some.injEq]
    unfold data_column
    rw [label_at_relabel labels cols j hj, List.getD_eq_getElem?_getD,
      List.getElem?_eq_getElem (by omega)]
    rfl
  · rw [List.getElem?_eq_none (by omega), List.getElem?_eq_none (by simp; omega)]
    rfl

/-- The words of a well separated line are its runs of characters that are not whitespace. -/
theorem nonwhite_runs_spaced (ps : List (List Char × List Char)) (hne : ps ≠ [])
    (hws : well_spaced ps) : nonwhite_runs (spaced ps) = ps.map (fun p => p.2) := by
  have h1 := header_fields_runs (spaced ps)
  unfold header_fields at h1
  rw [if_pos rfl, extract_loop_spaced ps _ (IStream.ofText (spaced ps)) [] hne hws rfl rfl
    (by have := spaced_length_ge ps hws; omega)] at h1
  simpa using h1.symm

theorem typed_columns (nv : Nat) (f : Nat → Column_Info) (g : Nat → Int) :
    (mkCols nv f).enum.map (fun p => if p.1 < nv then set_type p.2 (g p.1) else p.2)
      = mkCols nv (fun j => set_type (f j) (g j)) := by
  apply List.ext_getElem?
  intro i
  rw [List.getElem?_map, List.getElem?_enum]
  by_cases hi : i < nv
  · rw [mkCols_getElem? nv f i hi, mkCols_getElem? nv _ i hi]
    simp [hi]
  · unfold mkCols
    rw [List.getElem?_append_right (by simp; omega),
      List.getElem?_append_right (by simp; omega)]
    simp only [List.length_map, List.length_range]
    cases ([nothing_column])[i - nv]? with
    | none => rfl
    | some c => simp [hi]

/-- The header loop of `read_ascii_file_with_headers` on a text that starts with a block of
header lines, each empty, skipped by count or a comment, followed by a line that is none
of these. -/
theorem header_block_skipped (r : Data_File_Manager) (hdr : List (List Char))
    (first rest : List Char)
    (hhdr : ∀ (i : Nat) (l : List Char), hdr[i]? = some l → (∀ x ∈ l, x ≠ '\n') ∧
      (l = [] ∨ (i : Int) < r.nSkipHeaderLines ∨ starts_with_comment l = true))
    (hskip : r.nSkipHeaderLines ≤ hdr.length) (hmaxh : hdr.length < MAX_HEADER_LINES)
    (hfirst : first.length ≠ 0) (hcm : starts_with_comment first = false)
    (hnl : ∀ c ∈ first, c ≠ '\n') :
    header_loop r.nSkipHeaderLines MAX_HEADER_LINES 0
      { inStream := IStream.ofText (lines_text hdr ++ (first ++ '\n' :: rest)), line := [],
        lastHeaderLine := [], nRead := 0, nHeaderLines := 0 }
    = { inStream := { rest := rest, eofbit := false, failbit := false }, line := first,
        lastHeaderLine := last_header_line hdr, nRead := hdr.length + 1,
        nHeaderLines := hdr.length } := by
  rw [header_loop_block r.nSkipHeaderLines first rest hfirst hcm hnl hdr MAX_HEADER_LINES 0
    _ rfl hmaxh (by omega) (fun i l hi => by
      have := hhdr i l hi
      refine ⟨this.1, ?_⟩
      rcases this.2 with h0 | h0 | h0
      · exact Or.inl h0
      · exact Or.inr (Or.inl (by omega))
      · exact Or.inr (Or.inr h0))]
  simp [last_header_line]

theorem last_header_line_nil (hdr : List (List Char)) (h : last_header_line hdr ≠ []) :
    hdr ≠ [] := by
  intro he
  rw [he] at h
  exact h rfl

/-- With the whitespace delimiter, `extract_column_labels( sLine, 0)` on a line with `nv`
words, when `nv` labels are accepted: the labels are the words. -/
theorem extract_labels_runs (s : Data_File_Manager) (line : List Char) (nv : Nat)
    (hdel : s.delimiter_char_ = ' ') (hnv : 2 ≤ nv)
    (hlen : (nonwhite_runs (if starts_with_comment line = true then line.drop 1 else line)).length
      = nv)
    (hmaxv : (nv : Int) ≤ s.maxvars_)
    (hcmd : s.nvars_cmd_line ≤ 0 ∨ (nv : Int) ≤ s.nvars_cmd_line) :
    extract_column_labels s line 0
      = some ((nv : Int) + 1,
          { s with nvars := nv,
                   column_info :=
                     ((nonwhite_runs (if starts_with_comment line = true then line.drop 1
                       else line)).map String.mk).map labelled_column ++ [nothing_column],
                   readSelectionInfo_ :=
                     if SELECTION_LABEL.data.isPrefixOf
                       (((nonwhite_runs (if starts_with_comment line = true then line.drop 1
                         else line)).getLast?).getD [])
                     then 1 else 0 }) := by
  rw [extract_labels_on_line]
  dsimp only
  generalize nonwhite_runs (if starts_with_comment line = true then line.drop 1 else line)
    = runs at hlen ⊢
  have hcut : ¬ (s.nvars_cmd_line > 0 ∧ (nv : Int) > s.nvars_cmd_line) := by omega
  simp only [if_pos hdel, List.length_map, hlen, if_neg hcut]
  rw [if_neg (by omega)]
  cases hg : runs.getLast? with
  | none =>
    rw [List.getLast?_eq_none_iff] at hg
    rw [hg] at hlen
    simp at hlen
    omega
  | some w =>
    rw [List.getLast?_map, hg]
    rfl

/-- With the whitespace delimiter, `extract_column_labels( sLine, 1)` on a line with `nv`
words, when `nv` labels are accepted: the labels are `Column_1`, ..., `Column_nv`. -/
theorem default_labels_runs (s : Data_File_Manager) (line : List Char) (nv : Nat)
    (hdel : s.delimiter_char_ = ' ') (hnv : 2 ≤ nv)
    (hlen : (nonwhite_runs line).length = nv)
    (hmaxv : (nv : Int) ≤ s.maxvars_)
    (hcmd : s.nvars_cmd_line ≤ 0 ∨ (nv : Int) ≤ s.nvars_cmd_line) :
    extract_column_labels s line 1
      = some ((nv : Int) + 1,
          { s with nvars := nv,
                   column_info := (default_labels nv).map labelled_column ++ [nothing_column],
                   readSelectionInfo_ := 0 }) := by
  rw [default_labels_on_line]
  have htab : s.delimiter_char_ ≠ '\t' := by rw [hdel]; decide
  have hcut : ¬ (s.nvars_cmd_line > 0 ∧ (nv : Int) > s.nvars_cmd_line) := by omega
  simp only [if_pos hdel, if_pos htab, nonwhite_runs_replace_tabs, hlen, default_labels_length,
    if_neg hcut]
  rw [if_neg (by omega)]
  simp only [default_labels_getLast nv (by omega), column_label_no_selection]
  rfl

/-- Step 4 and what follows it, on the rows of a table whose columns have been set up
with other labels. -/
theorem read_data_block_relabelled (io : NumIO) (ops : ColumnOps) (answer : Int)
    (labels : List String) (cols : List Column_Info) (n cap : Nat) (hs : Nat → Int)
    (h : HeaderState) (u : Bool) (s3 : Data_File_Manager)
    (hnv : 2 ≤ cols.length) (hn1 : 1 ≤ n) (hn : n ≤ cap)
    (hcap : (if s3.npoints_cmd_line > 0 then s3.npoints_cmd_line else s3.maxpoints_)
      = (cap : Int))
    (hclean : ∀ i, i < n → ∀ j, j < cols.length → clean_number io (value_at cols j i))
    (hdel : s3.delimiter_char_ = ' ') (hsel : s3.readSelectionInfo_ = 0)
    (hnvars : s3.nvars = cols.length) (hmax : 1 ≤ s3.MAX_NUNREADABLELINES)
    (hci : s3.column_info = mkCols cols.length (data_column (relabel labels cols) 0 0 hs))
    (hops : ∀ k c, c.hasASCII = 0 → (ops.update_ascii_values_and_data k c).1 = c)
    (heof : h.inStream.eofbit = false) (hfuel : n ≤ h.inStream.rest.length + 1)
    (hfetch : (if u then h.inStream.getline '\n' h.line else (h.inStream, h.line))
      = ({ rest := rows_text io cols 1 (n - 1), eofbit := false, failbit := false },
          spaced (row_pieces io cols 0))) :
    read_data_block io ops answer h u s3
      = some (0, { s3 with nDataRows_ := n, nDataColumns_ := cols.length,
                           nvars := cols.length, npoints := n,
                           column_info := mkCols cols.length
                             (data_column (relabel labels cols) n n (fun _ => 0)),
                           read_from_stdin := false }) := by
  have := read_data_block_written io ops answer (relabel labels cols) n cap hs h u s3
    (by rw [relabel_length]; exact hnv) hn1 hn hcap
    (fun i hi j hj => by
      rw [value_at_relabel]
      exact hclean i hi j (by rw [relabel_length] at hj; exact hj))
    hdel hsel (by rw [relabel_length]; exact hnvars) hmax
    (by rw [relabel_length]; exact hci) hops heof hfuel
    (by rw [rows_text_relabel, row_pieces_relabel]; exact hfetch)
  rw [relabel_length] at this
  exact this

theorem table_read_relabel (r : Data_File_Manager) (labels : List String)
    (cols : List Column_Info) (n : Nat) :
    table_read r (relabel labels cols) n
      = { r with nDataRows_ := n, nDataColumns_ := cols.length, nvars := cols.length,
                 npoints := n, readSelectionInfo_ := 0,
                 column_info := mkCols cols.length
                   (data_column (relabel labels cols) n n (fun _ => 0)),
                 read_from_stdin := false } := by
  unfold table_read
  rw [relabel_length]

theorem clean_number_word_type (io : NumIO) (v : Flt) (h : clean_number io v) :
    word_type io (io.show_float v) = 0 := by
  unfold word_type
  split
  · rfl
  · rw [if_pos h.2.2.2.1]

/-- C13 (amended): `read_ascii_file_with_headers` with the whitespace delimiter on a file
that starts with a block of header lines (each empty, skipped by count or a comment) and
goes on with the rows of a table of numbers.
With commented-labels mode off, when the first line after the header block has a word
that does not read as a number, its words are the labels and the rows that follow are
the data; when the first line after the block is the first row of numbers, the labels
are the generated `Column_1`, ..., `Column_n` and that line is the first data row.
With commented-labels mode on, the labels are the words of the last header line that is
not empty, without its first character if that is `!`, `#` or `%`, and the first line
after the block is the first data row; when the block has no line that is not empty,
the labels are the generated ones. -/
theorem first_line_labels_or_data (io : NumIO) (ops : ColumnOps) (answer : Int)
    (r : Data_File_Manager) (hdr : List (List Char)) (cols : List Column_Info) (n cap : Nat)
    (hdel : r.delimiter_char_ = ' ')
    (hhdr : ∀ (i : Nat) (l : List Char), hdr[i]? = some l → (∀ x ∈ l, x ≠ '\n') ∧
      (l = [] ∨ (i : Int) < r.nSkipHeaderLines ∨ starts_with_comment l = true))
    (hskip : r.nSkipHeaderLines ≤ hdr.length) (hmaxh : hdr.length < MAX_HEADER_LINES)
    (hnv : 2 ≤ cols.length) (hn1 : 1 ≤ n) (hn : n ≤ cap)
    (hclean : ∀ i, i < n → ∀ j, j < cols.length → clean_number io (value_at cols j i))
    (hmaxv : (cols.length : Int) ≤ r.maxvars_)
    (hcmd : r.nvars_cmd_line ≤ 0 ∨ (cols.length : Int) ≤ r.nvars_cmd_line)
    (hcap : (if r.npoints_cmd_line > 0 then r.npoints_cmd_line else r.maxpoints_) = (cap : Int))
    (hmax : 1 ≤ r.MAX_NUNREADABLELINES)
    (hops : ∀ k c, c.hasASCII = 0 → (ops.update_ascii_values_and_data k c).1 = c) :
    (r.doCommentedLabels_ = 0 →
      ∀ first : List Char, first ≠ [] → starts_with_comment first = false →
        (∀ c ∈ first, c ≠ '\n') → (nonwhite_runs first).length = cols.length →
        (∃ w ∈ nonwhite_runs first, word_type io w = 1) →
        (∀ w ∈ (nonwhite_runs first).getLast?, SELECTION_LABEL.data.isPrefixOf w = false) →
        read_ascii_file_with_headers io ops
            (some (lines_text hdr ++ (first ++ '\n' :: rows_text io cols 0 n))) answer r
          = some (0, table_read r (relabel ((nonwhite_runs first).map String.mk) cols) n)) ∧
    (r.doCommentedLabels_ = 0 →
      read_ascii_file_with_headers io ops (some (lines_text hdr ++ rows_text io cols 0 n))
          answer r
        = some (0, table_read r (relabel (default_labels cols.length) cols) n)) ∧
    (r.doCommentedLabels_ ≠ 0 → last_header_line hdr ≠ [] →
      (nonwhite_runs (if starts_with_comment (last_header_line hdr) = true
        then (last_header_line hdr).drop 1 else last_header_line hdr)).length = cols.length →
      (∀ w ∈ (nonwhite_runs (if starts_with_comment (last_header_line hdr) = true
        then (last_header_line hdr).drop 1 else last_header_line hdr)).getLast?,
          SELECTION_LABEL.data.isPrefixOf w = false) →
      read_ascii_file_with_headers io ops (some (lines_text hdr ++ rows_text io cols 0 n))
          answer r
        = some (0, table_read r
            (relabel ((nonwhite_runs (if starts_with_comment (last_header_line hdr) = true
              then (last_header_line hdr).drop 1 else last_header_line hdr)).map String.mk)
              cols) n)) ∧
    (r.doCommentedLabels_ ≠ 0 → last_header_line hdr = [] →
      read_ascii_file_with_headers io ops (some (lines_text hdr ++ rows_text io cols 0 n))
          answer r
        = some (0, table_read r (relabel (default_labels cols.length) cols) n)) := by
  have hrow0 := hclean 0 (by omega)
  have hrnl : ∀ c ∈ spaced (row_pieces io cols 0), c ≠ '\n' :=
    fun c hc => (row_line_no_tab io cols 0 hrow0 c hc).2
  have hrhead := row_line_head io cols 0 (by omega) hrow0
  have hrows : rows_text io cols 0 n
      = spaced (row_pieces io cols 0) ++ '\n' :: rows_text io cols 1 (n - 1) := by
    obtain ⟨m, rfl⟩ : ∃ m, n = m + 1 := ⟨n - 1, by omega⟩
    rw [rows_text_succ]
    rfl
  have hnl : ¬ ((cols.length : Int) + 1 < 0 ∧ r.read_from_stdin = false) := by omega
  have hws := row_pieces_well_spaced io cols 0 hrow0
  have hplen : (row_pieces io cols 0).length = cols.length := by simp [row_pieces]
  have hpne : row_pieces io cols 0 ≠ [] := by
    intro h; rw [h] at hplen; simp at hplen; omega
  have hruns0 := nonwhite_runs_spaced (row_pieces io cols 0) hpne hws
  have hruns0len : (nonwhite_runs (spaced (row_pieces io cols 0))).length = cols.length := by
    rw [hruns0, List.length_map, hplen]
  have hstrip0 : (if starts_with_comment (spaced (row_pieces io cols 0)) = true
      then (spaced (row_pieces io cols 0)).drop 1 else spaced (row_pieces io cols 0))
      = spaced (row_pieces io cols 0) := by
    rw [hrhead.2]
    rfl
  -- the header loop when the first line after the block is the first row
  have hhead0 := header_block_skipped r hdr (spaced (row_pieces io cols 0))
    (rows_text io cols 1 (n - 1)) hhdr hskip hmaxh hrhead.1 hrhead.2 hrnl
  rw [← hrows] at hhead0
  -- the generated labels and the data block after them
  have hlabD : ∀ s2 : Data_File_Manager,
      s2.delimiter_char_ = ' ' → s2.maxvars_ = r.maxvars_ →
      s2.nvars_cmd_line = r.nvars_cmd_line →
      { s2 with nvars := (cols.length : Int),
                column_info := (default_labels cols.length).map labelled_column
                  ++ [nothing_column],
                readSelectionInfo_ := 0 }
        = { r with nvars := (cols.length : Int),
                   column_info := (default_labels cols.length).map labelled_column
                     ++ [nothing_column],
                   readSelectionInfo_ := 0 } →
      extract_column_labels s2 (spaced (row_pieces io cols 0)) 1
        = some ((cols.length : Int) + 1,
            { r with nvars := (cols.length : Int),
                     column_info := (default_labels cols.length).map labelled_column
                       ++ [nothing_column],
                     readSelectionInfo_ := 0 }) := by
    intro s2 hd2 hm2 hc2 hst
    rw [default_labels_runs s2 _ cols.length hd2 hnv hruns0len (by rw [hm2]; exact hmaxv)
      (by rw [hc2]; exact hcmd), hst]
  have hblockD := read_data_block_relabelled io ops answer (default_labels cols.length) cols
    n cap (fun _ => 0)
    { inStream := { rest := rows_text io cols 1 (n - 1), eofbit := false, failbit := false },
      line := spaced (row_pieces io cols 0), lastHeaderLine := last_header_line hdr,
      nRead := (hdr.length : Int) + 1, nHeaderLines := hdr.length }
    false
    { r with nvars := (cols.length : Int),
             column_info := (default_labels cols.length).map labelled_column
               ++ [nothing_column],
             readSelectionInfo_ := 0 }
    hnv hn1 hn hcap hclean hdel rfl rfl hmax
    (labelled_columns_relabel _ cols (default_labels_length _)) hops rfl
    (by have := rows_text_length io cols (n - 1) 1
        simp only []
        omega)
    rfl
  refine ⟨?_, ?_, ?_, ?_⟩
  · -- the labels are on the first line after the header block
    intro hcm first hne hcomm hfnl hlen htype hsel
    have hcm1 : ¬ r.doCommentedLabels_ ≠ 0 := by simp [hcm]
    have hhead := header_block_skipped r hdr first (rows_text io cols 0 n) hhdr hskip hmaxh
      (by simpa using hne) hcomm hfnl
    have hstrip : (if starts_with_comment first = true then first.drop 1 else first)
        = first := by
      rw [hcomm]
      rfl
    have hsel0 : SELECTION_LABEL.data.isPrefixOf (((nonwhite_runs first).getLast?).getD [])
        = false := by
      cases hg : (nonwhite_runs first).getLast? with
      | none =>
        rw [List.getLast?_eq_none_iff] at hg
        rw [hg] at hlen
        simp at hlen
        omega
      | some w => exact hsel w (by rw [hg]; rfl)
    have hlabels := extract_labels_runs r first cols.length hdel hnv
      (by rw [hstrip]; exact hlen) hmaxv hcmd
    rw [hstrip, hsel0, labelled_columns_relabel _ cols (by rw [List.length_map]; exact hlen)]
      at hlabels
    simp only [Bool.false_eq_true, if_false] at hlabels
    have htypes := extract_types_runs io
      { r with nvars := (cols.length : Int),
               column_info := mkCols cols.length
                 (data_column (relabel ((nonwhite_runs first).map String.mk) cols) 0 0
                   (fun _ => 0)),
               readSelectionInfo_ := 0 } first hdel (by simp) (by simp [hlen])
      (by simp [mkCols_length])
    simp only [Int.toNat_ofNat] at htypes
    rw [typed_columns cols.length _ (fun j => word_type io ((nonwhite_runs first).getD j []))]
      at htypes
    obtain ⟨w, hw, hwt⟩ := htype
    obtain ⟨j, hj, hjw⟩ := List.getElem_of_mem hw
    have hasc := n_ascii_columns_pos
      { r with nvars := (cols.length : Int),
               column_info := mkCols cols.length (fun j =>
                 set_type (data_column (relabel ((nonwhite_runs first).map String.mk) cols) 0 0
                   (fun _ => 0) j) (word_type io ((nonwhite_runs first).getD j []))),
               readSelectionInfo_ := 0 }
      cols.length _ rfl j (by omega)
      (by show word_type io ((nonwhite_runs first).getD j []) > 0
          rw [List.getD_eq_getElem _ _ hj, hjw, hwt]
          decide)
    have hblock := read_data_block_relabelled io ops answer
      ((nonwhite_runs first).map String.mk) cols n cap
      (fun j => word_type io ((nonwhite_runs first).getD j []))
      { inStream := { rest := rows_text io cols 0 n, eofbit := false, failbit := false },
        line := first, lastHeaderLine := last_header_line hdr, nRead := (hdr.length : Int) + 1,
        nHeaderLines := hdr.length }
      true
      { r with nvars := (cols.length : Int),
               column_info := mkCols cols.length (fun j =>
                 set_type (data_column (relabel ((nonwhite_runs first).map String.mk) cols) 0 0
                   (fun _ => 0) j) (word_type io ((nonwhite_runs first).getD j []))),
               readSelectionInfo_ := 0 }
      hnv hn1 hn hcap hclean hdel rfl rfl hmax rfl hops rfl
      (by have := rows_text_length io cols n 0
          simp only []
          omega)
      (by rw [if_pos rfl]
          exact getline_newline _ _ _ _ rfl (by simp only []; rw [hrows]) hrnl)
    unfold read_ascii_file_with_headers column_labels_step
    simp only [hhead, hcm1, if_false, hlabels, htypes]
    rw [if_neg (fun h => hasc h.1)]
    simp only []
    rw [if_neg hnl, hblock, table_read_relabel]
  · -- the first line after the header block is the first row
    intro hcm
    have hcm1 : ¬ r.doCommentedLabels_ ≠ 0 := by simp [hcm]
    have hlabels := extract_labels_runs r (spaced (row_pieces io cols 0)) cols.length hdel hnv
      (by rw [hstrip0]; exact hruns0len) hmaxv hcmd
    rw [hstrip0] at hlabels
    have htypes := extract_types_runs io
      { r with nvars := (cols.length : Int),
               column_info := ((nonwhite_runs (spaced (row_pieces io cols 0))).map
                 String.mk).map labelled_column ++ [nothing_column],
               readSelectionInfo_ :=
                 if SELECTION_LABEL.data.isPrefixOf
                   (((nonwhite_runs (spaced (row_pieces io cols 0))).getLast?).getD [])
                 then 1 else 0 }
      (spaced (row_pieces io cols 0)) hdel (by simp) (by simp [hruns0len])
      (by simp [hruns0len])
    simp only [Int.toNat_ofNat] at htypes
    have hzero : ∀ c ∈ ((nonwhite_runs (spaced (row_pieces io cols 0))).map
        String.mk).map labelled_column ++ [nothing_column], c.hasASCII = 0 := by
      intro c hc
      rcases List.mem_append.mp hc with hc | hc
      · obtain ⟨l, _, hl⟩ := List.mem_map.mp hc
        rw [← hl]
        rfl
      · rw [List.mem_singleton.mp hc]
        rfl
    have hall : ((nonwhite_runs (spaced (row_pieces io cols 0))).take cols.length).all
        (fun t => decide (word_type io t = 0)) = true := by
      rw [List.all_eq_true]
      intro t ht
      have ht2 := List.mem_of_mem_take ht
      rw [hruns0, List.mem_map] at ht2
      obtain ⟨p, hp, rfl⟩ := ht2
      unfold row_pieces at hp
      obtain ⟨j, hj, rfl⟩ := List.mem_map.mp hp
      simpa using clean_number_word_type io _ (hrow0 j (List.mem_range.mp hj))
    have hasc := (n_ascii_columns_typed io
      { r with nvars := (cols.length : Int),
               column_info := ((nonwhite_runs (spaced (row_pieces io cols 0))).map
                 String.mk).map labelled_column ++ [nothing_column],
               readSelectionInfo_ :=
                 if SELECTION_LABEL.data.isPrefixOf
                   (((nonwhite_runs (spaced (row_pieces io cols 0))).getLast?).getD [])
                 then 1 else 0 }
      (nonwhite_runs (spaced (row_pieces io cols 0))) cols.length _ hzero
      (by rw [hruns0len]) (by simp [hruns0len])).mpr hall
    unfold read_ascii_file_with_headers column_labels_step
    simp only [hhead0, hcm1, if_false, hlabels, htypes]
    rw [if_pos ⟨hasc, by omega⟩, hlabD]
    · simp only [Option.map_some']
      rw [if_neg hnl, hblockD, table_read_relabel]
    · exact hdel
    · rfl
    · rfl
    · rfl
  · -- the labels are on the last header line
    intro hcm hlast hlen hsel
    have hsel0 : SELECTION_LABEL.data.isPrefixOf
        (((nonwhite_runs (if starts_with_comment (last_header_line hdr) = true
          then (last_header_line hdr).drop 1 else last_header_line hdr)).getLast?).getD [])
        = false := by
      cases hg : (nonwhite_runs (if starts_with_comment (last_header_line hdr) = true
          then (last_header_line hdr).drop 1 else last_header_line hdr)).getLast? with
      | none =>
        rw [List.getLast?_eq_none_iff] at hg
        rw [hg] at hlen
        simp at hlen
        omega
      | some w => exact hsel w (by rw [hg]; rfl)
    have hlabels := extract_labels_runs r (last_header_line hdr) cols.length hdel hnv hlen
      hmaxv hcmd
    rw [hsel0, labelled_columns_relabel _ cols (by rw [List.length_map]; exact hlen)]
      at hlabels
    simp only [Bool.false_eq_true, if_false] at hlabels
    have hblock := read_data_block_relabelled io ops answer
      ((nonwhite_runs (if starts_with_comment (last_header_line hdr) = true
        then (last_header_line hdr).drop 1 else last_header_line hdr)).map String.mk)
      cols n cap (fun _ => 0)
      { inStream := { rest := rows_text io cols 1 (n - 1), eofbit := false, failbit := false },
        line := spaced (row_pieces io cols 0), lastHeaderLine := last_header_line hdr,
        nRead := (hdr.length : Int) + 1, nHeaderLines := hdr.length }
      false
      { r with nvars := (cols.length : Int),
               column_info := mkCols cols.length
                 (data_column (relabel ((nonwhite_runs
                   (if starts_with_comment (last_header_line hdr) = true
                    then (last_header_line hdr).drop 1 else last_header_line hdr)).map
                      String.mk) cols) 0 0 (fun _ => 0)),
               readSelectionInfo_ := 0 }
      hnv hn1 hn hcap hclean hdel rfl rfl hmax rfl hops rfl
      (by have := rows_text_length io cols (n - 1) 1
          simp only []
          omega)
      rfl
    have hne : hdr ≠ [] := last_header_line_nil hdr hlast
    have hcond : ¬ ((hdr.length : Int) = 0 ∨ (last_header_line hdr).length = 0) := by
      intro h
      rcases h with h | h
      · exact hne (List.length_eq_zero.mp (by omega))
      · exact hlast (List.length_eq_zero.mp h)
    unfold read_ascii_file_with_headers column_labels_step
    simp only [hhead0, hcm, if_true, ne_eq, not_false_eq_true]
    rw [if_neg hcond, hlabels]
    simp only [Option.map_some']
    rw [if_neg hnl, hblock, table_read_relabel]
  · -- no header line to take the labels from
    intro hcm hlast
    have hcond : (hdr.length : Int) = 0 ∨ (last_header_line hdr).length = 0 :=
      Or.inr (by rw [hlast]; rfl)
    unfold read_ascii_file_with_headers column_labels_step
    simp only [hhead0, hcm, if_true, ne_eq, not_false_eq_true]
    rw [if_pos hcond, hlabD r hdel rfl rfl rfl]
    simp only [Option.map_some']
    rw [if_neg hnl, hblockD, table_read_relabel]

theorem first_line_labels_or_data_witness :
    (read_ascii_file_with_headers plain_io numeric_ops
        (some (lines_text ["# a comment".data, []]
          ++ ("x 7".data ++ '\n' :: rows_text plain_io
            [numeric_column "" [Flt.fin 1, Flt.fin 3], numeric_column "" [Flt.fin 2, Flt.fin 4]]
            0 2))) 0 (dataset [] 0 [])
      = some (0, table_read (dataset [] 0 [])
          (relabel ((nonwhite_runs "x 7".data).map String.mk)
            [numeric_column "" [Flt.fin 1, Flt.fin 3], numeric_column "" [Flt.fin 2, Flt.fin 4]])
          2)) ∧
    (read_ascii_file_with_headers plain_io numeric_ops
        (some (lines_text ["# a comment".data, []]
          ++ rows_text plain_io
            [numeric_column "" [Flt.fin 1, Flt.fin 3], numeric_column "" [Flt.fin 2, Flt.fin 4]]
            0 2)) 0 (dataset [] 0 [])
      = some (0, table_read (dataset [] 0 [])
          (relabel (default_labels 2)
            [numeric_column "" [Flt.fin 1, Flt.fin 3], numeric_column "" [Flt.fin 2, Flt.fin 4]])
          2)) ∧
    (read_ascii_file_with_headers plain_io numeric_ops
        (some (lines_text ["# a comment".data, "#u v".data, []]
          ++ rows_text plain_io
            [numeric_column "" [Flt.fin 1, Flt.fin 3], numeric_column "" [Flt.fin 2, Flt.fin 4]]
            0 2)) 0 { dataset [] 0 [] with doCommentedLabels_ := 1 }
      = some (0, table_read { dataset [] 0 [] with doCommentedLabels_ := 1 }
          (relabel ((nonwhite_runs "u v".data).map String.mk)
            [numeric_column "" [Flt.fin 1, Flt.fin 3], numeric_column "" [Flt.fin 2, Flt.fin 4]])
          2)) ∧
    (read_ascii_file_with_headers plain_io numeric_ops
        (some (lines_text [[], []]
          ++ rows_text plain_io
            [numeric_column "" [Flt.fin 1, Flt.fin 3], numeric_column "" [Flt.fin 2, Flt.fin 4]]
            0 2)) 0 { dataset [] 0 [] with doCommentedLabels_ := 1 }
      = some (0, table_read { dataset [] 0 [] with doCommentedLabels_ := 1 }
          (relabel (default_labels 2)
            [numeric_column "" [Flt.fin 1, Flt.fin 3], numeric_column "" [Flt.fin 2, Flt.fin 4]])
          2)) :=
  ⟨(first_line_labels_or_data plain_io numeric_ops 0 (dataset [] 0 [])
      ["# a comment".data, []]
      [numeric_column "" [Flt.fin 1, Flt.fin 3], numeric_column "" [Flt.fin 2, Flt.fin 4]] 2 100
      rfl
      (by intro i l h
          match i, h with
          | 0, h => simp at h; subst h; exact ⟨by decide, Or.inr (Or.inr rfl)⟩
          | 1, h => simp at h; subst h; exact ⟨by decide, Or.inl rfl⟩
          | k + 2, h => simp at h)
      (by decide) (by decide) (by decide) (by decide) (by decide) (by decide!) (by decide)
      (by decide) (by decide) (by decide) (fun _ _ _ => rfl)).1 rfl "x 7".data (by decide)
      (by decide) (by decide) (by decide) ⟨"x".data, by decide, by decide⟩
      (by decide),
   (first_line_labels_or_data plain_io numeric_ops 0 (dataset [] 0 [])
      ["# a comment".data, []]
      [numeric_column "" [Flt.fin 1, Flt.fin 3], numeric_column "" [Flt.fin 2, Flt.fin 4]] 2 100
      rfl
      (by intro i l h
          match i, h with
          | 0, h => simp at h; subst h; exact ⟨by decide, Or.inr (Or.inr rfl)⟩
          | 1, h => simp at h; subst h; exact ⟨by decide, Or.inl rfl⟩
          | k + 2, h => simp at h)
      (by decide) (by decide) (by decide) (by decide) (by decide) (by decide!) (by decide)
      (by decide) (by decide) (by decide) (fun _ _ _ => rfl)).2.1 rfl,
   (first_line_labels_or_data plain_io numeric_ops 0
      { dataset [] 0 [] with doCommentedLabels_ := 1 }
      ["# a comment".data, "#u v".data, []]
      [numeric_column "" [Flt.fin 1, Flt.fin 3], numeric_column "" [Flt.fin 2, Flt.fin 4]] 2 100
      rfl
      (by intro i l h
          match i, h with
          | 0, h => simp at h; subst h; exact ⟨by decide, Or.inr (Or.inr rfl)⟩
          | 1, h => simp at h; subst h; exact ⟨by decide, Or.inr (Or.inr rfl)⟩
          | 2, h => simp at h; subst h; exact ⟨by decide, Or.inl rfl⟩
          | k + 3, h => simp at h)
      (by decide) (by decide) (by decide) (by decide) (by decide) (by decide!) (by decide)
      (by decide) (by decide) (by decide) (fun _ _ _ => rfl)).2.2.1 (by decide) (by decide)
      (by decide) (by decide),
   (first_line_labels_or_data plain_io numeric_ops 0
      { dataset [] 0 [] with doCommentedLabels_ := 1 }
      [[], []]
      [numeric_column "" [Flt.fin 1, Flt.fin 3], numeric_column "" [Flt.fin 2, Flt.fin 4]] 2 100
      rfl
      (by intro i l h
          match i, h with
          | 0, h => simp at h; subst h; exact ⟨by decide, Or.inl rfl⟩
          | 1, h => simp at h; subst h; exact ⟨by decide, Or.inl rfl⟩
          | k + 2, h => simp at h)
      (by decide) (by decide) (by decide) (by decide) (by decide) (by decide!) (by decide)
      (by decide) (by decide) (by decide) (fun _ _ _ => rfl)).2.2.2 (by decide) (by decide)⟩

/-- C13 (counterexample): with commented-labels mode off, the file `x y / 1 2 / 3 4`, whose
first line has no word that reads as a number, keeps the labels `x` and `y`; so does the
file `5 6 z / 1 2 3`, whose first line has two numbers and one other word; the file
`1 2 / 3 4`, whose first line has only numbers, gets the labels `Column_1` and `Column_2`
and keeps its first line as a data row. -/
theorem labels_kept_when_not_numeric :
    (read_ascii_file_with_headers plain_io numeric_ops (some "x y\n1 2\n3 4\n".data) 0
        (dataset [] 0 [])).map
      (fun r => (r.1, r.2.column_info.map (fun c => (c.label, c.points))))
      = some (0, [("x", [Flt.fin 1, Flt.fin 3]), ("y", [Flt.fin 2, Flt.fin 4]),
          ("-nothing-", [])]) ∧
    (read_ascii_file_with_headers plain_io numeric_ops (some "5 6 z\n1 2 3\n".data) 0
        (dataset [] 0 [])).map
      (fun r => (r.1, r.2.column_info.map (fun c => (c.label, c.points))))
      = some (0, [("5", [Flt.fin 1]), ("6", [Flt.fin 2]), ("z", [Flt.fin 3]),
          ("-nothing-", [])]) ∧
    (read_ascii_file_with_headers plain_io numeric_ops (some "1 2\n3 4\n".data) 0
        (dataset [] 0 [])).map
      (fun r => (r.1, r.2.column_info.map (fun c => (c.label, c.points))))
      = some (0, [("Column_1", [Flt.fin 1, Flt.fin 3]), ("Column_2", [Flt.fin 2, Flt.fin 4]),
          ("-nothing-", [])]) := by
  decide!

/-! ### The columns of a FITS table -/

theorem store_rows_loop (v : Nat → Flt) (c : Column_Info) (n : Nat) (hn : n ≤ c.points.length) :
    (List.range n).foldlM (fun (col : Column_Info) (j : Nat) => set_point col (j : Int) (v j)) c
      = some { c with points := (List.range n).map v ++ c.points.drop n } := by
  induction n with
  | zero => simp
  | succ k ih =>
    rw [List.range_succ, List.foldlM_append, ih (by omega)]
    simp only [Option.bind_eq_bind, Option.some_bind, List.foldlM_cons, List.foldlM_nil]
    have hlen : ((List.range k).map v ++ c.points.drop k).length = c.points.length := by
      simp
      omega
    unfold set_point
    rw [if_pos ⟨by omega, by simp only [Int.toNat_ofNat]; omega⟩]
    simp only [store_value, Int.toNat_ofNat, Option.pure_def, Option.bind_some,
      Option.some.injEq]
    congr 1
    rw [List.set_append_right _ _ (by simp)]
    simp only [List.length_map, List.length_range, Nat.sub_self, List.map_append,
      List.map_cons, List.map_nil, List.append_assoc]
    congr 1
    rw [List.drop_eq_getElem_cons (show k < c.points.length by omega)]
    rfl

/-- A column declared long, float or double gets the values that the library returns and
keeps its flag `hasASCII`. -/
theorem read_fits_column_numeric (ops : ColumnOps) (npoints : Int) (f : FitsColumn)
    (c : Column_Info) (htype : f.typecode = TLONG ∨ f.typecode = TFLOAT ∨ f.typecode = TDOUBLE)
    (hn : 0 ≤ npoints) (hlen : (c.points.length : Int) = npoints) :
    read_fits_column ops npoints f c
      = some { c with points := (List.range npoints.toNat).map f.values } := by
  have hshort : f.typecode ≠ TSHORT := by
    rcases htype with h | h | h <;> rw [h] <;> decide
  have hstore : store_rows npoints f.values c
      = some { c with points := (List.range npoints.toNat).map f.values } := by
    unfold store_rows
    rw [store_rows_loop f.values c npoints.toNat (by omega)]
    have : c.points.drop npoints.toNat = [] := List.drop_of_length_le (by omega)
    rw [this, List.append_nil]
  unfold read_fits_column
  rw [if_neg hshort]
  simp only []
  rcases htype with h | h | h
  · rw [if_pos h, hstore]
  · rw [if_neg (by rw [h]; decide), if_pos h, hstore]
  · rw [if_neg (by rw [h]; decide), if_neg (by rw [h]; decide), if_pos h, hstore]

/-- A column declared short goes through the branch of the strings after its numbers have
been stored, so that whenever it is read it ends up marked as text. -/
theorem read_fits_column_short (ops : ColumnOps) (npoints : Int) (f : FitsColumn)
    (c c2 : Column_Info) (htype : f.typecode = TSHORT)
    (h : read_fits_column ops npoints f c = some c2) : c2.hasASCII = 1 := by
  unfold read_fits_column at h
  rw [if_pos htype] at h
  cases hs : store_rows npoints f.values c with
  | none => rw [hs] at h; simp at h
  | some c1 =>
    rw [hs] at h
    simp only [] at h
    rw [if_neg (by rw [htype]; decide), if_neg (by rw [htype]; decide),
      if_neg (by rw [htype]; decide)] at h
    cases he : encode_rows ops npoints f.strings c1 with
    | none => rw [he] at h; simp at h
    | some c3 =>
      rw [he] at h
      simp only [Option.map_some', Option.some.injEq] at h
      rw [← h]

/-- C15: a column of two rows that the table declares as short, with the numbers 7 and 9,
is stored with the codes 0 and 1 of the strings that `fits_read_col_str` returns, gets the
dictionary of these strings and is marked as text (`hasASCII = 1`): the branch for short
is not part of the chain of `else if`, so that the final `else` runs for it too.  The
same column declared long keeps the numbers 7 and 9 and `hasASCII = 0`. -/
theorem fits_short_column_becomes_text :
    read_fits_column dictionary_ops 2
        ⟨TSHORT, fun j => Flt.ofInt ([7, 9].getD j 0), fun j => ["7", "9"].getD j ""⟩
        (numeric_column "count" [Flt.zero, Flt.zero])
      = some { numeric_column "count" [Flt.fin 0, Flt.fin 1] with
               hasASCII := 1, ascii_values_ := [("7", 0), ("9", 1)] } ∧
    read_fits_column dictionary_ops 2
        ⟨TLONG, fun j => Flt.ofInt ([7, 9].getD j 0), fun j => ["7", "9"].getD j ""⟩
        (numeric_column "count" [Flt.zero, Flt.zero])
      = some (numeric_column "count" [Flt.fin 7, Flt.fin 9]) := by
  decide

/-! ### The binary header with ASCII values -/

theorem span_no_stop {α : Type} (p : α → Bool) (l : List α) (hl : ∀ c ∈ l, p c = true) :
    l.span p = (l, []) := by
  rw [List.span_eq_take_drop, List.takeWhile_eq_self_iff.mpr hl,
    List.dropWhile_eq_nil_iff.mpr hl]

theorem fgets_line (size : Nat) (l rest : List Char) (hl : ∀ c ∈ l, c ≠ '\n')
    (hsize : l.length + 1 ≤ size - 1) :
    fgets size (l ++ '\n' :: rest) = some (l ++ ['\n'], rest) := by
  unfold fgets
  have htw : (l ++ '\n' :: rest).takeWhile (fun c => c != '\n') = l := by
    have := span_append_stop (fun c => c != '\n') l '\n' rest (by simpa using hl) (by simp)
    rw [List.span_eq_take_drop] at this
    exact (Prod.mk.inj this).1
  rw [htw, if_neg (by simp), Nat.min_eq_left hsize]
  have h1 : (l ++ '\n' :: rest) = (l ++ ['\n']) ++ rest := by simp
  rw [h1, List.take_left' (by simp), List.drop_left' (by simp)]

theorem getline_tab (f r buf : List Char) (hf : ∀ c ∈ f, c ≠ '\t') :
    IStream.getline ⟨f ++ '\t' :: r, false, false⟩ '\t' buf = (⟨r, false, false⟩, f) := by
  unfold IStream.getline
  rw [if_pos (show IStream.good ⟨f ++ '\t' :: r, false, false⟩ = true from rfl)]
  simp only []
  rw [span_append_stop (fun c => c != '\t') f '\t' r (by simpa using hf) (by simp)]

theorem getline_last (f buf : List Char) (hf : ∀ c ∈ f, c ≠ '\t') :
    IStream.getline ⟨f, false, false⟩ '\t' buf = (⟨[], true, f.isEmpty⟩, f) := by
  unfold IStream.getline
  rw [if_pos (show IStream.good ⟨f, false, false⟩ = true from rfl)]
  simp only []
  rw [span_no_stop (fun c => c != '\t') f (by simpa using hf)]

theorem tabbed_no_newline (fs : List (List Char))
    (h : ∀ f ∈ fs, ∀ c ∈ f, c ≠ '\t' ∧ c ≠ '\n') : ∀ c ∈ tabbed fs, c ≠ '\n' := by
  induction fs with
  | nil => intro c hc; simp [tabbed] at hc
  | cons f fs ih =>
    cases fs with
    | nil =>
      intro c hc
      exact (h f (List.mem_cons_self _ _) c (by simpa [tabbed] using hc)).2
    | cons g gs =>
      intro c hc
      simp only [tabbed, List.mem_append, List.mem_cons] at hc
      rcases hc with hc | hc | hc
      · exact (h f (List.mem_cons_self _ _) c hc).2
      · rw [hc]; decide
      · exact ih (fun f2 hf2 => h f2 (List.mem_cons_of_mem _ hf2)) c hc

/-- The fields that the loop `while( getline( ...))` finds in a line of tab-free fields
that ends with a newline: the last one keeps the newline. -/
theorem delimited_fields_tabbed (fs : List (List Char)) (hne : fs ≠ [])
    (h : ∀ f ∈ fs, ∀ c ∈ f, c ≠ '\t' ∧ c ≠ '\n') :
    delimited_fields '\t' (tabbed fs ++ ['\n']) = fs.dropLast ++ [fs.getLast hne ++ ['\n']] := by
  induction fs with
  | nil => exact absurd rfl hne
  | cons f fs ih =>
    have hf : ∀ c ∈ f, c ≠ '\t' := fun c hc => (h f (List.mem_cons_self _ _) c hc).1
    cases fs with
    | nil =>
      have hall : ∀ c ∈ f ++ ['\n'], (fun c => c != '\t') c = true := by
        intro c hc
        rcases List.mem_append.mp hc with hc | hc
        · simpa using hf c hc
        · rw [List.mem_singleton.mp hc]; decide
      rw [show tabbed [f] = f from rfl,
        delimited_fields_no_delimiter '\t' (f ++ ['\n']) (List.dropWhile_eq_nil_iff.mpr hall)]
      simp
    | cons g gs =>
      have hsp := span_append_stop (fun c => c != '\t') f '\t' (tabbed (g :: gs) ++ ['\n'])
        (by simpa using hf) (by simp)
      rw [List.span_eq_take_drop] at hsp
      have h1 : tabbed (f :: g :: gs) ++ ['\n'] = f ++ '\t' :: (tabbed (g :: gs) ++ ['\n']) := by
        simp [tabbed]
      rw [h1, delimited_fields_delimiter '\t' '\t' _ (tabbed (g :: gs) ++ ['\n'])
        (Prod.mk.inj hsp).2, (Prod.mk.inj hsp).1,
        ih (List.cons_ne_nil _ _) (fun f2 hf2 => h f2 (List.mem_cons_of_mem _ hf2))]
      simp [List.dropLast, List.getLast]

theorem cut_at_newline_plain (v : List Char) (hv : ∀ c ∈ v, c ≠ '\n') : cut_at_newline v = v := by
  unfold cut_at_newline
  have : v.takeWhile (fun c => c != '\n') = v :=
    List.takeWhile_eq_self_iff.mpr (by simpa using hv)
  rw [this, if_neg (by omega)]

theorem cut_at_newline_last (v : List Char) (hv : ∀ c ∈ v, c ≠ '\n') (hne : v ≠ []) :
    cut_at_newline (v ++ ['\n']) = v := by
  unfold cut_at_newline
  have hsp := span_append_stop (fun c => c != '\n') v '\n' [] (by simpa using hv) (by simp)
  rw [List.span_eq_take_drop] at hsp
  rw [(Prod.mk.inj hsp).1, if_pos ⟨by simp, List.length_pos.mpr hne⟩, List.take_left' rfl]

theorem map_cut_at_newline (fs : List (List Char)) (hne : fs ≠ [])
    (h : ∀ f ∈ fs, ∀ c ∈ f, c ≠ '\t' ∧ c ≠ '\n') (hv : ∀ f ∈ fs, f ≠ []) :
    (fs.dropLast ++ [fs.getLast hne ++ ['\n']]).map cut_at_newline = fs := by
  rw [List.map_append, List.map_singleton,
    cut_at_newline_last _ (fun c hc => (h _ (List.getLast_mem hne) c hc).2)
      (hv _ (List.getLast_mem hne))]
  have : fs.dropLast.map cut_at_newline = fs.dropLast := by
    rw [List.map_congr_left (g := id)]
    · simp
    · intro f hf
      exact cut_at_newline_plain f (fun c hc => (h f (List.dropLast_subset fs hf) c hc).2)
  rw [this, List.dropLast_append_getLast]

/-- A header line made of a label, a type tag and values gives the column with that
label and these values in its dictionary. -/
theorem read_column_line_tabbed (ops : ColumnOps) (c : List Char × List Char × List (List Char))
    (h : ∀ f ∈ c.1 :: c.2.1 :: c.2.2, ∀ ch ∈ f, ch ≠ '\t' ∧ ch ≠ '\n')
    (hv : ∀ v ∈ c.2.2, v ≠ []) :
    read_column_line ops (column_line c) = some (column_of ops c) := by
  obtain ⟨label, tag, values⟩ := c
  simp only [] at h hv
  have hlabel : ∀ ch ∈ label, ch ≠ '\t' := fun ch hc => (h label (by simp) ch hc).1
  have htag : ∀ ch ∈ tag, ch ≠ '\t' ∧ ch ≠ '\n' := fun ch hc => h tag (by simp) ch hc
  have hline : column_line (label, tag, values)
      = label ++ '\t' :: (tabbed (tag :: values) ++ ['\n']) := by
    simp [column_line, tabbed]
  unfold read_column_line
  have hs : IStream.ofText (column_line (label, tag, values))
      = ⟨label ++ '\t' :: (tabbed (tag :: values) ++ ['\n']), false, false⟩ := by
    rw [hline]
    rfl
  rw [hs, getline_tab label _ [] hlabel]
  simp only []
  cases values with
  | nil =>
    have hall : ∀ ch ∈ tag ++ ['\n'], ch ≠ '\t' := by
      intro ch hc
      rcases List.mem_append.mp hc with hc | hc
      · exact (htag ch hc).1
      · rw [List.mem_singleton.mp hc]; decide
    rw [show tabbed [tag] = tag from rfl, getline_last (tag ++ ['\n']) label hall]
    simp only []
    rw [getline_loop]
    simp [IStream.getline, IStream.good, column_of]
  | cons v vs =>
    have h1 : tabbed (tag :: v :: vs) ++ ['\n'] = tag ++ '\t' :: (tabbed (v :: vs) ++ ['\n']) := by
      simp [tabbed]
    rw [h1, getline_tab tag _ label (fun ch hc => (htag ch hc).1)]
    simp only []
    have hvals : ∀ f ∈ v :: vs, ∀ ch ∈ f, ch ≠ '\t' ∧ ch ≠ '\n' :=
      fun f hf => h f (by simp only [List.mem_cons] at hf ⊢; tauto)
    rw [getline_loop_fields '\t' _ _ [] (by rw [hline, h1]; simp; omega),
      List.nil_append, delimited_fields_tabbed (v :: vs) (List.cons_ne_nil _ _) hvals]
    simp only [Option.map_some', Option.some.injEq]
    have hfold : ∀ (l : List (List Char)) (init : Column_Info),
        l.foldl (fun c buf =>
          (ops.add_value { c with hasASCII := 1 } (String.mk (cut_at_newline buf))).1) init
        = (l.map cut_at_newline).foldl (fun c v =>
          (ops.add_value { c with hasASCII := 1 } (String.mk v)).1) init := by
      intro l init
      rw [List.foldl_map]
    rw [hfold, map_cut_at_newline (v :: vs) (List.cons_ne_nil _ _) hvals hv]
    rfl

theorem column_lines_loop_tabbed (ops : ColumnOps) (size : Nat) :
    ∀ (cols : List (List Char × List Char × List (List Char))) (data : List Char)
      (acc : List Column_Info),
      (∀ c ∈ cols, ∀ f ∈ c.1 :: c.2.1 :: c.2.2, ∀ ch ∈ f, ch ≠ '\t' ∧ ch ≠ '\n') →
      (∀ c ∈ cols, ∀ v ∈ c.2.2, v ≠ []) →
      (∀ c ∈ cols, (column_line c).length ≤ size - 1) →
      column_lines_loop ops size cols.length (column_lines cols ++ data) acc
        = some (0, acc ++ cols.map (column_of ops), data) := by
  intro cols
  induction cols with
  | nil =>
    intro data acc _ _ _
    simp [column_lines_loop, column_lines]
  | cons c cs ih =>
    intro data acc hclean hvalues hsize
    have hc := hclean c (List.mem_cons_self _ _)
    have hlen := hsize c (List.mem_cons_self _ _)
    have htext : column_lines (c :: cs) ++ data
        = tabbed (c.1 :: c.2.1 :: c.2.2) ++ '\n' :: (column_lines cs ++ data) := by
      simp [column_lines, column_line]
    rw [List.length_cons, column_lines_loop, htext,
      fgets_line size _ _ (tabbed_no_newline _ hc)
        (by simp only [column_line, List.length_append, List.length_singleton] at hlen
            exact hlen)]
    simp only []
    rw [show tabbed (c.1 :: c.2.1 :: c.2.2) ++ ['\n'] = column_line c from rfl,
      read_column_line_tabbed ops c hc (hvalues c (List.mem_cons_self _ _))]
    simp only []
    rw [ih data _ (fun c2 h2 => hclean c2 (List.mem_cons_of_mem _ h2))
      (fun c2 h2 => hvalues c2 (List.mem_cons_of_mem _ h2))
      (fun c2 h2 => hsize c2 (List.mem_cons_of_mem _ h2))]
    simp

theorem fold_add_value_keeps (ops : ColumnOps)
    (hops : ∀ col v, (ops.add_value col v).1
      = { col with ascii_values_ := (ops.add_value col v).1.ascii_values_ }) :
    ∀ (values : List (List Char)) (init : Column_Info),
      (values.foldl (fun col v => (ops.add_value { col with hasASCII := 1 } (String.mk v)).1)
        init).label = init.label ∧
      (values.foldl (fun col v => (ops.add_value { col with hasASCII := 1 } (String.mk v)).1)
        init).hasASCII = (if values = [] then init.hasASCII else 1) := by
  intro values
  induction values with
  | nil => intro init; exact ⟨rfl, rfl⟩
  | cons v vs ih =>
    intro init
    rw [List.foldl_cons]
    obtain ⟨h1, h2⟩ := ih (ops.add_value { init with hasASCII := 1 } (String.mk v)).1
    have hl : (ops.add_value { init with hasASCII := 1 } (String.mk v)).1.label = init.label := by
      rw [hops]
    have hh : (ops.add_value { init with hasASCII := 1 } (String.mk v)).1.hasASCII = 1 := by
      rw [hops]
    refine ⟨h1.trans hl, ?_⟩
    rw [h2, hh]
    simp

theorem column_of_keeps (ops : ColumnOps)
    (hops : ∀ col v, (ops.add_value col v).1
      = { col with ascii_values_ := (ops.add_value col v).1.ascii_values_ })
    (c : List Char × List Char × List (List Char)) :
    (column_of ops c).label = String.mk c.1 ∧
    (column_of ops c).hasASCII = (if c.2.2 = [] then 0 else 1) := by
  unfold column_of
  exact fold_add_value_keeps ops hops c.2.2 _

theorem dictionary_add_value_keeps (col : Column_Info) (v : String) :
    (dictionary_ops.add_value col v).1
      = { col with ascii_values_ := (dictionary_ops.add_value col v).1.ascii_values_ } := by
  show (dictionary_add_value col v).1
    = { col with ascii_values_ := (dictionary_add_value col v).1.ascii_values_ }
  unfold dictionary_add_value
  cases col.ascii_values_.lookup v <;> rfl

/-- C14 (amended): a file that starts with the line `BINARY_FILE_WITH_ASCII_VP`, a tab and a
count
that the library reads as `n >= 1`, followed by `n` lines of a label, a type tag and
values with tabs between them, where no field holds a tab or a newline, no value is
empty, and every line fits in a buffer of `MAX_HEADER_LENGTH` characters.  `fgets` reads
the first line, the line is recognised as a header with ASCII values, and the header is
read with status 0: `nvars` is `n`, the columns are those of the `n` lines, in order,
followed by the sentinel, the values of a line are added to the dictionary of its column
in the order of the line, `readSelectionInfo_` is set exactly when the last label starts
with `SELECTION_LABEL`, and what follows the header is left in the file.  If `add_value`
changes nothing but the dictionary, column `i` has the label of line `i` and is marked as
text exactly when its line has a value. -/
theorem extended_header_columns (ops : ColumnOps) (parse_int : List Char → Option Int)
    (size : Nat) (s : Data_File_Manager) (count : List Char)
    (cols : List (List Char × List Char × List (List Char))) (data : List Char)
    (hne : cols ≠ [])
    (hcount : ∀ c ∈ count, c ≠ '\t' ∧ c ≠ '\n')
    (hparse : parse_int (count ++ ['\n']) = some (cols.length : Int))
    (hclean : ∀ c ∈ cols, ∀ f ∈ c.1 :: c.2.1 :: c.2.2, ∀ ch ∈ f, ch ≠ '\t' ∧ ch ≠ '\n')
    (hvalues : ∀ c ∈ cols, ∀ v ∈ c.2.2, v ≠ [])
    (hsize0 : (BINARY_FILE_WITH_ASCII_VALUES_LABEL.data ++ ('\t' :: count)).length + 1
      ≤ size - 1)
    (hsize : ∀ c ∈ cols, (column_line c).length ≤ size - 1)
    (hops : ∀ col v, (ops.add_value col v).1
      = { col with ascii_values_ := (ops.add_value col v).1.ascii_values_ }) :
    fgets size ((BINARY_FILE_WITH_ASCII_VALUES_LABEL.data ++ ('\t' :: count))
        ++ '\n' :: (column_lines cols ++ data))
      = some ((BINARY_FILE_WITH_ASCII_VALUES_LABEL.data ++ ('\t' :: count)) ++ ['\n'],
          column_lines cols ++ data) ∧
    is_extended_header ((BINARY_FILE_WITH_ASCII_VALUES_LABEL.data ++ ('\t' :: count)) ++ ['\n'])
      = true ∧
    read_extended_header ops parse_int size
        ((BINARY_FILE_WITH_ASCII_VALUES_LABEL.data ++ ('\t' :: count)) ++ ['\n'])
        (column_lines cols ++ data) s
      = some (0, { s with nvars := cols.length,
                          column_info := cols.map (column_of ops) ++ [nothing_column],
                          readSelectionInfo_ :=
                            if SELECTION_LABEL.data.isPrefixOf (cols.getLast hne).1
                            then 1 else 0 }, data) ∧
    ∀ c ∈ cols, (column_of ops c).label = String.mk c.1 ∧
      (column_of ops c).hasASCII = (if c.2.2 = [] then 0 else 1) := by
  have hlabel : ∀ c ∈ BINARY_FILE_WITH_ASCII_VALUES_LABEL.data, c ≠ '\t' ∧ c ≠ '\n' := by decide
  refine ⟨?_, ?_, ?_, fun c _ => column_of_keeps ops hops c⟩
  · apply fgets_line _ _ _ _ hsize0
    intro c hc
    rcases List.mem_append.mp hc with hc | hc
    · exact (hlabel c hc).2
    · rcases List.mem_cons.mp hc with hc | hc
      · rw [hc]; decide
      · exact (hcount c hc).2
  · unfold is_extended_header
    rw [decide_eq_true_eq]
    exact ⟨[], '\t' :: count ++ ['\n'], by simp⟩
  · unfold read_extended_header
    have hs : IStream.ofText ((BINARY_FILE_WITH_ASCII_VALUES_LABEL.data ++ ('\t' :: count))
        ++ ['\n'])
        = ⟨BINARY_FILE_WITH_ASCII_VALUES_LABEL.data ++ '\t' :: (count ++ ['\n']), false, false⟩ := by
      simp [IStream.ofText]
    have hall : ∀ ch ∈ count ++ ['\n'], ch ≠ '\t' := by
      intro ch hc
      rcases List.mem_append.mp hc with hc | hc
      · exact (hcount ch hc).1
      · rw [List.mem_singleton.mp hc]; decide
    rw [hs, getline_tab _ _ [] (fun c hc => (hlabel c hc).1)]
    simp only []
    rw [getline_last (count ++ ['\n']) _ hall]
    simp only []
    rw [hparse]
    simp only [Option.getD_some, Int.toNat_ofNat]
    rw [column_lines_loop_tabbed ops size cols data [] hclean hvalues hsize]
    simp only [List.nil_append, ne_eq, not_true_eq_false, if_false, List.length_map]
    have hlen : cols.length ≠ 0 := fun h => hne (List.length_eq_zero.mp h)
    rw [if_neg hlen]
    have hget : (cols.map (column_of ops))[cols.length - 1]?
        = some (column_of ops (cols.getLast hne)) := by
      rw [List.getElem?_map, List.getLast_eq_getElem,
        List.getElem?_eq_getElem (show cols.length - 1 < cols.length by omega)]
      rfl
    rw [hget]
    simp only []
    rw [(column_of_keeps ops hops (cols.getLast hne)).1]

theorem extended_header_columns_witness :
    (fgets 100 ((BINARY_FILE_WITH_ASCII_VALUES_LABEL.data ++ ('\t' :: "2".data))
        ++ '\n' :: (column_lines example_columns ++ []))
      = some ((BINARY_FILE_WITH_ASCII_VALUES_LABEL.data ++ ('\t' :: "2".data)) ++ ['\n'],
          column_lines example_columns ++ []) ∧
    is_extended_header
        ((BINARY_FILE_WITH_ASCII_VALUES_LABEL.data ++ ('\t' :: "2".data)) ++ ['\n']) = true ∧
    read_extended_header dictionary_ops leading_int 100
        ((BINARY_FILE_WITH_ASCII_VALUES_LABEL.data ++ ('\t' :: "2".data)) ++ ['\n'])
        (column_lines example_columns ++ []) (dataset [] 0 [])
      = some (0, { dataset [] 0 [] with
                    nvars := example_columns.length,
                    column_info := example_columns.map (column_of dictionary_ops)
                      ++ [nothing_column],
                    readSelectionInfo_ :=
                      if SELECTION_LABEL.data.isPrefixOf
                        (example_columns.getLast (by decide)).1
                      then 1 else 0 }, []) ∧
    ∀ c ∈ example_columns, (column_of dictionary_ops c).label = String.mk c.1 ∧
      (column_of dictionary_ops c).hasASCII = (if c.2.2 = [] then 0 else 1)) ∧
    (BINARY_FILE_WITH_ASCII_VALUES_LABEL.data ++ ('\t' :: "2".data))
        ++ '\n' :: (column_lines example_columns ++ [])
      = "BINARY_FILE_WITH_ASCII_VP\t2\nlabelA\tTFLOAT\nlabelB\tTSTRING\tfoo\tbar\n".data ∧
    example_columns.map (column_of dictionary_ops) ++ [nothing_column]
      = [labelled_column "labelA",
         { labelled_column "labelB" with
           hasASCII := 1, ascii_values_ := [("foo", 0), ("bar", 1)] },
         nothing_column] ∧
    SELECTION_LABEL.data.isPrefixOf (example_columns.getLast (by decide)).1 = false :=
  ⟨extended_header_columns dictionary_ops leading_int 100 (dataset [] 0 []) "2".data
      example_columns [] (by decide) (by decide) (by decide) (by decide) (by decide)
      (by decide) (by decide) dictionary_add_value_keeps,
    by decide, by decide, by decide⟩

/-- C14 (counterexample): for the header line `BINARY_FILE_WITH_ASCII_VP`, a tab and `0`
no column line is read, and the test of the last label reads `column_info[-1]` of an
empty vector: the header has no defined result. -/
theorem extended_header_without_columns :
    fgets 100 "BINARY_FILE_WITH_ASCII_VP\t0\n".data
      = some ("BINARY_FILE_WITH_ASCII_VP\t0\n".data, []) ∧
    is_extended_header "BINARY_FILE_WITH_ASCII_VP\t0\n".data = true ∧
    read_extended_header dictionary_ops leading_int 100
      "BINARY_FILE_WITH_ASCII_VP\t0\n".data [] (dataset [] 0 []) = none := by
  decide

/-! ### The sigmoid transform -/

/-- A positive number that rounding to `float` leaves as it is does not exceed MAXFLOAT. -/
theorem float_le_maxfloat (q : ℚ) (hq : 0 < q) (h : Flt.round32 (Flt.fin q) = Flt.fin q) :
    q ≤ (2 ^ 24 - 1) * 2 ^ 104 := by
  unfold Flt.round32 at h
  rw [round_to_fin, if_neg hq.ne', if_pos hq] at h
  unfold Flt.round_pos at h
  by_cases hc : (Flt.round_half_even (q / Flt.ulp 24 (-126) q) : ℚ) * Flt.ulp 24 (-126) q
      < 2 ^ ((127 : Int) + 1)
  · rw [if_pos hc] at h
    simp only [Flt.fin.injEq] at h
    rw [h] at hc
    have hs := ilog2_spec q hq
    by_cases he : Flt.ilog2 q ≤ 126
    · have : q < (2 : ℚ) ^ (127 : Int) :=
        lt_of_lt_of_le hs.2 (zpow_le_zpow_right₀ (by norm_num) (by omega))
      have e : (2 : ℚ) ^ (127 : Int) = 2 ^ 127 := by norm_cast
      rw [e] at this
      norm_num at this ⊢
      linarith
    · have he2 : Flt.ilog2 q = 127 := by
        have hlt : Flt.ilog2 q < 128 := by
          by_contra hcon
          have hcon : (128 : Int) ≤ Flt.ilog2 q := by omega
          have : (2 : ℚ) ^ (128 : Int) ≤ q :=
            le_trans (zpow_le_zpow_right₀ (by norm_num) hcon) hs.1
          have e : (2 : ℚ) ^ ((127 : Int) + 1) = (2 : ℚ) ^ (128 : Int) := by norm_num
          rw [e] at hc
          linarith
        omega
      have hu : Flt.ulp 24 (-126) q = 2 ^ 104 := by
        unfold Flt.ulp
        rw [he2]
        norm_num
      rw [hu] at h
      have hz : (Flt.round_half_even (q / 2 ^ 104) : ℚ) < 2 ^ 24 := by
        have e : (2 : ℚ) ^ ((127 : Int) + 1) = 2 ^ 24 * 2 ^ 104 := by norm_num
        rw [e, ← h] at hc
        exact lt_of_mul_lt_mul_right hc (by positivity)
      have hz2 : Flt.round_half_even (q / 2 ^ 104) < 2 ^ 24 := by exact_mod_cast hz
      have hz3 : Flt.round_half_even (q / 2 ^ 104) ≤ 2 ^ 24 - 1 := by omega
      have hz4 : (Flt.round_half_even (q / 2 ^ 104) : ℚ) ≤ 2 ^ 24 - 1 := by exact_mod_cast hz3
      rw [← h]
      exact mul_le_mul_of_nonneg_right hz4 (by positivity)
  · rw [if_neg hc] at h
    simp at h

/-- The relative error of the rounding to `float` of a number that is 1 at least. -/
theorem round32_relative (q r : ℚ) (hq : 1 ≤ q) (h : Flt.round32 (Flt.fin q) = Flt.fin r) :
    |r - q| ≤ q / 2 ^ 24 := by
  have hpos : 0 < q := by linarith
  have herr := round_to_error 24 (-126) 127 q r hpos h
  have hs := ilog2_spec q hpos
  have hlog : 0 ≤ Flt.ilog2 q := by
    by_contra hc
    have hc : Flt.ilog2 q + 1 ≤ 0 := by omega
    have : (2 : ℚ) ^ (Flt.ilog2 q + 1) ≤ 1 := zpow_le_one_of_nonpos₀ (by norm_num) hc
    linarith [hs.2]
  have hulp : Flt.ulp 24 (-126) q = (2 : ℚ) ^ Flt.ilog2 q / 2 ^ 23 := by
    unfold Flt.ulp
    rw [max_eq_left (by omega)]
    push_cast
    rw [zpow_sub₀ (by norm_num)]
    norm_num
  rw [hulp] at herr
  calc |r - q| ≤ (2 : ℚ) ^ Flt.ilog2 q / 2 ^ 23 / 2 := herr
    _ ≤ q / 2 ^ 23 / 2 := by
        apply div_le_div_of_nonneg_right _ (by norm_num)
        exact div_le_div_of_nonneg_right hs.1 (by positivity)
    _ = q / 2 ^ 24 := by ring

/-- The sum `1 + q` of `squash_value` for a `float` `q >= 0`: a finite `float` that is not
below 1 and not below `q`, with a relative error of 2^-24 at most. -/
theorem squash_denominator (q : ℚ) (hq : 0 ≤ q) (h : Flt.round32 (Flt.fin q) = Flt.fin q) :
    ∃ d, Flt.round32 (Flt.fin (1 + q)) = Flt.fin d ∧ 1 ≤ d ∧ q ≤ d ∧
      |d - (1 + q)| ≤ (1 + q) / 2 ^ 24 := by
  have e1 : Flt.round32 (Flt.fin 1) = Flt.fin 1 := by
    have := round32_nat 1 (by norm_num)
    simpa using this
  have hmax : q ≤ (2 ^ 24 - 1) * 2 ^ 104 := by
    rcases eq_or_lt_of_le hq with h0 | h0
    · rw [← h0]; norm_num
    · exact float_le_maxfloat q h0 h
  have etop : Flt.round32 (Flt.fin (1 + (2 ^ 24 - 1) * 2 ^ 104))
      = Flt.fin ((2 ^ 24 - 1) * 2 ^ 104) := by decide!
  have m1 := round32_mono 1 (1 + q) (by linarith)
  have m2 := round32_mono q (1 + q) (by linarith)
  have m3 := round32_mono (1 + q) (1 + (2 ^ 24 - 1) * 2 ^ 104) (by linarith)
  rw [e1] at m1
  rw [h] at m2
  rw [etop] at m3
  cases hd : Flt.round32 (Flt.fin (1 + q)) with
  | fin d =>
    rw [hd] at m1 m2
    exact ⟨d, rfl, (le_fin_iff _ _).mp m1, (le_fin_iff _ _).mp m2,
      round32_relative (1 + q) d (by linarith) hd⟩
  | pinf => rw [hd] at m3; simp [Flt.le, Flt.lt, Flt.feq] at m3
  | ninf => rw [hd] at m1; simp [Flt.le, Flt.lt, Flt.feq] at m1
  | nan => rw [hd] at m1; simp [Flt.le, Flt.lt, Flt.feq] at m1

/-- The value that NORMALIZATION_SQUASH stores for a `float` `q >= 0`: a number between 0
and 1 within 3/2^25 of `q/(1+q)`. -/
theorem squash_value_nonneg (q : ℚ) (hq : 0 ≤ q) (h : Flt.round32 (Flt.fin q) = Flt.fin q) :
    ∃ r, squash_value (Flt.fin q) = Flt.fin r ∧ 0 ≤ r ∧ r ≤ 1 ∧
      |r - q / (1 + q)| ≤ 3 / 2 ^ 25 := by
  obtain ⟨d, hd, hd1, hdq, hderr⟩ := squash_denominator q hq h
  have hd0 : 0 < d := by linarith
  have hy0 : 0 ≤ q / d := div_nonneg hq hd0.le
  have hy1 : q / d ≤ 1 := (div_le_one hd0).mpr hdq
  obtain ⟨r, hr, hr0, hr1, herr⟩ := round32_unit (q / d) hy0 hy1
  refine ⟨r, ?_, hr0, hr1, ?_⟩
  · unfold squash_value
    simp only [Flt.abs, Flt.add, abs_of_nonneg hq]
    rw [hd]
    simp only [Flt.div, if_neg hd0.ne']
    exact hr
  · have h1q : 0 < 1 + q := by linarith
    have hdiff : q / d - q / (1 + q) = q / d * ((1 + q - d) / (1 + q)) := by
      field_simp
      ring
    have habs : |q / d - q / (1 + q)| ≤ 1 / 2 ^ 24 := by
      rw [hdiff, abs_mul, abs_of_nonneg hy0, abs_div, abs_of_pos h1q]
      have h2 : |1 + q - d| / (1 + q) ≤ 1 / 2 ^ 24 := by
        rw [div_le_iff₀ h1q, abs_sub_comm]
        calc |d - (1 + q)| ≤ (1 + q) / 2 ^ 24 := hderr
          _ = 1 / 2 ^ 24 * (1 + q) := by ring
      calc q / d * (|1 + q - d| / (1 + q)) ≤ 1 * (1 / 2 ^ 24) :=
            mul_le_mul hy1 h2 (div_nonneg (abs_nonneg _) h1q.le) (by norm_num)
        _ = 1 / 2 ^ 24 := by ring
    calc |r - q / (1 + q)| = |(r - q / d) + (q / d - q / (1 + q))| := by ring_nf
      _ ≤ |r - q / d| + |q / d - q / (1 + q)| := abs_add _ _
      _ ≤ 1 / 2 ^ 25 + 1 / 2 ^ 24 := add_le_add herr habs
      _ = 3 / 2 ^ 25 := by norm_num

/-- The value that NORMALIZATION_SQUASH stores for a finite `float` `q`: a number between
-1 and 1 that has the sign of `q` and lies within 3/2^25 of `q/(1+|q|)`. -/
theorem squash_value_fin (q : ℚ) (h : Flt.round32 (Flt.fin q) = Flt.fin q) :
    ∃ r, squash_value (Flt.fin q) = Flt.fin r ∧ -1 ≤ r ∧ r ≤ 1 ∧ (0 ≤ q → 0 ≤ r) ∧
      (q ≤ 0 → r ≤ 0) ∧ |r - q / (1 + |q|)| ≤ 3 / 2 ^ 25 := by
  rcases le_total 0 q with hq | hq
  · obtain ⟨r, hr, hr0, hr1, herr⟩ := squash_value_nonneg q hq h
    refine ⟨r, hr, by linarith, hr1, fun _ => hr0, ?_, by rw [abs_of_nonneg hq]; exact herr⟩
    intro hq2
    have : q = 0 := le_antisymm hq2 hq
    subst this
    have e : squash_value (Flt.fin 0) = Flt.fin 0 := by decide!
    rw [e, Flt.fin.injEq] at hr
    rw [← hr]
  · have hn : Flt.round32 (Flt.fin (-q)) = Flt.fin (-q) := by
      have := round_to_neg 24 (-126) 127 (Flt.fin q)
      unfold Flt.round32 at h ⊢
      rw [h] at this
      exact this
    have hq' : 0 ≤ -q := by linarith
    obtain ⟨d, hd, hd1, hdq, hderr⟩ := squash_denominator (-q) hq' hn
    obtain ⟨r, hr, hr0, hr1, herr⟩ := squash_value_nonneg (-q) hq' hn
    have hd0 : 0 < d := by linarith
    have hval : squash_value (Flt.fin q) = Flt.fin (-r) := by
      unfold squash_value at hr ⊢
      simp only [Flt.abs, Flt.add, abs_of_nonneg hq', abs_of_nonpos hq] at hr ⊢
      rw [hd] at hr ⊢
      simp only [Flt.div, if_neg hd0.ne'] at hr ⊢
      have e : Flt.fin (q / d) = Flt.neg (Flt.fin (-q / d)) := by
        simp only [Flt.neg, Flt.fin.injEq]
        ring
      rw [e]
      unfold Flt.round32 at hr ⊢
      rw [round_to_neg, hr]
      rfl
    refine ⟨-r, hval, by linarith, by linarith, ?_, fun _ => by linarith, ?_⟩
    · intro hq2
      have : q = 0 := le_antisymm hq hq2
      subst this
      have e : squash_value (Flt.fin 0) = Flt.fin 0 := by decide!
      rw [e, Flt.fin.injEq] at hval
      rw [← hval]
    · rw [abs_of_nonpos hq]
      have : -r - q / (1 + -q) = -(r - -q / (1 + -q)) := by ring
      rw [this, abs_neg]
      exact herr

theorem squash_rat_le (p q : ℚ) (h : p ≤ q) : p / (1 + |p|) ≤ q / (1 + |q|) := by
  have hp : (0 : ℚ) < 1 + |p| := by positivity
  have hq : (0 : ℚ) < 1 + |q| := by positivity
  rw [div_le_div_iff₀ hp hq]
  rcases le_total 0 p with h0 | h0 <;> rcases le_total 0 q with h1 | h1
  · rw [abs_of_nonneg h0, abs_of_nonneg h1]; nlinarith
  · have : p = q := by linarith
    rw [this]
  · rw [abs_of_nonpos h0, abs_of_nonneg h1]; nlinarith
  · rw [abs_of_nonpos h0, abs_of_nonpos h1]; nlinarith

theorem readRanked_map (f : Flt → Flt) (a : List Flt) (a_rank : List Nat) (i : Int) :
    readRanked (a.map f) a_rank i = (readRanked a a_rank i).map f := by
  unfold readRanked
  split
  · rfl
  · cases a_rank[i.toNat]? with
    | none => rfl
    | some p => simp

/-- C21 (amended): for a column of N >= 1 finite `float` values and a rank sequence that is
a permutation of 0..N-1, the call with NORMALIZATION_SQUASH returns 1 and replaces each
value `v` by `v/(1+|v|)` computed in `float`: a number between -1 and 1, the bounds
included, that has the sign of `v` and lies within 3/2^25 of the exact quotient.  `wmin`
and `wmax` are the transformed values of the points of rank 0 and N-1; when the rank sorts
the column, no transformed value is below `wmin` or above `wmax` by more than 3/2^24. -/
theorem normalize_squash_values (m : MathFns) (s : PlotState) (a : List Flt)
    (a_rank : List Nat) (axis_index : Nat)
    (hN : 1 ≤ s.npoints) (ha : (a.length : Int) = s.npoints)
    (hfloat : ∀ x ∈ a, x.finite = true ∧ Flt.round32 x = x)
    (hperm : a_rank.Perm (List.range a.length))
    (hmin : axis_index < s.wmin.length) (hmax : axis_index < s.wmax.length) :
    ∃ tmin tmax, readRanked a a_rank 0 = some tmin ∧
      readRanked a a_rank (s.npoints - 1) = some tmax ∧
      normalize m s a a_rank NORMALIZATION_SQUASH axis_index
        = some (1, a.map squash_value,
            { s with wmin := s.wmin.set axis_index (squash_value tmin),
                     wmax := s.wmax.set axis_index (squash_value tmax) }) ∧
      (∀ x ∈ a, ∃ q r : ℚ, x = Flt.fin q ∧ squash_value x = Flt.fin r ∧
        -1 ≤ r ∧ r ≤ 1 ∧ (0 ≤ q → 0 ≤ r) ∧ (q ≤ 0 → r ≤ 0) ∧
        |r - q / (1 + |q|)| ≤ 3 / 2 ^ 25) ∧
      (a_rank.Pairwise (fun i j => Flt.le (a.getD i Flt.nan) (a.getD j Flt.nan) = true) →
        ∀ x ∈ a, ∃ lo hi y : ℚ, squash_value tmin = Flt.fin lo ∧
          squash_value tmax = Flt.fin hi ∧ squash_value x = Flt.fin y ∧
          lo - 3 / 2 ^ 24 ≤ y ∧ y ≤ hi + 3 / 2 ^ 24) := by
  have hval : ∀ x ∈ a, ∃ q r : ℚ, x = Flt.fin q ∧ squash_value x = Flt.fin r ∧
      -1 ≤ r ∧ r ≤ 1 ∧ (0 ≤ q → 0 ≤ r) ∧ (q ≤ 0 → r ≤ 0) ∧
      |r - q / (1 + |q|)| ≤ 3 / 2 ^ 25 := by
    intro x hx
    obtain ⟨hf, hr⟩ := hfloat x hx
    cases x with
    | fin q =>
      obtain ⟨r, h1, h2, h3, h4, h5, h6⟩ := squash_value_fin q hr
      exact ⟨q, r, rfl, h1, h2, h3, h4, h5, h6⟩
    | pinf => simp [Flt.finite] at hf
    | ninf => simp [Flt.finite] at hf
    | nan => simp [Flt.finite] at hf
  have hfin : ∀ x ∈ a, x.finite = true := fun x hx => (hfloat x hx).1
  have hlen : a_rank.length = a.length := by simpa using hperm.length_eq
  have hn : s.npoints.toNat = a.length := by omega
  have h0 : 0 < a_rank.length := by omega
  have hl : a.length - 1 < a_rank.length := by omega
  have hp0 : a_rank[0] < a.length := List.mem_range.mp (hperm.subset (List.getElem_mem _))
  have hpl : a_rank[a.length - 1] < a.length :=
    List.mem_range.mp (hperm.subset (List.getElem_mem _))
  have hidx : (s.npoints - 1).toNat = a.length - 1 := by omega
  have htmin : readRanked a a_rank 0 = some a[a_rank[0]] := by
    simp [readRanked, List.getElem?_eq_getElem h0, List.getElem?_eq_getElem hp0]
  have htmax : readRanked a a_rank (s.npoints - 1) = some a[a_rank[a.length - 1]] := by
    have hneg : ¬ (s.npoints - 1 < 0) := by omega
    simp only [readRanked, hneg, if_false, hidx, List.getElem?_eq_getElem hl,
      List.getElem?_eq_getElem hpl]
  refine ⟨a[a_rank[0]], a[a_rank[a.length - 1]], htmin, htmax, ?_, hval, ?_⟩
  · have hnl : ¬ (a.length < a.length) := lt_irrefl _
    simp only [normalize, htmin, htmax, hn, hnl, if_false, List.take_length, List.drop_length,
      List.append_nil, readRanked_map, Option.map_some']
    simp [NORMALIZATION_NONE, NORMALIZATION_MINMAX, NORMALIZATION_ZEROMAX,
      NORMALIZATION_MAXABS, NORMALIZATION_TRIM_1E2, NORMALIZATION_TRIM_1E3,
      NORMALIZATION_THREESIGMA, NORMALIZATION_LOG10, NORMALIZATION_SQUASH, setBounds, writeAt,
      hmin, hmax]
  · intro hsorted x hx
    obtain ⟨t0, t1, ht0, ht1, hm0, hm1, hext⟩ :=
      ranked_extremes a a_rank (by omega) hfin hperm hsorted
    rw [htmin] at ht0
    have ht1' : readRanked a a_rank (s.npoints - 1) = some t1 := by rw [← ha]; exact ht1
    rw [htmax] at ht1'
    have e0 : a[a_rank[0]] = t0 := Option.some.inj ht0
    have e1 : a[a_rank[a.length - 1]] = t1 := Option.some.inj ht1'
    rw [e0, e1]
    obtain ⟨q0, lo, hq0, hlo, _, _, _, _, elo⟩ := hval t0 hm0
    obtain ⟨q1, hi, hq1, hhi, _, _, _, _, ehi⟩ := hval t1 hm1
    obtain ⟨q, y, hq, hy, _, _, _, _, ey⟩ := hval x hx
    obtain ⟨hle0, hle1⟩ := hext x hx
    rw [hq0, hq] at hle0
    rw [hq, hq1] at hle1
    have l0 := squash_rat_le q0 q ((le_fin_iff _ _).mp hle0)
    have l1 := squash_rat_le q q1 ((le_fin_iff _ _).mp hle1)
    rw [abs_le] at elo ehi ey
    refine ⟨lo, hi, y, hlo, hhi, hy, ?_, ?_⟩
    · norm_num at elo ehi ey ⊢
      linarith [elo.1, elo.2, ey.1, ey.2]
    · norm_num at elo ehi ey ⊢
      linarith [ehi.1, ehi.2, ey.1, ey.2]

theorem normalize_squash_values_witness :
    ∃ tmin tmax, readRanked [Flt.fin 3, Flt.fin (-5), Flt.fin 1] [1, 2, 0] 0 = some tmin ∧
      readRanked [Flt.fin 3, Flt.fin (-5), Flt.fin 1] [1, 2, 0]
        ((⟨3, [1], [[1, 2, 0]], [Flt.nan], [Flt.nan]⟩ : PlotState).npoints - 1) = some tmax ∧
      normalize ⟨id, id, id⟩ ⟨3, [1], [[1, 2, 0]], [Flt.nan], [Flt.nan]⟩
          [Flt.fin 3, Flt.fin (-5), Flt.fin 1] [1, 2, 0] NORMALIZATION_SQUASH 0
        = some (1, [Flt.fin 3, Flt.fin (-5), Flt.fin 1].map squash_value,
            { (⟨3, [1], [[1, 2, 0]], [Flt.nan], [Flt.nan]⟩ : PlotState) with
              wmin := ([Flt.nan] : List Flt).set 0 (squash_value tmin),
              wmax := ([Flt.nan] : List Flt).set 0 (squash_value tmax) }) ∧
      (∀ x ∈ [Flt.fin 3, Flt.fin (-5), Flt.fin 1], ∃ q r : ℚ, x = Flt.fin q ∧
        squash_value x = Flt.fin r ∧
        -1 ≤ r ∧ r ≤ 1 ∧ (0 ≤ q → 0 ≤ r) ∧ (q ≤ 0 → r ≤ 0) ∧
        |r - q / (1 + |q|)| ≤ 3 / 2 ^ 25) ∧
      (([1, 2, 0] : List Nat).Pairwise (fun i j =>
          Flt.le ([Flt.fin 3, Flt.fin (-5), Flt.fin 1].getD i Flt.nan)
            ([Flt.fin 3, Flt.fin (-5), Flt.fin 1].getD j Flt.nan) = true) →
        ∀ x ∈ [Flt.fin 3, Flt.fin (-5), Flt.fin 1], ∃ lo hi y : ℚ,
          squash_value tmin = Flt.fin lo ∧
          squash_value tmax = Flt.fin hi ∧ squash_value x = Flt.fin y ∧
          lo - 3 / 2 ^ 24 ≤ y ∧ y ≤ hi + 3 / 2 ^ 24) :=
  normalize_squash_values ⟨id, id, id⟩ ⟨3, [1], [[1, 2, 0]], [Flt.nan], [Flt.nan]⟩
    [Flt.fin 3, Flt.fin (-5), Flt.fin 1] [1, 2, 0] 0
    (by decide) (by decide) (by decide!) (by decide) (by decide) (by decide)

/-- C21 (counterexample): in the column (2^24, 2^24+2), ranked in this order, the sums
1+2^24 and 1+2^24+2 are rounded to 2^24 and 2^24+4, and the values become 1 and
1-2^-23: the first is not strictly below 1, the larger value has the smaller result, and
`wmax`, read at the last rank, is not the largest transformed value.  In the column
(0, +inf) the infinite value becomes inf/inf, a NaN, and `wmax` is this NaN. -/
theorem normalize_squash_not_increasing :
    normalize ⟨id, id, id⟩ ⟨2, [1], [[0, 1]], [Flt.nan], [Flt.nan]⟩
        [Flt.fin 16777216, Flt.fin 16777218] [0, 1] NORMALIZATION_SQUASH 0
      = some (1, [Flt.fin 1, Flt.fin (8388607 / 8388608)],
          ⟨2, [1], [[0, 1]], [Flt.fin 1], [Flt.fin (8388607 / 8388608)]⟩) ∧
    Flt.round32 (Flt.fin 16777216) = Flt.fin 16777216 ∧
    Flt.round32 (Flt.fin 16777218) = Flt.fin 16777218 ∧
    Flt.lt (Flt.fin 16777216) (Flt.fin 16777218) = true ∧
    Flt.lt (Flt.fin (8388607 / 8388608)) (Flt.fin 1) = true ∧
    normalize ⟨id, id, id⟩ ⟨2, [1], [[0, 1]], [Flt.fin (-1)], [Flt.fin 1]⟩
        [Flt.fin 0, Flt.pinf] [0, 1] NORMALIZATION_SQUASH 0
      = some (1, [Flt.fin 0, Flt.nan], ⟨2, [1], [[0, 1]], [Flt.fin 0], [Flt.nan]⟩) ∧
    Flt.le (Flt.fin 0) Flt.pinf = true ∧
    Flt.lt Flt.nan (Flt.fin 1) = false := by
  decide!

/-! ### The Gaussian rank transform -/

/-- The argument that NORMALIZATION_GAUSSIANIZE passes to `gsl_cdf_ugaussian_Pinv` for the
median rank `k` of `2k+1` points, with `2k+3 <= 2^24`: the `float` nearest to
`(k+1)/(2k+3)`, a number that is at least 1/4 and strictly below 1/2. -/
theorem gaussianize_argument_median (k : Nat) (hk : k ≤ 8388606) :
    ∃ p : ℚ, gaussianize_argument (2 * (k : Int) + 1) k = Flt.fin p ∧ 1 / 4 ≤ p ∧
      p < 1 / 2 := by
  have h1 : Flt.round32 (Flt.ofInt ((k : Int) + 1)) = Flt.fin (((k + 1 : Nat) : ℚ)) := by
    have := round32_nat (k + 1) (by omega)
    rw [← this]
    simp [Flt.ofInt]
  have h2 : Flt.round32 (Flt.ofInt (2 * (k : Int) + 1 + 2))
      = Flt.fin (((2 * k + 3 : Nat) : ℚ)) := by
    have := round32_nat (2 * k + 3) (by omega)
    rw [← this]
    congr 1
  have hden : (((2 * k + 3 : Nat) : ℚ)) ≠ 0 := by positivity
  have hkq : (k : ℚ) ≤ 8388606 := by exact_mod_cast hk
  have hk0 : (0 : ℚ) ≤ (k : ℚ) := by positivity
  have hpos : (0 : ℚ) < ((2 * k + 3 : Nat) : ℚ) := by positivity
  have elo : Flt.round_to 24 (-126) 127 (Flt.fin (1 / 4)) = Flt.fin (1 / 4) := by
    have := round_to_exact 24 (-126) 127 1 (-2) (by norm_num) (by norm_num) (by norm_num)
      (by norm_num [zpow_neg])
    have e : ((1 : Nat) : ℚ) * (2 : ℚ) ^ (-2 : Int) = 1 / 4 := by norm_num [zpow_neg]
    rw [e] at this
    exact this
  have ehi : Flt.round_to 24 (-126) 127 (Flt.fin (16777215 / 33554432))
      = Flt.fin (16777215 / 33554432) := by
    have := round_to_exact 24 (-126) 127 16777215 (-25) (by norm_num) (by norm_num)
      (by norm_num) (by norm_num [zpow_neg])
    have e : ((16777215 : Nat) : ℚ) * (2 : ℚ) ^ (-25 : Int) = 16777215 / 33554432 := by
      norm_num [zpow_neg]
    rw [e] at this
    exact this
  have hq1 : (1 / 4 : ℚ) ≤ ((k + 1 : Nat) : ℚ) / ((2 * k + 3 : Nat) : ℚ) := by
    rw [le_div_iff₀ hpos]
    push_cast
    linarith
  have hq2 : ((k + 1 : Nat) : ℚ) / ((2 * k + 3 : Nat) : ℚ) ≤ 16777215 / 33554432 := by
    rw [div_le_iff₀ hpos]
    push_cast
    linarith
  obtain ⟨p, hp, hp1, hp2⟩ := round_to_between 24 (-126) 127 _ _ _ (by norm_num) elo ehi
    hq1 hq2
  refine ⟨p, ?_, hp1, by linarith⟩
  unfold gaussianize_argument
  rw [h1, h2]
  simp only [Flt.div, if_neg hden]
  exact hp

/-- C22: for an odd number N = 2k+1 of points, N <= 2^24-3, and a rank sequence that is a
permutation of 0..N-1, the call with NORMALIZATION_GAUSSIANIZE returns 1 and gives the
point of the median rank `k` the value `(1.0/5.0) * (float) Pinv(p)` for an argument `p`
with `1/4 <= p < 1/2`: the argument of the median is not 1/2, the centre of the gaussian,
so that the transform is not centred on the median. -/
theorem normalize_gaussianize_median (m : MathFns) (s : PlotState) (a : List Flt)
    (a_rank : List Nat) (axis_index : Nat) (k : Nat)
    (hN : s.npoints = 2 * (k : Int) + 1) (hk : k ≤ 8388606)
    (ha : (a.length : Int) = s.npoints)
    (hperm : a_rank.Perm (List.range a.length))
    (hmin : axis_index < s.wmin.length) (hmax : axis_index < s.wmax.length) :
    ∃ (a1 : List Flt) (s1 : PlotState) (p : ℚ),
      normalize m s a a_rank NORMALIZATION_GAUSSIANIZE axis_index = some (1, a1, s1) ∧
      gaussianize_argument s.npoints k = Flt.fin p ∧ 1 / 4 ≤ p ∧ p < 1 / 2 ∧
      a1.getD (a_rank.getD k 0) Flt.nan
        = Flt.round32 (Flt.round64 (Flt.mul (Flt.round64 (Flt.div (Flt.fin 1) (Flt.fin 5)))
            (Flt.round32 (m.Pinv (Flt.fin p))))) ∧
      s1.wmin.getD axis_index Flt.nan = Flt.fin (-1) ∧
      s1.wmax.getD axis_index Flt.nan = Flt.fin 1 := by
  have hn : s.npoints.toNat = a.length := by omega
  have hlen : a_rank.length = a.length := by simpa using hperm.length_eq
  obtain ⟨tmin, htmin⟩ := readRanked_of_perm a a_rank 0 hperm (le_refl _) (by omega)
  obtain ⟨tmax, htmax⟩ := readRanked_of_perm a a_rank (s.npoints - 1) hperm (by omega) (by omega)
  obtain ⟨a1, hsc, hl1, hval, _⟩ := scatter_by_rank_spec (gaussianize_value m s.npoints)
    a_rank a a.length (le_of_eq hlen.symm) (hperm.nodup_iff.mpr (List.nodup_range _))
    (fun p hp => List.mem_range.mp (hperm.subset hp))
  obtain ⟨p, hp, hp1, hp2⟩ := gaussianize_argument_median k hk
  rw [← hN] at hp
  refine ⟨a1, { s with wmin := s.wmin.set axis_index (Flt.fin (-1)),
                        wmax := s.wmax.set axis_index (Flt.fin 1) }, p, ?_, hp, hp1, hp2, ?_,
    ?_, ?_⟩
  · simp only [normalize, htmin, htmax, hn, hsc]
    simp [NORMALIZATION_RANK, NORMALIZATION_NONE, NORMALIZATION_MINMAX, NORMALIZATION_ZEROMAX,
      NORMALIZATION_MAXABS, NORMALIZATION_TRIM_1E2, NORMALIZATION_TRIM_1E3,
      NORMALIZATION_THREESIGMA, NORMALIZATION_LOG10, NORMALIZATION_SQUASH,
      NORMALIZATION_GAUSSIANIZE, setBounds, writeAt, hmin, hmax]
  · rw [hval k (by omega)]
    unfold gaussianize_value
    rw [hp]
  · simp [List.getD_eq_getElem?_getD, hmin]
  · simp [List.getD_eq_getElem?_getD, hmax]

theorem normalize_gaussianize_median_witness :
    ∃ (a1 : List Flt) (s1 : PlotState) (p : ℚ),
      normalize median_sign_math ⟨3, [1], [[1, 2, 0]], [Flt.nan], [Flt.nan]⟩
        [Flt.fin 9, Flt.fin 2, Flt.fin 5] [1, 2, 0] NORMALIZATION_GAUSSIANIZE 0
        = some (1, a1, s1) ∧
      gaussianize_argument (⟨3, [1], [[1, 2, 0]], [Flt.nan], [Flt.nan]⟩ : PlotState).npoints 1
        = Flt.fin p ∧ 1 / 4 ≤ p ∧ p < 1 / 2 ∧
      a1.getD (([1, 2, 0] : List Nat).getD 1 0) Flt.nan
        = Flt.round32 (Flt.round64 (Flt.mul (Flt.round64 (Flt.div (Flt.fin 1) (Flt.fin 5)))
            (Flt.round32 (median_sign_math.Pinv (Flt.fin p))))) ∧
      s1.wmin.getD 0 Flt.nan = Flt.fin (-1) ∧
      s1.wmax.getD 0 Flt.nan = Flt.fin 1 :=
  normalize_gaussianize_median median_sign_math ⟨3, [1], [[1, 2, 0]], [Flt.nan], [Flt.nan]⟩
    [Flt.fin 9, Flt.fin 2, Flt.fin 5] [1, 2, 0] 0 1
    (by decide) (by decide) (by decide) (by decide) (by decide) (by decide)

/-- C22 (evaluation at the failing input): in the column (9, 2, 5) the ranks 0, 1, 2 get
Pinv of the `float`s nearest to 1/5, 2/5 and 3/5.  The point of the median rank (the value
5) gets Pinv of 13421773/33554432, which is below 1/2: with a function that has the sign
of Pinv the three points get c, -c and -c for c the `float` nearest to 1/5, and the median
point is not mapped to 0.  With 2^25 points the last argument, 2^25/(2^25+2) computed in
`float`, is 1. -/
theorem normalize_gaussianize_median_off :
    normalize median_sign_math ⟨3, [1], [[1, 2, 0]], [Flt.nan], [Flt.nan]⟩
        [Flt.fin 9, Flt.fin 2, Flt.fin 5] [1, 2, 0] NORMALIZATION_GAUSSIANIZE 0
      = some (1, [Flt.fin (13421773 / 67108864), Flt.fin (-13421773 / 67108864),
            Flt.fin (-13421773 / 67108864)],
          ⟨3, [1], [[1, 2, 0]], [Flt.fin (-1)], [Flt.fin 1]⟩) ∧
    gaussianize_argument 3 0 = Flt.fin (13421773 / 67108864) ∧
    gaussianize_argument 3 1 = Flt.fin (13421773 / 33554432) ∧
    gaussianize_argument 3 2 = Flt.fin (5033165 / 8388608) ∧
    (13421773 / 33554432 : ℚ) < 1 / 2 ∧
    Flt.fin (-13421773 / 67108864) ≠ Flt.fin 0 ∧
    gaussianize_argument 33554432 33554431 = Flt.fin 1 := by
  decide!

/-! ### The normalization menu -/

theorem header_fields_total (d : Char) (line : List Char) :
    ∃ fs, header_fields d line = some fs := by
  by_cases hd : d = ' '
  · rw [hd]
    exact ⟨_, header_fields_runs line⟩
  · exact ⟨_, header_fields_delimited d hd line⟩

/-- C26 (amended): in a plain load or an append (`doMerge = 0`), for every header line and
both ways of making labels, `extract_column_labels` returns, and when fewer than 2 labels
result it returns -1, leaving these labels as the only columns; when at least 2 and at
most `maxvars_` labels result it returns their number plus one, for the sentinel. -/
theorem few_labels_fail (s : Data_File_Manager) (sLine : List Char) (doDefault : Int)
    (hmerge : s.doMerge = 0) :
    ∃ n s1, extract_column_labels s sLine doDefault = some (n, s1) ∧
      0 ≤ s1.nvars ∧
      (s1.nvars < 2 → n = -1 ∧ (s1.column_info.length : Int) = s1.nvars) ∧
      (2 ≤ s1.nvars → s1.nvars ≤ s.maxvars_ →
        n = s1.nvars + 1 ∧ (s1.column_info.length : Int) = s1.nvars + 1) := by
  unfold extract_column_labels
  have hl : ∃ labels : List String,
      (if doDefault ≠ 0 then
        (header_fields s.delimiter_char_
          (if s.delimiter_char_ ≠ '\t' then replace_tabs sLine else sLine)).map
          (fun fs => (List.range fs.length).map (fun i => column_label (i + 1)))
      else
        if s.delimiter_char_ = ' ' then
          (header_fields s.delimiter_char_
            (if starts_with_comment sLine then sLine.drop 1 else sLine)).map
            (fun fs => fs.map String.mk)
        else
          (header_fields s.delimiter_char_
            (if starts_with_comment sLine then sLine.drop 1 else sLine)).map
            (fun fs => fs.map (fun buf =>
              if (erase_trailing [' ', '\n'] (erase_leading_blanks buf)).length ≤ 0 then "Dummy"
              else String.mk (erase_trailing [' ', '\n'] (erase_leading_blanks buf)))))
      = some labels := by
    by_cases hd : doDefault ≠ 0
    · rw [if_pos hd]
      obtain ⟨fs, hfs⟩ := header_fields_total s.delimiter_char_
        (if s.delimiter_char_ ≠ '\t' then replace_tabs sLine else sLine)
      rw [hfs]
      exact ⟨_, rfl⟩
    · rw [if_neg hd]
      obtain ⟨fs, hfs⟩ := header_fields_total s.delimiter_char_
        (if starts_with_comment sLine then sLine.drop 1 else sLine)
      rw [hfs]
      by_cases hdel : s.delimiter_char_ = ' '
      · rw [if_pos hdel]
        exact ⟨_, rfl⟩
      · rw [if_neg hdel]
        exact ⟨_, rfl⟩
  obtain ⟨labels, hlabels⟩ := hl
  simp only [hlabels]
  generalize (if s.nvars_cmd_line > 0 ∧
      ((labels.map labelled_column).length : Int) > s.nvars_cmd_line
      then (labels.map labelled_column).take s.nvars_cmd_line.toNat
      else labels.map labelled_column) = cols1
  by_cases h1 : s.doMerge = 0 ∧ (cols1.length : Int) ≤ 1
  · rw [if_pos h1]
    refine ⟨_, _, rfl, ?_, ?_, ?_⟩
    · simp
    · intro _
      exact ⟨rfl, rfl⟩
    · intro h2 _
      simp only [] at h2
      omega
  · rw [if_neg h1]
    have hlen : 2 ≤ (cols1.length : Int) := by
      by_contra hc
      exact h1 ⟨hmerge, by omega⟩
    by_cases h2 : (cols1.length : Int) > s.maxvars_
    · rw [if_pos h2]
      refine ⟨_, _, rfl, ?_, ?_, ?_⟩
      · simp
      · intro h3
        simp only [] at h3
        omega
      · intro _ h4
        simp only [] at h4
        omega
    · rw [if_neg h2, if_neg (by omega)]
      have hidx : ((cols1.length : Int) - 1).toNat < ((if include_line_number = true
          then cols1 ++ [labelled_column "-line number-"] else cols1)
            ++ [labelled_column "-nothing-"]).length := by
        simp [include_line_number]
        omega
      rw [List.getElem?_eq_getElem hidx]
      refine ⟨_, _, rfl, ?_, ?_, ?_⟩
      · simp
      · intro h3
        simp only [] at h3
        omega
      · intro _ _
        simp [include_line_number]

theorem few_labels_fail_witness :
    ∃ n s1, extract_column_labels (dataset [] 0 []) "x".data 0 = some (n, s1) ∧
      0 ≤ s1.nvars ∧
      (s1.nvars < 2 → n = -1 ∧ (s1.column_info.length : Int) = s1.nvars) ∧
      (2 ≤ s1.nvars → s1.nvars ≤ (dataset [] 0 []).maxvars_ →
        n = s1.nvars + 1 ∧ (s1.column_info.length : Int) = s1.nvars + 1) :=
  few_labels_fail (dataset [] 0 []) "x".data 0 (by decide)

/-- C26 (counterexample): in a merge (`doMerge = 1`) the line `x`, which holds one label,
does not make `extract_column_labels` fail: it returns 2, with the column `x` and the
sentinel; a line without any label has no defined result there, because the test of the
last label reads `column_info[-1]`.  In a plain load the line `x` returns -1. -/
theorem single_label_accepted_in_merge :
    (extract_column_labels { dataset [] 0 [] with doMerge := 1 } "x".data 0).map
        (fun r => (r.1, r.2.nvars, r.2.column_info.map (fun c => c.label)))
      = some (2, 1, ["x", "-nothing-"]) ∧
    extract_column_labels { dataset [] 0 [] with doMerge := 1 } "".data 0 = none ∧
    (extract_column_labels (dataset [] 0 []) "x".data 0).map
        (fun r => (r.1, r.2.nvars, r.2.column_info.map (fun c => c.label)))
      = some (-1, 1, ["x"]) := by
  decide

/-! ### Rows of the data block -/

/-- C29: the file `a b / 1 2 / 3 4` whose last line is not closed by a newline gives one
row, the line `3 4` being dropped although it holds two readable tokens; the same file
closed by a newline gives two rows. -/
theorem last_line_without_newline_is_dropped :
    (read_ascii_file_with_headers plain_io numeric_ops (some "a b\n1 2\n3 4".data) 0
        (dataset [] 0 [])).map
      (fun r => (r.1, r.2.npoints, r.2.column_info.map (fun c => (c.label, c.points))))
      = some (0, 1, [("a", [Flt.fin 1]), ("b", [Flt.fin 2]), ("-nothing-", [])]) ∧
    (read_ascii_file_with_headers plain_io numeric_ops (some "a b\n1 2\n3 4\n".data) 0
        (dataset [] 0 [])).map
      (fun r => (r.1, r.2.npoints, r.2.column_info.map (fun c => (c.label, c.points))))
      = some (0, 2, [("a", [Flt.fin 1, Flt.fin 3]), ("b", [Flt.fin 2, Flt.fin 4]),
          ("-nothing-", [])]) := by
  constructor <;> decide!

/-- C23: with three columns and the bad-value proxy -1, the line `4 5 `, which holds two
tokens and a trailing blank, is not skipped: it becomes the second row, with the values 4
and 5 and the proxy in the last column.  The line `4 5` without the blank is skipped. -/
theorem short_line_with_trailing_blank_is_kept :
    (read_ascii_file_with_headers plain_io numeric_ops (some "a b c\n1 2 3\n4 5 \n".data) 0
        proxy_start).map
      (fun r => (r.1, r.2.npoints, r.2.column_info.map (fun c => (c.label, c.points))))
      = some (0, 2, [("a", [Flt.fin 1, Flt.fin 4]), ("b", [Flt.fin 2, Flt.fin 5]),
          ("c", [Flt.fin 3, Flt.fin (-1)]), ("-nothing-", [])]) ∧
    (read_ascii_file_with_headers plain_io numeric_ops (some "a b c\n1 2 3\n4 5\n".data) 0
        proxy_start).map
      (fun r => (r.1, r.2.npoints, r.2.column_info.map (fun c => (c.label, c.points))))
      = some (0, 1, [("a", [Flt.fin 1]), ("b", [Flt.fin 2]), ("c", [Flt.fin 3]),
          ("-nothing-", [])]) := by
  constructor <;> decide!

/-- C24: `extract_column_types` gives each of the words `NaN`, `NAN` and `nan` the flag 0,
whatever the library reads.  In a numeric column of a data line only a field that starts
with `NaN` is stored as the bad-value proxy: for `NAN` and `nan` the data loop stores
what the library reads from the word, 0 when it reads nothing.  With the proxy -1 the
file `x y / 1 2 / nan 3 / NAN 4 / NaN 5` gives the first column 1, 0, 0, -1. -/
theorem nan_spellings_in_data_lines :
    (∀ io : NumIO, word_type io "NaN".data = 0 ∧ word_type io "NAN".data = 0 ∧
      word_type io "nan".data = 0) ∧
    (∀ (io : NumIO) (proxy : Flt),
      numeric_value io proxy "NaN".data "NaN".data = proxy ∧
      numeric_value io proxy "NAN".data "NAN".data
        = (io.parse_double "NAN".data).getD Flt.zero ∧
      numeric_value io proxy "nan".data "nan".data
        = (io.parse_double "nan".data).getD Flt.zero) ∧
    (read_ascii_file_with_headers plain_io numeric_ops
        (some "x y\n1 2\nnan 3\nNAN 4\nNaN 5\n".data) 0 proxy_start).map
      (fun r => (r.1, r.2.npoints, r.2.column_info.map (fun c => (c.label, c.points))))
      = some (0, 4, [("x", [Flt.fin 1, Flt.fin 0, Flt.fin 0, Flt.fin (-1)]),
          ("y", [Flt.fin 2, Flt.fin 3, Flt.fin 4, Flt.fin 5]), ("-nothing-", [])]) := by
  refine ⟨fun io => ?_, fun io proxy => ?_, by decide!⟩
  · simp [word_type]
  · refine ⟨?_, ?_, ?_⟩
    · simp [numeric_value]
    · rw [numeric_value, if_neg (by decide)]
    · rw [numeric_value, if_neg (by decide)]

/-! ### Unreadable data -/

/-- The loop over the fields of a line never counts the line as unreadable: where the
count is raised the stream is good, because its error flags have been cleared or the end of
the line has ended the loop before. -/
theorem read_fields_unreadable (io : NumIO) (ops : ColumnOps) (s : Data_File_Manager)
    (row : Int) :
    ∀ (count : Nat) (j : Int) (st st1 : LineState),
      read_fields io ops s row count j st = some st1 →
      st1.nUnreadableData = st.nUnreadableData := by
  intro count
  induction count with
  | zero =>
    intro j st st1 h
    simp only [read_fields, Option.some.injEq] at h
    subst h
    rfl
  | succ c ih =>
    intro j st st1 h
    rw [read_fields] at h
    by_cases hj : j < 0
    · rw [if_pos hj] at h
      simp at h
    rw [if_neg hj] at h
    cases hcol : st.column_info[j.toNat]? with
    | none => rw [hcol] at h; simp at h
    | some col =>
      rw [hcol] at h
      simp only [] at h
      generalize (if s.delimiter_char_ = ' ' then _ else _ : IStream × Flt × List Char) = r at h
      by_cases c1 : r.1.eofbit = true ∧ j < s.nvars - 1
      · rw [if_pos c1] at h
        cases h
        rfl
      · rw [if_neg c1] at h
        generalize hst : (if s.readSelectionInfo_ = 0 ∨ j < s.nvars - 1 then _ else _ :
          Option (IStream × List Column_Info × List Int)) = stored at h
        have hstored : ∀ ss2 ci rs, stored = some (ss2, ci, rs) → j < s.nvars - 1 →
            ss2.good = true := by
          intro ss2 ci rs he hlt
          rw [he] at hst
          have he0 : r.1.eofbit = false := by
            cases hb : r.1.eofbit with
            | false => rfl
            | true => exact absurd ⟨hb, hlt⟩ c1
          rw [if_pos (Or.inr hlt)] at hst
          by_cases d2 : r.1.failbit = true
          · rw [if_pos d2] at hst
            cases hp : set_point col row s.bad_value_proxy_ with
            | none => rw [hp] at hst; simp at hst
            | some c0 =>
              rw [hp] at hst
              simp only [Option.map_some', Option.some.injEq, Prod.mk.injEq] at hst
              rw [← hst.1]
              rfl
          · rw [if_neg d2] at hst
            have hgood : r.1.good = true := by
              simp only [IStream.good, he0]
              cases hf : r.1.failbit with
              | false => rfl
              | true => exact absurd hf d2
            by_cases d3 : col.hasASCII = 0
            · rw [if_pos d3] at hst
              cases hp : set_point col row (Flt.round32 r.2.1) with
              | none => rw [hp] at hst; simp at hst
              | some c0 =>
                rw [hp] at hst
                simp only [Option.map_some', Option.some.injEq, Prod.mk.injEq] at hst
                rw [← hst.1]
                exact hgood
            · rw [if_neg d3] at hst
              cases hp : set_point (ops.add_value col (String.mk r.2.2)).1 row
                  (Flt.round32 (Flt.ofInt (ops.add_value col (String.mk r.2.2)).2)) with
              | none => rw [hp] at hst; simp at hst
              | some c0 =>
                rw [hp] at hst
                simp only [Option.map_some', Option.some.injEq, Prod.mk.injEq] at hst
                rw [← hst.1]
                exact hgood
        cases stored with
        | none => simp at h
        | some t =>
          obtain ⟨ss2, ci, rs⟩ := t
          simp only [] at h
          by_cases c3 : ss2.good = false ∧ j < s.nvars - 1
          · have hg := hstored ss2 ci rs rfl c3.2
            rw [c3.1] at hg
            simp at hg
          · rw [if_neg c3] at h
            have hi := ih _ _ _ h
            exact hi

/-- The data loop ends with status 0 whenever the count of unreadable lines starts below
the threshold `MAX_NUNREADABLELINES`. -/
theorem data_loop_status (io : NumIO) (ops : ColumnOps) (npoints : Int) :
    ∀ (fuel : Nat) (d d1 : DataState) (status : Int),
      data_loop io ops npoints fuel d = some (status, d1) →
      d.nUnreadableData < d.dfm.MAX_NUNREADABLELINES → status = 0 := by
  intro fuel
  induction fuel with
  | zero =>
    intro d d1 status h _
    rw [data_loop] at h
    by_cases c : d.inStream.eofbit = false ∧ d.nDataRows_ < npoints
    · rw [if_pos c] at h; simp at h
    · rw [if_neg c] at h
      cases h
      rfl
  | succ f ih =>
    intro d d1 status h hmax
    rw [data_loop] at h
    by_cases c : d.inStream.eofbit = false ∧ d.nDataRows_ < npoints
    · rw [if_pos c] at h
      simp only [] at h
      generalize (if d.uReadNextLine = true then d.inStream.getline '\n' d.line
        else (d.inStream, d.line)) = g at h
      by_cases c1 : d.uReadNextLine = true ∧ g.1.eofbit = true
      · rw [if_pos c1] at h
        cases h
        rfl
      · rw [if_neg c1] at h
        by_cases c2 : g.2.length = 0 ∨ starts_with_comment g.2 = true
        · rw [if_pos c2] at h
          have hi := ih _ _ _ h hmax
          exact hi
        · rw [if_neg c2] at h
          generalize ht : (if d.nDataRows_ = 0 then extract_column_types io d.dfm g.2
            else some d.dfm) = t at h
          cases t with
          | none => simp at h
          | some dfm1 =>
            simp only [] at h
            have he1 : dfm1 = { d.dfm with column_info := dfm1.column_info } := by
              by_cases c3 : d.nDataRows_ = 0
              · rw [if_pos c3] at ht
                exact (extract_column_types_frame io _ _ _ ht).2.2
              · rw [if_neg c3] at ht
                cases ht
                rfl
            have hmx : dfm1.MAX_NUNREADABLELINES = d.dfm.MAX_NUNREADABLELINES := by rw [he1]
            generalize hrf : read_fields io ops dfm1 d.nDataRows_ dfm1.nvars.toNat 0 _ = rf at h
            cases rf with
            | none => simp at h
            | some st =>
              simp only [] at h
              have hu := read_fields_unreadable io ops dfm1 d.nDataRows_ _ _ _ _ hrf
              simp only [] at hu
              cases hb : has_bad_data_flag st.column_info dfm1.nDataColumns_ d.nDataRows_ with
              | none => rw [hb] at h; simp at h
              | some flag =>
                rw [hb] at h
                simp only [] at h
                by_cases c4 : d.nTestCycle + 1 ≥ dfm1.MAX_NTESTCYCLES ∧
                    st.nUnreadableData ≥ dfm1.MAX_NUNREADABLELINES
                · exfalso
                  have h4 := c4.2
                  rw [hu, hmx] at h4
                  omega
                · rw [if_neg c4] at h
                  have hi := ih _ _ _ h (by
                    show st.nUnreadableData < dfm1.MAX_NUNREADABLELINES
                    rw [hu, hmx]
                    exact hmax)
                  exact hi
    · rw [if_neg c] at h
      cases h
      rfl

/-- C25: whatever the data lines hold, step 4 of `read_ascii_file_with_headers` and what
follows it never return status 1 when the threshold `MAX_NUNREADABLELINES` is positive:
the count of unreadable lines stays 0, so the test for too much unreadable data never
succeeds. -/
theorem unreadable_lines_never_abort (io : NumIO) (ops : ColumnOps) (answer : Int)
    (h : HeaderState) (uReadNextLine : Bool) (s3 : Data_File_Manager)
    (hmax : 0 < s3.MAX_NUNREADABLELINES) :
    (read_data_block io ops answer h uReadNextLine s3).map (fun r => r.1) ≠ some 1 := by
  unfold read_data_block
  simp only []
  generalize forFirst _ s3.column_info _ = ff
  cases ff with
  | none => simp
  | some ci =>
    simp only []
    generalize hdl : data_loop io ops _ _ _ = dl
    cases dl with
    | none => simp
    | some p =>
      obtain ⟨status, d⟩ := p
      have hs : status = 0 := data_loop_status io ops _ _ _ _ _ hdl hmax
      subst hs
      simp only [finish_read]
      rw [if_neg (by simp)]
      split
      · simp
      · split
        · simp
        · split
          · simp
          · split
            · simp
            · simp

theorem unreadable_lines_never_abort_witness :
    0 < short_lines_labelled.MAX_NUNREADABLELINES ∧
    (read_data_block plain_io numeric_ops 0 short_lines_header true short_lines_labelled).map
      (fun r => r.1) ≠ some 1 :=
  ⟨by decide, unreadable_lines_never_abort plain_io numeric_ops 0 short_lines_header true
    short_lines_labelled (by decide)⟩

/-- The file `a b c / 1 2 3 / 4 5 / 6 7 / 8 9` is read with a test cycle of 2 lines and a
threshold of 1 unreadable line: the label line leaves the state `short_lines_labelled`,
and the read returns status 0 with the single row `1 2 3` and no error message, although
both lines of the second cycle hold two values for three columns. -/
theorem short_lines_read_without_abort :
    column_labels_step plain_io short_lines_start
        (header_loop short_lines_start.nSkipHeaderLines MAX_HEADER_LINES 0
          { inStream := IStream.ofText "a b c\n1 2 3\n4 5\n6 7\n8 9\n".data, line := [],
            lastHeaderLine := [], nRead := 0, nHeaderLines := 0 })
      = some (4, true, short_lines_labelled) ∧
    header_loop short_lines_start.nSkipHeaderLines MAX_HEADER_LINES 0
        { inStream := IStream.ofText "a b c\n1 2 3\n4 5\n6 7\n8 9\n".data, line := [],
          lastHeaderLine := [], nRead := 0, nHeaderLines := 0 } = short_lines_header ∧
    (read_ascii_file_with_headers plain_io numeric_ops
        (some "a b c\n1 2 3\n4 5\n6 7\n8 9\n".data) 0 short_lines_start).map
      (fun r => (r.1, r.2.npoints, r.2.sErrorMessage))
      = some (0, 1, "") ∧
    (read_ascii_file_with_headers plain_io numeric_ops
        (some "a b c\n1 2 3\n4 5\n6 7\n8 9\n".data) 0 short_lines_start).map
      (fun r => r.2.column_info.map (fun c => (c.label, c.points)))
      = some [("a", [Flt.fin 1]), ("b", [Flt.fin 2]), ("c", [Flt.fin 3]),
          ("-nothing-", [])] := by
  refine ⟨?_, ?_, ?_, ?_⟩
  · decide
  · decide
  · decide!
  · decide!

/-! ### Traversal of the upper triangle -/

theorem upper_triangle_calls_add (nvars : Int) :
    ∀ (a b : Nat) (s : TriangleState),
      upper_triangle_calls nvars (a + b) s
        = (upper_triangle_calls nvars a s).bind (upper_triangle_calls nvars b) := by
  intro a
  induction a with
  | zero =>
    intro b s
    simp [upper_triangle_calls]
  | succ a ih =>
    intro b s
    rw [Nat.succ_add]
    simp only [upper_triangle_calls]
    cases upper_triangle_incr nvars s with
    | none => rfl
    | some t => simp only [Option.some_bind, ih]

/-- A call inside a diagonal moves one step down and to the right. -/
theorem upper_triangle_incr_inside (n off i : Nat) (hoff : 1 ≤ off) (hi : i + off + 1 < n) :
    upper_triangle_incr n { i := i, j := (i : Int) + off, offset := off }
      = some { i := ((i + 1 : Nat) : Int), j := ((i + 1 : Nat) : Int) + off, offset := off } := by
  have c1 : ¬ ((i : Int) + (off : Int) + 1 > (n : Int) - 1) := by omega
  have c2 : (i : Int) + 1 ≥ 0 ∧ (i : Int) + (off : Int) + 1 > 0 ∧ (i : Int) + 1 < (n : Int) - 1 ∧
      (i : Int) + (off : Int) + 1 < (n : Int) := by omega
  simp only [upper_triangle_incr, if_neg c1, if_pos c2]
  push_cast
  congr 2
  ring

/-- A call at the end of a diagonal moves to the top of the next one. -/
theorem upper_triangle_incr_next (n off i : Nat) (hoff : 1 ≤ off) (hi : i + off + 1 = n)
    (hlast : off + 1 < n) :
    upper_triangle_incr n { i := i, j := (i : Int) + off, offset := off }
      = some { i := 0, j := (0 : Int) + ((off + 1 : Nat) : Int), offset := ((off + 1 : Nat) : Int) } := by
  have c1 : (i : Int) + (off : Int) + 1 > (n : Int) - 1 := by omega
  have c2 : ¬ ((0 : Int) + ((off : Int) + 1) > (n : Int) - 1) := by omega
  have c3 : (0 : Int) ≥ 0 ∧ (0 : Int) + ((off : Int) + 1) > 0 ∧ (0 : Int) < (n : Int) - 1 ∧
      (0 : Int) + ((off : Int) + 1) < (n : Int) := by omega
  simp only [upper_triangle_incr, if_pos c1, if_neg c2, if_pos c3]
  push_cast
  rfl

/-- A call at the corner starts all over. -/
theorem upper_triangle_incr_corner (n off : Nat) (hoff : 1 ≤ off) (hi : off + 1 = n) :
    upper_triangle_incr n { i := 0, j := (0 : Int) + off, offset := off } = some triangle_start := by
  have c1 : (0 : Int) + (off : Int) + 1 > (n : Int) - 1 := by omega
  have c2 : (0 : Int) + ((off : Int) + 1) > (n : Int) - 1 := by omega
  have c3 : (0 : Int) ≥ 0 ∧ (1 : Int) > 0 ∧ (0 : Int) < (n : Int) - 1 ∧ (1 : Int) < (n : Int) := by
    omega
  simp only [upper_triangle_incr, if_pos c1, if_pos c2, if_pos c3]
  rfl

/-- The states of the calls along one diagonal. -/
theorem upper_triangle_calls_inside (n off : Nat) (hoff : 1 ≤ off) :
    ∀ (m i : Nat), i + m + off < n →
      upper_triangle_calls n m { i := i, j := (i : Int) + off, offset := off }
        = some { i := ((i + m : Nat) : Int), j := ((i + m : Nat) : Int) + off, offset := off } := by
  intro m
  induction m with
  | zero =>
    intro i _
    rfl
  | succ m ih =>
    intro i h
    simp only [upper_triangle_calls]
    rw [upper_triangle_incr_inside n off i hoff (by omega), Option.some_bind, ih (i + 1) (by omega)]
    congr 2 <;> push_cast <;> ring

/-- The states of the first `m` calls, when `a` calls lead from `s` to `t`. -/
theorem upper_triangle_trace_add (nvars : Int) (a b : Nat) (s t : TriangleState)
    (h : upper_triangle_calls nvars a s = some t) :
    (List.range (a + b)).map (fun k => upper_triangle_calls nvars k s)
      = (List.range a).map (fun k => upper_triangle_calls nvars k s)
        ++ (List.range b).map (fun k => upper_triangle_calls nvars k t) := by
  rw [List.range_add, List.map_append, List.map_map]
  congr 1
  apply List.map_congr_left
  intro k _
  simp only [Function.comp]
  rw [upper_triangle_calls_add, h, Option.some_bind]

/-- The states of the calls along one whole diagonal are its pairs. -/
theorem upper_triangle_trace_diagonal (n off : Nat) (hoff : 1 ≤ off) :
    (List.range (n - off)).map
        (fun k => upper_triangle_calls n k { i := 0, j := (0 : Int) + off, offset := off })
      = (diagonal n off).map (fun p => some (pair_state p)) := by
  unfold diagonal
  rw [List.map_map]
  apply List.map_congr_left
  intro k hk
  rw [List.mem_range] at hk
  have h := upper_triangle_calls_inside n off hoff k 0 (by omega)
  simp only [Nat.zero_add, Nat.cast_zero] at h
  rw [h]
  simp only [Function.comp, pair_state]
  congr 2
  ring

/-- From the top of the diagonal `off`, the calls run through the diagonals `off`, ...,
`n - 1` and come back to the start. -/
theorem upper_triangle_diagonals (n : Nat) :
    ∀ (c off : Nat), 1 ≤ off → off + c + 1 = n →
      (List.range ((List.range' off (c + 1)).flatMap (diagonal n)).length).map
          (fun k => upper_triangle_calls n k { i := 0, j := (0 : Int) + off, offset := off })
        = ((List.range' off (c + 1)).flatMap (diagonal n)).map (fun p => some (pair_state p)) ∧
      upper_triangle_calls n ((List.range' off (c + 1)).flatMap (diagonal n)).length
          { i := 0, j := (0 : Int) + off, offset := off } = some triangle_start ∧
      2 * ((List.range' off (c + 1)).flatMap (diagonal n)).length = (c + 1) * (c + 2) := by
  intro c
  induction c with
  | zero =>
    intro off hoff hn
    have hlen : (diagonal n off).length = 1 := by
      unfold diagonal
      simp
      omega
    have hd := upper_triangle_trace_diagonal n off hoff
    have hn1 : n - off = 1 := by omega
    rw [hn1] at hd
    simp only [List.range'_succ, List.range'_zero, List.flatMap_cons, List.flatMap_nil,
      List.append_nil, hlen]
    refine ⟨hd, ?_, by norm_num⟩
    simp only [upper_triangle_calls]
    rw [upper_triangle_incr_corner n off hoff (by omega)]
    rfl
  | succ c ih =>
    intro off hoff hn
    obtain ⟨h1, h2, h3⟩ := ih (off + 1) (by omega) (by omega)
    have hlen : (diagonal n off).length = n - off := by
      unfold diagonal
      simp
    have hd := upper_triangle_trace_diagonal n off hoff
    have hlast : upper_triangle_calls n (n - off) { i := 0, j := (0 : Int) + off, offset := off }
        = some { i := 0, j := (0 : Int) + ((off + 1 : Nat) : Int),
                 offset := ((off + 1 : Nat) : Int) } := by
      have hsplit : n - off = (n - off - 1) + 1 := by omega
      rw [hsplit, upper_triangle_calls_add]
      have h := upper_triangle_calls_inside n off hoff (n - off - 1) 0 (by omega)
      simp only [Nat.zero_add, Nat.cast_zero] at h
      rw [h, Option.some_bind]
      simp only [upper_triangle_calls]
      rw [upper_triangle_incr_next n off (n - off - 1) hoff (by omega) (by omega)]
      rfl
    rw [List.range'_succ, List.flatMap_cons, List.length_append, hlen]
    refine ⟨?_, ?_, ?_⟩
    · rw [upper_triangle_trace_add n _ _ _ _ hlast, List.map_append, hd, h1]
    · rw [upper_triangle_calls_add, hlast, Option.some_bind, h2]
    · have : n - off = c + 2 := by omega
      rw [this]
      nlinarith [h3]

theorem diagonal_pairs_mem (n : Nat) (i j : Int) :
    (i, j) ∈ diagonal_pairs n ↔ 0 ≤ i ∧ i < j ∧ j < n := by
  unfold diagonal_pairs diagonal
  simp only [List.mem_flatMap, List.mem_range'_1, List.mem_map, List.mem_range, Prod.mk.injEq]
  constructor
  · rintro ⟨off, ⟨h1, h2⟩, k, hk, rfl, rfl⟩
    omega
  · rintro ⟨h1, h2, h3⟩
    refine ⟨(j - i).toNat, by omega, i.toNat, by omega, by omega, by omega⟩

theorem diagonal_pairs_nodup (n : Nat) : (diagonal_pairs n).Nodup := by
  unfold diagonal_pairs
  rw [List.nodup_flatMap]
  constructor
  · intro off _
    unfold diagonal
    apply List.Nodup.map _ (List.nodup_range _)
    intro a b hab
    simp only [Prod.mk.injEq] at hab
    omega
  · apply List.Pairwise.imp _ (List.nodup_range' 1 (n - 1))
    intro a b hab
    simp only [Function.onFun, List.Disjoint]
    intro p hpa hpb
    unfold diagonal at hpa hpb
    simp only [List.mem_map, List.mem_range] at hpa hpb
    obtain ⟨x, _, rfl⟩ := hpa
    obtain ⟨y, _, hy⟩ := hpb
    simp only [Prod.mk.injEq] at hy
    apply hab
    omega

/-- C30: for every `nvars >= 2`, from `(i, j) = (0, 1)` with `offset = 1`, every number of
calls of `upper_triangle_incr` returns with `0 <= i < j < nvars`, so that none of the four
assertions fails; the states before the calls of one cycle of `nvars*(nvars-1)/2` calls
are the pairs of the upper triangle by successive diagonals, each diagonal from the top
left down and to the right, with `offset = j - i`; this list holds every pair `i < j`
exactly once; and the last call of the cycle returns to `(0, 1)` with `offset = 1`, after
which the calls repeat. -/
theorem upper_triangle_cycle (nvars : Nat) (h2 : 2 ≤ nvars) :
    (∀ k, ∃ s, upper_triangle_calls nvars k triangle_start = some s ∧
      0 ≤ s.i ∧ s.i < s.j ∧ s.j < nvars) ∧
    (diagonal_pairs nvars).length = nvars * (nvars - 1) / 2 ∧
    (List.range (nvars * (nvars - 1) / 2)).map
        (fun k => upper_triangle_calls nvars k triangle_start)
      = (diagonal_pairs nvars).map (fun p => some (pair_state p)) ∧
    (diagonal_pairs nvars).Nodup ∧
    (∀ i j : Int, (i, j) ∈ diagonal_pairs nvars ↔ 0 ≤ i ∧ i < j ∧ j < nvars) ∧
    upper_triangle_calls nvars (nvars * (nvars - 1) / 2) triangle_start = some triangle_start ∧
    (∀ k, upper_triangle_calls nvars (nvars * (nvars - 1) / 2 + k) triangle_start
      = upper_triangle_calls nvars k triangle_start) := by
  obtain ⟨h1, hback, hlen2⟩ := upper_triangle_diagonals nvars (nvars - 2) 1 (le_refl 1) (by omega)
  have hc : nvars - 2 + 1 = nvars - 1 := by omega
  rw [hc] at h1 hback hlen2
  have hlen : (diagonal_pairs nvars).length = nvars * (nvars - 1) / 2 := by
    have hn2 : nvars - 2 + 2 = nvars := by omega
    have hmul : nvars * (nvars - 1) = 2 * (diagonal_pairs nvars).length := by
      unfold diagonal_pairs
      rw [hlen2, hn2, Nat.mul_comm]
    rw [hmul]
    simp
  have hstart : ({ i := 0, j := (0 : Int) + ((1 : Nat) : Int), offset := ((1 : Nat) : Int) }
      : TriangleState) = triangle_start := rfl
  rw [hstart] at h1 hback
  have h1p : (List.range (diagonal_pairs nvars).length).map
      (fun k => upper_triangle_calls nvars k triangle_start)
      = (diagonal_pairs nvars).map (fun p => some (pair_state p)) := h1
  have hbackp : upper_triangle_calls nvars (diagonal_pairs nvars).length triangle_start
      = some triangle_start := hback
  rw [hlen] at h1p hbackp
  have hperiod : ∀ k, upper_triangle_calls nvars (nvars * (nvars - 1) / 2 + k) triangle_start
      = upper_triangle_calls nvars k triangle_start := by
    intro k
    rw [upper_triangle_calls_add, hbackp, Option.some_bind]
  have hmem := diagonal_pairs_mem nvars
  have hTpos : 0 < nvars * (nvars - 1) / 2 := by
    rw [← hlen]
    apply List.length_pos_of_mem
    exact (hmem 0 1).mpr ⟨le_refl 0, by norm_num, by exact_mod_cast h2⟩
  have hfirst : ∀ k, k < nvars * (nvars - 1) / 2 →
      ∃ s, upper_triangle_calls nvars k triangle_start = some s ∧
        0 ≤ s.i ∧ s.i < s.j ∧ s.j < nvars := by
    intro k hk
    have hk2 : k < (diagonal_pairs nvars).length := by rw [hlen]; exact hk
    have he := congrArg (fun l => l[k]?) h1p
    simp only [List.getElem?_map, List.getElem?_range hk, Option.map_some',
      List.getElem?_eq_getElem hk2] at he
    refine ⟨pair_state (diagonal_pairs nvars)[k], Option.some.inj he, ?_⟩
    have hm := (hmem (diagonal_pairs nvars)[k].1 (diagonal_pairs nvars)[k].2).mp
      (List.getElem_mem hk2)
    exact hm
  refine ⟨?_, hlen, h1p, diagonal_pairs_nodup nvars, hmem, hbackp, hperiod⟩
  intro k
  induction k using Nat.strong_induction_on with
  | _ k ih =>
    by_cases hk : k < nvars * (nvars - 1) / 2
    · exact hfirst k hk
    · have hsplit : k = nvars * (nvars - 1) / 2 + (k - nvars * (nvars - 1) / 2) := by omega
      rw [hsplit, hperiod]
      exact ih _ (by omega)

theorem upper_triangle_cycle_witness :
    (∀ k, ∃ s, upper_triangle_calls (4 : Nat) k triangle_start = some s ∧
      0 ≤ s.i ∧ s.i < s.j ∧ s.j < (4 : Nat)) ∧
    (diagonal_pairs 4).length = 4 * (4 - 1) / 2 ∧
    (List.range (4 * (4 - 1) / 2)).map
        (fun k => upper_triangle_calls (4 : Nat) k triangle_start)
      = (diagonal_pairs 4).map (fun p => some (pair_state p)) ∧
    (diagonal_pairs 4).Nodup ∧
    (∀ i j : Int, (i, j) ∈ diagonal_pairs 4 ↔ 0 ≤ i ∧ i < j ∧ j < (4 : Nat)) ∧
    upper_triangle_calls (4 : Nat) (4 * (4 - 1) / 2) triangle_start = some triangle_start ∧
    (∀ k, upper_triangle_calls (4 : Nat) (4 * (4 - 1) / 2 + k) triangle_start
      = upper_triangle_calls (4 : Nat) k triangle_start) :=
  upper_triangle_cycle 4 (by decide)

/-- For four variables the calls visit (0,1), (1,2), (2,3), (0,2), (1,3), (0,3) and come
back to (0,1). -/
theorem upper_triangle_four :
    diagonal_pairs 4 = [(0, 1), (1, 2), (2, 3), (0, 2), (1, 3), (0, 3)] ∧
    (List.range 7).map (fun k => (upper_triangle_calls 4 k triangle_start).map
        (fun s => (s.i, s.j, s.offset)))
      = [some (0, 1, 1), some (1, 2, 1), some (2, 3, 1), some (0, 2, 2), some (1, 3, 2),
         some (0, 3, 3), some (0, 1, 1)] := by
  constructor <;> decide

/-! ### Deleting the selected points -/

/-- C28 (counterexample): three variables, one plot of the first two, three points of
which the second is selected.  `delete_selection` keeps the first and the third point and
resets the selection, but on return the two plotted variables are marked ranked again, the
plot having ranked them afresh: `ranked` is 1, 1, 0. -/
theorem plotted_columns_ranked_after_delete :
    (delete_selection (fun _ s => s) three_points).map
      (fun s => (s.npoints, s.points.map (fun row => row.take 2), s.ranked, s.ranked_points))
      = some (2, [[Flt.fin 5, Flt.fin 3], [Flt.fin 10, Flt.fin 30], [Flt.fin 7, Flt.fin 9]],
          [1, 1, 0], [[1, 0, 0], [0, 1, 2], [0, 0, 0]]) ∧
    (delete_selection (fun _ s => s) three_points).map
      (fun s => (s.selected, s.previously_selected, s.newly_selected, s.nselected))
      = some ([0, 0, 0], [0, 0, 0], [0, 0, 0], 0) := by
  constructor <;> decide

theorem compact_row_length (selected : List Int) :
    ∀ (count n ipoint : Nat) (row : List Flt),
      (compact_row selected count n ipoint row).length = row.length := by
  intro count
  induction count with
  | zero =>
    intro n ipoint row
    rfl
  | succ c ih =>
    intro n ipoint row
    rw [compact_row]
    by_cases h : selected.getD n 1 = 0
    · rw [if_pos h, ih, List.length_set]
    · rw [if_neg h, ih]

/-- The loop moves the values of the points that are kept to the front of the row, in
order, behind the `ipoint` values that are there. -/
theorem compact_row_take (selected : List Int) :
    ∀ (count n ipoint : Nat) (row : List Flt), ipoint ≤ n → n + count ≤ row.length →
      (compact_row selected count n ipoint row).take
          (ipoint + ((List.range' n count).filter
            (fun m => decide (selected.getD m 1 = 0))).length)
        = row.take ipoint ++ ((List.range' n count).filter
            (fun m => decide (selected.getD m 1 = 0))).map (fun m => row.getD m Flt.nan) := by
  intro count
  induction count with
  | zero =>
    intro n ipoint row _ _
    simp [compact_row]
  | succ c ih =>
    intro n ipoint row hle hlen
    rw [compact_row, List.range'_succ]
    by_cases h : selected.getD n 1 = 0
    · rw [if_pos h, List.filter_cons_of_pos (by simpa using h)]
      have hi := ih (n + 1) (ipoint + 1) (row.set ipoint (row.getD n Flt.nan)) (by omega)
        (by rw [List.length_set]; omega)
      have hk : ipoint + ((n :: (List.range' (n + 1) c).filter
          (fun m => decide (selected.getD m 1 = 0))).length)
          = ipoint + 1 + ((List.range' (n + 1) c).filter
            (fun m => decide (selected.getD m 1 = 0))).length := by
        simp only [List.length_cons]
        omega
      rw [hk, hi]
      have htake : (row.set ipoint (row.getD n Flt.nan)).take (ipoint + 1)
          = row.take ipoint ++ [row.getD n Flt.nan] := by
        rw [List.set_eq_take_append_cons_drop, if_pos (by omega)]
        have : List.take ipoint row ++ row.getD n Flt.nan :: List.drop (ipoint + 1) row
            = (List.take ipoint row ++ [row.getD n Flt.nan]) ++ List.drop (ipoint + 1) row := by
          simp
        rw [this]
        apply List.take_left'
        simp
        omega
      rw [htake, List.map_cons, List.append_assoc, List.singleton_append]
      congr 2
      apply List.map_congr_left
      intro m hm
      rw [List.mem_filter, List.mem_range'_1] at hm
      rw [List.getD_eq_getElem?_getD, List.getElem?_set_ne (by omega),
        ← List.getD_eq_getElem?_getD]
    · rw [if_neg h, List.filter_cons_of_neg (by simpa using h)]
      exact ih (n + 1) ipoint row (by omega) (by omega)

/-- The loop of `delete_selection` returns the number of points that are kept, and treats
the row of every variable in the same way. -/
theorem delete_loop_rows (nvars : Nat) (selected : List Int) :
    ∀ (count n ipoint : Nat) (points : List (List Flt)), ipoint ≤ n →
      n + count ≤ selected.length → nvars ≤ points.length →
      (∀ row ∈ points.take nvars, n + count ≤ row.length) →
      delete_loop nvars selected count n ipoint points
        = some (ipoint + ((List.range' n count).filter
            (fun m => decide (selected.getD m 1 = 0))).length,
          (points.take nvars).map (compact_row selected count n ipoint)
            ++ points.drop nvars) := by
  intro count
  induction count with
  | zero =>
    intro n ipoint points _ _ _ _
    have hid : (points.take nvars).map (compact_row selected 0 n ipoint) = points.take nvars := by
      apply List.map_id''
      intro row
      rfl
    simp only [delete_loop, List.range'_zero, List.filter_nil, List.length_nil, Nat.add_zero,
      hid, List.take_append_drop]
  | succ c ih =>
    intro n ipoint points hle hsel hnv hrows
    rw [delete_loop, List.getElem?_eq_getElem (by omega : n < selected.length)]
    simp only []
    have hflag : selected.getD n 1 = selected[n] := List.getD_eq_getElem _ _ (by omega)
    by_cases h : selected[n] = 0
    · rw [if_pos h]
      have hcopy : copy_point nvars points ipoint n
          = some ((points.take nvars).map (fun row => row.set ipoint (row.getD n Flt.nan))
            ++ points.drop nvars) := by
        unfold copy_point
        rw [if_pos]
        refine ⟨hnv, ?_⟩
        rw [List.all_eq_true]
        intro row hrow
        have := hrows row hrow
        simp only [decide_eq_true_eq]
        omega
      rw [hcopy]
      simp only []
      have hlen1 : ((points.take nvars).map
          (fun row => row.set ipoint (row.getD n Flt.nan))).length = nvars := by
        simp
        omega
      rw [ih (n + 1) (ipoint + 1) _ (by omega) (by omega) (by simp; omega) (by
        rw [List.take_left' hlen1]
        intro row hrow
        rw [List.mem_map] at hrow
        obtain ⟨r0, hr0, rfl⟩ := hrow
        rw [List.length_set]
        have := hrows r0 hr0
        omega)]
      rw [List.take_left' hlen1, List.drop_left' hlen1, List.map_map, List.range'_succ,
        List.filter_cons_of_pos (by rw [hflag]; simpa using h)]
      congr 2
      · simp only [List.length_cons]
        omega
      · congr 1
        apply List.map_congr_left
        intro row _
        simp only [Function.comp]
        rw [compact_row, if_pos (by rw [hflag]; exact h)]
    · rw [if_neg h]
      rw [ih (n + 1) ipoint points (by omega) (by omega) hnv (by
        intro row hrow
        have := hrows row hrow
        omega)]
      rw [List.range'_succ, List.filter_cons_of_neg (by rw [hflag]; simpa using h)]
      congr 2
      congr 1
      apply List.map_congr_left
      intro row _
      rw [compact_row, if_neg (by rw [hflag]; exact h)]

/-- Drawing the plots changes nothing when no plot has a change of selection to handle. -/
theorem redraw_all_plots_same (hs : Nat → PointsState → PointsState) (p : Nat)
    (s : PointsState) (hflags : ∀ pw ∈ s.pws, pw.selection_changed = false) :
    redraw_all_plots hs p s = some s := by
  unfold redraw_all_plots
  have hstep : ∀ (L : List Nat), (L = [] ∨ 0 < s.pws.length) →
      L.foldlM (fun (t : PointsState) (i : Nat) => redraw_plot hs ((p + i) % s.pws.length) t) s
        = some s := by
    intro L
    induction L with
    | nil => intro _; rfl
    | cons i L ih =>
      intro hpos
      have hlen : 0 < s.pws.length := by
        cases hpos with
        | inl h => simp at h
        | inr h => exact h
      have hj : (p + i) % s.pws.length < s.pws.length := Nat.mod_lt _ hlen
      have hdraw : redraw_plot hs ((p + i) % s.pws.length) s = some s := by
        unfold redraw_plot
        rw [List.getElem?_eq_getElem hj]
        simp only []
        rw [hflags _ (List.getElem_mem hj)]
        rfl
      rw [List.foldlM_cons, hdraw]
      exact ih (Or.inr hlen)
  apply hstep
  by_cases h : s.pws.length = 0
  · left
    rw [h]
    rfl
  · right
    omega

theorem ranked_on_congr (s0 t : PointsState) (A B : List Nat) (h : ∀ v, v ∈ A ↔ v ∈ B)
    (hinv : ranked_on s0 t A) : ranked_on s0 t B := by
  obtain ⟨i1, i2, i3, i4, i5, i6, i7, i8, i9, i10, i11⟩ := hinv
  refine ⟨i1, i2, i3, i4, i5, i6, i7, i8, i9, i10, ?_⟩
  intro v hv
  rw [i11 v hv]
  by_cases hm : v ∈ A
  · rw [if_pos hm, if_pos ((h v).mp hm)]
  · rw [if_neg hm, if_neg (fun hb => hm ((h v).mpr hb))]

theorem kept_points_length_le (selected : List Int) (n : Nat) :
    (kept_points selected n).length ≤ n := by
  unfold kept_points
  calc ((List.range n).filter _).length ≤ (List.range n).length := List.length_filter_le _ _
    _ = n := List.length_range n

/-- What `delete_selection` does once its loop has left `ipoint` and `points`. -/
theorem delete_selection_after_loop (hs : Nat → PointsState → PointsState) (s : PointsState)
    (ipoint : Nat) (points : List (List Flt))
    (hloop : delete_loop s.nvars.toNat s.selected s.npoints.toNat 0 0 s.points
      = some (ipoint, points)) :
    delete_selection hs s =
      if (ipoint : Int) ≠ s.npoints then
        match clear_selection hs
            { s with points := points, ranked := fillArray 0 s.ranked, npoints := ipoint } with
        | none => none
        | some s1 =>
          (List.range s1.pws.length).foldlM
            (fun (t : PointsState) (j : Nat) => extract_data_points j t) s1
      else some { s with points := points } := by
  unfold delete_selection
  rw [hloop]

/-- The function `clear_selection` resets the selection and changes nothing else when no
plot has a change of selection to handle. -/
theorem clear_selection_resets (hs : Nat → PointsState → PointsState) (s : PointsState)
    (hplots : s.pws ≠ []) (hflags : ∀ pw ∈ s.pws, pw.selection_changed = false) :
    clear_selection hs s = some
      { s with newly_selected := fillArray 0 s.newly_selected
               selected := fillArray 0 s.selected
               previously_selected := fillArray 0 s.previously_selected
               nselected := 0 } := by
  unfold clear_selection
  rw [if_neg (fun h0 => hplots (List.length_eq_zero.mp h0))]
  exact redraw_all_plots_same hs 0 _ hflags

/-- Ranking a variable marks it and changes nothing else but its row of the rank cache,
whose length stays; a variable that is ranked already is read from the cache and nothing
changes. -/
theorem rank_axis_any (s0 t : PointsState) (A : List Nat) (axis : Nat) (a_rank : List Nat)
    (row : List Flt) (crow : List Nat) (hinv : ranked_on s0 t A) (h1 : 1 ≤ s0.npoints)
    (hrow : s0.points[axis]? = some row) (hlen : s0.npoints.toNat ≤ row.length)
    (haxis : axis < s0.ranked.length) (hcache : s0.ranked_points.length = s0.ranked.length)
    (hcrow : s0.ranked_points[axis]? = some crow) (hroom : s0.npoints.toNat ≤ crow.length)
    (hrank : s0.npoints.toNat ≤ a_rank.length) (hfit : a_rank.length ≤ crow.length) :
    ∃ r t1, rank_axis t axis a_rank = some (r, t1) ∧ ranked_on s0 t1 (axis :: A) ∧
      t1.pws = t.pws := by
  obtain ⟨i1, i2, i3, i4, i5, i6, i7, i8, i9, i10, i11⟩ := hinv
  have hlt : axis < t.ranked_points.length := by omega
  have hrp : t.ranked_points[axis]? = some t.ranked_points[axis] := List.getElem?_eq_getElem hlt
  have hrl : t.ranked_points[axis].length = crow.length := by
    have := i10 axis
    rw [hrp, hcrow] at this
    simpa using this
  by_cases hin : axis ∈ A
  · have hr : t.ranked[axis]? = some 1 := by
      rw [i11 axis haxis, if_pos hin]
    have hval : rank_axis t axis a_rank
        = some (t.ranked_points[axis].take a_rank.length, t) := by
      have hrow1 : t.points[axis]? = some row := by rw [i3]; exact hrow
      unfold rank_axis
      rw [hrow1]
      simp only [compute_rank, hr, hrp]
      rw [if_neg (by
        rw [List.length_take, i2]
        omega)]
      rw [if_neg (by decide), if_pos (by omega)]
      simp only []
      rw [if_neg (by omega)]
    refine ⟨_, _, hval, ?_, rfl⟩
    refine ⟨i1, i2, i3, i4, i5, i6, i7, i8, i9, i10, ?_⟩
    intro v hv
    rw [i11 v hv]
    by_cases hm : v ∈ A
    · rw [if_pos hm, if_pos (List.mem_cons_of_mem _ hm)]
    · have hne : v ≠ axis := fun h => hm (h ▸ hin)
      rw [if_neg hm, if_neg (by
        rw [List.mem_cons]
        exact fun h => h.elim hne hm)]
  · have hr : t.ranked[axis]? = some 0 := by
      rw [i11 axis haxis, if_neg hin]
    have hsorted : (stable_sort (myCompare (row.take t.npoints.toNat))
        (List.range t.npoints.toNat)).length = s0.npoints.toNat := by
      rw [(stable_sort_perm _ _).length_eq, List.length_range, i2]
    have hval : rank_axis t axis a_rank = some
        (stable_sort (myCompare (row.take t.npoints.toNat)) (List.range t.npoints.toNat)
            ++ a_rank.drop t.npoints.toNat,
          { t with
            ranked := t.ranked.set axis 1
            ranked_points := t.ranked_points.set axis
              ((stable_sort (myCompare (row.take t.npoints.toNat)) (List.range t.npoints.toNat)
                  ++ a_rank.drop t.npoints.toNat).take t.npoints.toNat
                ++ t.ranked_points[axis].drop t.npoints.toNat) }) := by
      unfold rank_axis
      rw [i3, hrow]
      simp only [compute_rank, hr, hrp]
      rw [if_neg (by
        rw [List.length_take, i2]
        omega)]
      rw [if_pos trivial]
      simp only []
      rw [if_neg (by omega)]
    refine ⟨_, _, hval, ?_, rfl⟩
    refine ⟨i1, i2, i3, i4, i5, i6, i7, ?_, ?_, ?_, ?_⟩
    · simp only [List.length_set]
      exact i8
    · simp only [List.length_set]
      exact i9
    · intro v
      simp only []
      by_cases hva : axis = v
      · subst hva
        rw [List.getElem?_set_self hlt, ← i10 axis, hrp]
        have hn : t.npoints.toNat = s0.npoints.toNat := by rw [i2]
        simp only [Option.map_some', List.length_append, List.length_take, List.length_drop,
          hsorted, Option.some.injEq]
        omega
      · rw [List.getElem?_set_ne hva]
        exact i10 v
    · intro v hv
      simp only []
      by_cases hva : axis = v
      · subst hva
        rw [List.getElem?_set_self (by omega), if_pos (List.mem_cons_self _ _)]
      · rw [List.getElem?_set_ne hva, i11 v hv]
        have hiff : v ∈ axis :: A ↔ v ∈ A := by
          rw [List.mem_cons]
          constructor
          · intro h
            cases h with
            | inl h => exact absurd h.symm hva
            | inr h => exact h
          · exact Or.inr
        by_cases hm : v ∈ A
        · rw [if_pos hm, if_pos (hiff.mpr hm)]
        · rw [if_neg hm, if_neg (fun h => hm (hiff.mp h))]

/-- The plot `j` ranks the variables on its axes, reading from the cache those that are
ranked already, and changes nothing else but its own rank arrays. -/
theorem extract_data_points_any (s0 t : PointsState) (j : Nat) (pw : PlotAxes) (A : List Nat)
    (hinv : ranked_on s0 t A) (h1 : 1 ≤ s0.npoints) (hpw : t.pws[j]? = some pw)
    (hrows : ∀ v : Nat, v < s0.ranked.length →
      ∃ row, s0.points[v]? = some row ∧ s0.npoints.toNat ≤ row.length)
    (hcache : s0.ranked_points.length = s0.ranked.length)
    (hcrows : ∀ crow ∈ s0.ranked_points, s0.npoints.toNat ≤ crow.length ∧
      pw.x_rank.length ≤ crow.length ∧ pw.y_rank.length ≤ crow.length ∧
      pw.z_rank.length ≤ crow.length)
    (haxes : ∀ a ∈ plot_axes s0.nvars pw, a < s0.ranked.length)
    (hx : s0.npoints.toNat ≤ pw.x_rank.length) (hy : s0.npoints.toNat ≤ pw.y_rank.length)
    (hz : s0.npoints.toNat ≤ pw.z_rank.length) :
    ∃ t1, extract_data_points j t = some t1 ∧
      ranked_on s0 t1 (plot_axes s0.nvars pw ++ A) ∧
      t1.pws.length = t.pws.length ∧ ∀ i : Nat, i ≠ j → t1.pws[i]? = t.pws[i]? := by
  have hnv : t.nvars = s0.nvars := hinv.1
  have hcr : ∀ v : Nat, v < s0.ranked.length → ∃ crow, s0.ranked_points[v]? = some crow ∧
      s0.npoints.toNat ≤ crow.length ∧ pw.x_rank.length ≤ crow.length ∧
      pw.y_rank.length ≤ crow.length ∧ pw.z_rank.length ≤ crow.length := by
    intro v hv
    have hv2 : v < s0.ranked_points.length := by omega
    exact ⟨s0.ranked_points[v], List.getElem?_eq_getElem hv2,
      hcrows _ (List.getElem_mem hv2)⟩
  unfold extract_data_points
  rw [hpw]
  simp only []
  by_cases h2 : (pw.axis2 : Int) ≠ s0.nvars
  · have hax : plot_axes s0.nvars pw = [pw.axis0, pw.axis1, pw.axis2] := by
      unfold plot_axes
      rw [if_pos h2]
    rw [hax] at haxes
    have a0 := haxes pw.axis0 (by simp)
    have a1 := haxes pw.axis1 (by simp)
    have a2 := haxes pw.axis2 (by simp)
    obtain ⟨r0, hr0, hl0⟩ := hrows _ a0
    obtain ⟨r1, hr1, hl1⟩ := hrows _ a1
    obtain ⟨r2, hr2, hl2⟩ := hrows _ a2
    obtain ⟨c0, hc0, hn0, hx0, _, _⟩ := hcr _ a0
    obtain ⟨c1, hc1, hn1, _, hy1, _⟩ := hcr _ a1
    obtain ⟨c2, hc2, hn2, _, _, hz2⟩ := hcr _ a2
    obtain ⟨xr, t1, e1, inv1, p1⟩ := rank_axis_any s0 t A pw.axis0 pw.x_rank r0 c0 hinv h1
      hr0 hl0 a0 hcache hc0 hn0 hx hx0
    obtain ⟨yr, t2, e2, inv2, p2⟩ := rank_axis_any s0 t1 (pw.axis0 :: A) pw.axis1 pw.y_rank r1
      c1 inv1 h1 hr1 hl1 a1 hcache hc1 hn1 hy hy1
    obtain ⟨zr, t3, e3, inv3, p3⟩ := rank_axis_any s0 t2 (pw.axis1 :: pw.axis0 :: A) pw.axis2
      pw.z_rank r2 c2 inv2 h1 hr2 hl2 a2 hcache hc2 hn2 hz hz2
    rw [e1]
    simp only []
    rw [e2]
    simp only []
    rw [if_pos (by rw [hnv]; exact h2), e3]
    simp only []
    refine ⟨_, rfl, ?_, ?_, ?_⟩
    · rw [hax]
      apply ranked_on_congr s0 _ (pw.axis2 :: pw.axis1 :: pw.axis0 :: A)
      · intro v
        simp only [List.mem_cons, List.mem_append, List.not_mem_nil, or_false]
        tauto
      · exact inv3
    · simp only [List.length_set]
      rw [p3, p2, p1]
    · intro i hi
      simp only []
      rw [List.getElem?_set_ne (fun h => hi h.symm), p3, p2, p1]
  · have hax : plot_axes s0.nvars pw = [pw.axis0, pw.axis1] := by
      unfold plot_axes
      rw [if_neg h2]
    rw [hax] at haxes
    have a0 := haxes pw.axis0 (by simp)
    have a1 := haxes pw.axis1 (by simp)
    obtain ⟨r0, hr0, hl0⟩ := hrows _ a0
    obtain ⟨r1, hr1, hl1⟩ := hrows _ a1
    obtain ⟨c0, hc0, hn0, hx0, _, _⟩ := hcr _ a0
    obtain ⟨c1, hc1, hn1, _, hy1, _⟩ := hcr _ a1
    obtain ⟨xr, t1, e1, inv1, p1⟩ := rank_axis_any s0 t A pw.axis0 pw.x_rank r0 c0 hinv h1
      hr0 hl0 a0 hcache hc0 hn0 hx hx0
    obtain ⟨yr, t2, e2, inv2, p2⟩ := rank_axis_any s0 t1 (pw.axis0 :: A) pw.axis1 pw.y_rank r1
      c1 inv1 h1 hr1 hl1 a1 hcache hc1 hn1 hy hy1
    rw [e1]
    simp only []
    rw [e2]
    simp only []
    rw [if_neg (by rw [hnv]; exact h2)]
    refine ⟨_, rfl, ?_, ?_, ?_⟩
    · rw [hax]
      apply ranked_on_congr s0 _ (pw.axis1 :: pw.axis0 :: A)
      · intro v
        simp only [List.mem_cons, List.mem_append, List.not_mem_nil, or_false]
        tauto
      · exact inv2
    · simp only [List.length_set]
      rw [p2, p1]
    · intro i hi
      simp only []
      rw [List.getElem?_set_ne (fun h => hi h.symm), p2, p1]

/-- The loop over the plots at the end of `delete_selection`: when no variable is ranked,
the plots rank the variables on their axes and change nothing else but their rank
arrays. -/
theorem extract_all_plots (s0 : PointsState) (h1 : 1 ≤ s0.npoints)
    (hrows : ∀ v : Nat, v < s0.ranked.length →
      ∃ row, s0.points[v]? = some row ∧ s0.npoints.toNat ≤ row.length)
    (hcache : s0.ranked_points.length = s0.ranked.length)
    (hcrows : ∀ crow ∈ s0.ranked_points, s0.npoints.toNat ≤ crow.length ∧
      ∀ pw ∈ s0.pws, pw.x_rank.length ≤ crow.length ∧ pw.y_rank.length ≤ crow.length ∧
        pw.z_rank.length ≤ crow.length)
    (hzero : ∀ v : Nat, v < s0.ranked.length → s0.ranked[v]? = some 0)
    (haxes : ∀ pw ∈ s0.pws, ∀ a ∈ plot_axes s0.nvars pw, a < s0.ranked.length)
    (hranks : ∀ pw ∈ s0.pws, s0.npoints.toNat ≤ pw.x_rank.length ∧
      s0.npoints.toNat ≤ pw.y_rank.length ∧ s0.npoints.toNat ≤ pw.z_rank.length) :
    ∀ k : Nat, k ≤ s0.pws.length →
      ∃ t, (List.range k).foldlM (fun (t : PointsState) (j : Nat) => extract_data_points j t) s0
          = some t ∧
        ranked_on s0 t ((s0.pws.take k).flatMap (plot_axes s0.nvars)) ∧
        t.pws.length = s0.pws.length ∧ ∀ i : Nat, k ≤ i → t.pws[i]? = s0.pws[i]? := by
  intro k
  induction k with
  | zero =>
    intro _
    refine ⟨s0, rfl, ?_, rfl, fun _ _ => rfl⟩
    refine ⟨rfl, rfl, rfl, rfl, rfl, rfl, rfl, rfl, rfl, fun _ => rfl, ?_⟩
    intro v hv
    rw [hzero v hv]
    simp
  | succ k ih =>
    intro hk
    obtain ⟨t, hfold, hinv, hlen, hrest⟩ := ih (by omega)
    have hklt : k < s0.pws.length := by omega
    have hpw : t.pws[k]? = some s0.pws[k] := by
      rw [hrest k (le_refl k), List.getElem?_eq_getElem hklt]
    have hmem : s0.pws[k] ∈ s0.pws := List.getElem_mem hklt
    obtain ⟨hx, hy, hz⟩ := hranks _ hmem
    obtain ⟨t1, e1, inv1, len1, rest1⟩ := extract_data_points_any s0 t k s0.pws[k] _ hinv h1 hpw
      hrows hcache (fun crow hc => ⟨(hcrows crow hc).1, (hcrows crow hc).2 _ hmem⟩)
      (haxes _ hmem) hx hy hz
    refine ⟨t1, ?_, ?_, len1.trans hlen, ?_⟩
    · rw [List.range_succ, List.foldlM_append, hfold]
      simp only [Option.bind_eq_bind, Option.some_bind, List.foldlM_cons, List.foldlM_nil]
      rw [e1]
      rfl
    · apply ranked_on_congr s0 t1 _ _ _ inv1
      intro v
      rw [List.take_succ, List.getElem?_eq_getElem hklt, List.flatMap_append]
      simp only [Option.toList_some, List.flatMap_cons, List.flatMap_nil, List.append_nil,
        List.mem_append]
      tauto
    · intro i hi
      rw [rest1 i (by omega), hrest i (by omega)]
/-- C28 (amended): in a state whose arrays have room for the points and the variables
(`selected` and the rows of `points` hold `npoints` elements at least, `points`, `ranked`
and the rank cache hold `nvars` rows, the rank arrays of the plots hold `npoints` elements
at least and are not longer than the rows of the rank cache, and the variables on the axes
are below `nvars`), with at least one plot, no plot with a change of selection to handle,
and at least one point that is not selected, `delete_selection` returns; `npoints` becomes
the number of points whose flag in `selected` is 0; for every variable the first `npoints`
values are then the values of these points, in their original order; and when a point was
removed, `selected`, `previously_selected` and `newly_selected` are 0 everywhere,
`nselected` is 0, and on return exactly the variables that are on an axis of some plot are
marked ranked, the others being marked unranked.  When no point was removed, the ranking
and the selection are left as they were. -/
theorem delete_selection_keeps_unselected (hs : Nat → PointsState → PointsState)
    (s : PointsState)
    (hsel : s.npoints.toNat ≤ s.selected.length)
    (hvars : s.nvars.toNat ≤ s.points.length)
    (hrows : ∀ row ∈ s.points.take s.nvars.toNat, s.npoints.toNat ≤ row.length)
    (hranked : s.ranked.length = s.nvars.toNat)
    (hcache : s.ranked_points.length = s.nvars.toNat)
    (hplots : s.pws ≠ [])
    (hflags : ∀ pw ∈ s.pws, pw.selection_changed = false)
    (haxes : ∀ pw ∈ s.pws, ∀ a ∈ plot_axes s.nvars pw, a < s.nvars.toNat)
    (hranks : ∀ pw ∈ s.pws, s.npoints.toNat ≤ pw.x_rank.length ∧
      s.npoints.toNat ≤ pw.y_rank.length ∧ s.npoints.toNat ≤ pw.z_rank.length)
    (hfit : ∀ pw ∈ s.pws, ∀ crow ∈ s.ranked_points, pw.x_rank.length ≤ crow.length ∧
      pw.y_rank.length ≤ crow.length ∧ pw.z_rank.length ≤ crow.length)
    (hkept : kept_points s.selected s.npoints.toNat ≠ []) :
    ∃ s1, delete_selection hs s = some s1 ∧
      s1.nvars = s.nvars ∧
      s1.npoints = ((kept_points s.selected s.npoints.toNat).length : Int) ∧
      (∀ v : Nat, v < s.nvars.toNat → ∃ row row1, s.points[v]? = some row ∧
        s1.points[v]? = some row1 ∧ row1.length = row.length ∧
        row1.take (kept_points s.selected s.npoints.toNat).length
          = (kept_points s.selected s.npoints.toNat).map (fun n => row.getD n Flt.nan)) ∧
      (((kept_points s.selected s.npoints.toNat).length : Int) ≠ s.npoints →
        s1.selected = fillArray 0 s.selected ∧
        s1.previously_selected = fillArray 0 s.previously_selected ∧
        s1.newly_selected = fillArray 0 s.newly_selected ∧ s1.nselected = 0 ∧
        ∀ v : Nat, v < s.nvars.toNat →
          s1.ranked[v]? = some (if v ∈ s.pws.flatMap (plot_axes s.nvars) then 1 else 0)) ∧
      (((kept_points s.selected s.npoints.toNat).length : Int) = s.npoints →
        s1.selected = s.selected ∧ s1.previously_selected = s.previously_selected ∧
        s1.newly_selected = s.newly_selected ∧ s1.nselected = s.nselected ∧
        s1.ranked = s.ranked ∧ s1.ranked_points = s.ranked_points) := by
  have hcrows : ∀ crow ∈ s.ranked_points, s.npoints.toNat ≤ crow.length := by
    intro crow hc
    obtain ⟨pw, hpw⟩ := List.exists_mem_of_ne_nil _ hplots
    have h1 := (hranks pw hpw).1
    have h2 := (hfit pw hpw crow hc).1
    omega
  have hloop := delete_loop_rows s.nvars.toNat s.selected s.npoints.toNat 0 0 s.points
    (le_refl 0) (by omega) hvars (by
      intro row hrow
      have := hrows row hrow
      omega)
  rw [← List.range_eq_range', Nat.zero_add] at hloop
  have hkp : (List.range s.npoints.toNat).filter (fun m => decide (s.selected.getD m 1 = 0))
      = kept_points s.selected s.npoints.toNat := rfl
  rw [hkp] at hloop
  have hK := kept_points_length_le s.selected s.npoints.toNat
  have hKpos : 0 < (kept_points s.selected s.npoints.toNat).length :=
    List.length_pos_of_ne_nil hkept
  -- the rows after the loop
  have hrowsafter : ∀ v : Nat, v < s.nvars.toNat → ∃ row, s.points[v]? = some row ∧
      ((s.points.take s.nvars.toNat).map (compact_row s.selected s.npoints.toNat 0 0)
          ++ s.points.drop s.nvars.toNat)[v]?
        = some (compact_row s.selected s.npoints.toNat 0 0 row) ∧
      s.npoints.toNat ≤ row.length := by
    intro v hv
    have hvl : v < s.points.length := by omega
    refine ⟨s.points[v], List.getElem?_eq_getElem hvl, ?_, ?_⟩
    · rw [List.getElem?_append_left (by simp; omega), List.getElem?_map, List.getElem?_take,
        if_pos hv, List.getElem?_eq_getElem hvl]
      rfl
    · apply hrows
      rw [List.mem_iff_getElem?]
      exact ⟨v, by rw [List.getElem?_take, if_pos hv, List.getElem?_eq_getElem hvl]⟩
  have hdata : ∀ v : Nat, v < s.nvars.toNat → ∃ row row1, s.points[v]? = some row ∧
      ((s.points.take s.nvars.toNat).map (compact_row s.selected s.npoints.toNat 0 0)
          ++ s.points.drop s.nvars.toNat)[v]? = some row1 ∧ row1.length = row.length ∧
      row1.take (kept_points s.selected s.npoints.toNat).length
        = (kept_points s.selected s.npoints.toNat).map (fun n => row.getD n Flt.nan) := by
    intro v hv
    obtain ⟨row, h1, h2, h3⟩ := hrowsafter v hv
    refine ⟨row, _, h1, h2, compact_row_length _ _ _ _ _, ?_⟩
    have ht := compact_row_take s.selected s.npoints.toNat 0 0 row (le_refl 0) (by omega)
    rw [← List.range_eq_range', Nat.zero_add, hkp, List.take_zero, List.nil_append] at ht
    exact ht
  rw [delete_selection_after_loop hs s _ _ hloop]
  by_cases hrem : ((kept_points s.selected s.npoints.toNat).length : Int) ≠ s.npoints
  · have hclear := clear_selection_resets hs
      { s with
        points := (s.points.take s.nvars.toNat).map
          (compact_row s.selected s.npoints.toNat 0 0) ++ s.points.drop s.nvars.toNat
        ranked := fillArray 0 s.ranked
        npoints := ((kept_points s.selected s.npoints.toNat).length : Int) } hplots hflags
    rw [if_pos hrem, hclear]
    simp only []
    have hKle : ((kept_points s.selected s.npoints.toNat).length : Int).toNat
        ≤ s.npoints.toNat := by
      rw [Int.toNat_ofNat]
      exact hK
    obtain ⟨t, hfold, hinv, _, _⟩ := extract_all_plots
      { nvars := s.nvars
        npoints := ((kept_points s.selected s.npoints.toNat).length : Int)
        points := (s.points.take s.nvars.toNat).map
          (compact_row s.selected s.npoints.toNat 0 0) ++ s.points.drop s.nvars.toNat
        selected := fillArray 0 s.selected
        previously_selected := fillArray 0 s.previously_selected
        newly_selected := fillArray 0 s.newly_selected
        nselected := 0
        ranked := fillArray 0 s.ranked
        ranked_points := s.ranked_points
        pws := s.pws }
      (by
        show (1 : Int) ≤ ((kept_points s.selected s.npoints.toNat).length : Int)
        omega)
      (by
        intro v hv
        simp only [fillArray, List.length_replicate] at hv
        obtain ⟨row, _, h2, h3⟩ := hrowsafter v (by omega)
        refine ⟨_, h2, ?_⟩
        rw [compact_row_length]
        show ((kept_points s.selected s.npoints.toNat).length : Int).toNat ≤ row.length
        omega)
      (by
        simp only [fillArray, List.length_replicate]
        omega)
      (by
        intro crow hc
        refine ⟨?_, fun pw hpw => hfit pw hpw crow hc⟩
        have := hcrows crow hc
        show ((kept_points s.selected s.npoints.toNat).length : Int).toNat ≤ crow.length
        omega)
      (by
        intro v hv
        simp only [fillArray, List.length_replicate] at hv
        simp only [fillArray]
        rw [List.getElem?_replicate, if_pos hv])
      (by
        intro pw hpw a ha
        simp only [fillArray, List.length_replicate]
        have := haxes pw hpw a ha
        omega)
      (by
        intro pw hpw
        obtain ⟨hx, hy, hz⟩ := hranks pw hpw
        refine ⟨?_, ?_, ?_⟩
        · show ((kept_points s.selected s.npoints.toNat).length : Int).toNat ≤ pw.x_rank.length
          omega
        · show ((kept_points s.selected s.npoints.toNat).length : Int).toNat ≤ pw.y_rank.length
          omega
        · show ((kept_points s.selected s.npoints.toNat).length : Int).toNat ≤ pw.z_rank.length
          omega)
      s.pws.length (le_refl _)
    obtain ⟨i1, i2, i3, i4, i5, i6, i7, i8, i9, i10, i11⟩ := hinv
    refine ⟨t, hfold, i1, i2, ?_, ?_, ?_⟩
    · intro v hv
      rw [i3]
      exact hdata v hv
    · intro _
      refine ⟨i4, i5, i6, i7, ?_⟩
      intro v hv
      have := i11 v (by
        simp only [fillArray, List.length_replicate]
        omega)
      rw [List.take_length] at this
      exact this
    · intro he
      exact absurd he hrem
  · rw [if_neg hrem]
    refine ⟨_, rfl, rfl, ?_, ?_, ?_, ?_⟩
    · show s.npoints = _
      rw [not_not] at hrem
      exact hrem.symm
    · intro v hv
      exact hdata v hv
    · intro hne
      exact absurd hne hrem
    · intro _
      exact ⟨rfl, rfl, rfl, rfl, rfl, rfl⟩

theorem delete_selection_keeps_unselected_witness :
    ∃ s1, delete_selection (fun _ s => s) two_plots = some s1 ∧
      s1.nvars = two_plots.nvars ∧
      s1.npoints
        = ((kept_points two_plots.selected two_plots.npoints.toNat).length : Int) ∧
      (∀ v : Nat, v < two_plots.nvars.toNat → ∃ row row1,
        two_plots.points[v]? = some row ∧
        s1.points[v]? = some row1 ∧ row1.length = row.length ∧
        row1.take (kept_points two_plots.selected two_plots.npoints.toNat).length
          = (kept_points two_plots.selected two_plots.npoints.toNat).map
            (fun n => row.getD n Flt.nan)) ∧
      (((kept_points two_plots.selected two_plots.npoints.toNat).length : Int)
          ≠ two_plots.npoints →
        s1.selected = fillArray 0 two_plots.selected ∧
        s1.previously_selected = fillArray 0 two_plots.previously_selected ∧
        s1.newly_selected = fillArray 0 two_plots.newly_selected ∧ s1.nselected = 0 ∧
        ∀ v : Nat, v < two_plots.nvars.toNat →
          s1.ranked[v]? = some
            (if v ∈ two_plots.pws.flatMap (plot_axes two_plots.nvars) then 1 else 0)) ∧
      (((kept_points two_plots.selected two_plots.npoints.toNat).length : Int)
          = two_plots.npoints →
        s1.selected = two_plots.selected ∧
        s1.previously_selected = two_plots.previously_selected ∧
        s1.newly_selected = two_plots.newly_selected ∧
        s1.nselected = two_plots.nselected ∧
        s1.ranked = two_plots.ranked ∧ s1.ranked_points = two_plots.ranked_points) :=
  delete_selection_keeps_unselected (fun _ s => s) two_plots (by decide) (by decide)
    (by decide) (by decide) (by decide) (by decide) (by decide) (by decide) (by decide)
    (by decide) (by decide)

/-- C28 (evaluation with a shared variable): two plots show the variables 0, 1 and 1, 2;
of the four points the second is selected.  `delete_selection` keeps the three other
points; the first plot ranks the variables 0 and 1 afresh, the second plot reads the rank
of the variable 1 from the cache and ranks the variable 2, and all three variables are
marked ranked on return. -/
theorem delete_selection_two_plots :
    (delete_selection (fun _ s => s) two_plots).map
      (fun s => (s.npoints, s.points.map (fun row => row.take 3), s.ranked, s.ranked_points))
      = some (3, [[Flt.fin 5, Flt.fin 3, Flt.fin 4], [Flt.fin 10, Flt.fin 30, Flt.fin 5],
            [Flt.fin 7, Flt.fin 9, Flt.fin 6]],
          [1, 1, 1], [[1, 2, 0, 0], [2, 0, 1, 2], [2, 0, 1, 2]]) ∧
    (delete_selection (fun _ s => s) two_plots).map
      (fun s => (s.selected, s.nselected, s.pws.map (fun pw => (pw.x_rank, pw.y_rank))))
      = some ([0, 0, 0, 0], 0,
          [([1, 2, 0, 0], [2, 0, 1, 2]), ([2, 0, 1, 2], [2, 0, 1, 2])]) := by
  constructor <;> decide

/-! ### The dictionary of a categorical column -/

theorem coded_from_lookup (v : String) : ∀ (keys : List String) (n : Nat),
    ((keys.enumFrom n).map (fun p => (p.2, (p.1 : Int)))).lookup v
      = if v ∈ keys then some ((n + keys.indexOf v : Nat) : Int) else none := by
  intro keys
  induction keys with
  | nil => intro n; rfl
  | cons k ks ih =>
    intro n
    simp only [List.enumFrom_cons, List.map_cons, List.lookup_cons, List.mem_cons]
    by_cases hv : v = k
    · subst hv
      simp [List.indexOf_cons_self]
    · have hb : (v == k) = false := by simpa using hv
      rw [hb, ih (n + 1)]
      simp only [hv, false_or]
      by_cases hm : v ∈ ks
      · rw [if_pos hm, if_pos hm, List.indexOf_cons_ne _ (fun h => hv h.symm)]
        congr 2
        omega
      · rw [if_neg hm, if_neg hm]

theorem coded_dictionary_lookup (keys : List String) (v : String) :
    (coded_dictionary keys).lookup v
      = if v ∈ keys then some ((keys.indexOf v : Nat) : Int) else none := by
  unfold coded_dictionary List.enum
  rw [coded_from_lookup v keys 0]
  simp

theorem coded_from_find (k : Nat) : ∀ (keys : List String) (n : Nat), n ≤ k →
    ((keys.enumFrom n).map (fun p => (p.2, (p.1 : Int)))).find? (fun p => p.2 == (k : Int))
      = (keys[k - n]?).map (fun s => (s, (k : Int))) := by
  intro keys
  induction keys with
  | nil => intro n _; rfl
  | cons x xs ih =>
    intro n hn
    simp only [List.enumFrom_cons, List.map_cons, List.find?_cons]
    by_cases hk : n = k
    · subst hk
      simp
    · have hb : (((n : Int)) == (k : Int)) = false := by
        simp only [beq_eq_false_iff_ne, ne_eq]
        omega
      rw [hb, ih (n + 1) (by omega)]
      have : k - n = (k - (n + 1)) + 1 := by omega
      rw [this, List.getElem?_cons_succ]

theorem coded_dictionary_find (keys : List String) (k : Nat) :
    (coded_dictionary keys).find? (fun p => p.2 == (k : Int))
      = (keys[k]?).map (fun s => (s, (k : Int))) := by
  unfold coded_dictionary List.enum
  rw [coded_from_find k keys 0 (Nat.zero_le _)]
  simp

theorem coded_dictionary_append (keys : List String) (v : String) :
    coded_dictionary (keys ++ [v]) = coded_dictionary keys ++ [(v, (keys.length : Int))] := by
  unfold coded_dictionary
  rw [List.enum_append]
  simp [List.enumFrom_cons]

/-- Decoding in a dictionary that gives each string its position as code. -/
theorem decode_coded (c : Column_Info) (keys : List String) (k : Nat) (s : String)
    (hd : c.ascii_values_ = coded_dictionary keys) (hk : keys[k]? = some s) :
    dictionary_ascii_value c (k : Int) = s := by
  unfold dictionary_ascii_value
  rw [hd, coded_dictionary_find, hk]
  rfl

/-- Encoding with a dictionary that gives each string its position as code: the string
keeps its code if it has one and gets the next free code otherwise. -/
theorem add_value_coded (c : Column_Info) (keys : List String) (v : String)
    (hd : c.ascii_values_ = coded_dictionary keys) :
    dictionary_add_value c v
      = ({ c with ascii_values_ := coded_dictionary (if v ∈ keys then keys else keys ++ [v]) },
          (((if v ∈ keys then keys else keys ++ [v]).indexOf v : Nat) : Int)) := by
  unfold dictionary_add_value
  rw [hd, coded_dictionary_lookup]
  by_cases hm : v ∈ keys
  · simp only [hm, if_true]
    rw [← hd]
  · simp only [hm, if_false]
    rw [coded_dictionary_append, List.indexOf_append_of_not_mem hm]
    simp [coded_dictionary, List.length_map, List.enum_length]

/-! ### Lines of cells -/

/-- One pass of the loop over the fields of a data line, when the field is read without
failure and is not the end of a line that is too short. -/
theorem read_fields_pass (io : NumIO) (ops : ColumnOps) (s : Data_File_Manager) (row : Int)
    (count : Nat) (j : Int) (st : LineState) (col : Column_Info) (ss1 : IStream) (x : Flt)
    (tok : List Char) (ci : List Column_Info) (rs : List Int)
    (hj : ¬ j < 0) (hcol : st.column_info[j.toNat]? = some col)
    (hr : field_read io s col st = (ss1, x, tok))
    (hfail : ss1.failbit = false) (heof : ss1.eofbit = true → ¬ j < s.nvars - 1)
    (hstored : (if s.readSelectionInfo_ = 0 ∨ j < s.nvars - 1 then
        if col.hasASCII = 0 then
          (set_point col row (Flt.round32 x)).map
            (fun c => (st.column_info.set j.toNat c, st.read_selected))
        else
          (set_point (ops.add_value col (String.mk tok)).1 row
            (Flt.round32 (Flt.ofInt (ops.add_value col (String.mk tok)).2))).map
            (fun c => (st.column_info.set j.toNat c, st.read_selected))
      else
        match Flt.toInt? x with
        | none => none
        | some k =>
          if 0 ≤ row then
            (writeAt st.read_selected row.toNat k).map (fun rs => (st.column_info, rs))
          else none) = some (ci, rs)) :
    read_fields io ops s row (count + 1) j st
      = read_fields io ops s row count (j + 1)
          { st with ss := ss1, xValue := x, sToken := tok, column_info := ci,
                    read_selected := rs } := by
  have hr' := hr
  unfold field_read at hr'
  rw [read_fields]
  simp only [hj, if_false, hcol]
  simp only [hr', hfail, Bool.false_eq_true, if_false]
  have h1 : ¬ (ss1.eofbit = true ∧ j < s.nvars - 1) := fun h => heof h.1 h.2
  rw [if_neg h1]
  have hgood : ¬ (ss1.good = false ∧ j < s.nvars - 1) := by
    rintro ⟨hg, hlt⟩
    apply heof _ hlt
    simpa [IStream.good, hfail] using hg
  by_cases hsel : s.readSelectionInfo_ = 0 ∨ j < s.nvars - 1
  · rw [if_pos hsel] at hstored ⊢
    by_cases hasc : col.hasASCII = 0
    · rw [if_pos hasc] at hstored ⊢
      cases hsp : set_point col row (Flt.round32 x) with
      | none => rw [hsp] at hstored; simp at hstored
      | some c =>
        rw [hsp] at hstored
        simp only [Option.map_some', Option.some.injEq, Prod.mk.injEq] at hstored
        simp only [Option.map_some']
        rw [if_neg hgood, hstored.1, hstored.2]
    · rw [if_neg hasc] at hstored ⊢
      cases hsp : set_point (ops.add_value col (String.mk tok)).1 row
          (Flt.round32 (Flt.ofInt (ops.add_value col (String.mk tok)).2)) with
      | none => rw [hsp] at hstored; simp at hstored
      | some c =>
        rw [hsp] at hstored
        simp only [Option.map_some', Option.some.injEq, Prod.mk.injEq] at hstored
        simp only [Option.map_some']
        rw [if_neg hgood, hstored.1, hstored.2]
  · rw [if_neg hsel] at hstored ⊢
    cases hk : Flt.toInt? x with
    | none => rw [hk] at hstored; simp at hstored
    | some k =>
      rw [hk] at hstored
      simp only [] at hstored ⊢
      by_cases hrow : 0 ≤ row
      · rw [if_pos hrow] at hstored ⊢
        cases hw : writeAt st.read_selected row.toNat k with
        | none => rw [hw] at hstored; simp at hstored
        | some rs1 =>
          rw [hw] at hstored
          simp only [Option.map_some', Option.some.injEq, Prod.mk.injEq] at hstored
          simp only [Option.map_some']
          rw [if_neg hgood, hstored.1, hstored.2]
      · rw [if_neg hrow] at hstored
        simp at hstored

theorem getline_delimiter (d : Char) (f r buf : List Char) (hf : ∀ c ∈ f, c ≠ d) :
    IStream.getline ⟨f ++ d :: r, false, false⟩ d buf = (⟨r, false, false⟩, f) := by
  unfold IStream.getline
  rw [if_pos (show IStream.good ⟨f ++ d :: r, false, false⟩ = true from rfl)]
  simp only []
  rw [span_append_stop (fun c => c != d) f d r (by simpa using hf) (by simp)]

theorem getline_end (d : Char) (f buf : List Char) (hf : ∀ c ∈ f, c ≠ d) :
    IStream.getline ⟨f, false, false⟩ d buf = (⟨[], true, f.isEmpty⟩, f) := by
  unfold IStream.getline
  rw [if_pos (show IStream.good ⟨f, false, false⟩ = true from rfl)]
  simp only []
  rw [span_no_stop (fun c => c != d) f (by simpa using hf)]

/-- The leading blanks go and the word stays. -/
theorem erase_leading_blanks_word (pad w : List Char) (hpad : ∀ c ∈ pad, c = ' ')
    (hw : ∀ c ∈ w.head?, c ≠ ' ') : erase_leading_blanks (pad ++ w) = w := by
  unfold erase_leading_blanks
  apply dropWhile_append_stop _ _ _ (by simpa using hpad)
  intro x hx
  simpa using hw x hx

theorem erase_trailing_word (set w : List Char) (hw : ∀ c ∈ w.getLast?, set.contains c = false) :
    erase_trailing set w = w := by
  unfold erase_trailing
  have : w.reverse.dropWhile (fun c => set.contains c) = w.reverse := by
    cases hr : w.reverse with
    | nil => rfl
    | cons a l =>
      have ha : w.getLast? = some a := by
        rw [← List.head?_reverse, hr]
        rfl
      have h1 := hw a (by rw [ha]; rfl)
      rw [List.dropWhile_cons, h1]
      rfl
  rw [this, List.reverse_reverse]

/-- A word that holds no whitespace is extracted whole. -/
theorem extract_whole (w tok : List Char) (hne : w ≠ []) (hw : ∀ c ∈ w, isspace c = false) :
    (IStream.ofText w).extract tok = (⟨[], true, false⟩, w) := by
  have := extract_word (IStream.ofText w) [] w [] tok rfl (by simp [IStream.ofText])
    (by simp) hw hne (by simp)
  simpa using this

theorem joined_cons (d : Char) (f : List Char) (fs : List (List Char)) (hne : fs ≠ []) :
    joined d (f :: fs) = f ++ d :: joined d fs := by
  cases fs with
  | nil => exact absurd rfl hne
  | cons g gs => rfl

theorem clean_cells_tail (d : Char) (p : List Char × List Char)
    (ps : List (List Char × List Char)) (h : clean_cells d (p :: ps)) : clean_cells d ps := by
  unfold clean_cells at h ⊢
  by_cases hd : d = ' '
  · rw [if_pos hd] at h ⊢
    exact h.2.2.2.2
  · rw [if_neg hd] at h ⊢
    exact fun q hq => h q (List.mem_cons_of_mem _ hq)

theorem clean_cells_word (d : Char) (p : List Char × List Char)
    (ps : List (List Char × List Char)) (h : clean_cells d (p :: ps)) :
    p.2 ≠ [] ∧ ∀ c ∈ p.2, isspace c = false := by
  unfold clean_cells at h
  by_cases hd : d = ' '
  · rw [if_pos hd] at h
    exact ⟨h.2.2.1, h.2.1⟩
  · rw [if_neg hd] at h
    have := h p (List.mem_cons_self _ _)
    exact ⟨this.2.1, fun c hc => (this.2.2 c hc).1⟩

theorem cells_line_nil (d : Char) : cells_line d [] = [] := by
  unfold cells_line
  split <;> rfl

/-- One field of a line of clean cells as the data loop reads it: the stream goes on with
the other cells, and the word is read whole. -/
theorem field_read_cell (io : NumIO) (s : Data_File_Manager) (col : Column_Info)
    (st : LineState) (p : List Char × List Char) (ps : List (List Char × List Char))
    (hclean : clean_cells s.delimiter_char_ (p :: ps))
    (hss : st.ss = ⟨cells_line s.delimiter_char_ (p :: ps), false, false⟩) :
    field_read io s col st
      = (⟨cells_line s.delimiter_char_ ps, ps.isEmpty, false⟩,
          (if col.hasASCII = 0 then numeric_value io s.bad_value_proxy_ p.2 p.2
           else st.xValue),
          (if s.delimiter_char_ ≠ ' ' ∧ col.hasASCII = 0 then st.sToken else p.2)) := by
  unfold field_read
  by_cases hd : s.delimiter_char_ = ' '
  · -- the whitespace delimiter
    rw [if_pos hd]
    have hw : well_spaced (p :: ps) := by
      unfold clean_cells at hclean
      rw [if_pos hd] at hclean
      exact hclean
    obtain ⟨h1, h2, h3, h4, h5⟩ := hw
    have hrest : st.ss.rest = p.1 ++ p.2 ++ spaced ps := by
      rw [hss]
      simp only [cells_line, if_pos hd]
      exact spaced_cons p ps
    have hex := extract_word st.ss p.1 p.2 (spaced ps) st.sToken (by rw [hss]; rfl) hrest
      h1 h2 h3 (spaced_head_space ps h5 h4)
    have hemp : (spaced ps).isEmpty = ps.isEmpty := by
      cases ps with
      | nil => rfl
      | cons q qs => rw [spaced_isEmpty_cons q qs h5]; rfl
    simp only [hex, hemp, cells_line, if_pos hd, hd, ne_eq, not_true_eq_false, false_and,
      if_false]
    split <;> rfl
  · -- a delimiter character
    rw [if_neg hd]
    have hc : ∀ q ∈ p :: ps, (∀ c ∈ q.1, c = ' ') ∧ q.2 ≠ [] ∧
        ∀ c ∈ q.2, isspace c = false ∧ c ≠ s.delimiter_char_ := by
      unfold clean_cells at hclean
      rw [if_neg hd] at hclean
      exact hclean
    obtain ⟨hp1, hp2, hp3⟩ := hc p (List.mem_cons_self _ _)
    have hfield : ∀ c ∈ p.1 ++ p.2, c ≠ s.delimiter_char_ := by
      intro c hc
      rcases List.mem_append.mp hc with h | h
      · rw [hp1 c h]
        exact fun h => hd h.symm
      · exact (hp3 c h).2
    have htrim : erase_trailing [' '] (erase_leading_blanks (p.1 ++ p.2)) = p.2 := by
      rw [erase_leading_blanks_word p.1 p.2 hp1 (by
        intro c hc hcb
        cases hw : p.2 with
        | nil => exact hp2 hw
        | cons a l =>
          rw [hw] at hc
          simp at hc
          have := (hp3 a (by rw [hw]; exact List.mem_cons_self _ _)).1
          rw [hc, hcb] at this
          exact absurd this (by decide))]
      apply erase_trailing_word
      intro c hc
      have hcm : c ∈ p.2 := List.mem_of_mem_getLast? hc
      have := (hp3 c hcm).1
      have hcb : c ≠ ' ' := by
        intro h
        rw [h] at this
        exact absurd this (by decide)
      simp [hcb]
    have hlen : ¬ (p.2.length ≤ 0) := by
      have := List.length_pos.mpr hp2
      omega
    have hword : ∀ tok, (IStream.ofText p.2).extract tok = (⟨[], true, false⟩, p.2) :=
      fun tok => extract_whole p.2 tok hp2 (fun c hc => (hp3 c hc).1)
    have hg : st.ss.getline s.delimiter_char_ []
        = (⟨cells_line s.delimiter_char_ ps, ps.isEmpty, false⟩, p.1 ++ p.2) := by
      rw [hss]
      simp only [cells_line, if_neg hd, List.map_cons]
      cases ps with
      | nil =>
        have := getline_end s.delimiter_char_ (p.1 ++ p.2) [] hfield
        have hne : (p.1 ++ p.2).isEmpty = false := by
          cases h : p.1 ++ p.2 with
          | nil =>
            have := List.append_eq_nil.mp h
            exact absurd this.2 hp2
          | cons _ _ => rfl
        rw [hne] at this
        simpa [joined] using this
      | cons q qs =>
        rw [joined_cons _ _ _ (by simp)]
        exact getline_delimiter s.delimiter_char_ (p.1 ++ p.2) _ [] hfield
    simp only [hg, htrim, hlen, if_false, hword, hd, ne_eq, not_false_eq_true, true_and]
    split <;> rfl

theorem set_point_room (c : Column_Info) (k : Nat) (v : Flt) (h : k < c.points.length) :
    set_point c (k : Int) v = some (store_value c k v) := by
  unfold set_point
  rw [if_pos ⟨by omega, by simpa using h⟩]
  simp

/-- Reading the words of a line of clean cells: the word at position `i` is stored in row
`k` of column `j + i`, as a number or as a code; the word of the column of selection
information, if there is one, goes to `read_selected`. -/
theorem read_fields_cells (io : NumIO) (ops : ColumnOps) (s : Data_File_Manager) (k L : Nat)
    (hL : s.nvars = L)
    (hkeep : ∀ (c : Column_Info) (v : String),
      (ops.add_value c v).1.points.length = c.points.length)
    (ps : List (List Char × List Char)) :
    ∀ (j : Nat) (G : Nat → Column_Info) (st : LineState),
      ps ≠ [] → clean_cells s.delimiter_char_ ps →
      st.ss = ⟨cells_line s.delimiter_char_ ps, false, false⟩ →
      st.column_info = mkCols L G → j + ps.length = L →
      (∀ i, j ≤ i → i < L → (s.readSelectionInfo_ = 0 ∨ i + 1 < L) →
        k < (G i).points.length) →
      (s.readSelectionInfo_ ≠ 0 → (G (L - 1)).hasASCII = 0 ∧ k < st.read_selected.length ∧
        ∀ p, ps.getLast? = some p →
          (Flt.toInt? (numeric_value io s.bad_value_proxy_ p.2 p.2)).isSome = true) →
      ∃ st1, read_fields io ops s (k : Int) ps.length (j : Int) st = some st1 ∧
        st1.column_info = mkCols L (fun i =>
          if j ≤ i ∧ (s.readSelectionInfo_ = 0 ∨ i + 1 < L) then
            store_cell io ops s.bad_value_proxy_ (G i) k (ps.getD (i - j) ([], [])).2
          else G i) ∧
        st1.isBadData = st.isBadData ∧ st1.nUnreadableData = st.nUnreadableData ∧
        st1.read_selected.length = st.read_selected.length ∧
        (s.readSelectionInfo_ = 0 → st1.read_selected = st.read_selected) := by
  induction ps with
  | nil => intro _ _ _ h; exact absurd rfl h
  | cons p ps ih =>
    intro j G st _ hclean hss hci hlen hroom hselinfo
    have hj : j < L := by simp at hlen; omega
    have hcol : st.column_info[((j : Int)).toNat]? = some (G j) := by
      rw [hci]; simpa using mkCols_getElem? L G j hj
    have hjneg : ¬ ((j : Int) < 0) := by omega
    have hr := field_read_cell io s (G j) st p ps hclean hss
    have hword := clean_cells_word _ p ps hclean
    have heof : (ps.isEmpty = true) → ¬ ((j : Int) < s.nvars - 1) := by
      intro he
      have : ps = [] := List.isEmpty_iff.mp he
      subst this
      simp at hlen
      rw [hL]
      omega
    -- what is stored
    obtain ⟨ci, rs, hstored, hci1, hrs1, hrs2⟩ : ∃ ci rs,
        (if s.readSelectionInfo_ = 0 ∨ (j : Int) < s.nvars - 1 then
          if (G j).hasASCII = 0 then
            (set_point (G j) (k : Int) (Flt.round32
              (if (G j).hasASCII = 0 then numeric_value io s.bad_value_proxy_ p.2 p.2
               else st.xValue))).map
              (fun c => (st.column_info.set ((j : Int)).toNat c, st.read_selected))
          else
            (set_point (ops.add_value (G j) (String.mk
                (if s.delimiter_char_ ≠ ' ' ∧ (G j).hasASCII = 0 then st.sToken else p.2))).1
              (k : Int)
              (Flt.round32 (Flt.ofInt (ops.add_value (G j) (String.mk
                (if s.delimiter_char_ ≠ ' ' ∧ (G j).hasASCII = 0 then st.sToken
                 else p.2))).2))).map
              (fun c => (st.column_info.set ((j : Int)).toNat c, st.read_selected))
        else
          match Flt.toInt? (if (G j).hasASCII = 0
              then numeric_value io s.bad_value_proxy_ p.2 p.2 else st.xValue) with
          | none => none
          | some m =>
            if 0 ≤ (k : Int) then
              (writeAt st.read_selected ((k : Int)).toNat m).map
                (fun rs => (st.column_info, rs))
            else none) = some (ci, rs) ∧
        ci = mkCols L (fun i =>
          if i = j ∧ (s.readSelectionInfo_ = 0 ∨ i + 1 < L) then
            store_cell io ops s.bad_value_proxy_ (G i) k p.2
          else G i) ∧
        rs.length = st.read_selected.length ∧
        (s.readSelectionInfo_ = 0 → rs = st.read_selected) := by
      by_cases hdata : s.readSelectionInfo_ = 0 ∨ j + 1 < L
      · have hdata' : s.readSelectionInfo_ = 0 ∨ (j : Int) < s.nvars - 1 := by
          rcases hdata with h | h
          · exact Or.inl h
          · exact Or.inr (by rw [hL]; omega)
        have hk := hroom j (le_refl _) hj hdata
        rw [if_pos hdata']
        by_cases hasc : (G j).hasASCII = 0
        · rw [if_pos hasc, if_pos hasc, set_point_room _ _ _ hk]
          refine ⟨_, _, rfl, ?_, rfl, fun _ => rfl⟩
          rw [hci, Int.toNat_ofNat, mkCols_set L G j hj]
          apply mkCols_congr
          intro i _
          by_cases hij : i = j
          · subst hij
            simp [hdata, store_cell, hasc]
          · simp [hij]
        · rw [if_neg hasc, if_neg (fun h => hasc h.2),
            set_point_room _ _ _ (by rw [hkeep]; exact hk)]
          refine ⟨_, _, rfl, ?_, rfl, fun _ => rfl⟩
          rw [hci, Int.toNat_ofNat, mkCols_set L G j hj]
          apply mkCols_congr
          intro i _
          by_cases hij : i = j
          · subst hij
            simp [hdata, store_cell, hasc]
          · simp [hij]
      · have hsel : s.readSelectionInfo_ ≠ 0 := fun h => hdata (Or.inl h)
        have hjl : j + 1 = L := by
          have : ¬ (j + 1 < L) := fun h => hdata (Or.inr h)
          omega
        have hps : ps = [] := by
          cases ps with
          | nil => rfl
          | cons q qs => simp at hlen; omega
        subst hps
        obtain ⟨hasc, hk, hint⟩ := hselinfo hsel
        have hGj : G (L - 1) = G j := by
          congr 1
          omega
        rw [hGj] at hasc
        have hdata' : ¬ (s.readSelectionInfo_ = 0 ∨ (j : Int) < s.nvars - 1) := by
          rintro (h | h)
          · exact hsel h
          · rw [hL] at h; omega
        rw [if_neg hdata', if_pos hasc]
        have hm := hint p rfl
        cases hx : Flt.toInt? (numeric_value io s.bad_value_proxy_ p.2 p.2) with
        | none => rw [hx] at hm; simp at hm
        | some m =>
          simp only []
          rw [if_pos (by omega)]
          unfold writeAt
          rw [Int.toNat_ofNat, if_pos hk]
          refine ⟨_, _, rfl, ?_, by simp, fun h => absurd h hsel⟩
          rw [hci]
          apply mkCols_congr
          intro i _
          have : ¬ (i = j ∧ (s.readSelectionInfo_ = 0 ∨ i + 1 < L)) := by
            rintro ⟨h1, h2⟩
            subst h1
            exact hdata h2
          rw [if_neg this]
    have hpass := read_fields_pass io ops s (k : Int) ps.length (j : Int) st (G j) _ _ _ ci rs
      hjneg hcol hr rfl heof hstored
    rw [List.length_cons, hpass]
    cases ps with
    | nil =>
      refine ⟨_, rfl, ?_, rfl, rfl, hrs1, hrs2⟩
      simp only []
      rw [hci1]
      apply mkCols_congr
      intro i hi
      have hij : i ≤ j := by simp at hlen; omega
      by_cases hij2 : i = j
      · subst hij2
        simp
      · have : ¬ j ≤ i := by omega
        simp [hij2, this]
    | cons q qs =>
      obtain ⟨st1, hst1, hc1, hb1, hu1, hl1, hr1⟩ := ih (j + 1)
        (fun i => if i = j ∧ (s.readSelectionInfo_ = 0 ∨ i + 1 < L) then
            store_cell io ops s.bad_value_proxy_ (G i) k p.2
          else G i)
        { st with ss := ⟨cells_line s.delimiter_char_ (q :: qs), (q :: qs).isEmpty, false⟩,
                  xValue := (if (G j).hasASCII = 0
                    then numeric_value io s.bad_value_proxy_ p.2 p.2 else st.xValue),
                  sToken := (if s.delimiter_char_ ≠ ' ' ∧ (G j).hasASCII = 0
                    then st.sToken else p.2),
                  column_info := ci, read_selected := rs }
        (by simp) (clean_cells_tail _ p _ hclean) rfl hci1
        (by simp at hlen ⊢; omega)
        (by
          intro i hji hi hd
          have hne : ¬ (i = j ∧ (s.readSelectionInfo_ = 0 ∨ i + 1 < L)) := by
            rintro ⟨h, _⟩
            omega
          simp only [if_neg hne]
          exact hroom i (by omega) hi hd)
        (by
          intro hsel
          obtain ⟨h1, h2, h3⟩ := hselinfo hsel
          have hne : ¬ (L - 1 = j ∧ (s.readSelectionInfo_ = 0 ∨ L - 1 + 1 < L)) := by
            rintro ⟨_, h | h⟩
            · exact hsel h
            · omega
          simp only [if_neg hne]
          refine ⟨h1, by rw [hrs1]; exact h2, ?_⟩
          intro p0 hp0
          exact h3 p0 (by rw [List.getLast?_cons_cons]; exact hp0))
      refine ⟨st1, hst1, ?_, hb1, hu1, by rw [hl1]; exact hrs1,
        fun h => by rw [hr1 h]; exact hrs2 h⟩
      rw [hc1]
      apply mkCols_congr
      intro i hi
      by_cases hij : i = j
      · subst hij
        have : ¬ (i + 1 ≤ i) := by omega
        simp [this]
      · by_cases hlt : j ≤ i
        · have h1 : j + 1 ≤ i := by omega
          have h2 : i - j = (i - (j + 1)) + 1 := by omega
          simp only [hij, false_and, if_false, h1, hlt, true_and]
          rw [h2]
          simp
        · have h1 : ¬ j + 1 ≤ i := by omega
          simp [hij, h1, hlt]

/-- A conditional between two pairs with the same first component. -/
theorem pair_of_ite {α β : Type} (c : Prop) [Decidable c] (a : α) (x y : β) :
    (if c then (a, x) else (a, y)) = (a, if c then x else y) := by
  split <;> rfl

/-- The loop of `extract_column_types` with a delimiter character, on a line of fields
joined by the delimiter: column `j + i` gets the type of the word examined in field `i`. -/
theorem column_types_joined (io : NumIO) (d : Char) (hd : d ≠ ' ') (nv : Nat)
    (fs : List (List Char)) :
    ∀ (j : Nat) (G : Nat → Column_Info) (tok : List Char),
      fs ≠ [] → (∀ f ∈ fs, ∀ c ∈ f, c ≠ d) → j + fs.length = nv →
      column_types_loop io d (nv : Int) fs.length (j : Int) ⟨joined d fs, false, false⟩ tok
          (mkCols nv G)
        = some (mkCols nv (fun i =>
            if j ≤ i then
              set_type (G i) (word_type io ((seen_tokens tok fs).getD (i - j) []))
            else G i)) := by
  induction fs with
  | nil => intro _ _ _ h; exact absurd rfl h
  | cons f fs ih =>
    intro j G tok _ hfree hlen
    have hj : j < nv := by simp at hlen; omega
    have hjneg : ¬ ((j : Int) < 0) := by omega
    have hf : ∀ c ∈ f, c ≠ d := hfree f (List.mem_cons_self _ _)
    have hmod : modifyAt (fun c => set_type c (word_type io (field_token f tok))) (mkCols nv G) j
        = some (mkCols nv (fun i =>
            if i = j then set_type (G j) (word_type io (field_token f tok)) else G i)) := by
      unfold modifyAt
      rw [mkCols_getElem? nv G j hj]
      simp only []
      rw [mkCols_set nv G j hj]
    cases fs with
    | nil =>
      have hjlast : ¬ ((j : Int) < (nv : Int) - 1) := by
        simp at hlen; omega
      have hg := getline_end d f [] hf
      simp only [field_token] at hmod
      simp only [List.length_cons, List.length_nil, column_types_loop, if_neg hd, joined, hg,
        pair_of_ite, hjlast, and_false, if_false, hjneg, Int.toNat_ofNat, zero_add, hmod,
        Option.some.injEq]
      apply mkCols_congr
      intro i hi
      have : i ≤ j := by simp at hlen; omega
      by_cases hij : i = j
      · subst hij; simp [seen_tokens, field_token]
      · have : ¬ j ≤ i := by omega
        simp [hij, this]
    | cons g gs =>
      have hg := getline_delimiter d f (joined d (g :: gs)) [] hf
      have hgood1 : ({ rest := joined d (g :: gs), eofbit := false, failbit := false }
          : IStream).good = true := rfl
      have hih := ih (j + 1)
        (fun i => if i = j then set_type (G j) (word_type io (field_token f tok)) else G i)
        (field_token f tok) (by simp)
        (fun f0 hf0 => hfree f0 (List.mem_cons_of_mem _ hf0)) (by simp at hlen ⊢; omega)
      simp only [Nat.cast_add, Nat.cast_one] at hih
      simp only [field_token] at hmod hih
      rw [List.length_cons, column_types_loop]
      rw [joined_cons d f (g :: gs) (by simp)]
      simp only [if_neg hd, hg, pair_of_ite, Bool.false_eq_true, false_and, if_false, hjneg,
        Int.toNat_ofNat, hgood1, Bool.true_eq_false, hmod]
      rw [hih]
      simp only [Option.some.injEq]
      apply mkCols_congr
      intro i hi
      by_cases hij : i = j
      · subst hij; simp [seen_tokens, field_token]
      · by_cases hlt : j ≤ i
        · have h1 : j + 1 ≤ i := by omega
          have h2 : i - j = (i - (j + 1)) + 1 := by omega
          simp only [hij, if_false, h1, hlt, if_true]
          rw [h2]
          rfl
        · have h1 : ¬ j + 1 ≤ i := by omega
          simp [hij, h1, hlt]

/-- The word examined for a cell with a delimiter character is the word of the cell. -/
theorem field_token_cell (p : List Char × List Char) (tok : List Char)
    (hpad : ∀ c ∈ p.1, c = ' ') (hne : p.2 ≠ []) (hw : ∀ c ∈ p.2, isspace c = false) :
    field_token (p.1 ++ p.2) tok = p.2 := by
  have h1 : erase_leading_blanks (p.1 ++ p.2) = p.2 := by
    apply erase_leading_blanks_word _ _ hpad
    intro c hc
    have hm : c ∈ p.2 := List.mem_of_mem_head? hc
    exact not_space_ne c ' ' (hw c hm) rfl
  have h2 : erase_trailing [' '] p.2 = p.2 := by
    apply erase_trailing_word
    intro c hc
    have hm : c ∈ p.2 := List.mem_of_mem_getLast? hc
    have := not_space_ne c ' ' (hw c hm) rfl
    simp [this]
  have h3 : ¬ p.2.length ≤ 0 := by
    have := List.length_pos.mpr hne
    omega
  unfold field_token
  rw [h1, h2, if_neg h3, extract_whole p.2 tok hne hw]

theorem seen_tokens_cells (d : Char) (hd : d ≠ ' ') (ps : List (List Char × List Char)) :
    ∀ (tok : List Char), clean_cells d ps →
      seen_tokens tok (ps.map (fun p => p.1 ++ p.2)) = ps.map (fun p => p.2) := by
  induction ps with
  | nil => intro _ _; rfl
  | cons p ps ih =>
    intro tok h
    have hp : (∀ c ∈ p.1, c = ' ') ∧ p.2 ≠ [] ∧ ∀ c ∈ p.2, isspace c = false ∧ c ≠ d := by
      unfold clean_cells at h
      rw [if_neg hd] at h
      exact h p (List.mem_cons_self _ _)
    have ht := field_token_cell p tok hp.1 hp.2.1 (fun c hc => (hp.2.2 c hc).1)
    simp only [List.map_cons, seen_tokens, ht]
    rw [ih p.2 (clean_cells_tail d p ps h)]

/-- The loop of `extract_column_types` on a line of clean cells, for either kind of
delimiter: column `j + i` gets the type of the word of cell `i`. -/
theorem column_types_cells (io : NumIO) (d : Char) (nv : Nat)
    (ps : List (List Char × List Char)) (j : Nat) (G : Nat → Column_Info) (tok : List Char)
    (hne : ps ≠ []) (hclean : clean_cells d ps) (hlen : j + ps.length = nv) :
    column_types_loop io d (nv : Int) ps.length (j : Int) ⟨cells_line d ps, false, false⟩ tok
        (mkCols nv G)
      = some (mkCols nv (fun i =>
          if j ≤ i then set_type (G i) (word_type io (ps.getD (i - j) ([], [])).2)
          else G i)) := by
  by_cases hd : d = ' '
  · subst hd
    have hws : well_spaced ps := by
      unfold clean_cells at hclean
      rw [if_pos rfl] at hclean
      exact hclean
    have := column_types_spaced io nv ps j G ⟨spaced ps, false, false⟩ tok hne hws rfl rfl hlen
    unfold cells_line
    rw [if_pos rfl]
    exact this
  · have hfree : ∀ f ∈ ps.map (fun p => p.1 ++ p.2), ∀ c ∈ f, c ≠ d := by
      intro f hf c hc
      rw [List.mem_map] at hf
      obtain ⟨p, hp, rfl⟩ := hf
      unfold clean_cells at hclean
      rw [if_neg hd] at hclean
      obtain ⟨h1, _, h3⟩ := hclean p hp
      rcases List.mem_append.mp hc with h | h
      · rw [h1 c h]; exact fun h' => hd h'.symm
      · exact (h3 c h).2
    have := column_types_joined io d hd nv (ps.map (fun p => p.1 ++ p.2)) j G tok
      (by simpa using hne) hfree (by simpa using hlen)
    rw [List.length_map] at this
    unfold cells_line
    rw [if_neg hd, this, seen_tokens_cells d hd ps tok hclean]
    simp only [Option.some.injEq]
    apply mkCols_congr
    intro i _
    by_cases hji : j ≤ i
    · simp only [hji, if_true, List.getD_eq_getElem?_getD, List.getElem?_map]
      cases ps[i - j]? <;> rfl
    · simp only [hji, if_false]

/-- The function `extract_column_types` on a line of clean cells, one for each column. -/
theorem extract_types_cells (io : NumIO) (s : Data_File_Manager) (L : Nat)
    (G : Nat → Column_Info) (line : List Char) (ps : List (List Char × List Char))
    (hnvars : s.nvars = L) (hci : s.column_info = mkCols L G)
    (hline : (if s.delimiter_char_ ≠ '\t' then replace_tabs line else line)
      = cells_line s.delimiter_char_ ps)
    (hlen : ps.length = L) (hL : 0 < L) (hclean : clean_cells s.delimiter_char_ ps) :
    extract_column_types io s line
      = some { s with column_info := mkCols L (fun i =>
          set_type (G i) (word_type io (ps.getD i ([], [])).2)) } := by
  have hne : ps ≠ [] := by
    intro h; rw [h] at hlen; simp at hlen; omega
  have := column_types_cells io s.delimiter_char_ L ps 0 G [] hne hclean (by omega)
  rw [hlen] at this
  simp only [Nat.cast_zero] at this
  unfold extract_column_types
  simp only [hline, hnvars, hci, Int.toNat_ofNat, IStream.ofText, this, Option.map_some',
    Nat.zero_le, if_true, Nat.sub_zero]

/-! ### Written lines of cells -/

theorem record_cells_length (d : Char) (L : Nat) (w : Nat → List Char) :
    (record_cells d L w).length = L := by
  simp [record_cells]

theorem record_cells_getD (d : Char) (L : Nat) (w : Nat → List Char) (i : Nat) (hi : i < L) :
    ((record_cells d L w).getD i ([], [])).2 = w i := by
  simp [record_cells, List.getD_eq_getElem?_getD, List.getElem?_map, List.getElem?_range hi]

theorem record_cells_getLast (d : Char) (L : Nat) (w : Nat → List Char) (hL : 0 < L) :
    (record_cells d L w).getLast? = some (cell_pad d (L - 1), w (L - 1)) := by
  obtain ⟨m, rfl⟩ : ∃ m, L = m + 1 := ⟨L - 1, by omega⟩
  simp [record_cells, List.range_succ]

theorem record_cells_clean (d : Char) (L : Nat) (w : Nat → List Char)
    (h : ∀ j, j < L → clean_word d (w j)) : clean_cells d (record_cells d L w) := by
  unfold clean_cells
  by_cases hd : d = ' '
  · rw [if_pos hd]
    unfold record_cells
    rw [List.range_eq_range']
    apply well_spaced_map
    · intro j _ hj
      have hc := h j (by omega)
      refine ⟨?_, fun c hc2 => (hc.2 c hc2).1, hc.1⟩
      intro c hc2
      unfold cell_pad at hc2
      by_cases h0 : j = 0
      · simp [h0] at hc2
      · simp only [h0, if_false, hd, if_true, List.mem_cons, List.mem_singleton,
          List.not_mem_nil, or_false, or_self] at hc2
        rw [hc2]; rfl
    · intro j hj _
      have h0 : j ≠ 0 := by omega
      simp [cell_pad, h0, hd]
  · rw [if_neg hd]
    intro p hp
    unfold record_cells at hp
    rw [List.mem_map] at hp
    obtain ⟨j, hj, rfl⟩ := hp
    have hc := h j (List.mem_range.mp hj)
    refine ⟨?_, hc.1, hc.2⟩
    intro c hc2
    unfold cell_pad at hc2
    by_cases h0 : j = 0
    · simp [h0] at hc2
    · simpa [h0, hd] using hc2

theorem mem_joined (d : Char) (fs : List (List Char)) (c : Char) (hc : c ∈ joined d fs) :
    c = d ∨ ∃ f ∈ fs, c ∈ f := by
  induction fs with
  | nil => simp [joined] at hc
  | cons f fs ih =>
    cases fs with
    | nil =>
      simp only [joined] at hc
      exact Or.inr ⟨f, List.mem_cons_self _ _, hc⟩
    | cons g gs =>
      rw [joined_cons d f (g :: gs) (by simp)] at hc
      rcases List.mem_append.mp hc with h | h
      · exact Or.inr ⟨f, List.mem_cons_self _ _, h⟩
      · rcases List.mem_cons.mp h with h | h
        · exact Or.inl h
        · rcases ih h with h | ⟨f0, hf0, h⟩
          · exact Or.inl h
          · exact Or.inr ⟨f0, List.mem_cons_of_mem _ hf0, h⟩

/-- The characters of a line of cells: the delimiter, or a character of a padding or of a
word. -/
theorem mem_cells_line (d : Char) (ps : List (List Char × List Char)) (c : Char)
    (hc : c ∈ cells_line d ps) : c = d ∨ ∃ p ∈ ps, c ∈ p.1 ∨ c ∈ p.2 := by
  unfold cells_line at hc
  by_cases hd : d = ' '
  · rw [if_pos hd] at hc
    exact Or.inr (mem_spaced ps c hc)
  · rw [if_neg hd] at hc
    rcases mem_joined d _ c hc with h | ⟨f, hf, h⟩
    · exact Or.inl h
    · rw [List.mem_map] at hf
      obtain ⟨p, hp, rfl⟩ := hf
      exact Or.inr ⟨p, hp, List.mem_append.mp h⟩

theorem record_line_chars (d : Char) (L : Nat) (w : Nat → List Char) (hd : d ≠ '\n')
    (h : ∀ j, j < L → clean_word d (w j)) :
    ∀ c ∈ cells_line d (record_cells d L w), c ≠ '\n' ∧ (d ≠ '\t' → c ≠ '\t') := by
  intro c hc
  rcases mem_cells_line d _ c hc with h1 | ⟨p, hp, h1⟩
  · rw [h1]; exact ⟨hd, fun h => h⟩
  · unfold record_cells at hp
    rw [List.mem_map] at hp
    obtain ⟨j, hj, rfl⟩ := hp
    rcases h1 with h1 | h1
    · have : c = ' ' := by
        unfold cell_pad at h1
        by_cases h0 : j = 0
        · simp [h0] at h1
        · by_cases hd2 : d = ' '
          · simpa [h0, hd2] using h1
          · simpa [h0, hd2] using h1
      rw [this]
      exact ⟨by decide, fun _ => by decide⟩
    · have hw := (h j (List.mem_range.mp hj)).2 c h1
      exact ⟨not_space_ne c '\n' hw.1 rfl, fun _ => not_space_ne c '\t' hw.1 rfl⟩

theorem record_line_tabs (d : Char) (L : Nat) (w : Nat → List Char) (hd : d ≠ '\n')
    (h : ∀ j, j < L → clean_word d (w j)) :
    (if d ≠ '\t' then replace_tabs (cells_line d (record_cells d L w))
      else cells_line d (record_cells d L w)) = cells_line d (record_cells d L w) := by
  by_cases ht : d = '\t'
  · simp [ht]
  · rw [if_pos ht]
    exact replace_tabs_id _ (fun c hc => (record_line_chars d L w hd h c hc).2 ht)

theorem record_line_head (d : Char) (L : Nat) (w : Nat → List Char) (hL : 0 < L)
    (h : clean_word d (w 0)) (hcm : starts_with_comment (w 0) = false) :
    (cells_line d (record_cells d L w)).length ≠ 0 ∧
    starts_with_comment (cells_line d (record_cells d L w)) = false := by
  obtain ⟨m, rfl⟩ : ∃ m, L = m + 1 := ⟨L - 1, by omega⟩
  have hrc : record_cells d (m + 1) w
      = ([], w 0) :: (List.range' 1 m).map (fun j => (cell_pad d j, w j)) := by
    unfold record_cells
    rw [List.range_eq_range', List.range'_succ]
    simp [cell_pad]
  have hline : ∃ t, cells_line d (record_cells d (m + 1) w) = w 0 ++ t := by
    rw [hrc]
    unfold cells_line
    by_cases hd : d = ' '
    · rw [if_pos hd, spaced_cons]
      exact ⟨_, rfl⟩
    · rw [if_neg hd, List.map_cons]
      cases hm : (List.range' 1 m).map (fun j => (cell_pad d j, w j)) with
      | nil => exact ⟨[], by simp [joined]⟩
      | cons q qs =>
        rw [List.map_cons, joined_cons d _ _ (by simp)]
        exact ⟨d :: joined d ((q.1 ++ q.2) :: List.map (fun p => p.1 ++ p.2) qs), by simp⟩
  obtain ⟨t, ht⟩ := hline
  rw [ht]
  cases hw : w 0 with
  | nil => exact absurd hw h.1
  | cons a u =>
    rw [hw] at hcm
    simpa [starts_with_comment] using hcm

theorem records_text_succ (d : Char) (L : Nat) (W : Nat → Nat → List Char) (k m : Nat) :
    records_text d L W k (m + 1)
      = cells_line d (record_cells d L (W k)) ++ '\n' :: records_text d L W (k + 1) m := by
  simp [records_text, List.range'_succ]

theorem records_text_length (d : Char) (L : Nat) (W : Nat → Nat → List Char) (m : Nat) :
    ∀ k, m ≤ (records_text d L W k m).length := by
  induction m with
  | zero => intro k; exact Nat.zero_le _
  | succ m ih =>
    intro k
    rw [records_text_succ, List.length_append, List.length_cons]
    have := ih (k + 1)
    omega

theorem store_cell_length (io : NumIO) (ops : ColumnOps) (proxy : Flt) (c : Column_Info)
    (k : Nat) (w : List Char)
    (hkeep : ∀ (c : Column_Info) (v : String),
      (ops.add_value c v).1.points.length = c.points.length) :
    (store_cell io ops proxy c k w).points.length = c.points.length := by
  unfold store_cell store_value
  split
  · simp
  · simp [hkeep]

/-- The test of the bad-data flags on a row in which no stored value is below the flag. -/
theorem no_bad_flag_cells (L nd k : Nat) (F : Nat → Column_Info) (hnd : nd ≤ L)
    (hroom : ∀ i, i < nd → k < (F i).points.length)
    (h : ∀ i, i < nd → Flt.lt ((F i).points.getD k Flt.nan) bad_data_flag = false) :
    has_bad_data_flag (mkCols L F) (nd : Int) (k : Int) = some false := by
  unfold has_bad_data_flag
  simp only [Int.toNat_ofNat]
  have htake : (mkCols L F).take nd = (List.range nd).map F := by
    have h1 : (mkCols L F).take nd = ((mkCols L F).take L).take nd := by
      rw [List.take_take, Nat.min_eq_left hnd]
    rw [h1, mkCols_take, ← List.map_take, List.take_range, Nat.min_eq_left hnd]
  rw [htake]
  have h1 : ((List.range nd).map F).all (fun c => decide (k < c.points.length)) = true := by
    rw [List.all_eq_true]
    intro c hc
    rw [List.mem_map] at hc
    obtain ⟨j, hj, rfl⟩ := hc
    simpa using hroom j (List.mem_range.mp hj)
  have h2 : ((List.range nd).map F).any
      (fun c => Flt.lt (c.points.getD k Flt.nan) bad_data_flag) = false := by
    rw [List.any_eq_false]
    intro c hc
    rw [List.mem_map] at hc
    obtain ⟨j, hj, rfl⟩ := hc
    simpa using h j (List.mem_range.mp hj)
  rw [if_pos ⟨by omega, by rw [mkCols_length]; omega, h1⟩, h2]

/-- One pass of the data loop over a written line of clean words: the words are stored in
row `k` of the data columns, after the types of the columns have been set if this is the
first row, and the row counter advances. -/
theorem data_loop_record (io : NumIO) (ops : ColumnOps) (L nd cap k fuel : Nat)
    (d : DataState) (rest : List Char) (G : Nat → Column_Info) (w : Nat → List Char)
    (hkeep : ∀ (c : Column_Info) (v : String),
      (ops.add_value c v).1.points.length = c.points.length)
    (hL : 0 < L) (hk : k < cap) (hdnl : d.dfm.delimiter_char_ ≠ '\n')
    (hclean : ∀ j, j < L → clean_word d.dfm.delimiter_char_ (w j))
    (hcm : starts_with_comment (w 0) = false)
    (hnvars : d.dfm.nvars = L) (hndc : d.dfm.nDataColumns_ = nd)
    (hnd : nd = if d.dfm.readSelectionInfo_ = 0 then L else L - 1)
    (hmax : 1 ≤ d.dfm.MAX_NUNREADABLELINES)
    (hrows : d.nDataRows_ = k) (hunread : d.nUnreadableData = 0)
    (hci : d.dfm.column_info = mkCols L G)
    (hroom : ∀ i, i < nd → k < (G i).points.length)
    (hsel : d.dfm.readSelectionInfo_ ≠ 0 →
      (if k = 0 then word_type io (w (L - 1)) else (G (L - 1)).hasASCII) = 0 ∧
      k < d.dfm.read_selected.length ∧
      (Flt.toInt? (numeric_value io d.dfm.bad_value_proxy_ (w (L - 1)) (w (L - 1)))).isSome
        = true)
    (hflag : ∀ i, i < nd →
      Flt.lt ((store_cell io ops d.dfm.bad_value_proxy_
        (if k = 0 then set_type (G i) (word_type io (w i)) else G i) k (w i)).points.getD k
          Flt.nan) bad_data_flag = false)
    (heof : d.inStream.eofbit = false)
    (hfetch : (if d.uReadNextLine then d.inStream.getline '\n' d.line else (d.inStream, d.line))
      = ({ rest := rest, eofbit := false, failbit := false },
          cells_line d.dfm.delimiter_char_ (record_cells d.dfm.delimiter_char_ L w))) :
    ∃ d1, data_loop io ops cap (fuel + 1) d = data_loop io ops cap fuel d1 ∧
      d1.inStream = { rest := rest, eofbit := false, failbit := false } ∧
      d1.uReadNextLine = true ∧ d1.nDataRows_ = k + 1 ∧ d1.nUnreadableData = 0 ∧
      ∃ rs, rs.length = d.dfm.read_selected.length ∧
        d1.dfm = { d.dfm with
          column_info := mkCols L (fun i =>
            if i < nd then
              store_cell io ops d.dfm.bad_value_proxy_
                (if k = 0 then set_type (G i) (word_type io (w i)) else G i) k (w i)
            else if k = 0 then set_type (G i) (word_type io (w i)) else G i),
          read_selected := rs } := by
  have hcc := record_cells_clean d.dfm.delimiter_char_ L w hclean
  have hhead := record_line_head d.dfm.delimiter_char_ L w hL (hclean 0 hL) hcm
  have hrt := record_line_tabs d.dfm.delimiter_char_ L w hdnl hclean
  have hlen := record_cells_length d.dfm.delimiter_char_ L w
  have hne : record_cells d.dfm.delimiter_char_ L w ≠ [] := by
    intro h; rw [h] at hlen; simp at hlen; omega
  have hndL : nd ≤ L := by
    rw [hnd]; split <;> omega
  -- the types found on the first row
  have htypes : (if d.nDataRows_ = 0 then
        extract_column_types io d.dfm
          (cells_line d.dfm.delimiter_char_ (record_cells d.dfm.delimiter_char_ L w))
        else some d.dfm)
      = some { d.dfm with column_info := mkCols L (fun i =>
          if k = 0 then set_type (G i) (word_type io (w i)) else G i) } := by
    by_cases hk0 : k = 0
    · have hd0 : d.nDataRows_ = 0 := by rw [hrows, hk0]; rfl
      rw [if_pos hd0, extract_types_cells io d.dfm L G _ _ hnvars hci hrt hlen hL hcc]
      simp only [Option.some.injEq]
      congr 1
      apply mkCols_congr
      intro i hi
      rw [record_cells_getD _ _ _ _ hi, if_pos hk0]
    · have hd0 : ¬ d.nDataRows_ = 0 := by rw [hrows]; omega
      rw [if_neg hd0]
      simp only [hk0, if_false]
      rw [← hci]
  -- the fields of the row
  let dfm1 : Data_File_Manager :=
    { d.dfm with column_info := mkCols L (fun i =>
        if k = 0 then set_type (G i) (word_type io (w i)) else G i) }
  let st0 : LineState :=
    { ss := IStream.ofText (cells_line d.dfm.delimiter_char_
        (record_cells d.dfm.delimiter_char_ L w)),
      xValue := Flt.zero, sToken := [],
      column_info := dfm1.column_info, read_selected := dfm1.read_selected,
      isBadData := false, nUnreadableData := d.nUnreadableData }
  have hroom1 : ∀ i, i < nd →
      k < (if k = 0 then set_type (G i) (word_type io (w i)) else G i).points.length := by
    intro i hi
    have := hroom i hi
    split
    · exact this
    · exact this
  obtain ⟨st1, hst1, hc1, hb1, hu1, hr1, _⟩ := read_fields_cells io ops dfm1 k L hnvars hkeep
    (record_cells d.dfm.delimiter_char_ L w) 0
    (fun i => if k = 0 then set_type (G i) (word_type io (w i)) else G i) st0
    hne hcc rfl rfl (by rw [hlen]; omega)
    (fun i _ hi hs => hroom1 i (by
      rw [hnd]
      rcases hs with hs | hs
      · have : d.dfm.readSelectionInfo_ = 0 := hs
        rw [if_pos this]; exact hi
      · split <;> omega))
    (fun hs => by
      obtain ⟨h1, h2, h3⟩ := hsel hs
      refine ⟨?_, h2, ?_⟩
      · by_cases hk0 : k = 0
        · simp only [hk0, if_true] at h1 ⊢
          exact h1
        · simp only [hk0, if_false] at h1 ⊢
          exact h1
      · intro p hp
        rw [record_cells_getLast _ _ _ hL] at hp
        simp only [Option.some.injEq] at hp
        rw [← hp]
        exact h3)
  have hc2 : st1.column_info = mkCols L (fun i =>
      if i < nd then
        store_cell io ops d.dfm.bad_value_proxy_
          (if k = 0 then set_type (G i) (word_type io (w i)) else G i) k (w i)
      else if k = 0 then set_type (G i) (word_type io (w i)) else G i) := by
    rw [hc1]
    apply mkCols_congr
    intro i hi
    have hiff : (0 ≤ i ∧ (dfm1.readSelectionInfo_ = 0 ∨ i + 1 < L)) ↔ i < nd := by
      rw [hnd]
      show (0 ≤ i ∧ (d.dfm.readSelectionInfo_ = 0 ∨ i + 1 < L)) ↔ _
      by_cases hs : d.dfm.readSelectionInfo_ = 0
      · simp [hs, hi]
      · simp only [hs, false_or, if_false]
        omega
    by_cases hind : i < nd
    · rw [if_pos (hiff.mpr hind), if_pos hind, Nat.sub_zero, record_cells_getD _ _ _ _ hi]
    · rw [if_neg (fun h => hind (hiff.mp h)), if_neg hind]
  have hflag1 := no_bad_flag_cells L nd k (fun i =>
      if i < nd then
        store_cell io ops d.dfm.bad_value_proxy_
          (if k = 0 then set_type (G i) (word_type io (w i)) else G i) k (w i)
      else if k = 0 then set_type (G i) (word_type io (w i)) else G i) hndL
    (fun i hi => by
      simp only [hi, if_true]
      rw [store_cell_length _ _ _ _ _ _ hkeep]
      exact hroom1 i hi)
    (fun i hi => by
      simp only [hi, if_true]
      exact hflag i hi)
  rw [hlen] at hst1
  simp only [Nat.cast_zero] at hst1
  have hcond : d.inStream.eofbit = false ∧ d.nDataRows_ < (cap : Int) := by
    refine ⟨heof, ?_⟩
    rw [hrows]; omega
  have hnobreak : ¬ (d.uReadNextLine = true ∧
      (if d.uReadNextLine then d.inStream.getline '\n' d.line
        else (d.inStream, d.line)).1.eofbit = true) := by
    rw [hfetch]; simp
  refine ⟨{ inStream := { rest := rest, eofbit := false, failbit := false },
            line := cells_line d.dfm.delimiter_char_ (record_cells d.dfm.delimiter_char_ L w),
            uReadNextLine := true,
            nRead := if d.uReadNextLine then d.nRead + 1 else d.nRead,
            nSkip := d.nSkip, nDataRows_ := k + 1,
            nTestCycle := if d.nTestCycle + 1 ≥ d.dfm.MAX_NTESTCYCLES then 0
              else d.nTestCycle + 1,
            nUnreadableData := 0,
            dfm := { d.dfm with
              column_info := st1.column_info, read_selected := st1.read_selected } },
    ?_, rfl, rfl, rfl, rfl, st1.read_selected, hr1, by rw [hc2]⟩
  rw [data_loop]
  simp only [hcond, and_self, if_true, hnobreak, if_false, hfetch, hhead.1, hhead.2,
    Bool.false_eq_true, or_self, htypes]
  have hst1' : read_fields io ops dfm1 k d.dfm.nvars.toNat 0
      { ss := IStream.ofText (cells_line d.dfm.delimiter_char_
          (record_cells d.dfm.delimiter_char_ L w)),
        xValue := Flt.zero, sToken := [],
        column_info := dfm1.column_info, read_selected := dfm1.read_selected,
        isBadData := false, nUnreadableData := d.nUnreadableData } = some st1 := by
    rw [hnvars]; exact hst1
  have hflag' : has_bad_data_flag st1.column_info d.dfm.nDataColumns_ k = some false := by
    rw [hndc, hc2]; exact hflag1
  have hu2 : st1.nUnreadableData = 0 := by rw [hu1]; exact hunread
  have hthr : ¬ (d.nTestCycle + 1 ≥ d.dfm.MAX_NTESTCYCLES ∧
      0 ≥ d.dfm.MAX_NUNREADABLELINES) := by
    omega
  have hb2 : st1.isBadData = false := by rw [hb1]
  simp only [dfm1] at hst1'
  simp only [hrows, hrt, hst1', hflag', hthr, hb2, hu2, Bool.or_false, Bool.false_eq_true,
    if_false, and_false]

/-! ### The data loop on written lines of cells -/

theorem filled_length (io : NumIO) (ops : ColumnOps) (proxy : Flt) (c : Column_Info)
    (w : Nat → List Char)
    (hkeep : ∀ (c : Column_Info) (v : String),
      (ops.add_value c v).1.points.length = c.points.length) :
    ∀ k, (filled io ops proxy c w k).points.length = c.points.length := by
  intro k
  induction k with
  | zero => rfl
  | succ k ih => rw [filled, store_cell_length _ _ _ _ _ _ hkeep, ih]

theorem column_after_length (io : NumIO) (ops : ColumnOps) (proxy : Flt) (nd : Nat)
    (G : Nat → Column_Info) (W : Nat → Nat → List Char) (k i : Nat)
    (hkeep : ∀ (c : Column_Info) (v : String),
      (ops.add_value c v).1.points.length = c.points.length) :
    (column_after io ops proxy nd G W k i).points.length = (G i).points.length := by
  unfold column_after
  split
  · rfl
  · split
    · rw [filled_length _ _ _ _ _ hkeep]; rfl
    · rfl

theorem column_after_succ (io : NumIO) (ops : ColumnOps) (proxy : Flt) (nd : Nat)
    (G : Nat → Column_Info) (W : Nat → Nat → List Char) (k i : Nat) :
    (if i < nd then
        store_cell io ops proxy
          (if k = 0 then set_type (column_after io ops proxy nd G W k i) (word_type io (W k i))
            else column_after io ops proxy nd G W k i) k (W k i)
      else if k = 0 then set_type (column_after io ops proxy nd G W k i) (word_type io (W k i))
        else column_after io ops proxy nd G W k i)
      = column_after io ops proxy nd G W (k + 1) i := by
  by_cases hk : k = 0
  · subst hk
    by_cases hi : i < nd
    · simp [column_after, hi, filled]
    · simp [column_after, hi]
  · by_cases hi : i < nd
    · simp [column_after, hi, hk, filled]
    · simp [column_after, hi, hk]

/-- The data loop on the written lines `k, ..., n - 1` of clean words, followed by the end
of the text: it ends with status 0 and all `n` rows stored. -/
theorem data_loop_records (io : NumIO) (ops : ColumnOps) (δ : Char) (σ : Int) (proxy : Flt)
    (L nd cap n : Nat) (G : Nat → Column_Info) (W : Nat → Nat → List Char)
    (hkeep : ∀ (c : Column_Info) (v : String),
      (ops.add_value c v).1.points.length = c.points.length)
    (hL : 0 < L) (hn : n ≤ cap) (hδ : δ ≠ '\n')
    (hnd : nd = if σ = 0 then L else L - 1)
    (hclean : ∀ i, i < n → ∀ j, j < L → clean_word δ (W i j))
    (hcm : ∀ i, i < n → starts_with_comment (W i 0) = false)
    (hroom : ∀ i, i < nd → cap ≤ (G i).points.length)
    (hsel : σ ≠ 0 → 0 < n → word_type io (W 0 (L - 1)) = 0)
    (hselv : σ ≠ 0 → ∀ i, i < n →
      (Flt.toInt? (numeric_value io proxy (W i (L - 1)) (W i (L - 1)))).isSome = true)
    (hflag : ∀ k, k < n → ∀ i, i < nd →
      Flt.lt ((column_after io ops proxy nd G W (k + 1) i).points.getD k Flt.nan)
        bad_data_flag = false) :
    ∀ (m k fuel : Nat) (d : DataState),
      k + m = n → m < fuel →
      d.dfm.delimiter_char_ = δ → d.dfm.readSelectionInfo_ = σ →
      d.dfm.bad_value_proxy_ = proxy →
      d.dfm.nvars = L → d.dfm.nDataColumns_ = nd →
      1 ≤ d.dfm.MAX_NUNREADABLELINES →
      d.nDataRows_ = k → d.nUnreadableData = 0 →
      d.dfm.column_info = mkCols L (column_after io ops proxy nd G W k) →
      (σ ≠ 0 → n ≤ d.dfm.read_selected.length) →
      d.uReadNextLine = true →
      d.inStream = { rest := records_text δ L W k m, eofbit := false, failbit := false } →
      ∃ d1, data_loop io ops cap fuel d = some (0, d1) ∧ d1.nDataRows_ = n ∧
        ∃ rs, rs.length = d.dfm.read_selected.length ∧
          d1.dfm = { d.dfm with
            column_info := mkCols L (column_after io ops proxy nd G W n),
            read_selected := rs } := by
  intro m
  induction m with
  | zero =>
    intro k fuel d hkm hfuel hdel hsl hpx hnvars hndc hmax hrows hunread hci hrs hur hin
    obtain ⟨f, rfl⟩ : ∃ f, fuel = f + 1 := ⟨fuel - 1, by omega⟩
    have hkn : k = n := by omega
    rw [hkn] at hci
    have hdfm : d.dfm = { d.dfm with
        column_info := mkCols L (column_after io ops proxy nd G W n),
        read_selected := d.dfm.read_selected } := by
      rw [← hci]
    have heof : d.inStream.eofbit = false := by rw [hin]
    rw [data_loop]
    by_cases hk : k < cap
    · have hcond : d.inStream.eofbit = false ∧ d.nDataRows_ < (cap : Int) := by
        refine ⟨heof, ?_⟩
        rw [hrows]; omega
      have hg : d.inStream.getline '\n' d.line
          = ({ rest := [], eofbit := true, failbit := true }, []) :=
        getline_at_end _ _ (by rw [hin]; rfl) (by rw [hin]; rfl)
      rw [if_pos hcond]
      simp only [hur, if_true, hg, and_self]
      exact ⟨_, rfl, by rw [← hkn]; exact hrows, _, rfl, hdfm⟩
    · have hcond : ¬ (d.inStream.eofbit = false ∧ d.nDataRows_ < (cap : Int)) := by
        rw [hrows]; omega
      rw [if_neg hcond]
      exact ⟨_, rfl, by rw [← hkn]; exact hrows, _, rfl, hdfm⟩
  | succ m ih =>
    intro k fuel d hkm hfuel hdel hsl hpx hnvars hndc hmax hrows hunread hci hrs hur hin
    obtain ⟨f, rfl⟩ : ∃ f, fuel = f + 1 := ⟨fuel - 1, by omega⟩
    have hkn : k < n := by omega
    have hrow := hclean k hkn
    have hchars := record_line_chars δ L (W k) hδ hrow
    have hfetch : (if d.uReadNextLine then d.inStream.getline '\n' d.line
          else (d.inStream, d.line))
        = ({ rest := records_text δ L W (k + 1) m, eofbit := false, failbit := false },
            cells_line d.dfm.delimiter_char_ (record_cells d.dfm.delimiter_char_ L (W k))) := by
      rw [if_pos hur, hdel]
      exact getline_newline _ _ _ _ (by rw [hin]; rfl) (by rw [hin, records_text_succ])
        (fun c hc => (hchars c hc).1)
    obtain ⟨d1, hstep, hin1, hur1, hrows1, hunread1, rs1, hrs1, hdfm1⟩ :=
      data_loop_record io ops L nd cap k f d (records_text δ L W (k + 1) m)
        (column_after io ops proxy nd G W k) (W k) hkeep hL (by omega) (by rw [hdel]; exact hδ)
        (by rw [hdel]; exact hrow) (hcm k hkn) hnvars hndc (by rw [hsl]; exact hnd) hmax hrows
        hunread hci
        (fun i hi => by
          rw [column_after_length _ _ _ _ _ _ _ _ hkeep]
          have := hroom i hi
          omega)
        (fun hs => by
          rw [hsl] at hs
          refine ⟨?_, by have := hrs hs; omega, by rw [hpx]; exact hselv hs k hkn⟩
          by_cases hk0 : k = 0
          · rw [if_pos hk0]
            subst hk0
            exact hsel hs (by omega)
          · rw [if_neg hk0]
            have hnd2 : ¬ (L - 1 < nd) := by
              rw [hnd, if_neg hs]; omega
            simp only [column_after, hk0, if_false, hnd2]
            exact hsel hs (by omega))
        (fun i hi => by
          have := hflag k hkn i hi
          rw [← column_after_succ] at this
          rw [if_pos hi] at this
          rw [hpx]
          exact this)
        (by rw [hin]) hfetch
    have hci1 : d1.dfm.column_info = mkCols L (column_after io ops proxy nd G W (k + 1)) := by
      rw [hdfm1]
      show mkCols L _ = _
      apply mkCols_congr
      intro i _
      rw [hpx]
      exact column_after_succ io ops proxy nd G W k i
    obtain ⟨d2, hrun, hrows2, rs2, hrs2, hdfm2⟩ := ih (k + 1) f d1 (by omega) (by omega)
      (by rw [hdfm1]; exact hdel) (by rw [hdfm1]; exact hsl) (by rw [hdfm1]; exact hpx)
      (by rw [hdfm1]; exact hnvars)
      (by rw [hdfm1]; exact hndc) (by rw [hdfm1]; exact hmax)
      (by rw [hrows1]; push_cast; rfl) hunread1 hci1
      (fun hs => by
        rw [hdfm1]
        show n ≤ rs1.length
        rw [hrs1]; exact hrs hs)
      hur1 hin1
    refine ⟨d2, by rw [hstep, hrun], hrows2, rs2, ?_, ?_⟩
    · rw [hrs2, hdfm1]
      exact hrs1
    · rw [hdfm2, hdfm1]

/-! ### The end of the reader on lines of cells -/

theorem forFirst_mkCols_le (g : Column_Info → Column_Info) (L nd : Nat)
    (f : Nat → Column_Info) (h : nd ≤ L) :
    forFirst g (mkCols L f) nd = some (mkCols L (fun i => if i < nd then g (f i) else f i)) := by
  unfold forFirst
  rw [if_pos (by rw [mkCols_length]; omega)]
  congr 1
  apply List.ext_getElem?
  intro i
  by_cases hi : i < nd
  · rw [List.getElem?_append_left (by
      rw [List.length_map, List.length_take, mkCols_length]; omega)]
    rw [List.getElem?_map, List.getElem?_take_of_lt hi, mkCols_getElem? _ _ _ (by omega),
      mkCols_getElem? _ _ _ (by omega)]
    simp [hi]
  · have hlen : ((mkCols L f).take nd).length = nd := by
      rw [List.length_take, mkCols_length]; omega
    rw [List.getElem?_append_right (by rw [List.length_map, hlen]; omega), List.length_map, hlen,
      List.getElem?_drop]
    have hidx : nd + (i - nd) = i := by omega
    rw [hidx]
    by_cases hiL : i < L
    · rw [mkCols_getElem? _ _ _ hiL, mkCols_getElem? _ _ _ hiL]
      simp [hi]
    · unfold mkCols
      rw [List.getElem?_append_right (by simp; omega),
        List.getElem?_append_right (by simp; omega)]
      simp

theorem mkCols_eraseIdx (m : Nat) (f : Nat → Column_Info) :
    (mkCols (m + 1) f).eraseIdx ((mkCols (m + 1) f).length - 2) = mkCols m f := by
  rw [mkCols_length]
  have h : m + 1 + 1 - 2 = m := by omega
  rw [h]
  unfold mkCols
  rw [List.range_succ, List.map_append, List.append_assoc]
  rw [List.eraseIdx_append_of_length_le (by simp)]
  simp

theorem n_ascii_columns_lt (s : Data_File_Manager) (L : Nat) (F : Nat → Column_Info)
    (hci : s.column_info = mkCols L F) (h : ∃ i, i < L ∧ (F i).hasASCII ≤ 0) :
    n_ascii_columns s < (L : Int) := by
  obtain ⟨i, hi, hty⟩ := h
  unfold n_ascii_columns
  rw [hci]
  unfold mkCols
  rw [List.filter_append]
  have h1 : ([nothing_column].filter (fun c => decide (c.hasASCII > 0))) = [] := by decide
  rw [h1, List.append_nil]
  have h2 : ((List.range L).map F).filter (fun c => decide (c.hasASCII > 0))
      ≠ (List.range L).map F := by
    intro heq
    have hmem : F i ∈ (List.range L).map F := List.mem_map.mpr ⟨i, List.mem_range.mpr hi, rfl⟩
    rw [← heq] at hmem
    have := (List.mem_filter.mp hmem).2
    simp at this
    omega
  have h3 : (((List.range L).map F).filter (fun c => decide (c.hasASCII > 0))).length
      ≤ ((List.range L).map F).length := List.length_filter_le _ _
  have h4 : (((List.range L).map F).filter (fun c => decide (c.hasASCII > 0))).length
      ≠ ((List.range L).map F).length := by
    intro heq
    exact h2 (List.filter_eq_self.mpr (by
      have := List.filter_sublist (p := fun c : Column_Info => decide (c.hasASCII > 0))
        ((List.range L).map F)
      have hh := this.eq_of_length heq
      exact List.filter_eq_self.mp hh))
  simp only [List.length_map, List.length_range] at h3 h4
  omega

/-- The end of the reader after a data loop that has stored `n` rows: the ASCII values of
the data columns are put in order, the column of selection information is removed if there
is one, and the buffers are cut to `n` rows. -/
theorem finish_read_cells (ops : ColumnOps) (answer : Int) (L nd n : Nat)
    (F : Nat → Column_Info) (d : DataState) (hL : 0 < L)
    (hnd : nd = if d.dfm.readSelectionInfo_ = 0 then L else L - 1)
    (hrows : d.nDataRows_ = n)
    (hnvars : d.dfm.nvars = L) (hndc : d.dfm.nDataColumns_ = nd)
    (hci : d.dfm.column_info = mkCols L F)
    (hconfirm : d.dfm.doCommentedLabels_ ≠ 0 → answer ≤ 0 → ∃ i, i < L ∧ (F i).hasASCII ≤ 0) :
    finish_read ops answer 0 d
      = some (0, { d.dfm with nDataRows_ := n, nDataColumns_ := nd, nvars := nd, npoints := n,
                              column_info := mkCols nd (fun i => finished ops n (F i)),
                              read_from_stdin := false }) := by
  have hndL : nd ≤ L := by rw [hnd]; split <;> omega
  have hnot : ¬ (¬ d.dfm.doCommentedLabels_ = 0 ∧
      (((mkCols L F).filter (fun c => decide (c.hasASCII > 0))).length : Int) ≥ (L : Int) ∧
      answer ≤ 0) := by
    rintro ⟨h1, h2, h3⟩
    have := n_ascii_columns_lt { d.dfm with nDataRows_ := (n : Int) } L F hci (hconfirm h1 h3)
    unfold n_ascii_columns at this
    rw [show ({ d.dfm with nDataRows_ := (n : Int) } : Data_File_Manager).column_info
      = mkCols L F from hci] at this
    omega
  have hupd : forFirst (fun c => (ops.update_ascii_values_and_data (n : Int) c).1)
      (mkCols L F) (nd : Int).toNat
      = some (mkCols L (fun i =>
          if i < nd then (ops.update_ascii_values_and_data (n : Int) (F i)).1 else F i)) := by
    rw [Int.toNat_ofNat, forFirst_mkCols_le _ _ _ _ hndL]
  unfold finish_read
  simp only [ne_eq, not_true_eq_false, if_false, hrows, hnvars, n_ascii_columns, hci, hnot,
    hndc, hupd]
  by_cases hs : d.dfm.readSelectionInfo_ = 0
  · have hndeq : nd = L := by rw [hnd, if_pos hs]
    subst hndeq
    have hlen : ((mkCols nd (fun i =>
        if i < nd then (ops.update_ascii_values_and_data (n : Int) (F i)).1 else F i)).length
          : Int) - 1 = (nd : Int) := by
      rw [mkCols_length]; omega
    have hshrink : forFirst (fun c =>
          { c with points := resizeAndPreserve Flt.zero c.points (n : Int) })
        (mkCols nd (fun i =>
          if i < nd then (ops.update_ascii_values_and_data (n : Int) (F i)).1 else F i))
        (nd : Int).toNat
        = some (mkCols nd (fun i => finished ops n (F i))) := by
      rw [Int.toNat_ofNat, forFirst_mkCols]
      congr 1
      apply mkCols_congr
      intro i hi
      simp only [hi, if_true]
      rfl
    unfold remove_column_of_selection_info
    simp only [hs, ne_eq, not_true_eq_false, if_false, hlen, hshrink]
  · obtain ⟨m, hm⟩ : ∃ m, L = m + 1 := ⟨L - 1, by omega⟩
    have hndeq : nd = m := by rw [hnd, if_neg hs, hm]; rfl
    subst hndeq
    subst hm
    have hlt : ¬ ((mkCols (nd + 1) (fun i =>
        if i < nd then (ops.update_ascii_values_and_data (n : Int) (F i)).1 else F i)).length
          < 2) := by
      rw [mkCols_length]; omega
    have hlen : ((mkCols nd (fun i =>
        if i < nd then (ops.update_ascii_values_and_data (n : Int) (F i)).1 else F i)).length
          : Int) - 1 = (nd : Int) := by
      rw [mkCols_length]; omega
    have hshrink : forFirst (fun c =>
          { c with points := resizeAndPreserve Flt.zero c.points (n : Int) })
        (mkCols nd (fun i =>
          if i < nd then (ops.update_ascii_values_and_data (n : Int) (F i)).1 else F i))
        (nd : Int).toNat
        = some (mkCols nd (fun i => finished ops n (F i))) := by
      rw [Int.toNat_ofNat, forFirst_mkCols]
      congr 1
      apply mkCols_congr
      intro i hi
      simp only [hi, if_true]
      rfl
    unfold remove_column_of_selection_info
    simp only [hs, ne_eq, not_false_eq_true, if_true, hlt, if_false, mkCols_eraseIdx, hlen,
      hshrink]

theorem resize_length {α : Type} (fill : α) (a : List α) (n : Nat) :
    (resize fill a (n : Int)).length = n := by
  unfold resize
  split
  · rename_i h; simpa using h
  · simp

theorem with_room_length (cap nd : Nat) (G : Nat → Column_Info) (i : Nat) (hi : i < nd) :
    (with_room cap nd G i).points.length = cap := by
  unfold with_room
  rw [if_pos hi]
  exact resize_length _ _ _

/-- Step 4 and what follows it on written lines of clean words, the first of which is
fetched by the first pass of the data loop. -/
theorem read_data_block_records (io : NumIO) (ops : ColumnOps) (answer : Int)
    (L nd n cap : Nat) (G : Nat → Column_Info) (W : Nat → Nat → List Char)
    (h : HeaderState) (u : Bool) (s3 : Data_File_Manager)
    (hkeep : ∀ (c : Column_Info) (v : String),
      (ops.add_value c v).1.points.length = c.points.length)
    (hL : 0 < L) (hn1 : 1 ≤ n) (hn : n ≤ cap)
    (hcap : (if s3.npoints_cmd_line > 0 then s3.npoints_cmd_line else s3.maxpoints_)
      = (cap : Int))
    (hδ : s3.delimiter_char_ ≠ '\n')
    (hnd : nd = if s3.readSelectionInfo_ = 0 then L else L - 1)
    (hclean : ∀ i, i < n → ∀ j, j < L → clean_word s3.delimiter_char_ (W i j))
    (hcm : ∀ i, i < n → starts_with_comment (W i 0) = false)
    (hnvars : s3.nvars = L) (hmax : 1 ≤ s3.MAX_NUNREADABLELINES)
    (hci : s3.column_info = mkCols L G)
    (hsel : s3.readSelectionInfo_ ≠ 0 → word_type io (W 0 (L - 1)) = 0)
    (hselv : s3.readSelectionInfo_ ≠ 0 → ∀ i, i < n →
      (Flt.toInt? (numeric_value io s3.bad_value_proxy_ (W i (L - 1)) (W i (L - 1)))).isSome
        = true)
    (hrs : s3.readSelectionInfo_ ≠ 0 → n ≤ s3.read_selected.length)
    (hflag : ∀ k, k < n → ∀ i, i < nd →
      Flt.lt ((column_after io ops s3.bad_value_proxy_ nd (with_room cap nd G) W (k + 1)
        i).points.getD k Flt.nan) bad_data_flag = false)
    (hconfirm : s3.doCommentedLabels_ ≠ 0 → answer ≤ 0 →
      ∃ i, i < L ∧ (column_after io ops s3.bad_value_proxy_ nd (with_room cap nd G) W n
        i).hasASCII ≤ 0)
    (heof : h.inStream.eofbit = false) (hfuel : n ≤ h.inStream.rest.length + 1)
    (hfetch : (if u then h.inStream.getline '\n' h.line else (h.inStream, h.line))
      = ({ rest := records_text s3.delimiter_char_ L W 1 (n - 1), eofbit := false,
           failbit := false },
          cells_line s3.delimiter_char_ (record_cells s3.delimiter_char_ L (W 0)))) :
    ∃ rs, rs.length = s3.read_selected.length ∧
      read_data_block io ops answer h u s3
        = some (0, { s3 with nDataRows_ := n, nDataColumns_ := nd, nvars := nd, npoints := n,
                             column_info := mkCols nd (fun i => finished ops n
                               (column_after io ops s3.bad_value_proxy_ nd (with_room cap nd G)
                                 W n i)),
                             read_selected := rs,
                             read_from_stdin := false }) := by
  have hndL : nd ≤ L := by rw [hnd]; split <;> omega
  have hNDC : (if include_line_number then s3.nvars + 1 else s3.nvars)
      - (if s3.readSelectionInfo_ ≠ 0 then 1 else 0) = (nd : Int) := by
    rw [hnd]
    by_cases hs : s3.readSelectionInfo_ = 0
    · simp [include_line_number, hs, hnvars]
    · simp only [include_line_number, hs, hnvars, ne_eq, not_false_eq_true, if_true, if_false,
        Bool.false_eq_true]
      omega
  have hfor : forFirst (fun c => { c with points := resize Flt.zero c.points (cap : Int) })
      s3.column_info (nd : Int).toNat = some (mkCols L (with_room cap nd G)) := by
    rw [hci, Int.toNat_ofNat, forFirst_mkCols_le _ _ _ _ hndL]
    rfl
  -- the first row
  obtain ⟨d1, hstep, hin1, hur1, hrows1, hunread1, rs1, hrs1, hdfm1⟩ :=
    data_loop_record io ops L nd cap 0 (h.inStream.rest.length + 1)
      { inStream := h.inStream, line := h.line, uReadNextLine := u, nRead := h.nRead,
        nSkip := 0, nDataRows_ := 0, nTestCycle := 0, nUnreadableData := 0,
        dfm := { s3 with npoints := (cap : Int), nDataColumns_ := (nd : Int),
                         column_info := mkCols L (with_room cap nd G),
                         nDataRows_ := 0 } }
      (records_text s3.delimiter_char_ L W 1 (n - 1)) (with_room cap nd G) (W 0) hkeep hL
      (by omega) hδ (hclean 0 (by omega)) (hcm 0 (by omega)) hnvars rfl hnd hmax rfl rfl rfl
      (fun i hi => by rw [with_room_length _ _ _ _ hi]; omega)
      (fun hs => ⟨by rw [if_pos rfl]; exact hsel hs,
        by
          have := hrs hs
          show 0 < s3.read_selected.length
          omega,
        hselv hs 0 (by omega)⟩)
      (fun i hi => by
        have := hflag 0 (by omega) i hi
        rw [← column_after_succ, if_pos hi] at this
        exact this)
      heof hfetch
  have hci1 : d1.dfm.column_info
      = mkCols L (column_after io ops s3.bad_value_proxy_ nd (with_room cap nd G) W 1) := by
    rw [hdfm1]
    show mkCols L _ = _
    apply mkCols_congr
    intro i _
    exact column_after_succ io ops s3.bad_value_proxy_ nd (with_room cap nd G) W 0 i
  -- the other rows
  obtain ⟨d2, hrun, hrows2, rs2, hrs2, hdfm2⟩ :=
    data_loop_records io ops s3.delimiter_char_ s3.readSelectionInfo_ s3.bad_value_proxy_
      L nd cap n (with_room cap nd G) W hkeep hL hn hδ hnd hclean hcm
      (fun i hi => by rw [with_room_length _ _ _ _ hi])
      (fun hs _ => hsel hs) hselv hflag (n - 1) 1 (h.inStream.rest.length + 1) d1
      (by omega) (by omega)
      (by rw [hdfm1]) (by rw [hdfm1]) (by rw [hdfm1]) (by rw [hdfm1]; exact hnvars)
      (by rw [hdfm1]) (by rw [hdfm1]; exact hmax) hrows1 hunread1 hci1
      (fun hs => by
        rw [hdfm1]
        show n ≤ rs1.length
        rw [hrs1]; exact hrs hs)
      hur1 hin1
  have hfin := finish_read_cells ops answer L nd n
    (column_after io ops s3.bad_value_proxy_ nd (with_room cap nd G) W n) d2 hL
    (by rw [hdfm2, hdfm1]; exact hnd) hrows2 (by rw [hdfm2, hdfm1]; exact hnvars)
    (by rw [hdfm2, hdfm1]) (by rw [hdfm2])
    (by rw [hdfm2, hdfm1]; exact hconfirm)
  refine ⟨rs2, by rw [hrs2, hdfm1]; exact hrs1, ?_⟩
  unfold read_data_block
  simp only [hcap, hNDC, hfor]
  have hfuel2 : h.inStream.rest.length + 2 = (h.inStream.rest.length + 1) + 1 := rfl
  rw [hfuel2, hstep, hrun]
  simp only []
  rw [hfin, hdfm2, hdfm1]

/-- Step 4 and what follows it when no data line is left. -/
theorem read_data_block_empty (io : NumIO) (ops : ColumnOps) (answer : Int)
    (L nd cap : Nat) (G : Nat → Column_Info) (W : Nat → Nat → List Char)
    (h : HeaderState) (u : Bool) (s3 : Data_File_Manager)
    (hL : 0 < L)
    (hcap : (if s3.npoints_cmd_line > 0 then s3.npoints_cmd_line else s3.maxpoints_)
      = (cap : Int))
    (hnd : nd = if s3.readSelectionInfo_ = 0 then L else L - 1)
    (hnvars : s3.nvars = L)
    (hci : s3.column_info = mkCols L G)
    (hconfirm : s3.doCommentedLabels_ ≠ 0 → answer ≤ 0 → ∃ i, i < L ∧ (G i).hasASCII ≤ 0)
    (hend : h.inStream.eofbit = true ∨ (u = true ∧ h.inStream = ⟨[], false, false⟩)) :
    read_data_block io ops answer h u s3
      = some (0, { s3 with nDataRows_ := 0, nDataColumns_ := nd, nvars := nd, npoints := 0,
                           column_info := mkCols nd (fun i => finished ops 0
                             (column_after io ops s3.bad_value_proxy_ nd (with_room cap nd G)
                               W 0 i)),
                           read_selected := s3.read_selected,
                           read_from_stdin := false }) := by
  have hndL : nd ≤ L := by rw [hnd]; split <;> omega
  have hNDC : (if include_line_number then s3.nvars + 1 else s3.nvars)
      - (if s3.readSelectionInfo_ ≠ 0 then 1 else 0) = (nd : Int) := by
    rw [hnd]
    by_cases hs : s3.readSelectionInfo_ = 0
    · simp [include_line_number, hs, hnvars]
    · simp only [include_line_number, hs, hnvars, ne_eq, not_false_eq_true, if_true, if_false,
        Bool.false_eq_true]
      omega
  have hfor : forFirst (fun c => { c with points := resize Flt.zero c.points (cap : Int) })
      s3.column_info (nd : Int).toNat = some (mkCols L (with_room cap nd G)) := by
    rw [hci, Int.toNat_ofNat, forFirst_mkCols_le _ _ _ _ hndL]
    rfl
  have hloop : ∃ d1, data_loop io ops (cap : Int) (h.inStream.rest.length + 2)
      { inStream := h.inStream, line := h.line, uReadNextLine := u, nRead := h.nRead,
        nSkip := 0, nDataRows_ := 0, nTestCycle := 0, nUnreadableData := 0,
        dfm := { s3 with npoints := (cap : Int), nDataColumns_ := (nd : Int),
                         column_info := mkCols L (with_room cap nd G),
                         nDataRows_ := 0 } } = some (0, d1) ∧ d1.nDataRows_ = 0 ∧
      d1.dfm = { s3 with npoints := (cap : Int), nDataColumns_ := (nd : Int),
                         column_info := mkCols L (with_room cap nd G),
                         nDataRows_ := 0 } := by
    have hfuel2 : h.inStream.rest.length + 2 = (h.inStream.rest.length + 1) + 1 := rfl
    rw [hfuel2, data_loop]
    rcases hend with he | ⟨hu, hin⟩
    · simp only [he, Bool.true_eq_false, false_and, if_false]
      exact ⟨_, rfl, rfl, rfl⟩
    · by_cases hc : (0 : Int) < (cap : Int)
      · have hg : h.inStream.getline '\n' h.line
            = ({ rest := [], eofbit := true, failbit := true }, []) :=
          getline_at_end _ _ (by rw [hin]; rfl) (by rw [hin])
        have he : h.inStream.eofbit = false := by rw [hin]
        simp only [he, hc, and_self, if_true, hu, hg]
        exact ⟨_, rfl, rfl, rfl⟩
      · simp only [hc, and_false, if_false]
        exact ⟨_, rfl, rfl, rfl⟩
  obtain ⟨d1, hrun, hrows1, hdfm1⟩ := hloop
  have hfin := finish_read_cells ops answer L nd 0 (with_room cap nd G) d1 hL
    (by rw [hdfm1]; exact hnd) (by rw [hrows1]; rfl) (by rw [hdfm1]; exact hnvars)
    (by rw [hdfm1]) (by rw [hdfm1])
    (by
      rw [hdfm1]
      intro h1 h2
      obtain ⟨i, hi, hty⟩ := hconfirm h1 h2
      refine ⟨i, hi, ?_⟩
      unfold with_room
      split <;> exact hty)
  unfold read_data_block
  simp only [hcap, hNDC, hfor, hrun]
  rw [hfin, hdfm1]
  rfl

/-! ### The first word of a field -/

theorem first_word_space (c : Char) (t : List Char) (h : isspace c = true) :
    first_word (c :: t) = first_word t := by
  simp [first_word, List.dropWhile_cons, h]

theorem takeWhile_append_spaces (v b : List Char) (hb : ∀ c ∈ b, isspace c = true) :
    (v ++ b).takeWhile (fun c => !isspace c) = v.takeWhile (fun c => !isspace c) := by
  induction v with
  | nil =>
    cases b with
    | nil => rfl
    | cons x xs =>
      have := hb x (List.mem_cons_self _ _)
      simp [List.takeWhile_cons, this]
  | cons a v ih =>
    simp only [List.cons_append, List.takeWhile_cons]
    split
    · rw [ih]
    · rfl

theorem first_word_append_spaces (u b : List Char) (hb : ∀ c ∈ b, isspace c = true) :
    first_word (u ++ b) = first_word u := by
  induction u with
  | nil =>
    have h1 : b.dropWhile isspace = [] := by
      rw [List.dropWhile_eq_nil_iff]
      exact hb
    simp [first_word, h1]
  | cons a u ih =>
    by_cases ha : isspace a = true
    · rw [List.cons_append, first_word_space a _ ha, first_word_space a _ ha, ih]
    · have h1 : (a :: (u ++ b)).dropWhile isspace = a :: (u ++ b) := by
        simp [List.dropWhile_cons, ha]
      have h2 : (a :: u).dropWhile isspace = a :: u := by
        simp [List.dropWhile_cons, ha]
      unfold first_word
      rw [List.cons_append, h1, h2, ← List.cons_append, takeWhile_append_spaces _ _ hb]

theorem first_word_blanks (pad t : List Char) (hpad : ∀ c ∈ pad, isspace c = true) :
    first_word (pad ++ t) = first_word t := by
  induction pad with
  | nil => rfl
  | cons a p ih =>
    rw [List.cons_append, first_word_space a _ (hpad a (List.mem_cons_self _ _)),
      ih (fun c hc => hpad c (List.mem_cons_of_mem _ hc))]

theorem first_word_erase_leading (t : List Char) :
    first_word (erase_leading_blanks t) = first_word t := by
  unfold erase_leading_blanks
  induction t with
  | nil => rfl
  | cons a t ih =>
    by_cases ha : a = ' '
    · subst ha
      rw [List.dropWhile_cons_of_pos (by simp), ih, first_word_space ' ' t rfl]
    · rw [List.dropWhile_cons_of_neg (by simpa using ha)]

theorem erase_trailing_blanks_split (t : List Char) :
    ∃ k, t = erase_trailing [' '] t ++ List.replicate k ' ' := by
  unfold erase_trailing
  have h := List.takeWhile_append_dropWhile (fun c => [' '].contains c) t.reverse
  have h2 : t = (t.reverse.dropWhile (fun c => [' '].contains c)).reverse
      ++ (t.reverse.takeWhile (fun c => [' '].contains c)).reverse := by
    rw [← List.reverse_append, h, List.reverse_reverse]
  refine ⟨(t.reverse.takeWhile (fun c => [' '].contains c)).length, ?_⟩
  have h3 : (t.reverse.takeWhile (fun c => [' '].contains c)).reverse
      = List.replicate (t.reverse.takeWhile (fun c => [' '].contains c)).length ' ' := by
    rw [List.eq_replicate_iff]
    refine ⟨by simp, ?_⟩
    intro c hc
    rw [List.mem_reverse] at hc
    have := List.mem_takeWhile_imp hc
    simpa using this
  rw [← h3]
  exact h2

theorem first_word_erase_trailing (t : List Char) :
    first_word (erase_trailing [' '] t) = first_word t := by
  obtain ⟨k, hk⟩ := erase_trailing_blanks_split t
  conv_rhs => rw [hk]
  rw [first_word_append_spaces]
  intro c hc
  rw [List.eq_of_mem_replicate hc]
  rfl

theorem first_word_replace_tabs (t : List Char) :
    first_word (replace_tabs t) = first_word t := by
  have hsp : ∀ c : Char, isspace (if c == '\t' then ' ' else c) = isspace c := by
    intro c
    by_cases hc : c = '\t'
    · subst hc; rfl
    · simp [hc]
  have htw : ∀ l : List Char, (replace_tabs l).takeWhile (fun c => !isspace c)
      = l.takeWhile (fun c => !isspace c) := by
    intro l
    induction l with
    | nil => rfl
    | cons a l ih =>
      have hr : replace_tabs (a :: l) = (if a == '\t' then ' ' else a) :: replace_tabs l := rfl
      rw [hr]
      by_cases ha : a = '\t'
      · subst ha
        simp [List.takeWhile_cons, isspace]
      · have : (if a == '\t' then ' ' else a) = a := by simp [ha]
        rw [this, List.takeWhile_cons, List.takeWhile_cons, ih]
  unfold first_word
  induction t with
  | nil => rfl
  | cons a t ih =>
    by_cases ha : isspace a = true
    · have h1 : isspace (if a == '\t' then ' ' else a) = true := by rw [hsp]; exact ha
      have : replace_tabs (a :: t) = (if a == '\t' then ' ' else a) :: replace_tabs t := rfl
      rw [this, List.dropWhile_cons_of_pos h1, List.dropWhile_cons_of_pos ha, ih]
    · have hat : a ≠ '\t' := by
        intro h; subst h; exact ha rfl
      have : replace_tabs (a :: t) = a :: replace_tabs t := by
        simp [replace_tabs, hat]
      rw [this, List.dropWhile_cons_of_neg ha, List.dropWhile_cons_of_neg ha]
      have h2 := htw (a :: t)
      rw [‹replace_tabs (a :: t) = a :: replace_tabs t›] at h2
      exact h2

theorem extract_first_word (t tok : List Char) (h : first_word t ≠ []) :
    ((IStream.ofText t).extract tok).2 = first_word t := by
  unfold IStream.extract IStream.ofText IStream.good
  simp only [Bool.not_false, Bool.and_self, if_true]
  rw [List.span_eq_take_drop]
  unfold first_word at h
  cases hw : (t.dropWhile isspace).takeWhile (fun c => !isspace c) with
  | nil => exact absurd hw h
  | cons a u =>
    simp only [first_word, hw]

/-- The word that `extract_column_types` examines for a field with a delimiter character
is the first word of the field, if it has one. -/
theorem field_token_first_word (f tok : List Char) (h : first_word f ≠ []) :
    field_token f tok = first_word f := by
  have h1 : first_word (erase_trailing [' '] (erase_leading_blanks f)) = first_word f := by
    rw [first_word_erase_trailing, first_word_erase_leading]
  have h2 : ¬ (erase_trailing [' '] (erase_leading_blanks f)).length ≤ 0 := by
    intro hl
    have : erase_trailing [' '] (erase_leading_blanks f) = [] :=
      List.length_eq_zero.mp (by omega)
    rw [this] at h1
    exact h h1.symm
  unfold field_token
  rw [if_neg h2, extract_first_word _ _ (by rw [h1]; exact h), h1]

theorem seen_tokens_length (fs : List (List Char)) :
    ∀ tok, (seen_tokens tok fs).length = fs.length := by
  induction fs with
  | nil => intro _; rfl
  | cons f fs ih => intro tok; simp [seen_tokens, ih]

theorem seen_tokens_first_word (fs : List (List Char)) :
    ∀ (tok : List Char) (i : Nat), i < fs.length → first_word (fs.getD i []) ≠ [] →
      (seen_tokens tok fs).getD i [] = first_word (fs.getD i []) := by
  induction fs with
  | nil => intro _ i hi; simp at hi
  | cons f fs ih =>
    intro tok i hi hw
    cases i with
    | zero =>
      simp only [List.getD_cons_zero] at hw ⊢
      simp only [seen_tokens, List.getD_cons_zero]
      exact field_token_first_word f tok hw
    | succ i =>
      simp only [List.getD_cons_succ] at hw ⊢
      simp only [seen_tokens, List.getD_cons_succ]
      exact ih _ i (by simpa using hi) hw

/-! ### The labels of a written label line -/

theorem span_delimiter_free (d : Char) (f r : List Char) (hf : ∀ c ∈ f, c ≠ d) :
    (f ++ d :: r).takeWhile (fun c => c != d) = f ∧
    (f ++ d :: r).dropWhile (fun c => c != d) = d :: r := by
  induction f with
  | nil => simp
  | cons a f ih =>
    have ha : a ≠ d := hf a (List.mem_cons_self _ _)
    have := ih (fun c hc => hf c (List.mem_cons_of_mem _ hc))
    simp [List.takeWhile_cons, List.dropWhile_cons, ha, this.1, this.2]

theorem dropWhile_delimiter_free (d : Char) (f : List Char) (hf : ∀ c ∈ f, c ≠ d) :
    f.dropWhile (fun c => c != d) = [] := by
  rw [List.dropWhile_eq_nil_iff]
  intro c hc
  simpa using hf c hc

/-- The fields of a line of fields joined by the delimiter. -/
theorem delimited_fields_joined (d : Char) (fs : List (List Char)) (hne : fs ≠ [])
    (hfree : ∀ f ∈ fs, ∀ c ∈ f, c ≠ d) (hlast : ∀ f ∈ fs.getLast?, f ≠ []) :
    delimited_fields d (joined d fs) = fs := by
  induction fs with
  | nil => exact absurd rfl hne
  | cons f fs ih =>
    cases fs with
    | nil =>
      have hf := hfree f (List.mem_cons_self _ _)
      have hfne : f ≠ [] := hlast f (by simp)
      simp only [joined]
      rw [delimited_fields_no_delimiter d f (dropWhile_delimiter_free d f hf)]
      cases f with
      | nil => exact absurd rfl hfne
      | cons _ _ => rfl
    | cons g gs =>
      have hf := hfree f (List.mem_cons_self _ _)
      have hsp := span_delimiter_free d f (joined d (g :: gs)) hf
      rw [joined_cons d f (g :: gs) (by simp),
        delimited_fields_delimiter d d _ (joined d (g :: gs)) hsp.2, hsp.1,
        ih (by simp) (fun f0 hf0 => hfree f0 (List.mem_cons_of_mem _ hf0))
          (fun f0 hf0 => hlast f0 (by simpa [List.getLast?_cons_cons] using hf0))]

theorem label_cells_length (d : Char) (first : List Char) (L : Nat) (lab : Nat → String) :
    (label_cells d first L lab).length = L := by
  simp [label_cells]

theorem label_pad_blank (d : Char) (first : List Char) (j len : Nat)
    (hfirst : ∀ c ∈ first, c = ' ') : ∀ c ∈ label_pad d first j len, c = ' ' := by
  intro c hc
  unfold label_pad at hc
  by_cases h0 : j = 0
  · rw [if_pos h0] at hc
    rcases List.mem_append.mp hc with h | h
    · exact hfirst c h
    · exact List.eq_of_mem_replicate h
  · rw [if_neg h0] at hc
    rcases List.mem_append.mp hc with h | h
    · unfold cell_pad at h
      rw [if_neg h0] at h
      split at h
      · simpa using h
      · simpa using h
    · exact List.eq_of_mem_replicate h

theorem label_cells_well_spaced (first : List Char) (L : Nat) (lab : Nat → String)
    (hfirst : ∀ c ∈ first, c = ' ')
    (hlab : ∀ j, j < L → clean_label_for ' ' (lab j)) :
    well_spaced (label_cells ' ' first L lab) := by
  unfold label_cells
  rw [List.range_eq_range']
  apply well_spaced_map
  · intro j _ hj
    have hc := hlab j (by omega)
    have hw : ∀ c ∈ (lab j).data, isspace c = false := by
      have := hc.2.2
      rw [if_pos rfl] at this
      exact this
    refine ⟨?_, hw, hc.1⟩
    intro c hc2
    rw [label_pad_blank ' ' first j _ hfirst c hc2]
    rfl
  · intro j hj _
    have h0 : j ≠ 0 := by omega
    simp [label_pad, cell_pad, h0]

/-- The labels that the reader takes from the written line of the labels `lab j`, for
either kind of delimiter. -/
theorem labels_of_cells (d : Char) (first : List Char) (L : Nat) (lab : Nat → String)
    (hL : 0 < L) (hfirst : ∀ c ∈ first, c = ' ')
    (hlab : ∀ j, j < L → clean_label_for d (lab j)) :
    (if d = ' ' then (nonwhite_runs (cells_line d (label_cells d first L lab))).map String.mk
     else (delimited_fields d (cells_line d (label_cells d first L lab))).map (fun f =>
       if (erase_trailing [' ', '\n'] (erase_leading_blanks f)).isEmpty then "Dummy"
       else String.mk (erase_trailing [' ', '\n'] (erase_leading_blanks f))))
      = (List.range L).map lab := by
  have hlen := label_cells_length d first L lab
  have hne : label_cells d first L lab ≠ [] := by
    intro h; rw [h] at hlen; simp at hlen; omega
  by_cases hd : d = ' '
  · subst hd
    rw [if_pos rfl]
    unfold cells_line
    rw [if_pos rfl, nonwhite_runs_spaced _ hne (label_cells_well_spaced first L lab hfirst hlab)]
    simp [label_cells]
  · rw [if_neg hd]
    unfold cells_line
    rw [if_neg hd]
    have hfree : ∀ f ∈ (label_cells d first L lab).map (fun p => p.1 ++ p.2),
        ∀ c ∈ f, c ≠ d := by
      intro f hf c hc
      rw [List.mem_map] at hf
      obtain ⟨p, hp, rfl⟩ := hf
      unfold label_cells at hp
      rw [List.mem_map] at hp
      obtain ⟨j, hj, rfl⟩ := hp
      rcases List.mem_append.mp hc with h | h
      · rw [label_pad_blank d first j _ hfirst c h]
        exact fun h' => hd h'.symm
      · exact ((hlab j (List.mem_range.mp hj)).2.1 c h).1
    have hlast : ∀ f ∈ ((label_cells d first L lab).map (fun p => p.1 ++ p.2)).getLast?,
        f ≠ [] := by
      intro f hf
      have hm := List.mem_of_mem_getLast? hf
      rw [List.mem_map] at hm
      obtain ⟨p, hp, rfl⟩ := hm
      unfold label_cells at hp
      rw [List.mem_map] at hp
      obtain ⟨j, hj, rfl⟩ := hp
      have := (hlab j (List.mem_range.mp hj)).1
      simp [this]
    rw [delimited_fields_joined d _ (by simpa using hne) hfree hlast]
    unfold label_cells
    rw [List.map_map, List.map_map]
    apply List.map_congr_left
    intro j hj
    have hc := hlab j (List.mem_range.mp hj)
    have hends := hc.2.2
    rw [if_neg hd] at hends
    have h1 : erase_leading_blanks (label_pad d first j (lab j).data.length ++ (lab j).data)
        = (lab j).data :=
      erase_leading_blanks_word _ _ (label_pad_blank d first j _ hfirst) hends.1
    have h2 : erase_trailing [' ', '\n'] (lab j).data = (lab j).data := by
      apply erase_trailing_word
      intro c hc2
      have hne1 := hends.2 c hc2
      have hne2 := (hc.2.1 c (List.mem_of_mem_getLast? hc2)).2
      simp [hne1, hne2]
    have h3 : (lab j).data.isEmpty = false := by
      cases hl : (lab j).data with
      | nil => exact absurd hl hc.1
      | cons _ _ => rfl
    simp only [Function.comp_apply, h1, h2, h3, Bool.false_eq_true, if_false]

theorem map_labelled_mkCols (L : Nat) (lab : Nat → String) :
    ((List.range L).map lab).map labelled_column ++ [nothing_column]
      = mkCols L (fun j => labelled_column (lab j)) := by
  unfold mkCols
  rw [List.map_map]
  rfl

/-- The function `extract_column_labels( sLine, 0)` on the written line of the labels
`lab j`: the labels are read as they are. -/
theorem extract_labels_cells (s : Data_File_Manager) (L : Nat) (lab : Nat → String)
    (sLine first : List Char)
    (hline : (if starts_with_comment sLine = true then sLine.drop 1 else sLine)
      = cells_line s.delimiter_char_ (label_cells s.delimiter_char_ first L lab))
    (hfirst : ∀ c ∈ first, c = ' ') (hL : 0 < L)
    (hmerge : s.doMerge ≠ 0 ∨ 2 ≤ L) (hmaxv : (L : Int) ≤ s.maxvars_)
    (hcmd : s.nvars_cmd_line ≤ 0 ∨ (L : Int) ≤ s.nvars_cmd_line)
    (hlab : ∀ j, j < L → clean_label_for s.delimiter_char_ (lab j)) :
    extract_column_labels s sLine 0
      = some ((L : Int) + 1,
          { s with nvars := L,
                   column_info := mkCols L (fun j => labelled_column (lab j)),
                   readSelectionInfo_ :=
                     if SELECTION_LABEL.data.isPrefixOf (lab (L - 1)).data then 1 else 0 }) := by
  rw [extract_labels_on_line]
  dsimp only
  rw [hline, labels_of_cells s.delimiter_char_ first L lab hL hfirst hlab]
  have hcut : ¬ (s.nvars_cmd_line > 0 ∧ (L : Int) > s.nvars_cmd_line) := by omega
  simp only [List.length_map, List.length_range, if_neg hcut]
  rw [if_neg (by omega)]
  obtain ⟨m, rfl⟩ : ∃ m, L = m + 1 := ⟨L - 1, by omega⟩
  have hg : ((List.range (m + 1)).map lab).getLast? = some (lab m) := by
    simp [List.range_succ]
  rw [hg]
  simp only [map_labelled_mkCols, Nat.add_sub_cancel, Nat.cast_add, Nat.cast_one]

/-! ### The types found on a written label line -/

theorem replace_tabs_joined (d : Char) (hd : d ≠ '\t') (fs : List (List Char)) :
    replace_tabs (joined d fs) = joined d (fs.map replace_tabs) := by
  induction fs with
  | nil => rfl
  | cons f fs ih =>
    cases fs with
    | nil => rfl
    | cons g gs =>
      have h1 := joined_cons d f (g :: gs) (by simp)
      have h2 := joined_cons d (replace_tabs f) ((g :: gs).map replace_tabs) (by simp)
      rw [h1, List.map_cons, h2, ← ih]
      simp [replace_tabs, hd]

theorem mem_replace_tabs (f : List Char) (c : Char) (hc : c ∈ replace_tabs f) :
    c = ' ' ∨ c ∈ f := by
  unfold replace_tabs at hc
  rw [List.mem_map] at hc
  obtain ⟨a, ha, rfl⟩ := hc
  by_cases h : a = '\t'
  · left; simp [h]
  · right; simpa [h] using ha

theorem label_line_blank (d : Char) (L : Nat) (lab : Nat → String) (hL : 0 < L) :
    ' ' :: cells_line d (label_cells d [] L lab) = cells_line d (label_cells d [' '] L lab) := by
  obtain ⟨m, rfl⟩ : ∃ m, L = m + 1 := ⟨L - 1, by omega⟩
  have hrc : ∀ first, label_cells d first (m + 1) lab
      = (first ++ List.replicate (12 - (lab 0).data.length) ' ', (lab 0).data) ::
        (List.range' 1 m).map (fun j =>
          (cell_pad d j ++ List.replicate (13 - (lab j).data.length) ' ', (lab j).data)) := by
    intro first
    unfold label_cells
    rw [List.range_eq_range', List.range'_succ, List.map_cons]
    congr 1
    apply List.map_congr_left
    intro j hj
    have h0 : j ≠ 0 := by
      have := (List.mem_range'_1.mp hj).1
      omega
    simp [label_pad, h0]
  rw [hrc [], hrc [' ']]
  unfold cells_line
  by_cases hd : d = ' '
  · simp only [if_pos hd, spaced_cons]
    rfl
  · simp only [if_neg hd, List.map_cons]
    cases hm : (List.range' 1 m).map (fun j =>
        (cell_pad d j ++ List.replicate (13 - (lab j).data.length) ' ', (lab j).data)) with
    | nil => simp [joined]
    | cons q qs =>
      simp only [List.map_cons]
      have h1 := joined_cons d ([] ++ List.replicate (12 - (lab 0).data.length) ' '
        ++ (lab 0).data) ((q.1 ++ q.2) :: qs.map (fun p => p.1 ++ p.2)) (by simp)
      have h2 := joined_cons d ([' '] ++ List.replicate (12 - (lab 0).data.length) ' '
        ++ (lab 0).data) ((q.1 ++ q.2) :: qs.map (fun p => p.1 ++ p.2)) (by simp)
      rw [h1, h2]
      simp

theorem first_word_clean (w : List Char) (hw : ∀ c ∈ w, isspace c = false) :
    first_word w = w := by
  unfold first_word
  have h1 : w.dropWhile isspace = w := by
    cases w with
    | nil => rfl
    | cons a u =>
      have := hw a (List.mem_cons_self _ _)
      simp [List.dropWhile_cons, this]
  rw [h1, List.takeWhile_eq_self_iff]
  intro c hc
  simp [hw c hc]

/-- The function `extract_column_types` on the written line of the labels, read as a line
of data: every column gets a type, and a column whose label has a first word gets the type
of this word. -/
theorem extract_types_label_cells (io : NumIO) (s1 : Data_File_Manager) (L : Nat)
    (lab : Nat → String) (G : Nat → Column_Info) (hL : 0 < L)
    (hnvars : s1.nvars = L) (hci : s1.column_info = mkCols L G)
    (hlab : ∀ j, j < L → clean_label_for s1.delimiter_char_ (lab j)) :
    ∃ ty : Nat → Int,
      extract_column_types io s1
          (' ' :: cells_line s1.delimiter_char_ (label_cells s1.delimiter_char_ [] L lab))
        = some { s1 with column_info := mkCols L (fun i => set_type (G i) (ty i)) } ∧
      ∀ j, j < L → first_word (lab j).data ≠ [] →
        ty j = word_type io (first_word (lab j).data) := by
  rw [label_line_blank _ _ _ hL]
  have hlen := label_cells_length s1.delimiter_char_ [' '] L lab
  have hblank : ∀ c ∈ [' '], c = ' ' := by simp
  by_cases hd : s1.delimiter_char_ = ' '
  · -- the whitespace delimiter
    have hws : well_spaced (label_cells ' ' [' '] L lab) :=
      label_cells_well_spaced [' '] L lab hblank (by rw [← hd]; exact hlab)
    have hw : ∀ j, j < L → ∀ c ∈ (lab j).data, isspace c = false := by
      intro j hj
      have := (hlab j hj).2.2
      rw [if_pos hd] at this
      exact this
    have hnotab : ∀ c ∈ cells_line ' ' (label_cells ' ' [' '] L lab), c ≠ '\t' := by
      intro c hc
      rcases mem_cells_line ' ' _ c hc with h | ⟨p, hp, h⟩
      · rw [h]; decide
      · unfold label_cells at hp
        rw [List.mem_map] at hp
        obtain ⟨j, hj, rfl⟩ := hp
        rcases h with h | h
        · rw [label_pad_blank ' ' [' '] j _ hblank c h]; decide
        · exact not_space_ne c '\t' (hw j (List.mem_range.mp hj) c h) rfl
    refine ⟨fun i => word_type io (lab i).data, ?_, ?_⟩
    · have hcc : clean_cells s1.delimiter_char_ (label_cells s1.delimiter_char_ [' '] L lab) := by
        rw [hd]
        unfold clean_cells
        rw [if_pos rfl]
        exact hws
      rw [extract_types_cells io s1 L G _ (label_cells s1.delimiter_char_ [' '] L lab) hnvars hci
        (by
          rw [hd, if_pos (by decide)]
          exact replace_tabs_id _ hnotab) hlen hL hcc]
      simp only [Option.some.injEq]
      congr 1
      apply mkCols_congr
      intro i hi
      simp [label_cells, List.getD_eq_getElem?_getD, List.getElem?_map, List.getElem?_range hi]
    · intro j hj _
      rw [first_word_clean _ (hw j hj)]
  · -- a delimiter character
    have hfree0 : ∀ f ∈ (label_cells s1.delimiter_char_ [' '] L lab).map (fun p => p.1 ++ p.2),
        ∀ c ∈ f, c ≠ s1.delimiter_char_ := by
      intro f hf c hc
      rw [List.mem_map] at hf
      obtain ⟨p, hp, rfl⟩ := hf
      unfold label_cells at hp
      rw [List.mem_map] at hp
      obtain ⟨j, hj, rfl⟩ := hp
      rcases List.mem_append.mp hc with h | h
      · rw [label_pad_blank _ [' '] j _ hblank c h]
        exact fun h' => hd h'.symm
      · exact ((hlab j (List.mem_range.mp hj)).2.1 c h).1
    obtain ⟨fs, hfs, hfslen, hfree, hfw⟩ : ∃ fs : List (List Char),
        (if s1.delimiter_char_ ≠ '\t' then
          replace_tabs (cells_line s1.delimiter_char_
            (label_cells s1.delimiter_char_ [' '] L lab))
          else cells_line s1.delimiter_char_ (label_cells s1.delimiter_char_ [' '] L lab))
          = joined s1.delimiter_char_ fs ∧ fs.length = L ∧
        (∀ f ∈ fs, ∀ c ∈ f, c ≠ s1.delimiter_char_) ∧
        ∀ j, j < L → first_word (fs.getD j []) = first_word (lab j).data := by
      have hfw0 : ∀ j, j < L →
          first_word (((label_cells s1.delimiter_char_ [' '] L lab).map
            (fun p => p.1 ++ p.2)).getD j []) = first_word (lab j).data := by
        intro j hj
        simp only [label_cells, List.map_map, List.getD_eq_getElem?_getD, List.getElem?_map,
          List.getElem?_range hj, Option.map_some', Option.getD_some, Function.comp_apply]
        apply first_word_blanks
        intro c hc
        rw [label_pad_blank _ [' '] j _ hblank c hc]
        rfl
      by_cases ht : s1.delimiter_char_ = '\t'
      · refine ⟨(label_cells s1.delimiter_char_ [' '] L lab).map (fun p => p.1 ++ p.2), ?_,
          by simp [hlen], hfree0, hfw0⟩
        simp only [ht, ne_eq, not_true_eq_false, if_false]
        unfold cells_line
        rw [if_neg (by decide)]
      · refine ⟨((label_cells s1.delimiter_char_ [' '] L lab).map
            (fun p => p.1 ++ p.2)).map replace_tabs, ?_, by simp [hlen], ?_, ?_⟩
        · rw [if_pos ht]
          unfold cells_line
          rw [if_neg hd, replace_tabs_joined _ ht]
        · intro f hf c hc
          rw [List.mem_map] at hf
          obtain ⟨f0, hf0, rfl⟩ := hf
          rcases mem_replace_tabs f0 c hc with h | h
          · rw [h]; exact fun h' => hd h'.symm
          · exact hfree0 f0 hf0 c h
        · intro j hj
          rw [← hfw0 j hj]
          have hj2 : j < ((label_cells s1.delimiter_char_ [' '] L lab).map
              (fun p => p.1 ++ p.2)).length := by simp [hlen, hj]
          rw [List.getD_eq_getElem?_getD, List.getElem?_map, List.getD_eq_getElem?_getD,
            List.getElem?_eq_getElem hj2]
          simp only [Option.map_some', Option.getD_some]
          exact first_word_replace_tabs _
    have hne : fs ≠ [] := by
      intro h; rw [h] at hfslen; simp at hfslen; omega
    have hloop := column_types_joined io s1.delimiter_char_ hd L fs 0 G [] hne hfree
      (by omega)
    rw [hfslen] at hloop
    simp only [Nat.cast_zero] at hloop
    refine ⟨fun i => word_type io ((seen_tokens [] fs).getD i []), ?_, ?_⟩
    · unfold extract_column_types
      simp only [hfs, hnvars, hci, Int.toNat_ofNat, IStream.ofText, hloop, Option.map_some',
        Nat.zero_le, if_true, Nat.sub_zero]
    · intro j hj hw
      simp only []
      rw [seen_tokens_first_word fs [] j (by omega) (by rw [hfw j hj]; exact hw), hfw j hj]

/-! ### The header of a written file -/

/-- The header loop on a block of header lines at the end of the text: the loop reads to
the end, and it has kept the last header line that is not empty. -/
theorem header_loop_block_end (skip : Int) :
    ∀ (hdr : List (List Char)) (c : Nat) (iLine : Int) (h : HeaderState),
      h.inStream = IStream.ofText (lines_text hdr) →
      hdr.length + 1 < c →
      (∀ (i : Nat) (l : List Char), hdr[i]? = some l → (∀ x ∈ l, x ≠ '\n') ∧
        (l = [] ∨ iLine + i < skip ∨ starts_with_comment l = true)) →
      header_loop skip c iLine h =
        { inStream := { rest := [], eofbit := true, failbit := true }, line := [],
          lastHeaderLine := hdr.foldl (fun last l => if l.length = 0 then last else l)
            h.lastHeaderLine,
          nRead := h.nRead + hdr.length + 1,
          nHeaderLines := h.nHeaderLines + hdr.length + 1 } := by
  intro hdr
  induction hdr with
  | nil =>
    intro c iLine h hin hc _
    obtain ⟨c2, rfl⟩ : ∃ c2, c = c2 + 1 + 1 := ⟨c - 2, by simp at hc; omega⟩
    have hg : h.inStream.getline '\n' h.line
        = ({ rest := [], eofbit := true, failbit := true }, []) :=
      getline_at_end _ _ (by rw [hin]; rfl) (by rw [hin]; rfl)
    have heof : h.inStream.eofbit = false := by rw [hin]; rfl
    rw [header_loop]
    simp only [heof, Bool.false_eq_true, if_false, hg, List.length_nil, if_true]
    rw [header_loop]
    simp
  | cons l ls ih =>
    intro c iLine h hin hc hlines
    obtain ⟨c1, rfl⟩ : ∃ c1, c = c1 + 1 := ⟨c - 1, by simp at hc; omega⟩
    obtain ⟨hl1, hl2⟩ := hlines 0 l (by simp)
    have hg : h.inStream.getline '\n' h.line
        = ({ rest := lines_text ls, eofbit := false, failbit := false }, l) :=
      getline_newline _ l _ _ (by rw [hin]; rfl)
        (by rw [hin, lines_text_cons]; simp [IStream.ofText]) hl1
    have heof : h.inStream.eofbit = false := by rw [hin]; rfl
    have hrec := fun (h1 : HeaderState) (e : h1.inStream = IStream.ofText (lines_text ls)) =>
      ih c1 (iLine + 1) h1 e (by simp at hc; omega)
        (fun i l2 hi => by
          have := hlines (i + 1) l2 (by simpa using hi)
          refine ⟨this.1, ?_⟩
          rcases this.2 with h0 | h0 | h0
          · exact Or.inl h0
          · exact Or.inr (Or.inl (by push_cast at h0; omega))
          · exact Or.inr (Or.inr h0))
    rw [header_loop]
    simp only [heof, Bool.false_eq_true, if_false, hg]
    by_cases hlen : l.length = 0
    · rw [if_pos hlen, hrec _ rfl]
      simp only [List.foldl_cons, hlen, if_true, List.length_cons, Nat.cast_add, Nat.cast_one,
        HeaderState.mk.injEq, true_and]
      constructor <;> ring
    · have hl3 : iLine < skip ∨ starts_with_comment l = true := by
        rcases hl2 with h0 | h0 | h0
        · rw [h0] at hlen; simp at hlen
        · exact Or.inl (by simpa using h0)
        · exact Or.inr h0
      rw [if_neg hlen, if_pos hl3, hrec _ rfl]
      simp only [List.foldl_cons, hlen, if_false, List.length_cons, Nat.cast_add, Nat.cast_one,
        HeaderState.mk.injEq, true_and]
      constructor <;> ring

/-- Step 3 of the reader on a written file: the labels are read as they were written,
from the last header line when the labels are commented and from the first line after the
header otherwise, where some label must have a first word that does not read as a
number. -/
theorem column_labels_step_written (io : NumIO) (r : Data_File_Manager) (h : HeaderState)
    (L : Nat) (lab : Nat → String) (hL : 0 < L)
    (hmerge : r.doMerge ≠ 0 ∨ 2 ≤ L) (hmaxv : (L : Int) ≤ r.maxvars_)
    (hcmd : r.nvars_cmd_line ≤ 0 ∨ (L : Int) ≤ r.nvars_cmd_line)
    (hlab : ∀ j, j < L → clean_label_for r.delimiter_char_ (lab j))
    (hsrc : if r.doCommentedLabels_ ≠ 0 then
        h.nHeaderLines ≠ 0 ∧
        h.lastHeaderLine
          = '!' :: cells_line r.delimiter_char_ (label_cells r.delimiter_char_ [] L lab)
      else
        h.line = ' ' :: cells_line r.delimiter_char_ (label_cells r.delimiter_char_ [] L lab) ∧
        ∃ j, j < L ∧ first_word (lab j).data ≠ [] ∧
          word_type io (first_word (lab j).data) = 1) :
    ∃ ty : Nat → Int, (r.doCommentedLabels_ ≠ 0 → ∀ j, ty j = 0) ∧
      column_labels_step io r h
        = some ((L : Int) + 1, decide (r.doCommentedLabels_ = 0),
            { r with nvars := L,
                     column_info := mkCols L (fun j => set_type (labelled_column (lab j)) (ty j)),
                     readSelectionInfo_ :=
                       if SELECTION_LABEL.data.isPrefixOf (lab (L - 1)).data then 1 else 0 }) := by
  by_cases hc : r.doCommentedLabels_ = 0
  · rw [if_neg (by simpa using hc)] at hsrc
    obtain ⟨hline, j, hj, hw, hty⟩ := hsrc
    have hlabels := extract_labels_cells r L lab h.line [' ']
      (by
        rw [hline]
        rw [if_neg (by simp [starts_with_comment])]
        exact label_line_blank _ _ _ hL)
      (by simp) hL hmerge hmaxv hcmd hlab
    obtain ⟨ty, htypes, htyw⟩ := extract_types_label_cells io
      { r with nvars := L, column_info := mkCols L (fun j => labelled_column (lab j)),
               readSelectionInfo_ :=
                 if SELECTION_LABEL.data.isPrefixOf (lab (L - 1)).data then 1 else 0 }
      L lab (fun j => labelled_column (lab j)) hL rfl rfl hlab
    have hpos := n_ascii_columns_pos
      { r with nvars := L,
               column_info := mkCols L (fun i => set_type (labelled_column (lab i)) (ty i)),
               readSelectionInfo_ :=
                 if SELECTION_LABEL.data.isPrefixOf (lab (L - 1)).data then 1 else 0 }
      L (fun i => set_type (labelled_column (lab i)) (ty i)) rfl j hj (by
        show ty j > 0
        rw [htyw j hj hw, hty]
        decide)
    refine ⟨ty, fun h0 => absurd hc h0, ?_⟩
    unfold column_labels_step
    rw [if_neg (by simpa using hc), hlabels]
    simp only []
    rw [← hline] at htypes
    rw [htypes]
    simp only []
    rw [if_neg (by omega)]
    simp [hc]
  · rw [if_pos hc] at hsrc
    obtain ⟨hnh, hline⟩ := hsrc
    have hlabels := extract_labels_cells r L lab h.lastHeaderLine []
      (by rw [hline]; simp [starts_with_comment])
      (by simp) hL hmerge hmaxv hcmd hlab
    have hlast : ¬ (h.nHeaderLines = 0 ∨ h.lastHeaderLine.length = 0) := by
      rw [hline]
      simp [hnh]
    refine ⟨fun _ => 0, fun _ _ => rfl, ?_⟩
    unfold column_labels_step
    rw [if_pos hc, if_neg hlast, hlabels]
    simp [hc, set_type, labelled_column, Column_Info.empty]

/-! ### The reader on a written file -/

theorem store_cell_type (io : NumIO) (ops : ColumnOps) (proxy : Flt) (c : Column_Info)
    (k : Nat) (w : List Char)
    (hkeepty : ∀ (c : Column_Info) (v : String), (ops.add_value c v).1.hasASCII = c.hasASCII) :
    (store_cell io ops proxy c k w).hasASCII = c.hasASCII := by
  unfold store_cell store_value
  split
  · rfl
  · simp [hkeepty]

theorem filled_type (io : NumIO) (ops : ColumnOps) (proxy : Flt) (c : Column_Info)
    (w : Nat → List Char)
    (hkeepty : ∀ (c : Column_Info) (v : String), (ops.add_value c v).1.hasASCII = c.hasASCII) :
    ∀ k, (filled io ops proxy c w k).hasASCII = c.hasASCII := by
  intro k
  induction k with
  | zero => rfl
  | succ k ih => rw [filled, store_cell_type _ _ _ _ _ _ hkeepty, ih]

theorem column_after_start (io : NumIO) (ops : ColumnOps) (proxy : Flt) (nd cap n : Nat)
    (lab : Nat → String) (ty : Nat → Int) (W : Nat → Nat → List Char) (i : Nat) (hi : i < nd) :
    column_after io ops proxy nd
        (with_room cap nd (fun j => set_type (labelled_column (lab j)) (ty j))) W n i
      = filled io ops proxy
          (start_column cap (lab i) (if n = 0 then ty i else word_type io (W 0 i)))
          (fun q => W q i) n := by
  unfold column_after with_room
  by_cases hn : n = 0
  · subst hn
    simp only [if_true, hi, filled]
    rfl
  · simp only [hn, if_false, hi, if_true]
    rfl

/-- Step 4 and what follows it on the data lines of a written file, from the columns that
step 3 has set up. -/
theorem read_block_written (io : NumIO) (ops : ColumnOps) (answer : Int)
    (L nd n cap : Nat) (lab : Nat → String) (ty : Nat → Int) (W : Nat → Nat → List Char)
    (h : HeaderState) (u : Bool) (s3 : Data_File_Manager)
    (hkeep : ∀ (c : Column_Info) (v : String),
      (ops.add_value c v).1.points.length = c.points.length)
    (hkeepty : ∀ (c : Column_Info) (v : String), (ops.add_value c v).1.hasASCII = c.hasASCII)
    (hL : 0 < L) (hn : n ≤ cap)
    (hcap : (if s3.npoints_cmd_line > 0 then s3.npoints_cmd_line else s3.maxpoints_)
      = (cap : Int))
    (hδ : s3.delimiter_char_ ≠ '\n')
    (hnd : nd = if s3.readSelectionInfo_ = 0 then L else L - 1)
    (hclean : ∀ i, i < n → ∀ j, j < L → clean_word s3.delimiter_char_ (W i j))
    (hcm : ∀ i, i < n → starts_with_comment (W i 0) = false)
    (hnvars : s3.nvars = L) (hmax : 1 ≤ s3.MAX_NUNREADABLELINES)
    (hci : s3.column_info = mkCols L (fun j => set_type (labelled_column (lab j)) (ty j)))
    (hsel : s3.readSelectionInfo_ ≠ 0 → 1 ≤ n → word_type io (W 0 (L - 1)) = 0)
    (hselv : s3.readSelectionInfo_ ≠ 0 → ∀ i, i < n →
      (Flt.toInt? (numeric_value io s3.bad_value_proxy_ (W i (L - 1)) (W i (L - 1)))).isSome
        = true)
    (hrs : s3.readSelectionInfo_ ≠ 0 → n ≤ s3.read_selected.length)
    (hflag : ∀ k, k < n → ∀ i, i < nd →
      Flt.lt ((filled io ops s3.bad_value_proxy_
        (start_column cap (lab i) (word_type io (W 0 i))) (fun q => W q i) (k + 1)).points.getD k
          Flt.nan) bad_data_flag = false)
    (hconfirm : s3.doCommentedLabels_ ≠ 0 → answer ≤ 0 →
      if n = 0 then ∃ i, i < L ∧ ty i ≤ 0 else ∃ i, i < L ∧ word_type io (W 0 i) = 0)
    (hrows : if n = 0 then
        h.inStream.eofbit = true ∨ (u = true ∧ h.inStream = ⟨[], false, false⟩)
      else
        h.inStream.eofbit = false ∧
        (if u then h.inStream.getline '\n' h.line else (h.inStream, h.line))
          = ({ rest := records_text s3.delimiter_char_ L W 1 (n - 1), eofbit := false,
               failbit := false },
              cells_line s3.delimiter_char_ (record_cells s3.delimiter_char_ L (W 0)))) :
    ∃ rs, rs.length = s3.read_selected.length ∧
      read_data_block io ops answer h u s3
        = some (0, { s3 with nDataRows_ := n, nDataColumns_ := nd, nvars := nd, npoints := n,
                             column_info := mkCols nd (fun i => finished ops n
                               (filled io ops s3.bad_value_proxy_
                                 (start_column cap (lab i)
                                   (if n = 0 then ty i else word_type io (W 0 i)))
                                 (fun q => W q i) n)),
                             read_selected := rs,
                             read_from_stdin := false }) := by
  have hcols : mkCols nd (fun i => finished ops n
        (column_after io ops s3.bad_value_proxy_ nd
          (with_room cap nd (fun j => set_type (labelled_column (lab j)) (ty j))) W n i))
      = mkCols nd (fun i => finished ops n
          (filled io ops s3.bad_value_proxy_
            (start_column cap (lab i) (if n = 0 then ty i else word_type io (W 0 i)))
            (fun q => W q i) n)) := by
    apply mkCols_congr
    intro i hi
    rw [column_after_start _ _ _ _ _ _ _ _ _ _ hi]
  by_cases hn0 : n = 0
  · subst hn0
    rw [if_pos rfl] at hrows hconfirm
    have := read_data_block_empty io ops answer L nd cap
      (fun j => set_type (labelled_column (lab j)) (ty j)) W h u s3 hL hcap hnd hnvars hci
      (fun h1 h2 => hconfirm h1 h2) hrows
    refine ⟨s3.read_selected, rfl, ?_⟩
    rw [this, hcols]
    rfl
  · rw [if_neg hn0] at hrows hconfirm
    have hn1 : 1 ≤ n := by omega
    have hfuel : n ≤ h.inStream.rest.length + 1 := by
      have hlen := records_text_length s3.delimiter_char_ L W (n - 1) 1
      by_cases hu : u = true
      · have hf := hrows.2
        rw [if_pos hu] at hf
        have hgood : h.inStream.good = true := by
          by_contra hb
          unfold IStream.getline at hf
          rw [if_neg hb] at hf
          simp at hf
        unfold IStream.getline at hf
        rw [if_pos hgood, List.span_eq_take_drop] at hf
        cases hdw : h.inStream.rest.dropWhile (fun c => c != '\n') with
        | nil =>
          rw [hdw] at hf
          simp at hf
        | cons y post =>
          rw [hdw] at hf
          simp only [Prod.mk.injEq, IStream.mk.injEq, and_true] at hf
          have h1 : post.length ≤ h.inStream.rest.length := by
            have := (List.dropWhile_sublist (fun c => c != '\n') (l := h.inStream.rest)).length_le
            rw [hdw] at this
            simp at this
            omega
          rw [hf.1] at h1
          omega
      · have hf := hrows.2
        rw [if_neg hu] at hf
        simp only [Prod.mk.injEq] at hf
        rw [hf.1]
        simp only []
        omega
    obtain ⟨rs, hrs1, hread⟩ := read_data_block_records io ops answer L nd n cap
      (fun j => set_type (labelled_column (lab j)) (ty j)) W h u s3 hkeep hL hn1 hn hcap hδ hnd
      hclean hcm hnvars hmax hci (fun hs => hsel hs hn1) hselv hrs
      (fun k hk i hi => by
        have := hflag k hk i hi
        rw [column_after_start _ _ _ _ _ _ _ _ _ _ hi, if_neg (by omega)]
        exact this)
      (fun h1 h2 => by
        obtain ⟨i, hi, hty⟩ := hconfirm h1 h2
        refine ⟨i, hi, ?_⟩
        unfold column_after
        rw [if_neg hn0]
        split
        · rw [filled_type _ _ _ _ _ hkeepty]
          show word_type io (W 0 i) ≤ 0
          omega
        · show word_type io (W 0 i) ≤ 0
          omega)
      hrows.1 hfuel hrows.2
    refine ⟨rs, hrs1, ?_⟩
    rw [hread, hcols]

theorem label_line_no_newline (d : Char) (first : List Char) (L : Nat) (lab : Nat → String)
    (hd : d ≠ '\n') (hfirst : ∀ c ∈ first, c = ' ')
    (hlab : ∀ j, j < L → clean_label_for d (lab j)) :
    ∀ c ∈ cells_line d (label_cells d first L lab), c ≠ '\n' := by
  intro c hc
  rcases mem_cells_line d _ c hc with h | ⟨p, hp, h⟩
  · rw [h]; exact hd
  · unfold label_cells at hp
    rw [List.mem_map] at hp
    obtain ⟨j, hj, rfl⟩ := hp
    rcases h with h | h
    · rw [label_pad_blank d first j _ hfirst c h]; decide
    · exact ((hlab j (List.mem_range.mp hj)).2.1 c h).2

/-- The function `read_ascii_file_with_headers` on the text of a written file: status 0,
with the labels as they were written and the words of the data lines stored in the
columns. -/
theorem read_written_cells (io : NumIO) (ops : ColumnOps) (answer : Int)
    (r : Data_File_Manager) (L nd n cap : Nat) (lab : Nat → String)
    (W : Nat → Nat → List Char) (name : List Char)
    (hkeep : ∀ (c : Column_Info) (v : String),
      (ops.add_value c v).1.points.length = c.points.length)
    (hkeepty : ∀ (c : Column_Info) (v : String), (ops.add_value c v).1.hasASCII = c.hasASCII)
    (hL : 0 < L) (hn : n ≤ cap)
    (hcap : (if r.npoints_cmd_line > 0 then r.npoints_cmd_line else r.maxpoints_) = (cap : Int))
    (hδ : r.delimiter_char_ ≠ '\n') (hname : ∀ c ∈ name, c ≠ '\n')
    (hnd : nd = if SELECTION_LABEL.data.isPrefixOf (lab (L - 1)).data then L - 1 else L)
    (hmerge : r.doMerge ≠ 0 ∨ 2 ≤ L) (hmaxv : (L : Int) ≤ r.maxvars_)
    (hcmd : r.nvars_cmd_line ≤ 0 ∨ (L : Int) ≤ r.nvars_cmd_line)
    (hlab : ∀ j, j < L → clean_label_for r.delimiter_char_ (lab j))
    (htype : r.doCommentedLabels_ = 0 →
      ∃ j, j < L ∧ first_word (lab j).data ≠ [] ∧ word_type io (first_word (lab j).data) = 1)
    (hskip : r.nSkipHeaderLines ≤ if r.doCommentedLabels_ ≠ 0 then 2 else 1)
    (hclean : ∀ i, i < n → ∀ j, j < L → clean_word r.delimiter_char_ (W i j))
    (hcm : ∀ i, i < n → starts_with_comment (W i 0) = false)
    (hmax : 1 ≤ r.MAX_NUNREADABLELINES)
    (hsel : SELECTION_LABEL.data.isPrefixOf (lab (L - 1)).data = true → 1 ≤ n →
      word_type io (W 0 (L - 1)) = 0)
    (hselv : SELECTION_LABEL.data.isPrefixOf (lab (L - 1)).data = true → ∀ i, i < n →
      (Flt.toInt? (numeric_value io r.bad_value_proxy_ (W i (L - 1)) (W i (L - 1)))).isSome
        = true)
    (hrs : SELECTION_LABEL.data.isPrefixOf (lab (L - 1)).data = true →
      n ≤ r.read_selected.length)
    (hflag : ∀ k, k < n → ∀ i, i < nd →
      Flt.lt ((filled io ops r.bad_value_proxy_
        (start_column cap (lab i) (word_type io (W 0 i))) (fun q => W q i) (k + 1)).points.getD k
          Flt.nan) bad_data_flag = false)
    (hconfirm : r.doCommentedLabels_ ≠ 0 → answer ≤ 0 → 1 ≤ n →
      ∃ i, i < L ∧ word_type io (W 0 i) = 0) :
    ∃ (rs : List Int) (ty : Nat → Int), rs.length = r.read_selected.length ∧
      read_ascii_file_with_headers io ops
          (some (file_text name (decide (r.doCommentedLabels_ ≠ 0)) r.delimiter_char_ L lab W n))
          answer r
        = some (0, { r with nvars := nd, npoints := n, nDataRows_ := n, nDataColumns_ := nd,
                            column_info := mkCols nd (fun i => finished ops n
                              (filled io ops r.bad_value_proxy_
                                (start_column cap (lab i)
                                  (if n = 0 then ty i else word_type io (W 0 i)))
                                (fun q => W q i) n)),
                            readSelectionInfo_ :=
                              if SELECTION_LABEL.data.isPrefixOf (lab (L - 1)).data then 1
                              else 0,
                            read_selected := rs,
                            read_from_stdin := false }) := by
  have hbodynl := label_line_no_newline r.delimiter_char_ [] L lab hδ (by simp) hlab
  have hfile := file_name_line name hname
  have hrec0 : 1 ≤ n → records_text r.delimiter_char_ L W 0 n
      = cells_line r.delimiter_char_ (record_cells r.delimiter_char_ L (W 0))
        ++ '\n' :: records_text r.delimiter_char_ L W 1 (n - 1) := by
    intro h1
    obtain ⟨m, rfl⟩ : ∃ m, n = m + 1 := ⟨n - 1, by omega⟩
    rw [records_text_succ]
    rfl
  -- the header loop
  have hhead : ∃ h : HeaderState,
      header_loop r.nSkipHeaderLines MAX_HEADER_LINES 0
        { inStream := IStream.ofText
            (file_text name (decide (r.doCommentedLabels_ ≠ 0)) r.delimiter_char_ L lab W n),
          line := [], lastHeaderLine := [], nRead := 0, nHeaderLines := 0 } = h ∧
      (if r.doCommentedLabels_ ≠ 0 then
          h.nHeaderLines ≠ 0 ∧
          h.lastHeaderLine
            = '!' :: cells_line r.delimiter_char_ (label_cells r.delimiter_char_ [] L lab)
        else
          h.line
            = ' ' :: cells_line r.delimiter_char_ (label_cells r.delimiter_char_ [] L lab)) ∧
      (if n = 0 then
          h.inStream.eofbit = true ∨
            (decide (r.doCommentedLabels_ = 0) = true ∧ h.inStream = ⟨[], false, false⟩)
        else
          h.inStream.eofbit = false ∧
          (if decide (r.doCommentedLabels_ = 0) then h.inStream.getline '\n' h.line
            else (h.inStream, h.line))
            = ({ rest := records_text r.delimiter_char_ L W 1 (n - 1), eofbit := false,
                 failbit := false },
                cells_line r.delimiter_char_ (record_cells r.delimiter_char_ L (W 0)))) := by
    by_cases hc : r.doCommentedLabels_ = 0
    · -- the labels are on the first line after the header
      have hskip1 : r.nSkipHeaderLines ≤ 1 := by
        rw [if_neg (by simpa using hc)] at hskip
        exact hskip
      have htext : file_text name (decide (r.doCommentedLabels_ ≠ 0)) r.delimiter_char_ L lab W n
          = lines_text ["! File Name: ".data ++ name]
            ++ ((' ' :: cells_line r.delimiter_char_ (label_cells r.delimiter_char_ [] L lab))
              ++ '\n' :: records_text r.delimiter_char_ L W 0 n) := by
        unfold file_text lines_text
        simp [hc]
      have hloop := header_block_skipped r ["! File Name: ".data ++ name]
        (' ' :: cells_line r.delimiter_char_ (label_cells r.delimiter_char_ [] L lab))
        (records_text r.delimiter_char_ L W 0 n)
        (fun i l hi => by
          cases i with
          | zero =>
            simp only [List.getElem?_cons_zero, Option.some.injEq] at hi
            subst hi
            exact ⟨hfile.1, Or.inr (Or.inr hfile.2.2)⟩
          | succ i => simp at hi)
        (by simpa using hskip1) (by simp [MAX_HEADER_LINES]) (by simp) rfl
        (by
          intro c hc2
          rcases List.mem_cons.mp hc2 with h | h
          · rw [h]; decide
          · exact hbodynl c h)
      rw [htext]
      refine ⟨_, hloop, ?_, ?_⟩
      · rw [if_neg (by simpa using hc)]
      · by_cases hn0 : n = 0
        · subst hn0
          rw [if_pos rfl]
          right
          exact ⟨by simpa using hc, by simp [records_text]⟩
        · rw [if_neg hn0]
          refine ⟨rfl, ?_⟩
          rw [if_pos (by simpa using hc)]
          exact getline_newline _ _ _ _ rfl (hrec0 (by omega))
            (fun c hc2 => (record_line_chars r.delimiter_char_ L (W 0) hδ
              (hclean 0 (by omega)) c hc2).1)
    · -- the labels are on the last line of the header
      have hskip2 : r.nSkipHeaderLines ≤ 2 := by
        rw [if_pos hc] at hskip
        exact hskip
      have hhdr : ∀ (i : Nat) (l : List Char),
          ["! File Name: ".data ++ name,
            '!' :: cells_line r.delimiter_char_ (label_cells r.delimiter_char_ [] L lab)][i]?
            = some l → (∀ x ∈ l, x ≠ '\n') ∧
          (l = [] ∨ (i : Int) < r.nSkipHeaderLines ∨ starts_with_comment l = true) := by
        intro i l hi
        cases i with
        | zero =>
          simp only [List.getElem?_cons_zero, Option.some.injEq] at hi
          subst hi
          exact ⟨hfile.1, Or.inr (Or.inr hfile.2.2)⟩
        | succ i =>
          cases i with
          | zero =>
            simp only [List.getElem?_cons_succ, List.getElem?_cons_zero,
              Option.some.injEq] at hi
            subst hi
            refine ⟨?_, Or.inr (Or.inr rfl)⟩
            intro c hc2
            rcases List.mem_cons.mp hc2 with h | h
            · rw [h]; decide
            · exact hbodynl c h
          | succ i => simp at hi
      by_cases hn0 : n = 0
      · subst hn0
        have htext : file_text name (decide (r.doCommentedLabels_ ≠ 0)) r.delimiter_char_ L lab
            W 0
            = lines_text ["! File Name: ".data ++ name,
                '!' :: cells_line r.delimiter_char_ (label_cells r.delimiter_char_ [] L lab)] := by
          unfold file_text lines_text
          simp [hc, records_text]
        have hloop := header_loop_block_end r.nSkipHeaderLines
          ["! File Name: ".data ++ name,
            '!' :: cells_line r.delimiter_char_ (label_cells r.delimiter_char_ [] L lab)]
          MAX_HEADER_LINES 0
          { inStream := IStream.ofText (lines_text ["! File Name: ".data ++ name,
              '!' :: cells_line r.delimiter_char_ (label_cells r.delimiter_char_ [] L lab)]),
            line := [], lastHeaderLine := [], nRead := 0, nHeaderLines := 0 }
          rfl (by simp [MAX_HEADER_LINES])
          (fun i l hi => by
            have := hhdr i l hi
            refine ⟨this.1, ?_⟩
            rcases this.2 with h0 | h0 | h0
            · exact Or.inl h0
            · exact Or.inr (Or.inl (by omega))
            · exact Or.inr (Or.inr h0))
        rw [htext]
        refine ⟨_, hloop, ?_, ?_⟩
        · rw [if_pos hc]
          simp
        · rw [if_pos rfl]
          left
          rfl
      · have hn1 : 1 ≤ n := by omega
        have hheadl := record_line_head r.delimiter_char_ L (W 0) hL (hclean 0 hn1 0 hL)
          (hcm 0 hn1)
        have htext : file_text name (decide (r.doCommentedLabels_ ≠ 0)) r.delimiter_char_ L lab
            W n
            = lines_text ["! File Name: ".data ++ name,
                '!' :: cells_line r.delimiter_char_ (label_cells r.delimiter_char_ [] L lab)]
              ++ (cells_line r.delimiter_char_ (record_cells r.delimiter_char_ L (W 0))
                ++ '\n' :: records_text r.delimiter_char_ L W 1 (n - 1)) := by
          unfold file_text lines_text
          rw [hrec0 hn1]
          simp [hc]
        have hloop := header_block_skipped r
          ["! File Name: ".data ++ name,
            '!' :: cells_line r.delimiter_char_ (label_cells r.delimiter_char_ [] L lab)]
          (cells_line r.delimiter_char_ (record_cells r.delimiter_char_ L (W 0)))
          (records_text r.delimiter_char_ L W 1 (n - 1))
          hhdr (by simpa using hskip2) (by simp [MAX_HEADER_LINES]) hheadl.1 hheadl.2
          (fun c hc2 => (record_line_chars r.delimiter_char_ L (W 0) hδ
              (hclean 0 hn1) c hc2).1)
        rw [htext]
        refine ⟨_, hloop, ?_, ?_⟩
        · rw [if_pos hc]
          simp [last_header_line]
        · rw [if_neg hn0]
          refine ⟨rfl, ?_⟩
          rw [if_neg (by simpa using hc)]
  obtain ⟨h, hloop, hsrc, hrows⟩ := hhead
  -- the labels
  obtain ⟨ty, hty0, hstep⟩ := column_labels_step_written io r h L lab hL hmerge hmaxv hcmd hlab
    (by
      by_cases hc : r.doCommentedLabels_ = 0
      · rw [if_neg (by simpa using hc)] at hsrc ⊢
        exact ⟨hsrc, htype hc⟩
      · rw [if_pos hc] at hsrc ⊢
        exact hsrc)
  -- the data
  have hσ : ∀ P : Prop, ((if SELECTION_LABEL.data.isPrefixOf (lab (L - 1)).data = true
      then (1 : Int) else 0) ≠ 0 → P) ↔
      (SELECTION_LABEL.data.isPrefixOf (lab (L - 1)).data = true → P) := by
    intro P
    by_cases hp : SELECTION_LABEL.data.isPrefixOf (lab (L - 1)).data = true
    · simp [hp]
    · simp [hp]
  obtain ⟨rs, hrs1, hread⟩ := read_block_written io ops answer L nd n cap lab ty W h
    (decide (r.doCommentedLabels_ = 0))
    { r with nvars := L,
             column_info := mkCols L (fun j => set_type (labelled_column (lab j)) (ty j)),
             readSelectionInfo_ :=
               if SELECTION_LABEL.data.isPrefixOf (lab (L - 1)).data then 1 else 0 }
    hkeep hkeepty hL hn hcap hδ
    (by
      rw [hnd]
      by_cases hp : SELECTION_LABEL.data.isPrefixOf (lab (L - 1)).data = true
      · simp [hp]
      · simp [hp])
    hclean hcm rfl hmax rfl ((hσ _).mpr hsel) ((hσ _).mpr hselv) ((hσ _).mpr hrs) hflag
    (fun h1 h2 => by
      by_cases hn0 : n = 0
      · rw [if_pos hn0]
        exact ⟨0, hL, by rw [hty0 h1 0]⟩
      · rw [if_neg hn0]
        exact hconfirm h1 h2 (by omega))
    hrows
  refine ⟨rs, ty, hrs1, ?_⟩
  unfold read_ascii_file_with_headers
  simp only [hloop, hstep]
  rw [if_neg (by omega)]
  rw [hread]

/-! ### The text that the writer emits, for either kind of delimiter -/

theorem joined_flatten (d : Char) (fs : List (List Char)) :
    ∀ f, joined d (f :: fs) = f ++ (fs.map (fun x => d :: x)).flatten := by
  induction fs with
  | nil => intro f; simp [joined]
  | cons g gs ih =>
    intro f
    rw [joined_cons d f (g :: gs) (by simp), ih g]
    simp

/-- Cells written one after the other, each but the first behind the delimiter and a
blank, make a line of cells. -/
theorem flatten_delimited (d : Char) (L : Nat) (w : Nat → List Char) :
    ((List.range L).map (fun j => if j = 0 then w j else d :: ' ' :: w j)).flatten
      = cells_line d (record_cells d L w) := by
  unfold cells_line record_cells
  by_cases hd : d = ' '
  · rw [if_pos hd]
    unfold spaced
    rw [List.map_map]
    congr 1
    apply List.map_congr_left
    intro j _
    by_cases h0 : j = 0
    · simp [h0, cell_pad]
    · simp [h0, cell_pad, hd]
  · rw [if_neg hd]
    cases L with
    | zero => simp [joined]
    | succ m =>
      rw [List.range_eq_range', List.range'_succ, List.map_cons, List.map_cons, List.map_cons,
        joined_flatten]
      simp only [if_true, List.flatten_cons, cell_pad, List.nil_append, List.map_map]
      congr 2
      apply List.map_congr_left
      intro j hj
      have h0 : j ≠ 0 := by
        have := (List.mem_range'_1.mp hj).1
        omega
      simp [h0, hd]

theorem cells_line_congr (d : Char) (ps qs : List (List Char × List Char))
    (h : ps.map (fun p => p.1 ++ p.2) = qs.map (fun p => p.1 ++ p.2)) :
    cells_line d ps = cells_line d qs := by
  unfold cells_line spaced
  rw [h]

theorem label_cells_setw (d : Char) (L : Nat) (lab : Nat → String) :
    cells_line d (label_cells d [] L lab)
      = cells_line d (record_cells d L (fun j =>
          if j = 0 then setw 12 (lab j).data else setw 13 (lab j).data)) := by
  apply cells_line_congr
  unfold label_cells record_cells
  rw [List.map_map, List.map_map]
  apply List.map_congr_left
  intro j _
  by_cases h0 : j = 0
  · simp [h0, label_pad, cell_pad, setw]
  · simp [h0, label_pad, setw]

theorem setw_selection_label : setw 13 SELECTION_LABEL.data = SELECTION_LABEL.data := by
  decide

/-- The line of labels that the writer emits. -/
theorem write_label_line_cells (s : Data_File_Manager) (cols : List Column_Info)
    (hnv : 1 ≤ cols.length) :
    write_label_line s cols
      = (if s.doCommentedLabels_ ≠ 0 then '!' else ' ')
        :: cells_line s.delimiter_char_
            (label_cells s.delimiter_char_ [] (written_count s cols) (written_label cols))
        ++ ['\n'] := by
  rw [label_cells_setw, ← flatten_delimited]
  unfold write_label_line
  rw [enum_map_range cols Column_Info.empty]
  have hdata : (List.range cols.length).map (fun j =>
        if (j, cols.getD j Column_Info.empty).1 = 0
          then setw 12 (j, cols.getD j Column_Info.empty).2.label.data
        else s.delimiter_char_ :: ' ' :: setw 13 (j, cols.getD j Column_Info.empty).2.label.data)
      = (List.range cols.length).map (fun j =>
          if j = 0 then (if j = 0 then setw 12 (written_label cols j).data
            else setw 13 (written_label cols j).data)
          else s.delimiter_char_ :: ' ' :: (if j = 0 then setw 12 (written_label cols j).data
            else setw 13 (written_label cols j).data)) := by
    apply List.map_congr_left
    intro j hj
    have hj' : j < cols.length := List.mem_range.mp hj
    by_cases h0 : j = 0
    · simp [h0, written_label, label_at, hj'] at hj' ⊢
      simp [hj']
    · simp [h0, written_label, label_at, hj']
  rw [hdata]
  unfold written_count
  by_cases hs : s.writeSelectionInfo_ = 0
  · simp [hs]
  · simp only [hs, ne_eq, not_false_eq_true, if_true]
    rw [List.range_succ, List.map_append, List.flatten_append]
    have h0 : cols.length ≠ 0 := by omega
    simp [h0, written_label, setw_selection_label]

/-- The record that the writer emits for row `i`. -/
theorem write_row_cells (io : NumIO) (ops : ColumnOps) (s : Data_File_Manager)
    (cols : List Column_Info) (i : Nat) (hnv : 1 ≤ cols.length)
    (hlen : ∀ c ∈ cols, i < c.points.length)
    (hcat : ∀ c ∈ cols, c.hasASCII ≠ 0 → (Flt.toInt? (c.points.getD i Flt.nan)).isSome = true)
    (hsel : s.writeSelectionInfo_ ≠ 0 → i < s.selected.length) :
    write_row io ops s cols i
      = some (cells_line s.delimiter_char_
          (record_cells s.delimiter_char_ (written_count s cols) (written_word io ops s cols i))
          ++ ['\n']) := by
  have hall : cols.all (fun c => decide (i < c.points.length)) = true := by
    simpa using hlen
  have hcells : cols.enum.map (fun p =>
        let v := p.2.points.getD i Flt.nan
        let cell := if p.2.hasASCII = 0 then some (io.show_float v)
          else (Flt.toInt? v).map (fun k => (ops.ascii_value p.2 k).data)
        cell.map (fun t => if p.1 > 0 then s.delimiter_char_ :: ' ' :: t else t))
      = (List.range cols.length).map (fun j => some
          (if j = 0 then written_word io ops s cols i j
            else s.delimiter_char_ :: ' ' :: written_word io ops s cols i j)) := by
    rw [enum_map_range cols Column_Info.empty]
    apply List.map_congr_left
    intro j hj
    have hj' : j < cols.length := List.mem_range.mp hj
    have hmem : cols.getD j Column_Info.empty ∈ cols := by
      rw [List.getD_eq_getElem?_getD, List.getElem?_eq_getElem hj']
      exact List.getElem_mem hj'
    have hw : written_word io ops s cols i j
        = cell_word io ops (cols.getD j Column_Info.empty) i := by
      unfold written_word
      rw [if_pos hj']
    rw [hw]
    dsimp only
    generalize cols.getD j Column_Info.empty = c at hmem ⊢
    unfold cell_word
    by_cases hn : c.hasASCII = 0
    · simp only [hn, if_true, Option.map_some']
      by_cases h0 : j = 0
      · simp [h0]
      · have : j > 0 := by omega
        simp [h0, this]
    · have hsome := hcat _ hmem hn
      obtain ⟨k, hk⟩ := Option.isSome_iff_exists.mp hsome
      simp only [hn, if_false, hk, Option.map_some', Option.getD_some]
      by_cases h0 : j = 0
      · simp [h0]
      · have : j > 0 := by omega
        simp [h0, this]
  unfold write_row
  rw [if_pos hall]
  simp only [hcells]
  rw [if_pos (by
    rw [List.all_eq_true]
    intro x hx
    obtain ⟨p, _, rfl⟩ := List.mem_map.mp hx
    rfl)]
  rw [← flatten_delimited]
  unfold written_count
  have hbody : (((List.range cols.length).map (fun j => some
        (if j = 0 then written_word io ops s cols i j
          else s.delimiter_char_ :: ' ' :: written_word io ops s cols i j))).map
        (fun c => c.getD [])).flatten
      = ((List.range cols.length).map (fun j =>
          if j = 0 then written_word io ops s cols i j
          else s.delimiter_char_ :: ' ' :: written_word io ops s cols i j)).flatten := by
    rw [List.map_map]
    rfl
  rw [hbody]
  by_cases hs : s.writeSelectionInfo_ = 0
  · simp [hs]
  · have hi := hsel hs
    simp only [hs, ne_eq, not_false_eq_true, if_true]
    rw [List.getElem?_eq_getElem hi]
    simp only []
    rw [List.range_succ, List.map_append, List.flatten_append]
    have h0 : cols.length ≠ 0 := by omega
    simp [h0, written_word, List.getD_eq_getElem?_getD, List.getElem?_eq_getElem hi]

/-- The text that `write_ascii_file_with_headers` emits when all rows are written. -/
theorem write_file_cells (io : NumIO) (ops : ColumnOps) (s : Data_File_Manager)
    (cols tail : List Column_Info) (n : Nat)
    (hspec : 0 < s.outFileSpec.length)
    (hci : s.column_info = cols ++ tail) (hnvars : s.nvars = cols.length)
    (hnp : s.npoints = n) (hall : s.writeAllData_ ≠ 0) (hnv : 1 ≤ cols.length)
    (hlen : ∀ c ∈ cols, n ≤ c.points.length)
    (hcat : ∀ c ∈ cols, c.hasASCII ≠ 0 → ∀ i, i < n →
      (Flt.toInt? (c.points.getD i Flt.nan)).isSome = true)
    (hsel : s.writeSelectionInfo_ ≠ 0 → n ≤ s.selected.length) :
    write_ascii_file_with_headers io ops s
      = some (0, some (file_text s.outFileSpec.data (decide (s.doCommentedLabels_ ≠ 0))
          s.delimiter_char_ (written_count s cols) (written_label cols)
          (written_word io ops s cols) n)) := by
  have hspec' : ¬ s.outFileSpec.length ≤ 0 := by omega
  have htake : s.column_info.take s.nvars.toNat = cols := by
    rw [hnvars, hci]; simp
  have hle : s.nvars.toNat ≤ s.column_info.length := by
    rw [hnvars, hci]; simp
  have hrows : (List.range s.npoints.toNat).map (fun irow => write_row io ops s cols irow)
      = (List.range n).map (fun i => some (cells_line s.delimiter_char_
          (record_cells s.delimiter_char_ (written_count s cols) (written_word io ops s cols i))
          ++ ['\n'])) := by
    rw [hnp]
    simp only [Int.toNat_ofNat]
    apply List.map_congr_left
    intro i hi
    have hi' : i < n := List.mem_range.mp hi
    exact write_row_cells io ops s cols i hnv
      (fun c hc => lt_of_lt_of_le hi' (hlen c hc)) (fun c hc hn => hcat c hc hn i hi')
      (fun hs => lt_of_lt_of_le hi' (hsel hs))
  unfold write_ascii_file_with_headers
  rw [if_neg hspec']
  simp only [include_line_number, Bool.false_eq_true, if_false, hle, if_true, htake, hall,
    ne_eq, not_false_eq_true, hrows]
  rw [if_pos (by simp)]
  rw [write_label_line_cells s cols hnv]
  unfold file_text
  by_cases hc : s.doCommentedLabels_ = 0
  · simp [hc, records_text, List.range_eq_range', List.map_map, Function.comp_def]
  · simp [hc, records_text, List.range_eq_range', List.map_map, Function.comp_def]

end Viewpoints
